import Mathlib

/-!
Convolution: the history-window allocators and the containers built on them.

A shallow embedding of `Convolvers/ConvolutionDefines.h`,
`Convolvers/Allocators/Allocator{Const,Main,Mix}Step.h`,
`Convolvers/Kernels/BaseKernel.h`, `Convolvers/Kernels/FracKernel.h`,
`Convolvers/Kernels/WellKernelMixStep.h`, `Convolvers/Fluxes/BaseFluxContainer.h`,
`Convolvers/Fluxes/BaseFluxContainerMainStep.h`, `Convolvers/Fluxes/CommonFluxMulti.h`,
`Convolvers/Fluxes/WellFlux.h`, `Convolvers/Fluxes/FracFlux.h` and the struct
`ConstStepWell` of `Convolvers/Regimes/ConstStep.h`.

Conventions.

* `size_t` is a natural number below `SIZE_MOD = 2 ^ 64`; `+=`, `-=`, `++` and `*`
  on `size_t` are `size_add`, `size_sub`, `size_add _ 1` and `size_mul`, which wrap.
  Where a statement assumes `S * T < SIZE_MOD`, the buffer size `S * T` is representable,
  so that `allocated_memory` is `S * T` as the data model has it.
* `double` is modelled by `ℚ` (exact arithmetic).
* C++ inheritance is `extends`; a member function that mutates `*this` returns the
  new object.
* Eigen objects carry their dimensions as naturals; an Eigen range assertion and a
  thrown exception are both `none`.
* `ConvolutionDefines.h` defines `_PUSHER_ADVANCE_FLAG`, the headers test
  `PUSHER_ADVANCE_FLAG`, and no build file defines either. The embedding is of the code
  with the guarded parts compiled in: `BaseKernel::push_coef` writes `need_advance`
  outside any guard, and only then is there a member for it to write to.
* `BaseKernel` and `BaseFluxContainer` are class templates over the allocator; they are
  embedded at `KernelConstStep` and `FluxConstStep`, and the flux container once more at
  `FluxMainStep` (`BaseFluxContainer_FluxMainStep`) for the ring of
  `BaseFluxContainerMainStep` and at `FluxMixStep` (`BaseFluxContainer_FluxMixStep`).
  `CommonFluxMulti` and `FracturesFluxContainer_t` are
  embedded over the ConstStep flux container.
  `FracKernel` and `FracKernelContainer` are embedded over the ConstStep kernel, and
  `WellKernel<KernelMixStep>` over a copy of the kernel at `KernelMixStep`.
* A raw pointer into a vector member (`flux_ptr`) is the index of the element it points
  to; a `const double*` argument is a function from the index to the entry.
* Where the state that a failed call leaves behind matters, the member returns an
  `Outcome`: the objects as the call leaves them, and the value unless it threw.
* A `std::vector` with a reserved capacity is its elements and its capacity.
-/

namespace Convolution

/-! ## size_t arithmetic -/

/-- The number of values of a `size_t` (64-bit targets, `0ull` literals). -/
def SIZE_MOD : Nat := 18446744073709551616

/-- The sum `a + b` of two `size_t`. -/
def size_add (a b : Nat) : Nat := (a + b) % SIZE_MOD

/-- The difference `a - b` of two `size_t` (wraps below zero). -/
def size_sub (a b : Nat) : Nat := (a + (SIZE_MOD - b % SIZE_MOD)) % SIZE_MOD

/-- The product `a * b` of two `size_t`. -/
def size_mul (a b : Nat) : Nat := (a * b) % SIZE_MOD

/-! ## ConvolutionDefines.h -/

/-- The struct `MemoryDesc`, fields in declaration order. -/
structure MemoryDesc where
  its_allocated_memory : Nat
  its_spatial_size : Nat
  its_temporal_size : Nat
  cur_temporal_window : Nat
  deriving DecidableEq

namespace MemoryDesc

/-- The constructor `MemoryDesc(spatial_size_, temporal_size_)`. -/
def new (spatial_size_ temporal_size_ : Nat) : MemoryDesc :=
  { its_spatial_size := spatial_size_
    its_temporal_size := temporal_size_
    its_allocated_memory := size_mul spatial_size_ temporal_size_
    cur_temporal_window := 0 }

def spatial_size (m : MemoryDesc) : Nat := m.its_spatial_size

def temporal_size (m : MemoryDesc) : Nat := m.its_temporal_size

def allocated_memory (m : MemoryDesc) : Nat := m.its_allocated_memory

end MemoryDesc

/-- The struct `GetDesc`: a `MemoryDesc` and nothing else. -/
structure GetDesc extends MemoryDesc
  deriving DecidableEq

/-- The constructor `GetDesc(const MemoryDesc&)`. -/
def GetDesc.new (memoryDesc : MemoryDesc) : GetDesc := { toMemoryDesc := memoryDesc }

/-- The struct `PushDesc`: a `MemoryDesc` and the flag `need_advance`. -/
structure PushDesc extends MemoryDesc where
  need_advance : Bool
  deriving DecidableEq

namespace PushDesc

/-- The constructor `PushDesc(const MemoryDesc&)`. -/
def new (memoryDesc : MemoryDesc) : PushDesc :=
  { toMemoryDesc := memoryDesc, need_advance := false }

/-- The member `is_correct_state` returns the flag itself. -/
def is_correct_state (p : PushDesc) : Bool := p.need_advance

def pushed_data_counter (p : PushDesc) : Nat := p.cur_temporal_window

def push_data_nmbr (p : PushDesc) : Nat := p.temporal_size

end PushDesc

/-- The template `Allocator<push, extract>`: one pusher and one extractor, each with
its own copy of the memory descriptor. -/
structure Allocator (Push Extract : Type) where
  pusher : Push
  extractor : Extract

/-! ## AllocatorConstStep.h -/

/-- The struct `OnGetKernelConstStep`. -/
structure OnGetKernelConstStep extends GetDesc where
  its_index_end : Nat
  deriving DecidableEq

namespace OnGetKernelConstStep

def new (memoryDesc : MemoryDesc) : OnGetKernelConstStep :=
  { toGetDesc := GetDesc.new memoryDesc, its_index_end := 0 }

def idx_begin (_g : OnGetKernelConstStep) : Nat := 0

def idx_end (g : OnGetKernelConstStep) : Nat := g.its_index_end

def is_external_boundary_time (g : OnGetKernelConstStep) : Bool :=
  g.idx_end == g.allocated_memory

def on_extract (g : OnGetKernelConstStep) : OnGetKernelConstStep :=
  if !g.is_external_boundary_time then
    { g with
      cur_temporal_window := size_add g.cur_temporal_window 1
      its_index_end := size_add g.its_index_end g.spatial_size }
  else g

/-- The member `Allocator::Extract::current_window_size`. -/
def current_window_size (g : OnGetKernelConstStep) : Nat := size_sub g.idx_end g.idx_begin

end OnGetKernelConstStep

/-- The struct `OnGetFluxConstStep`. -/
structure OnGetFluxConstStep extends GetDesc where
  its_index_begin : Nat
  its_index_end : Nat
  frame_temporal_size : Nat
  deriving DecidableEq

namespace OnGetFluxConstStep

def new (memoryDesc : MemoryDesc) (frame_temporal_size : Nat) : OnGetFluxConstStep :=
  { toGetDesc := GetDesc.new memoryDesc
    its_index_begin := memoryDesc.allocated_memory
    its_index_end := memoryDesc.allocated_memory
    frame_temporal_size := frame_temporal_size }

def idx_begin (g : OnGetFluxConstStep) : Nat := g.its_index_begin

def idx_end (g : OnGetFluxConstStep) : Nat := g.its_index_end

def is_external_boundary_time (g : OnGetFluxConstStep) : Bool :=
  g.cur_temporal_window == g.frame_temporal_size

def on_extract (g : OnGetFluxConstStep) : OnGetFluxConstStep :=
  let g1 : OnGetFluxConstStep :=
    if g.is_external_boundary_time then
      { g with its_index_end := size_sub g.its_index_end g.spatial_size }
    else
      { g with cur_temporal_window := size_add g.cur_temporal_window 1 }
  { g1 with its_index_begin := size_sub g1.its_index_begin g1.spatial_size }

/-- The member `Allocator::Extract::current_window_size`. -/
def current_window_size (g : OnGetFluxConstStep) : Nat := size_sub g.idx_end g.idx_begin

end OnGetFluxConstStep

/-- The struct `OnPushKernelConstStep`. -/
structure OnPushKernelConstStep extends PushDesc where
  its_index_end : Nat
  deriving DecidableEq

namespace OnPushKernelConstStep

def new (positionDesc : MemoryDesc) : OnPushKernelConstStep :=
  { toPushDesc := PushDesc.new positionDesc, its_index_end := 0 }

def on_push (p : OnPushKernelConstStep) : OnPushKernelConstStep :=
  { p with
    cur_temporal_window := size_add p.cur_temporal_window 1
    its_index_end := size_add p.its_index_end p.spatial_size
    need_advance := false }

def idx_begin (_p : OnPushKernelConstStep) : Nat := 0

def idx_end (p : OnPushKernelConstStep) : Nat := p.its_index_end

end OnPushKernelConstStep

/-- The struct `OnPushFluxConstStep`. -/
structure OnPushFluxConstStep extends PushDesc where
  its_index_begin : Nat
  deriving DecidableEq

namespace OnPushFluxConstStep

def new (memoryDesc : MemoryDesc) : OnPushFluxConstStep :=
  { toPushDesc := PushDesc.new memoryDesc, its_index_begin := memoryDesc.allocated_memory }

def on_push (p : OnPushFluxConstStep) : OnPushFluxConstStep :=
  { p with
    cur_temporal_window := size_add p.cur_temporal_window 1
    its_index_begin := size_sub p.its_index_begin p.spatial_size
    need_advance := false }

def idx_begin (p : OnPushFluxConstStep) : Nat := p.its_index_begin

def idx_end (p : OnPushFluxConstStep) : Nat := p.allocated_memory

end OnPushFluxConstStep

/-- The struct `KernelConstStep`. -/
abbrev KernelConstStep := Allocator OnPushKernelConstStep OnGetKernelConstStep

/-- The constructor `KernelConstStep(spatial_size, frame_temporal_size)`. -/
def KernelConstStep.new (spatial_size frame_temporal_size : Nat) : KernelConstStep :=
  { pusher := OnPushKernelConstStep.new (MemoryDesc.new spatial_size frame_temporal_size)
    extractor := OnGetKernelConstStep.new (MemoryDesc.new spatial_size frame_temporal_size) }

/-- The struct `FluxConstStep`. -/
abbrev FluxConstStep := Allocator OnPushFluxConstStep OnGetFluxConstStep

/-- The constructor `FluxConstStep(spatial_size, temporal_size, frame_temporal_size)`. -/
def FluxConstStep.new (spatial_size temporal_size frame_temporal_size : Nat) : FluxConstStep :=
  { pusher := OnPushFluxConstStep.new (MemoryDesc.new spatial_size temporal_size)
    extractor :=
      OnGetFluxConstStep.new (MemoryDesc.new spatial_size temporal_size) frame_temporal_size }

/-! ## AllocatorMainStep.h -/

/-- The struct `OnGetKernelMainStep`, derived from `OnGetKernelConstStep`. -/
structure OnGetKernelMainStep extends OnGetKernelConstStep where
  its_index_begin : Nat
  M : Nat
  small_step_nmbr : Nat
  small_step_counter : Nat
  main_step_nmbr : Nat
  main_step_counter : Nat
  deriving DecidableEq

namespace OnGetKernelMainStep

def new (memoryDesc : MemoryDesc) (M small_step_nmbr_ main_step_nmbr_ : Nat) :
    OnGetKernelMainStep :=
  { toOnGetKernelConstStep := OnGetKernelConstStep.new memoryDesc
    its_index_begin := 0
    small_step_nmbr := small_step_nmbr_
    small_step_counter := 0
    M := M
    main_step_nmbr := main_step_nmbr_
    main_step_counter := 0 }

def is_first_history_period (g : OnGetKernelMainStep) : Bool :=
  decide (g.main_step_counter < g.main_step_nmbr)

/-- The member `on_extract`. The statement `small_step_counter %= small_step_nmbr` is
undefined in C++ for `small_step_nmbr == 0`; here it is the `%` of `Nat`, and what is
proved about the second history period assumes `1 ≤ small_step_nmbr`. -/
def on_extract (g : OnGetKernelMainStep) : OnGetKernelMainStep :=
  if g.is_first_history_period then
    { g with
      toOnGetKernelConstStep := g.toOnGetKernelConstStep.on_extract
      main_step_counter := size_add g.main_step_counter 1 }
  else
    let g1 : OnGetKernelMainStep :=
      if g.small_step_counter == 0 then
        let g2 : OnGetKernelMainStep :=
          { g with its_index_begin := size_add g.its_index_begin g.spatial_size }
        if !g2.toOnGetKernelConstStep.is_external_boundary_time then
          { g2 with its_index_end := size_add g2.its_index_end g2.spatial_size }
        else g2
      else g
    { g1 with
      small_step_counter := (size_add g1.small_step_counter 1) % g1.small_step_nmbr }

def idx_begin (g : OnGetKernelMainStep) : Nat := g.its_index_begin

def idx_end (g : OnGetKernelMainStep) : Nat := g.toOnGetKernelConstStep.idx_end

def current_window_size (g : OnGetKernelMainStep) : Nat := size_sub g.idx_end g.idx_begin

end OnGetKernelMainStep

/-- The struct `OnGetFluxMainStep`, derived from `OnGetFluxConstStep` with the inherited
constructor and no new member. -/
structure OnGetFluxMainStep extends OnGetFluxConstStep
  deriving DecidableEq

namespace OnGetFluxMainStep

def new (memoryDesc : MemoryDesc) (frame_temporal_size : Nat) : OnGetFluxMainStep :=
  { toOnGetFluxConstStep := OnGetFluxConstStep.new memoryDesc frame_temporal_size }

def idx_begin (g : OnGetFluxMainStep) : Nat := g.toOnGetFluxConstStep.idx_begin

def idx_end (g : OnGetFluxMainStep) : Nat := g.toOnGetFluxConstStep.idx_end

def is_first_history_period (g : OnGetFluxMainStep) : Bool := decide (g.idx_begin > 0)

def on_extract (g : OnGetFluxMainStep) : OnGetFluxMainStep :=
  if g.is_first_history_period then
    { g with toOnGetFluxConstStep := g.toOnGetFluxConstStep.on_extract }
  else
    if g.toOnGetFluxConstStep.is_external_boundary_time then
      if g.idx_end > g.idx_begin then
        { g with its_index_end := size_sub g.its_index_end g.spatial_size }
      else g
    else
      { g with cur_temporal_window := size_add g.cur_temporal_window 1 }

def current_window_size (g : OnGetFluxMainStep) : Nat := size_sub g.idx_end g.idx_begin

end OnGetFluxMainStep

/-- The struct `OnPushKernelMainStep`: `OnPushKernelConstStep` with the inherited
constructor and nothing else. -/
abbrev OnPushKernelMainStep := OnPushKernelConstStep

/-- The struct `OnPushFluxMainStep`. -/
structure OnPushFluxMainStep extends PushDesc where
  its_index_begin : Nat
  deriving DecidableEq

namespace OnPushFluxMainStep

def new (memoryDesc : MemoryDesc) : OnPushFluxMainStep :=
  { toPushDesc := PushDesc.new memoryDesc, its_index_begin := memoryDesc.allocated_memory }

def on_push (p : OnPushFluxMainStep) : OnPushFluxMainStep :=
  { p with
    cur_temporal_window := size_add p.cur_temporal_window 1
    its_index_begin := size_sub p.its_index_begin p.spatial_size
    need_advance := false }

def idx_begin (p : OnPushFluxMainStep) : Nat := p.its_index_begin

def idx_end (p : OnPushFluxMainStep) : Nat := p.allocated_memory

end OnPushFluxMainStep

/-- The struct `KernelMainStep`. -/
abbrev KernelMainStep := Allocator OnPushKernelMainStep OnGetKernelMainStep

/-- The constructor
`KernelMainStep(spatial_size, frame_temporal_size, M, small_step_nmbr, main_step_nmbr)`. -/
def KernelMainStep.new (spatial_size frame_temporal_size M small_step_nmbr main_step_nmbr : Nat) :
    KernelMainStep :=
  { pusher := OnPushKernelConstStep.new (MemoryDesc.new spatial_size frame_temporal_size)
    extractor :=
      OnGetKernelMainStep.new (MemoryDesc.new spatial_size frame_temporal_size)
        M small_step_nmbr main_step_nmbr }

/-- The struct `FluxMainStep`: the allocator pair and two constants. -/
structure FluxMainStep extends Allocator OnPushFluxMainStep OnGetFluxMainStep where
  small_step_nmbr : Nat
  main_step_nmbr : Nat

/-- The constructor
`FluxMainStep(spatial_size, main_step_nmbr, frame_temporal_size, small_step_nmbr)`. -/
def FluxMainStep.new (spatial_size main_step_nmbr frame_temporal_size small_step_nmbr : Nat) :
    FluxMainStep :=
  { pusher := OnPushFluxMainStep.new (MemoryDesc.new spatial_size main_step_nmbr)
    extractor :=
      OnGetFluxMainStep.new (MemoryDesc.new spatial_size main_step_nmbr) frame_temporal_size
    small_step_nmbr := small_step_nmbr
    main_step_nmbr := (MemoryDesc.new spatial_size main_step_nmbr).temporal_size }

/-! ## AllocatorMixStep.h -/

/-- The struct `OnGetKernelMixStep`. -/
structure OnGetKernelMixStep extends GetDesc where
  small_step_nmbr : Nat
  small_step_counter : Nat
  deriving DecidableEq

namespace OnGetKernelMixStep

def new (memoryDesc : MemoryDesc) (small_step_nmbr_ : Nat) : OnGetKernelMixStep :=
  { toGetDesc := GetDesc.new memoryDesc
    small_step_nmbr := small_step_nmbr_
    small_step_counter := 0 }

def on_extract (g : OnGetKernelMixStep) : OnGetKernelMixStep := g

def idx_begin (_g : OnGetKernelMixStep) : Nat := 0

def idx_end (g : OnGetKernelMixStep) : Nat := g.allocated_memory

def current_window_size (g : OnGetKernelMixStep) : Nat := size_sub g.idx_end g.idx_begin

end OnGetKernelMixStep

/-- The struct `OnGetFluxMixStep`. -/
structure OnGetFluxMixStep extends GetDesc where
  frame_temporal_size : Nat
  deriving DecidableEq

namespace OnGetFluxMixStep

def new (memoryDesc : MemoryDesc) (frame_temporal_size : Nat) : OnGetFluxMixStep :=
  { toGetDesc := GetDesc.new memoryDesc, frame_temporal_size := frame_temporal_size }

def is_external_boundary_time (g : OnGetFluxMixStep) : Bool :=
  g.cur_temporal_window == g.frame_temporal_size

def on_extract (g : OnGetFluxMixStep) : OnGetFluxMixStep :=
  if !g.is_external_boundary_time then
    { g with cur_temporal_window := size_add g.cur_temporal_window 1 }
  else g

def idx_begin (_g : OnGetFluxMixStep) : Nat := 0

def idx_end (g : OnGetFluxMixStep) : Nat := g.spatial_size

def current_window_size (g : OnGetFluxMixStep) : Nat := size_sub g.idx_end g.idx_begin

end OnGetFluxMixStep

/-- The struct `OnPushKernelMixStep`. It defines `idx_end` only: `idx_begin` stays the
deleted member of `PushDesc`. -/
structure OnPushKernelMixStep extends PushDesc
  deriving DecidableEq

namespace OnPushKernelMixStep

def new (positionDesc : MemoryDesc) : OnPushKernelMixStep :=
  { toPushDesc := PushDesc.new positionDesc }

def on_push (p : OnPushKernelMixStep) : OnPushKernelMixStep :=
  { p with need_advance := false }

def idx_end (_p : OnPushKernelMixStep) : Nat := 0

end OnPushKernelMixStep

/-- The struct `OnPushFluxMixStep`: `OnPushFluxMainStep` with the inherited constructor
and nothing else. -/
abbrev OnPushFluxMixStep := OnPushFluxMainStep

/-- The struct `KernelMixStep`: the allocator pair and two constants. -/
structure KernelMixStep extends Allocator OnPushKernelMixStep OnGetKernelMixStep where
  M : Nat
  small_step_nmbr_per_main_step : Nat

/-- The constructor
`KernelMixStep(spatial_size, frame_temporal_size, small_step_nmbr_per_main_step, M)`. -/
def KernelMixStep.new (spatial_size frame_temporal_size small_step_nmbr_per_main_step M : Nat) :
    KernelMixStep :=
  { pusher := OnPushKernelMixStep.new (MemoryDesc.new spatial_size frame_temporal_size)
    extractor :=
      OnGetKernelMixStep.new (MemoryDesc.new spatial_size frame_temporal_size)
        small_step_nmbr_per_main_step
    M := M
    small_step_nmbr_per_main_step := small_step_nmbr_per_main_step }

/-- The struct `FluxMixStep`. -/
abbrev FluxMixStep := Allocator OnPushFluxMixStep OnGetFluxMixStep

/-- The constructor `FluxMixStep(spatial_size, frame_temporal_size)`: the descriptor is
`MemoryDesc{spatial_size, 1ull}`. -/
def FluxMixStep.new (spatial_size frame_temporal_size : Nat) : FluxMixStep :=
  { pusher := OnPushFluxMainStep.new (MemoryDesc.new spatial_size 1)
    extractor := OnGetFluxMixStep.new (MemoryDesc.new spatial_size 1) frame_temporal_size }

/-! ## Sequences of calls on an allocator pair -/

/-- One call on an allocator pair: `pusher.on_push()` or `extractor.on_extract()`. -/
inductive AllocatorCall where
  | on_push
  | on_extract
  deriving DecidableEq

namespace Allocator

variable {Push Extract : Type}

/-- One call, given the `on_push` of the pusher and the `on_extract` of the extractor. -/
def call (push : Push → Push) (extract : Extract → Extract) (a : Allocator Push Extract) :
    AllocatorCall → Allocator Push Extract
  | AllocatorCall.on_push => { a with pusher := push a.pusher }
  | AllocatorCall.on_extract => { a with extractor := extract a.extractor }

/-- A finite sequence of calls, the first call first. -/
def run (push : Push → Push) (extract : Extract → Extract) (a : Allocator Push Extract)
    (calls : List AllocatorCall) : Allocator Push Extract :=
  calls.foldl (call push extract) a

end Allocator

/-- The members `Allocator::pushed_data_counter` and `Allocator::push_data_nmbr` read the
pusher; `toPushDesc` is the pusher seen as its base `PushDesc`. -/
def Allocator.pushed_data_counter {Push Extract : Type} (toPushDesc : Push → PushDesc)
    (a : Allocator Push Extract) : Nat :=
  (toPushDesc a.pusher).pushed_data_counter

def Allocator.push_data_nmbr {Push Extract : Type} (toPushDesc : Push → PushDesc)
    (a : Allocator Push Extract) : Nat :=
  (toPushDesc a.pusher).push_data_nmbr



/-- The window property of the specification: `idx_begin ≤ idx_end ≤ allocated_memory`
and the window size `idx_end - idx_begin` (a `size_t` difference) is a multiple of the
spatial size. -/
abbrev window_invariant (idx_begin idx_end allocated_memory spatial_size : Nat) : Prop :=
  idx_begin ≤ idx_end ∧ idx_end ≤ allocated_memory ∧
    (size_sub idx_end idx_begin) % spatial_size = 0

/-! ## Eigen containers -/

/-- An Eigen `VectorXd`: its length and its coefficients (read below `size` only). -/
structure VectorXd where
  size : Nat
  coeff : Nat → ℚ

/-- An Eigen `MatrixXd` (also used for `ArrayXXd`): its dimensions and its coefficients
(read inside the dimensions only). -/
structure MatrixXd where
  rows : Nat
  cols : Nat
  coeff : Nat → Nat → ℚ

/-- An Eigen `ArrayXXd` has the storage of a matrix; its `*` is coefficient-wise. -/
abbrev ArrayXXd := MatrixXd

/-- The sum `f 0 + ... + f (n - 1)`. -/
def sum_upto (f : Nat → ℚ) : Nat → ℚ
  | 0 => 0
  | n + 1 => sum_upto f n + f n

namespace VectorXd

/-- The vector `VectorXd::Zero(n)`. -/
def Zero (n : Nat) : VectorXd := { size := n, coeff := fun _ => 0 }

/-- The coefficient read `v(i)`; Eigen asserts `i < size`. -/
def get? (v : VectorXd) (i : Nat) : Option ℚ :=
  if i < v.size then some (v.coeff i) else none

/-- The read `v.segment(start, n)`; Eigen asserts `start + n ≤ size`. -/
def segment (v : VectorXd) (start n : Nat) : Option VectorXd :=
  if start + n ≤ v.size then some { size := n, coeff := fun i => v.coeff (start + i) }
  else none

/-- The assignment `v.segment(start, n) = data`; Eigen asserts the range and that the
two sides have the same length. -/
def setSegment (v : VectorXd) (start n : Nat) (data : VectorXd) : Option VectorXd :=
  if start + n ≤ v.size ∧ data.size = n then
    some { v with
      coeff := fun i => if start ≤ i ∧ i < start + n then data.coeff (i - start) else v.coeff i }
  else none

end VectorXd

namespace MatrixXd

/-- The array `ArrayXXd::Zero(rows, cols)`. -/
def Zero (rows cols : Nat) : MatrixXd := { rows := rows, cols := cols, coeff := fun _ _ => 0 }

/-- The array `ArrayXXd::Ones(rows, cols)`. -/
def Ones (rows cols : Nat) : MatrixXd := { rows := rows, cols := cols, coeff := fun _ _ => 1 }

/-- The coefficient read `m(row, col)`; Eigen asserts the range. -/
def get? (m : MatrixXd) (row col : Nat) : Option ℚ :=
  if row < m.rows ∧ col < m.cols then some (m.coeff row col) else none

/-- The coefficient write `m(row, col) = x`; Eigen asserts the range. -/
def set? (m : MatrixXd) (row col : Nat) (x : ℚ) : Option MatrixXd :=
  if row < m.rows ∧ col < m.cols then
    some { m with coeff := fun r c => if r = row ∧ c = col then x else m.coeff r c }
  else none

/-- The coefficient-wise difference of two arrays; Eigen asserts equal dimensions. -/
def sub (a b : MatrixXd) : Option MatrixXd :=
  if a.rows = b.rows ∧ a.cols = b.cols then
    some { a with coeff := fun r c => a.coeff r c - b.coeff r c }
  else none

/-- The coefficient-wise product of two arrays; Eigen asserts equal dimensions. -/
def cwiseMul (a b : MatrixXd) : Option MatrixXd :=
  if a.rows = b.rows ∧ a.cols = b.cols then
    some { a with coeff := fun r c => a.coeff r c * b.coeff r c }
  else none

/-- The read `m.middleCols(start, n)`; Eigen asserts `start + n ≤ cols`. -/
def middleCols (m : MatrixXd) (start n : Nat) : Option MatrixXd :=
  if start + n ≤ m.cols then
    some { rows := m.rows, cols := n, coeff := fun r c => m.coeff r (start + c) }
  else none

/-- The assignment `m.middleCols(start, n) = block`; Eigen asserts the range and that
the two sides have the same dimensions. -/
def setMiddleCols (m : MatrixXd) (start n : Nat) (block : MatrixXd) : Option MatrixXd :=
  if start + n ≤ m.cols ∧ block.rows = m.rows ∧ block.cols = n then
    some { m with
      coeff := fun r c =>
        if start ≤ c ∧ c < start + n then block.coeff r (c - start) else m.coeff r c }
  else none

/-- The product `m * v` of a matrix and a column vector; Eigen asserts
`m.cols == v.size`. -/
def mulVec (m : MatrixXd) (v : VectorXd) : Option VectorXd :=
  if m.cols = v.size then
    some { size := m.rows, coeff := fun r => sum_upto (fun c => m.coeff r c * v.coeff c) m.cols }
  else none

end MatrixXd

/-! ## BaseKernel.h, instantiated at the ConstStep kernel allocator -/

/-- The class `BaseKernel<KernelConstStep>`. -/
structure BaseKernel where
  Kernel : MatrixXd
  P_prev : ArrayXXd
  P_cur : ArrayXXd
  F : ArrayXXd
  grid_nodes_count : Nat
  allocator : KernelConstStep

namespace BaseKernel

def on_advance (k : BaseKernel) : BaseKernel :=
  { k with allocator := { k.allocator with pusher := k.allocator.pusher.on_push } }

def on_extract (k : BaseKernel) : BaseKernel :=
  { k with allocator := { k.allocator with extractor := k.allocator.extractor.on_extract } }

def block_height (k : BaseKernel) : Nat := k.grid_nodes_count

def block_width (k : BaseKernel) : Nat := k.allocator.pusher.spatial_size

def block_stride_in_row (k : BaseKernel) : Nat := k.allocator.pusher.idx_end

def allocate_P_cur (k : BaseKernel) : BaseKernel :=
  { k with P_cur := MatrixXd.Zero k.block_height k.block_width }

/-- The member `is_correct_state`: throws when the pusher flag is set. -/
def is_correct_state (k : BaseKernel) : Option Unit :=
  if k.allocator.pusher.is_correct_state then none else some ()

/-- The constructor `BaseKernel(nodesCount, convDesc)`. Eigen leaves the coefficients of
`Kernel{nodesCount, allocated_memory}` uninitialised: `garbage` is what the memory
holds. -/
def new (nodesCount : Nat) (convDesc : KernelConstStep) (garbage : Nat → Nat → ℚ) :
    BaseKernel :=
  let k : BaseKernel :=
    { Kernel :=
        { rows := nodesCount, cols := convDesc.pusher.allocated_memory, coeff := garbage }
      grid_nodes_count := nodesCount
      allocator := convDesc
      P_prev := MatrixXd.Zero 0 0
      P_cur := MatrixXd.Zero 0 0
      F := MatrixXd.Zero 0 0 }
  let k1 : BaseKernel :=
    { k with
      P_prev := MatrixXd.Zero k.block_height k.block_width
      F := MatrixXd.Ones k.block_height k.block_width }
  k1.allocate_P_cur

def rows (k : BaseKernel) : Nat := k.block_height

def cols (k : BaseKernel) : Nat := k.block_stride_in_row

/-- The member `operator()(row, col)`. -/
def operator_call_rc (k : BaseKernel) (row col : Nat) : Option ℚ := do
  k.is_correct_state
  k.Kernel.get? row col

/-- The member `push_coef(row, col, E, f)`. -/
def push_coef (k : BaseKernel) (row col : Nat) (E f : ℚ) : Option BaseKernel := do
  let P_cur ← k.P_cur.set? row col E
  let F ← k.F.set? row col f
  pure
    { k with
      P_cur := P_cur
      F := F
      allocator :=
        { k.allocator with pusher := { k.allocator.pusher with need_advance := true } } }

/-- The member `operator()(mesh_node_id, source_node_id, time_node)`. -/
def operator_call_time (k : BaseKernel) (mesh_node_id source_node_id time_node : Nat) :
    Option ℚ := do
  k.is_correct_state
  k.operator_call_rc mesh_node_id (size_add source_node_id (size_mul k.block_width time_node))

/-- The member `operator()()`: moves the extractor, then returns the live block. The
kernel comes back too, since `allocator` is `mutable`. -/
def operator_call (k : BaseKernel) : Option (BaseKernel × MatrixXd) := do
  k.is_correct_state
  let k1 := k.on_extract
  let block ←
    k1.Kernel.middleCols k1.allocator.extractor.idx_begin
      k1.allocator.extractor.current_window_size
  pure (k1, block)

/-- The member `advance()`. -/
def advance (k : BaseKernel) : Option BaseKernel := do
  let diff ← k.P_cur.sub k.P_prev
  let block ← k.F.cwiseMul diff
  let Kernel ← k.Kernel.setMiddleCols k.block_stride_in_row k.block_width block
  let k1 : BaseKernel := { k with Kernel := Kernel, P_prev := k.P_cur }
  let k2 := k1.allocate_P_cur
  pure k2.on_advance

/-- The calls `push_coef(row, col, E(row, col), f(row, col))` for the listed entries, in
order. -/
def push_coefs (k : BaseKernel) (E f : Nat → Nat → ℚ) :
    List (Nat × Nat) → Option BaseKernel
  | [] => some k
  | (row, col) :: rest =>
    (k.push_coef row col (E row col) (f row col)).bind (fun k1 => push_coefs k1 E f rest)

/-- The entries `(row, col)` of a `rows × cols` block, column by column. -/
def block_entries (rows cols : Nat) : List (Nat × Nat) :=
  (List.range cols).flatMap (fun col => (List.range rows).map (fun row => (row, col)))

/-- The calls of `push_coef` on every entry of the `block_height × block_width` block. -/
def fill (k : BaseKernel) (E f : Nat → Nat → ℚ) : Option BaseKernel :=
  k.push_coefs E f (block_entries k.block_height k.block_width)

end BaseKernel

/-! ## BaseFluxContainer.h, instantiated at the ConstStep flux allocator -/

/-- The class `BaseFluxContainer<FluxConstStep>` with its base `CommonBase`. -/
structure BaseFluxContainer where
  allocator : FluxConstStep
  flux : VectorXd

namespace BaseFluxContainer

def on_push (c : BaseFluxContainer) : BaseFluxContainer :=
  { c with allocator := { c.allocator with pusher := c.allocator.pusher.on_push } }

def on_extract (c : BaseFluxContainer) : BaseFluxContainer :=
  { c with allocator := { c.allocator with extractor := c.allocator.extractor.on_extract } }

def flux_push_counter (c : BaseFluxContainer) : Nat :=
  c.allocator.pusher.pushed_data_counter

def flux_push_nmbr (c : BaseFluxContainer) : Nat :=
  c.allocator.pusher.push_data_nmbr

/-- The constructor `BaseFluxContainer(convDesc)`. -/
def new (convDesc : FluxConstStep) : BaseFluxContainer :=
  { allocator := convDesc, flux := VectorXd.Zero convDesc.pusher.allocated_memory }

def rows (c : BaseFluxContainer) : Nat := c.allocator.extractor.current_window_size

/-- The member `operator()(nt, segm_id)`. -/
def operator_call_time (c : BaseFluxContainer) (nt segm_id : Nat) : Option ℚ :=
  c.flux.get?
    (size_sub (size_add segm_id c.flux.size) (size_mul nt c.allocator.extractor.spatial_size))

/-- The member `operator()()`: the live sub-vector. -/
def operator_call (c : BaseFluxContainer) : Option VectorXd :=
  c.flux.segment c.allocator.extractor.idx_begin c.rows

/-- The member `convolve(kernel)` in the sequential build: `kernel() * (*this)()`. The
kernel comes back too, since `kernel()` moves its extractor. -/
def convolve (c : BaseFluxContainer) (kernel : BaseKernel) : Option (BaseKernel × VectorXd) := do
  let (kernel1, block) ← kernel.operator_call
  let live ← c.operator_call
  let out ← block.mulVec live
  pure (kernel1, out)

/-- The member `extract()`. -/
def extract (c : BaseFluxContainer) : BaseFluxContainer := c.on_extract

/-- The member `push_coef(data)`. -/
def push_coef (c : BaseFluxContainer) (data : VectorXd) : Option BaseFluxContainer := do
  let c1 := c.on_push
  let flux ← c1.flux.setSegment c1.allocator.pusher.idx_begin c1.allocator.pusher.spatial_size data
  pure { c1 with flux := flux }

end BaseFluxContainer

/-- The kernels obtained from `BaseKernel(G, KernelConstStep(S, T))` by calls of
`push_coef`, `operator()()` and `advance()` that all return, `n` of them being calls of
`advance()`. -/
inductive BaseKernel.AdvancedTimes (G S T : Nat) : Nat → BaseKernel → Prop where
  | new (garbage : Nat → Nat → ℚ) :
      AdvancedTimes G S T 0 (BaseKernel.new G (KernelConstStep.new S T) garbage)
  | push_coef {n : Nat} {k k1 : BaseKernel} (row col : Nat) (E f : ℚ) :
      AdvancedTimes G S T n k → k.push_coef row col E f = some k1 → AdvancedTimes G S T n k1
  | operator_call {n : Nat} {k k1 : BaseKernel} {block : MatrixXd} :
      AdvancedTimes G S T n k → k.operator_call = some (k1, block) → AdvancedTimes G S T n k1
  | advance {n : Nat} {k k1 : BaseKernel} :
      AdvancedTimes G S T n k → k.advance = some k1 → AdvancedTimes G S T (n + 1) k1

/-- One call on a flux container: `push_coef(data)` or `extract()`. -/
inductive FluxCall where
  | push_coef (data : VectorXd)
  | extract

namespace FluxCall

/-- The vectors pushed by a sequence of calls, the first one first. -/
def pushed : List FluxCall → List VectorXd
  | [] => []
  | FluxCall.push_coef data :: rest => data :: pushed rest
  | FluxCall.extract :: rest => pushed rest

end FluxCall

namespace BaseFluxContainer

/-- One call on the container. -/
def call (c : BaseFluxContainer) : FluxCall → Option BaseFluxContainer
  | FluxCall.push_coef data => c.push_coef data
  | FluxCall.extract => some c.extract

/-- A finite sequence of calls, the first call first. -/
def run (c : BaseFluxContainer) : List FluxCall → Option BaseFluxContainer
  | [] => some c
  | x :: rest => (c.call x).bind (fun c1 => run c1 rest)

end BaseFluxContainer

/-! ## One well in the ConstStep regime, driven step by step -/

/-- The objects the outer driver works on for one well in the ConstStep regime: the
kernel and the flux container. The driver itself is outside the repository; its steps
follow the required order push kernel coefficients, `advance()`, push flux,
`convolve(kernel)`. -/
structure ConstStepDriver where
  kernel : BaseKernel
  flux : BaseFluxContainer

namespace ConstStepDriver

/-- A kernel with `G` rows over `KernelConstStep(S, F)` and a flux container over
`FluxConstStep(S, T, F)`, the two allocators `ConstStepWell(S, F, T)` builds. -/
def new (G S F T : Nat) (garbage : Nat → Nat → ℚ) : ConstStepDriver :=
  { kernel := BaseKernel.new G (KernelConstStep.new S F) garbage
    flux := BaseFluxContainer.new (FluxConstStep.new S T F) }

/-- The kernel part of step `k` of the driver: while `k ≤ F` the kernel is filled with
the coefficients `P` and the weights `Fc` (`push_coef` on every entry) and advanced. -/
def kernel_step (F : Nat) (P Fc : Nat → Nat → ℚ) (k : Nat) (kernel : BaseKernel) :
    Option BaseKernel :=
  if k ≤ F then (kernel.fill P Fc).bind BaseKernel.advance else some kernel

/-- Step `k` of the driver: the kernel part; the vector `v` is pushed to the flux; then
`flux.extract().convolve(kernel)` is called once. -/
def step (F : Nat) (P Fc : Nat → Nat → ℚ) (v : VectorXd) (k : Nat) (w : ConstStepDriver) :
    Option (ConstStepDriver × VectorXd) := do
  let kernel1 ← kernel_step F P Fc k w.kernel
  let flux1 ← w.flux.push_coef v
  let flux2 := flux1.extract
  let (kernel2, out) ← flux2.convolve kernel1
  pure ({ kernel := kernel2, flux := flux2 }, out)

/-- The well after steps `1 .. n`; step `k` uses `P k`, `Fc k` and the `S`-vector of
coefficients `v k`. -/
def after (S F : Nat) (P Fc : Nat → Nat → Nat → ℚ) (v : Nat → Nat → ℚ) (w : ConstStepDriver) :
    Nat → Option ConstStepDriver
  | 0 => some w
  | k + 1 =>
    (after S F P Fc v w k).bind (fun w1 =>
      (w1.step F (P (k + 1)) (Fc (k + 1)) { size := S, coeff := v (k + 1) } (k + 1)).map
        Prod.fst)

/-- The vector returned by the convolve of step `n ≥ 1`. -/
def result (S F : Nat) (P Fc : Nat → Nat → Nat → ℚ) (v : Nat → Nat → ℚ) (w : ConstStepDriver)
    (n : Nat) : Option VectorXd :=
  (after S F P Fc v w (n - 1)).bind (fun w1 =>
    (w1.step F (P n) (Fc n) { size := S, coeff := v n } n).map Prod.snd)

/-- The block `D_j = F_j ⊙ (P_j - P_{j-1})` of step `j ≥ 1`, with `P_0 = 0`. -/
def block (P Fc : Nat → Nat → Nat → ℚ) (j r c : Nat) : ℚ :=
  Fc j r c * (P j r c - (if j - 1 = 0 then 0 else P (j - 1) r c))

end ConstStepDriver

/-- The dimensions and the pusher fields of a kernel built as
`BaseKernel(G, KernelConstStep(S, T))` on which `advance()` returned `n` times. -/
def BaseKernel.Shape (G S T n : Nat) (k : BaseKernel) : Prop :=
  (k.Kernel.rows = G ∧ k.Kernel.cols = size_mul S T) ∧
  (k.P_prev.rows = G ∧ k.P_prev.cols = S) ∧
  (k.P_cur.rows = G ∧ k.P_cur.cols = S) ∧
  (k.F.rows = G ∧ k.F.cols = S) ∧
  k.grid_nodes_count = G ∧
  k.allocator.pusher.toMemoryDesc =
    { MemoryDesc.new S T with cur_temporal_window := n % SIZE_MOD } ∧
  k.allocator.pusher.its_index_end = (n * S) % SIZE_MOD

/-- The container holds the pushed vectors `vs` (the first pushed first): the buffer has
`S * T` entries (as a `size_t`), the pusher has been called once per vector, and the
`j`-th vector (from `j = 1`) fills the slab that starts at `S * (T - j)`. -/
def BaseFluxContainer.Stores (S T : Nat) (vs : List VectorXd) (c : BaseFluxContainer) : Prop :=
  c.flux.size = size_mul S T ∧
  c.allocator.pusher =
    OnPushFluxConstStep.on_push^[vs.length] (OnPushFluxConstStep.new (MemoryDesc.new S T)) ∧
  c.allocator.extractor.its_spatial_size = S ∧
  ∀ j d, vs[j]? = some d → ∀ i, i < S → c.flux.coeff (S * (T - (j + 1)) + i) = d.coeff i

/-- The kernel of a well after `k` driver steps: it has been advanced `min k F` times,
its flag is clear, the block of step `j` stands in the columns `[S * (j - 1), S * j)` for
every `1 ≤ j ≤ min k F`, and `P_prev` holds the coefficients of the last filled step. -/
def ConstStepDriver.KernelInv (G S F : Nat) (P Fc : Nat → Nat → Nat → ℚ) (k : Nat)
    (kernel : BaseKernel) : Prop :=
  BaseKernel.Shape G S F (min k F) kernel ∧
  kernel.allocator.pusher.need_advance = false ∧
  (∀ j, 1 ≤ j → j ≤ min k F → ∀ r, r < G → ∀ c, c < S →
    kernel.Kernel.coeff r (S * (j - 1) + c) = ConstStepDriver.block P Fc j r c) ∧
  (∀ r, r < G → ∀ c, c < S →
    kernel.P_prev.coeff r c = if min k F = 0 then 0 else P (min k F) r c)

/-- The well after `k` driver steps: the kernel as in `KernelInv`, the flux container
holding `v 1 .. v k`, and both extractors called `k` times. -/
def ConstStepDriver.Inv (G S F T : Nat) (P Fc : Nat → Nat → Nat → ℚ) (v : Nat → Nat → ℚ)
    (k : Nat) (w : ConstStepDriver) : Prop :=
  ConstStepDriver.KernelInv G S F P Fc k w.kernel ∧
  w.kernel.allocator.extractor =
    OnGetKernelConstStep.on_extract^[k] (OnGetKernelConstStep.new (MemoryDesc.new S F)) ∧
  BaseFluxContainer.Stores S T
    ((List.range k).map (fun j => ({ size := S, coeff := v (j + 1) } : VectorXd))) w.flux ∧
  w.flux.allocator.extractor =
    OnGetFluxConstStep.on_extract^[k] (OnGetFluxConstStep.new (MemoryDesc.new S T) F)

/-! ## The six allocator pairs under sequences of calls -/

/-- The number of `on_push` calls in a sequence. -/
def AllocatorCall.pushes (calls : List AllocatorCall) : Nat :=
  calls.count AllocatorCall.on_push

/-- The number of `on_extract` calls in a sequence. -/
def AllocatorCall.extracts (calls : List AllocatorCall) : Nat :=
  calls.count AllocatorCall.on_extract

/-- A sequence of calls on a `KernelConstStep`. -/
def KernelConstStep.run (a : KernelConstStep) (calls : List AllocatorCall) : KernelConstStep :=
  Allocator.run OnPushKernelConstStep.on_push OnGetKernelConstStep.on_extract a calls

/-- A sequence of calls on a `FluxConstStep`. -/
def FluxConstStep.run (a : FluxConstStep) (calls : List AllocatorCall) : FluxConstStep :=
  Allocator.run OnPushFluxConstStep.on_push OnGetFluxConstStep.on_extract a calls

/-- A sequence of calls on a `KernelMainStep`. -/
def KernelMainStep.run (a : KernelMainStep) (calls : List AllocatorCall) : KernelMainStep :=
  Allocator.run OnPushKernelConstStep.on_push OnGetKernelMainStep.on_extract a calls

/-- A sequence of calls on the allocator pair of a `FluxMainStep`. -/
def FluxMainStep.run (a : FluxMainStep) (calls : List AllocatorCall) :
    Allocator OnPushFluxMainStep OnGetFluxMainStep :=
  Allocator.run OnPushFluxMainStep.on_push OnGetFluxMainStep.on_extract a.toAllocator calls

/-- A sequence of calls on the allocator pair of a `KernelMixStep`. -/
def KernelMixStep.run (a : KernelMixStep) (calls : List AllocatorCall) :
    Allocator OnPushKernelMixStep OnGetKernelMixStep :=
  Allocator.run OnPushKernelMixStep.on_push OnGetKernelMixStep.on_extract a.toAllocator calls

/-- A sequence of calls on a `FluxMixStep`. -/
def FluxMixStep.run (a : FluxMixStep) (calls : List AllocatorCall) : FluxMixStep :=
  Allocator.run OnPushFluxMainStep.on_push OnGetFluxMixStep.on_extract a calls

/-- The MainStep kernel extractor built over `MemoryDesc(S, T)` with `N` small steps per
main step and `msn` main steps, after `n` calls of `on_extract`. In the first history
period the cursors are those of the ConstStep kernel extractor. In the second one the
window start is `S * b`, where `b` counts the main steps begun since the first period
ended: `N * b` is the number of second-period calls, rounded up to a multiple of `N`. -/
def OnGetKernelMainStep.Reached (S T N msn n : Nat) (g : OnGetKernelMainStep) : Prop :=
  (g.its_spatial_size = S ∧ g.its_temporal_size = T ∧ g.its_allocated_memory = S * T) ∧
  (g.small_step_nmbr = N ∧ g.main_step_nmbr = msn) ∧
  (n ≤ msn →
    g.main_step_counter = n ∧ g.small_step_counter = 0 ∧ g.its_index_begin = 0 ∧
      g.its_index_end = S * min n T ∧ g.cur_temporal_window = min n T) ∧
  (msn < n →
    g.main_step_counter = msn ∧ g.small_step_counter < N ∧
      g.cur_temporal_window = min msn T ∧
      ∃ b, g.its_index_begin = S * b ∧
        N * b = (n - msn) + (if g.small_step_counter = 0 then 0 else N - g.small_step_counter) ∧
        g.its_index_end = S * min T (min msn T + b))

/-- What every sequence of calls keeps true of the MainStep kernel extractor: the counter
of the window never passes `T`, and while the first history period lasts the cursors are
those of the ConstStep kernel extractor after `main_step_counter` calls. -/
def OnGetKernelMainStep.Bounded (S T msn : Nat) (g : OnGetKernelMainStep) : Prop :=
  (g.its_spatial_size = S ∧ g.its_temporal_size = T ∧ g.its_allocated_memory = S * T) ∧
  g.main_step_nmbr = msn ∧ g.main_step_counter ≤ msn ∧ g.cur_temporal_window ≤ T ∧
  (g.main_step_counter < msn →
    g.its_index_end = S * min g.main_step_counter T ∧
      g.cur_temporal_window = min g.main_step_counter T)

/-- What every sequence of calls keeps true of the MainStep flux extractor: the cursors
are `S * b ≤ S * e ≤ S * T` and the counter of the window never passes
`frame_temporal_size`. -/
def OnGetFluxMainStep.Bounded (S T F : Nat) (g : OnGetFluxMainStep) : Prop :=
  (g.its_spatial_size = S ∧ g.its_temporal_size = T ∧ g.its_allocated_memory = S * T) ∧
  g.frame_temporal_size = F ∧ g.cur_temporal_window ≤ F ∧
  ∃ b e, g.its_index_begin = S * b ∧ g.its_index_end = S * e ∧ b ≤ e ∧ e ≤ T

/-- What every sequence of calls keeps true of the MixStep flux extractor. -/
def OnGetFluxMixStep.Bounded (S T F : Nat) (g : OnGetFluxMixStep) : Prop :=
  (g.its_spatial_size = S ∧ g.its_temporal_size = T ∧ g.its_allocated_memory = S * T) ∧
  g.frame_temporal_size = F ∧ g.cur_temporal_window ≤ F

/-- The MainStep kernel extractor built over `MemoryDesc(S, T)` with `N` small steps per
main step and `msn` main steps, after the `msn` calls of `on_extract` of the first
history period and `k` further calls, with `⌈k / N⌉` written `(k + N - 1) / N`. -/
def OnGetKernelMainStep.InSecondPeriod (S T N msn k : Nat) (g : OnGetKernelMainStep) : Prop :=
  (g.its_spatial_size = S ∧ g.its_temporal_size = T ∧ g.its_allocated_memory = S * T) ∧
  (g.small_step_nmbr = N ∧ g.main_step_nmbr = msn) ∧
  g.main_step_counter = msn ∧ g.cur_temporal_window = min msn T ∧
  g.small_step_counter = k % N ∧
  g.its_index_begin = S * ((k + N - 1) / N) ∧
  g.its_index_end = S * min T (min msn T + (k + N - 1) / N)

/-! ## Coefficient-wise array arithmetic -/

/-- An Eigen `ArrayXd` has the storage of a vector; its arithmetic is coefficient-wise. -/
abbrev ArrayXd := VectorXd

namespace VectorXd

/-- The product `r * a` of a scalar and an array. -/
def scale (r : ℚ) (a : VectorXd) : VectorXd :=
  { size := a.size, coeff := fun i => r * a.coeff i }

/-- The coefficient-wise sum `a + b` of two arrays; Eigen asserts equal lengths. -/
def add (a b : VectorXd) : Option VectorXd :=
  if a.size = b.size then
    some { size := a.size, coeff := fun i => a.coeff i + b.coeff i }
  else none

end VectorXd

/-! ## BaseFluxContainer.h, WellFlux.h and FracFlux.h at the MainStep flux allocator -/

/-- The class `BaseFluxContainer<FluxMainStep>`, the base of `BaseWellFlux<FluxMainStep>`
and `BaseFracFlux<FluxMainStep>`: the same members as at `FluxConstStep`, over the
MainStep pusher and extractor. -/
structure BaseFluxContainer_FluxMainStep where
  allocator : FluxMainStep
  flux : VectorXd

namespace BaseFluxContainer_FluxMainStep

def on_push (c : BaseFluxContainer_FluxMainStep) : BaseFluxContainer_FluxMainStep :=
  { c with allocator := { c.allocator with pusher := c.allocator.pusher.on_push } }

def on_extract (c : BaseFluxContainer_FluxMainStep) : BaseFluxContainer_FluxMainStep :=
  { c with allocator := { c.allocator with extractor := c.allocator.extractor.on_extract } }

/-- The constructor `BaseFluxContainer(convDesc)`. -/
def new (convDesc : FluxMainStep) : BaseFluxContainer_FluxMainStep :=
  { allocator := convDesc, flux := VectorXd.Zero convDesc.pusher.allocated_memory }

def rows (c : BaseFluxContainer_FluxMainStep) : Nat :=
  c.allocator.extractor.current_window_size

/-- The member `operator()(nt, segm_id)`. -/
def operator_call_time (c : BaseFluxContainer_FluxMainStep) (nt segm_id : Nat) : Option ℚ :=
  c.flux.get?
    (size_sub (size_add segm_id c.flux.size) (size_mul nt c.allocator.extractor.spatial_size))

/-- The member `operator()()`: the live sub-vector. -/
def operator_call (c : BaseFluxContainer_FluxMainStep) : Option VectorXd :=
  c.flux.segment c.allocator.extractor.idx_begin c.rows

/-- The member `extract()`. -/
def extract (c : BaseFluxContainer_FluxMainStep) : BaseFluxContainer_FluxMainStep :=
  c.on_extract

/-- The member `push_coef(data)`. -/
def push_coef (c : BaseFluxContainer_FluxMainStep) (data : VectorXd) :
    Option BaseFluxContainer_FluxMainStep := do
  let c1 := c.on_push
  let flux ← c1.flux.setSegment c1.allocator.pusher.idx_begin c1.allocator.pusher.spatial_size data
  pure { c1 with flux := flux }

/-- The member `BaseWellFlux::calc_coef(cur_qzi, perm)`: the first `spatial_size` entries
of `cur_qzi`, divided entry by entry by those of `perm`. -/
def calc_coef_well (c : BaseFluxContainer_FluxMainStep) (cur_qzi perm : Nat → ℚ) : ArrayXd :=
  { size := c.allocator.pusher.spatial_size, coeff := fun i => cur_qzi i / perm i }

/-- The member `BaseFracFlux::calc_coef(cur_qzf, value)`: the first `spatial_size` entries
of `cur_qzf`, divided by `value`. -/
def calc_coef_frac (c : BaseFluxContainer_FluxMainStep) (cur_qzf : Nat → ℚ) (value : ℚ) :
    ArrayXd :=
  { size := c.allocator.pusher.spatial_size, coeff := fun i => cur_qzf i / value }

end BaseFluxContainer_FluxMainStep

/-! ## BaseFluxContainerMainStep.h -/

/-- The struct `BaseFluxContainerMainStep<FluxMainStep, Flux_t>`. The pointer `flux_ptr`
is `&flux_set[cur_container_id]`: the constructor sets both to the last element and
`switch_fluxContainer` moves both (for `small_step_nmbr ≥ 1`, the object not being
copied), so the embedding keeps the index only. -/
structure BaseFluxContainerMainStep where
  flux_set : List BaseFluxContainer_FluxMainStep
  main_step_counter : Nat
  small_step_nmbr : Nat
  cur_container_id : Nat
  main_step_nmbr : Nat
  prev_flux : ArrayXd

namespace BaseFluxContainerMainStep

/-- The constructor `BaseFluxContainerMainStep(convDesc)`. -/
def new (convDesc : FluxMainStep) : BaseFluxContainerMainStep :=
  { small_step_nmbr := convDesc.small_step_nmbr
    main_step_counter := 0
    main_step_nmbr := convDesc.main_step_nmbr
    prev_flux := VectorXd.Zero convDesc.pusher.allocated_memory
    flux_set :=
      List.replicate convDesc.small_step_nmbr (BaseFluxContainer_FluxMainStep.new convDesc)
    cur_container_id := size_sub convDesc.small_step_nmbr 1 }

/-- The object `*flux_ptr`. -/
def flux_ptr (m : BaseFluxContainerMainStep) : Option BaseFluxContainer_FluxMainStep :=
  m.flux_set[m.cur_container_id]?

/-- The member `switch_fluxContainer()`; the `%` is undefined in C++ for
`small_step_nmbr == 0`. -/
def switch_fluxContainer (m : BaseFluxContainerMainStep) : BaseFluxContainerMainStep :=
  { m with cur_container_id := (size_add m.cur_container_id 1) % m.small_step_nmbr }

/-- The loop of `push_coef` over `flux_set.begin() .. flux_set.end() - 1`: every element
but the last receives `ratio * qzi_to_perm + (1.0 - ratio) * prev_flux`, with
`ratio = local_small_step_counter / small_step_nmbr`, and the counter goes up by one. -/
def push_averaged (small_step_nmbr : Nat) (qzi_to_perm prev_flux : ArrayXd) :
    ℚ → List BaseFluxContainer_FluxMainStep → Option (List BaseFluxContainer_FluxMainStep)
  | _, [] => some []
  | _, [last] => some [last]
  | local_small_step_counter, it :: next :: rest => do
    let ratio : ℚ := local_small_step_counter / (small_step_nmbr : ℚ)
    let data ← (VectorXd.scale ratio qzi_to_perm).add (VectorXd.scale (1 - ratio) prev_flux)
    let it1 ← it.push_coef data
    let rest1 ←
      push_averaged small_step_nmbr qzi_to_perm prev_flux (local_small_step_counter + 1)
        (next :: rest)
    pure (it1 :: rest1)

/-- The body of `push_coef(args...)` once `qzi_to_perm = flux_ptr->calc_coef(args...)` is
evaluated: the last element receives the raw sample, the others the averaged ones, and
the sample becomes `prev_flux`. -/
def push_sample (m : BaseFluxContainerMainStep) (qzi_to_perm : ArrayXd) :
    Option BaseFluxContainerMainStep := do
  let back ← m.flux_set.getLast?
  let back1 ← back.push_coef qzi_to_perm
  let flux_set1 := m.flux_set.dropLast ++ [back1]
  let flux_set2 ← push_averaged m.small_step_nmbr qzi_to_perm m.prev_flux 1 flux_set1
  pure { m with flux_set := flux_set2, prev_flux := qzi_to_perm }

/-- The member `push_coef(cur_qzi, perm)` of `BaseWellFluxMainStep`. -/
def push_coef_well (m : BaseFluxContainerMainStep) (cur_qzi perm : Nat → ℚ) :
    Option BaseFluxContainerMainStep := do
  let ptr ← m.flux_ptr
  m.push_sample (ptr.calc_coef_well cur_qzi perm)

/-- The member `push_coef(cur_qzf, value)` of `BaseFracFluxMainStep`. -/
def push_coef_frac (m : BaseFluxContainerMainStep) (cur_qzf : Nat → ℚ) (value : ℚ) :
    Option BaseFluxContainerMainStep := do
  let ptr ← m.flux_ptr
  m.push_sample (ptr.calc_coef_frac cur_qzf value)

/-- The state after the member `extract()`. -/
def extract_state (m : BaseFluxContainerMainStep) : BaseFluxContainerMainStep :=
  if m.main_step_counter < m.main_step_nmbr then
    { m with
      main_step_counter := size_add m.main_step_counter 1
      flux_set := m.flux_set.map BaseFluxContainer_FluxMainStep.extract }
  else m.switch_fluxContainer

/-- The member `extract()`: the new state and the returned `*flux_ptr`. -/
def extract (m : BaseFluxContainerMainStep) :
    Option (BaseFluxContainerMainStep × BaseFluxContainer_FluxMainStep) :=
  m.extract_state.flux_ptr.map (fun view => (m.extract_state, view))

/-- The member `operator()(nt, segm_id)`. -/
def operator_call_time (m : BaseFluxContainerMainStep) (nt segm_id : Nat) : Option ℚ :=
  if size_sub nt 1 < m.main_step_nmbr then
    m.flux_set.getLast?.bind (fun back => back.operator_call_time nt segm_id)
  else
    (m.flux_set[(size_sub (size_sub nt 1) m.main_step_nmbr) % m.small_step_nmbr]?).bind
      (fun child => child.operator_call.bind (fun live => live.get? segm_id))

end BaseFluxContainerMainStep

/-! ## CommonFluxMulti.h -/

/-- The struct `CommonFluxMulti<FluxConstStep, Flux_t, array_size>`: the flux container
it derives from and the array of results. The `array_size` of the template is the length
of the array of kernels given to `convolve`. -/
structure CommonFluxMulti extends BaseFluxContainer where
  convolved_data_vector : List VectorXd

namespace CommonFluxMulti

/-- The constructor `CommonFluxMulti(convDesc)`: `array_size` empty result vectors. -/
def new (array_size : Nat) (convDesc : FluxConstStep) : CommonFluxMulti :=
  { toBaseFluxContainer := BaseFluxContainer.new convDesc
    convolved_data_vector := List.replicate array_size (VectorXd.Zero 0) }

/-- The loop of `convolve`: `convolved_data_vector[id] = data.convolve(kernels[id])` for
`id = 0, 1, ...`; each kernel comes back with its moved extractor. -/
def convolve_loop (data : BaseFluxContainer) :
    List BaseKernel → Option (List BaseKernel × List VectorXd)
  | [] => some ([], [])
  | kernel :: rest =>
    (data.convolve kernel).bind (fun r =>
      (convolve_loop data rest).bind (fun rs => some (r.1 :: rs.1, r.2 :: rs.2)))

/-- The member `convolve(kernels)`: one `extract()` of the base class, then the loop. The
container, the kernels and the returned array of results. -/
def convolve (c : CommonFluxMulti) (kernels : List BaseKernel) :
    Option (CommonFluxMulti × List BaseKernel × List VectorXd) :=
  let data := c.toBaseFluxContainer.extract
  (convolve_loop data kernels).bind (fun rs =>
    some ({ toBaseFluxContainer := data, convolved_data_vector := rs.2 }, rs.1, rs.2))

end CommonFluxMulti

/-! ## FracFlux.h and the class MultipleFracturesContainer of ConvolutionDefines.h -/

/-- The class `BaseFracFlux<FluxConstStep>`: `BaseFluxContainer` with one more `push_coef`. -/
abbrev BaseFracFlux := BaseFluxContainer

namespace BaseFracFlux

/-- The member `calc_coef(cur_qzf, value)`: the first `spatial_size` entries of `cur_qzf`,
divided by `value`. -/
def calc_coef (c : BaseFracFlux) (cur_qzf : Nat → ℚ) (value : ℚ) : ArrayXd :=
  { size := c.allocator.pusher.spatial_size, coeff := fun i => cur_qzf i / value }

/-- The member `push_coef(cur_qzf, value)`. -/
def push_coef (c : BaseFracFlux) (cur_qzf : Nat → ℚ) (value : ℚ) : Option BaseFracFlux :=
  let c1 := BaseFluxContainer.on_push c
  (c1.flux.setSegment c1.allocator.pusher.idx_begin c1.allocator.pusher.spatial_size
      (calc_coef c1 cur_qzf value)).bind
    (fun flux => some { c1 with flux := flux })

end BaseFracFlux

/-- The class `MultipleFracturesContainer<data_type>`. -/
structure MultipleFracturesContainer (data_type : Type) where
  data : List data_type
  frac_count : Nat
  cur_frac_id : Nat
  need_advance : Bool

/-- The constructor `MultipleFracturesContainer(frac_count)`. -/
def MultipleFracturesContainer.new (data_type : Type) (frac_count : Nat) :
    MultipleFracturesContainer data_type :=
  { data := [], frac_count := frac_count, cur_frac_id := 0, need_advance := false }

/-- The class `FracturesFluxContainer_t<FluxConstStep, BaseFracFlux>`. -/
structure FracturesFluxContainer_t extends MultipleFracturesContainer BaseFracFlux where
  convolved_data : VectorXd

namespace FracturesFluxContainer_t

/-- The constructor `FracturesFluxContainer_t(vec_convDesc)`: one child per descriptor. -/
def new (vec_convDesc : List FluxConstStep) : FracturesFluxContainer_t :=
  { toMultipleFracturesContainer :=
      { MultipleFracturesContainer.new BaseFracFlux vec_convDesc.length with
        data := vec_convDesc.map BaseFluxContainer.new }
    convolved_data := VectorXd.Zero 0 }

/-- The member `push_coef(cur_qzf, value)`; `data[cur_frac_id]` out of range is undefined
in C++ and gives no result here. -/
def push_coef (c : FracturesFluxContainer_t) (cur_qzf : Nat → ℚ) (value : ℚ) :
    Option FracturesFluxContainer_t :=
  (c.data[c.cur_frac_id]?).bind (fun child =>
    (BaseFracFlux.push_coef child cur_qzf value).bind (fun child1 =>
      some { c with
        data := c.data.set c.cur_frac_id child1
        need_advance := true
        cur_frac_id := (size_add 1 c.cur_frac_id) % c.frac_count }))

/-- A sequence of `push_coef` calls, one per pair `(cur_qzf, value)`. -/
def push_coefs (c : FracturesFluxContainer_t) :
    List ((Nat → ℚ) × ℚ) → Option FracturesFluxContainer_t
  | [] => some c
  | args :: rest => (c.push_coef args.1 args.2).bind (fun c1 => c1.push_coefs rest)

end FracturesFluxContainer_t

/-- The fractures container `c` reached from `c0` by `k` calls of `push_coef`, every child
of `c0` having room for `m` more samples: the constants are those of `c0`, the cursor is
`k mod frac_count`, the flag is set after the first call, and child `f` has received
`k / frac_count` samples, one more when `f < k mod frac_count`. -/
def FracturesFluxContainer_t.Pushed (c0 : FracturesFluxContainer_t) (m k : Nat)
    (c : FracturesFluxContainer_t) : Prop :=
  c.frac_count = c0.frac_count ∧ c.data.length = c0.data.length ∧
  c.cur_frac_id = k % c0.frac_count ∧ (1 ≤ k → c.need_advance = true) ∧
  ∀ (f : Nat) (child0 : BaseFracFlux), c0.data[f]? = some child0 →
    ∃ (child : BaseFracFlux) (S T : Nat) (us : List VectorXd),
      c.data[f]? = some child ∧ BaseFluxContainer.Stores S T us child ∧ S * T < SIZE_MOD ∧
      us.length + m ≤ T + (k / c0.frac_count + if f < k % c0.frac_count then 1 else 0) ∧
      child.allocator.pusher =
        OnPushFluxConstStep.on_push^[k / c0.frac_count + if f < k % c0.frac_count then 1 else 0]
          child0.allocator.pusher ∧
      child.allocator.extractor = child0.allocator.extractor

/-! ## Calls that may throw -/

/-- What a call that may throw leaves behind: the objects it works on, as they are when
it returns or throws, and the returned value, `none` when it threw. -/
structure Outcome (σ α : Type) where
  state : σ
  value : Option α

/-! ## More Eigen operations -/

/-- The array `ArrayXd::Map(data, n)` over a buffer. -/
def VectorXd.Map (data : Nat → ℚ) (n : Nat) : VectorXd := { size := n, coeff := data }

namespace MatrixXd

/-- The array `ArrayXXd::Map(data, rows, cols)` over a column-major buffer. -/
def Map (data : Nat → ℚ) (rows cols : Nat) : MatrixXd :=
  { rows := rows, cols := cols, coeff := fun r c => data (r + c * rows) }

/-- The product `a.colwise() * v`: every column of `a` times `v`, entry by entry; Eigen
asserts that `v` has as many entries as `a` has rows. -/
def colwiseMul (a : MatrixXd) (v : VectorXd) : Option MatrixXd :=
  if v.size = a.rows then some { a with coeff := fun r c => a.coeff r c * v.coeff r }
  else none

/-- The update `m.middleCols(start, n) += block`; Eigen asserts the range and that the
two sides have the same dimensions. -/
def addMiddleCols (m : MatrixXd) (start n : Nat) (block : MatrixXd) : Option MatrixXd :=
  if start + n ≤ m.cols ∧ block.rows = m.rows ∧ block.cols = n then
    some { m with
      coeff := fun r c =>
        if start ≤ c ∧ c < start + n then m.coeff r c + block.coeff r (c - start)
        else m.coeff r c }
  else none

end MatrixXd

/-! ## FracKernel.h, instantiated at the ConstStep kernel allocator -/

/-- The class `FracKernel<KernelConstStep>`: `BaseKernel` with more members and no more
fields. -/
abbrev FracKernel := BaseKernel

namespace FracKernel

/-- The constructor `FracKernel(nodesCount, convDesc)`. -/
def new (nodesCount : Nat) (convDesc : KernelConstStep) (garbage : Nat → Nat → ℚ) :
    FracKernel :=
  BaseKernel.new nodesCount convDesc garbage

/-- The member `push_coef(R_data, U_data)`. Eigen's move assignment
`P_prev = std::move(P_cur)` exchanges the two arrays. -/
def push_coef (k : FracKernel) (R_data U_data : Nat → ℚ) : Option FracKernel :=
  let P_cur := MatrixXd.Map U_data (BaseKernel.block_height k) (BaseKernel.block_width k)
  (P_cur.sub k.P_prev).bind (fun diff =>
    (diff.colwiseMul (VectorXd.Map R_data (BaseKernel.block_height k))).bind (fun block =>
      (k.Kernel.addMiddleCols (BaseKernel.block_stride_in_row k) (BaseKernel.block_width k)
          block).bind
        (fun Kernel =>
          some
            { k with
              Kernel := Kernel
              P_prev := P_cur
              P_cur := k.P_prev
              allocator :=
                { k.allocator with
                  pusher := { k.allocator.pusher with need_advance := true } } })))

/-- The member `push_coef_prev(U_data)`. -/
def push_coef_prev (k : FracKernel) (U_data : Nat → ℚ) : FracKernel :=
  { k with
    P_prev := MatrixXd.Map U_data (BaseKernel.block_height k) (BaseKernel.block_width k)
    allocator :=
      { k.allocator with pusher := { k.allocator.pusher with need_advance := true } } }

/-- The member `advance()`. -/
def advance (k : FracKernel) : FracKernel := BaseKernel.on_advance k

/-- The member `reset_kernel()`. -/
def reset_kernel (k : FracKernel) : FracKernel :=
  { k with Kernel := MatrixXd.Zero k.Kernel.rows k.Kernel.cols }

end FracKernel

/-- The class `FracKernelContainer<KernelConstStep>`. -/
structure FracKernelContainer extends MultipleFracturesContainer FracKernel where
  nt : Nat

namespace FracKernelContainer

/-- The constructor `FracKernelContainer(vec_convDesc, nodesCount)`; `garbage frac` is
what the memory of the kernel matrix of fracture `frac` holds. -/
def new (vec_convDesc : List KernelConstStep) (nodesCount : Nat)
    (garbage : Nat → Nat → Nat → ℚ) : FracKernelContainer :=
  { toMultipleFracturesContainer :=
      { MultipleFracturesContainer.new FracKernel vec_convDesc.length with
        data :=
          (List.range vec_convDesc.length).zipWith
            (fun frac convDesc => FracKernel.new nodesCount convDesc (garbage frac))
            vec_convDesc }
    nt := 0 }

/-- The member `on_push_coef()` of `MultipleFracturesContainer`. -/
def on_push_coef (c : FracKernelContainer) : FracKernelContainer :=
  { c with need_advance := true }

/-- The member `push_coef(R_data, U_data)`; `data[cur_frac_id]` out of range is undefined
in C++ and gives no result here. -/
def push_coef (c : FracKernelContainer) (R_data U_data : Nat → ℚ) :
    Option FracKernelContainer :=
  (c.data[c.cur_frac_id]?).bind (fun child =>
    (FracKernel.push_coef child R_data U_data).bind (fun child1 =>
      some (on_push_coef { c with data := c.data.set c.cur_frac_id child1 })))

/-- The member `push_coef_prev(U_data)`. -/
def push_coef_prev (c : FracKernelContainer) (U_data : Nat → ℚ) : Option FracKernelContainer :=
  (c.data[c.cur_frac_id]?).bind (fun child =>
    some
      (on_push_coef
        { c with data := c.data.set c.cur_frac_id (FracKernel.push_coef_prev child U_data) }))

/-- The member `reset_kernel()`. -/
def reset_kernel (c : FracKernelContainer) : Option FracKernelContainer :=
  (c.data[c.cur_frac_id]?).bind (fun child =>
    some { c with data := c.data.set c.cur_frac_id (FracKernel.reset_kernel child) })

/-- The member `advance()`. -/
def advance (c : FracKernelContainer) : FracKernelContainer :=
  { c with data := c.data.map FracKernel.advance, need_advance := false }

/-- The member `push_done()`. -/
def push_done (c : FracKernelContainer) : FracKernelContainer :=
  { c with
    nt := size_add c.nt 1
    cur_frac_id := (size_add 1 c.cur_frac_id) % c.frac_count }

/-- The member `Irs(frac_id, frac_node, l, nt)`. -/
def Irs (c : FracKernelContainer) (frac_id frac_node l nt : Nat) : Option ℚ :=
  (c.data[frac_id]?).bind (fun child => BaseKernel.operator_call_time child l frac_node nt)

end FracKernelContainer

/-! ## FracFlux.h: the convolution of the fractures container -/

namespace FracturesFluxContainer_t

/-- The member `is_correct_state()`: throws when `cur_frac_id != 0`. -/
def is_correct_state (c : FracturesFluxContainer_t) : Option Unit :=
  if c.cur_frac_id ≠ 0 then none else some ()

/-- One term `data[frac_id].extract().convolve(kernels[frac_id])`. The child is extracted
first. A term that fails leaves the kernel as it was: the exception of the kernel's
`is_correct_state` comes before its `on_extract`, and an Eigen assertion ends the
program. -/
def convolve_term (c : FracturesFluxContainer_t) (kernels : List FracKernel) (frac_id : Nat) :
    Outcome (FracturesFluxContainer_t × List FracKernel) VectorXd :=
  match c.data[frac_id]?, kernels[frac_id]? with
  | some child, some kernel =>
    let child1 := BaseFluxContainer.extract child
    let c1 : FracturesFluxContainer_t := { c with data := c.data.set frac_id child1 }
    match BaseFluxContainer.convolve child1 kernel with
    | some (kernel1, out) => { state := (c1, kernels.set frac_id kernel1), value := some out }
    | none => { state := (c1, kernels), value := none }
  | _, _ => { state := (c, kernels), value := none }

/-- The loop `for (frac_id = 1; frac_id < frac_count; ++frac_id) convolved_data += ...` of
`convolve`, with `fuel` passes left; then `return convolved_data`. -/
def convolve_loop :
    Nat → Nat → FracturesFluxContainer_t → List FracKernel →
      Outcome (FracturesFluxContainer_t × List FracKernel) VectorXd
  | 0, _, c, kernels => { state := (c, kernels), value := some c.convolved_data }
  | fuel + 1, frac_id, c, kernels =>
    match convolve_term c kernels frac_id with
    | { state := s, value := none } => { state := s, value := none }
    | { state := (c1, kernels1), value := some out } =>
      match c1.convolved_data.add out with
      | none => { state := (c1, kernels1), value := none }
      | some total =>
        convolve_loop fuel (frac_id + 1) { c1 with convolved_data := total } kernels1

/-- The member `convolve(kernels)`: the gate `is_correct_state()`, the first term, then
the loop. -/
def convolve (c : FracturesFluxContainer_t) (kernels : List FracKernel) :
    Outcome (FracturesFluxContainer_t × List FracKernel) VectorXd :=
  match c.is_correct_state with
  | none => { state := (c, kernels), value := none }
  | some _ =>
    match convolve_term c kernels 0 with
    | { state := s, value := none } => { state := s, value := none }
    | { state := (c1, kernels1), value := some out } =>
      convolve_loop (c.frac_count - 1) 1 { c1 with convolved_data := out } kernels1

end FracturesFluxContainer_t

/-- One call on a fracture kernel container: `push_coef(R_data, U_data)`,
`push_coef_prev(U_data)` or `push_done()`. -/
inductive FracKernelCall where
  | push_coef (R_data U_data : Nat → ℚ)
  | push_coef_prev (U_data : Nat → ℚ)
  | push_done

/-- The number of `push_done()` calls in a sequence. -/
def FracKernelCall.done_count : List FracKernelCall → Nat
  | [] => 0
  | FracKernelCall.push_done :: rest => done_count rest + 1
  | _ :: rest => done_count rest

/-- One call on the container. -/
def FracKernelContainer.call (c : FracKernelContainer) :
    FracKernelCall → Option FracKernelContainer
  | FracKernelCall.push_coef R_data U_data => c.push_coef R_data U_data
  | FracKernelCall.push_coef_prev U_data => c.push_coef_prev U_data
  | FracKernelCall.push_done => some c.push_done

/-- A sequence of calls on the container, in order. -/
def FracKernelContainer.run (c : FracKernelContainer) :
    List FracKernelCall → Option FracKernelContainer
  | [] => some c
  | x :: rest => (c.call x).bind (fun c1 => c1.run rest)

/-! ## BaseKernel.h at the MixStep kernel allocator, and WellKernelMixStep.h -/

/-- The class `BaseKernel<KernelMixStep>` (with `BaseKernelFile` and
`AdvancedWellKernel`, which add no field): the members of `BaseKernel` over the MixStep
kernel allocator. -/
structure BaseKernel_KernelMixStep where
  Kernel : MatrixXd
  P_prev : ArrayXXd
  P_cur : ArrayXXd
  F : ArrayXXd
  grid_nodes_count : Nat
  allocator : KernelMixStep

namespace BaseKernel_KernelMixStep

def on_advance (k : BaseKernel_KernelMixStep) : BaseKernel_KernelMixStep :=
  { k with allocator := { k.allocator with pusher := k.allocator.pusher.on_push } }

def block_height (k : BaseKernel_KernelMixStep) : Nat := k.grid_nodes_count

def block_width (k : BaseKernel_KernelMixStep) : Nat := k.allocator.pusher.spatial_size

def block_stride_in_row (k : BaseKernel_KernelMixStep) : Nat := k.allocator.pusher.idx_end

def allocate_P_cur (k : BaseKernel_KernelMixStep) : BaseKernel_KernelMixStep :=
  { k with P_cur := MatrixXd.Zero k.block_height k.block_width }

/-- The constructor `BaseKernel(nodesCount, convDesc)`; `garbage` is what the memory of
the kernel matrix holds. -/
def new (nodesCount : Nat) (convDesc : KernelMixStep) (garbage : Nat → Nat → ℚ) :
    BaseKernel_KernelMixStep :=
  let k : BaseKernel_KernelMixStep :=
    { Kernel :=
        { rows := nodesCount, cols := convDesc.pusher.allocated_memory, coeff := garbage }
      grid_nodes_count := nodesCount
      allocator := convDesc
      P_prev := MatrixXd.Zero 0 0
      P_cur := MatrixXd.Zero 0 0
      F := MatrixXd.Zero 0 0 }
  let k1 : BaseKernel_KernelMixStep :=
    { k with
      P_prev := MatrixXd.Zero k.block_height k.block_width
      F := MatrixXd.Ones k.block_height k.block_width }
  k1.allocate_P_cur

/-- The member `advance()` of `BaseKernel`. -/
def advance (k : BaseKernel_KernelMixStep) : Option BaseKernel_KernelMixStep :=
  (k.P_cur.sub k.P_prev).bind (fun diff =>
    (k.F.cwiseMul diff).bind (fun block =>
      (k.Kernel.setMiddleCols k.block_stride_in_row k.block_width block).bind (fun Kernel =>
        let k1 : BaseKernel_KernelMixStep := { k with Kernel := Kernel, P_prev := k.P_cur }
        some k1.allocate_P_cur.on_advance)))

end BaseKernel_KernelMixStep

/-- The specialisation `WellKernel<KernelMixStep>`. The vector `Pcur_cache` is its
elements and its capacity. -/
structure WellKernel_KernelMixStep extends BaseKernel_KernelMixStep where
  Pcur_cache : List ArrayXXd
  Pcur_cache_capacity : Nat
  get_Pcur_idx : Nat
  small_step_nmbr_per_main_step : Nat
  small_step_counter_within_main_step : Nat

namespace WellKernel_KernelMixStep

/-- The constructor `WellKernel(nodesCount, convDesc)`. The call
`Pcur_cache.reserve(convDesc.M)` on the empty vector leaves the capacity `convDesc.M`. -/
def new (nodesCount : Nat) (convDesc : KernelMixStep) (garbage : Nat → Nat → ℚ) :
    WellKernel_KernelMixStep :=
  { toBaseKernel_KernelMixStep := BaseKernel_KernelMixStep.new nodesCount convDesc garbage
    get_Pcur_idx := 0
    small_step_nmbr_per_main_step := size_sub convDesc.small_step_nmbr_per_main_step 1
    small_step_counter_within_main_step := 0
    Pcur_cache := []
    Pcur_cache_capacity := convDesc.M }

/-- The member `push_Pcur(matrix)`: throws when the vector is full, else `push_back`,
which does not reallocate below the capacity. -/
def push_Pcur (k : WellKernel_KernelMixStep) (matrix : ArrayXXd) :
    Outcome WellKernel_KernelMixStep Unit :=
  if k.Pcur_cache_capacity = k.Pcur_cache.length then { state := k, value := none }
  else { state := { k with Pcur_cache := k.Pcur_cache ++ [matrix] }, value := some () }

/-- The calls `push_Pcur(matrix)` for the listed matrices, in order, up to the first one
that throws. -/
def push_Pcurs (k : WellKernel_KernelMixStep) :
    List ArrayXXd → Outcome WellKernel_KernelMixStep Unit
  | [] => { state := k, value := some () }
  | matrix :: rest =>
    match k.push_Pcur matrix with
    | { state := k1, value := some _ } => push_Pcurs k1 rest
    | { state := k1, value := none } => { state := k1, value := none }

end WellKernel_KernelMixStep

/-- Two memory descriptors report the same `spatial_size()`, `temporal_size()` and
`allocated_memory()`. -/
def MemoryDesc.same_sizes (a b : MemoryDesc) : Prop :=
  a.spatial_size = b.spatial_size ∧ a.temporal_size = b.temporal_size ∧
    a.allocated_memory = b.allocated_memory

/-! ## Regimes/ConstStep.h -/

/-- The struct `ConstStepWell<WellFluxCount>`: its two bases, the kernel allocator pair and
the flux allocator pair. -/
structure ConstStepWell where
  Kernel : KernelConstStep
  Flux : FluxConstStep

/-- The constructor `ConstStepWell(spatial_size, frame_temporal_size, temporal_size)`. -/
def ConstStepWell.new (spatial_size frame_temporal_size temporal_size : Nat) : ConstStepWell :=
  { Kernel := KernelConstStep.new spatial_size frame_temporal_size
    Flux := FluxConstStep.new spatial_size temporal_size frame_temporal_size }

/-! ## BaseFluxContainer.h, instantiated at the MixStep flux allocator -/

/-- The class `BaseFluxContainer<FluxMixStep>` with its base `CommonBase`. -/
structure BaseFluxContainer_FluxMixStep where
  allocator : FluxMixStep
  flux : VectorXd

namespace BaseFluxContainer_FluxMixStep

def on_push (c : BaseFluxContainer_FluxMixStep) : BaseFluxContainer_FluxMixStep :=
  { c with allocator := { c.allocator with pusher := c.allocator.pusher.on_push } }

def on_extract (c : BaseFluxContainer_FluxMixStep) : BaseFluxContainer_FluxMixStep :=
  { c with allocator := { c.allocator with extractor := c.allocator.extractor.on_extract } }

/-- The constructor `BaseFluxContainer(convDesc)`. -/
def new (convDesc : FluxMixStep) : BaseFluxContainer_FluxMixStep :=
  { allocator := convDesc, flux := VectorXd.Zero convDesc.pusher.allocated_memory }

def rows (c : BaseFluxContainer_FluxMixStep) : Nat :=
  c.allocator.extractor.current_window_size

/-- The member `operator()()`: the live sub-vector. -/
def operator_call (c : BaseFluxContainer_FluxMixStep) : Option VectorXd :=
  c.flux.segment c.allocator.extractor.idx_begin c.rows

/-- The member `extract()`. -/
def extract (c : BaseFluxContainer_FluxMixStep) : BaseFluxContainer_FluxMixStep :=
  c.on_extract

/-- The member `push_coef(data)`. -/
def push_coef (c : BaseFluxContainer_FluxMixStep) (data : VectorXd) :
    Option BaseFluxContainer_FluxMixStep := do
  let c1 := c.on_push
  let flux ← c1.flux.setSegment c1.allocator.pusher.idx_begin c1.allocator.pusher.spatial_size data
  pure { c1 with flux := flux }

end BaseFluxContainer_FluxMixStep

namespace WellKernel_KernelMixStep

/-- The first statement of `advance()`: when the small-step counter is a multiple of
`small_step_nmbr_per_main_step`, the next cached matrix is consumed, and the exception is
thrown, before anything is changed, when there is none. -/
def advance_cache (k : WellKernel_KernelMixStep) : Option WellKernel_KernelMixStep :=
  if k.small_step_counter_within_main_step % k.small_step_nmbr_per_main_step = 0 then
    if k.get_Pcur_idx = k.Pcur_cache.length then none
    else some { k with get_Pcur_idx := size_add k.get_Pcur_idx 1 }
  else some k

/-- The member `advance()`: the state the call leaves and whether it returned. The
exception leaves the object as it was; a failed Eigen assertion inside
`BaseKernel::advance()` comes after the counters have moved. The operator `%` with a zero
`small_step_nmbr_per_main_step` is undefined in C++; here it is the `%` of `Nat`, and what
is proved assumes `1 ≤ small_step_nmbr_per_main_step`. -/
def advance (k : WellKernel_KernelMixStep) : Outcome WellKernel_KernelMixStep Unit :=
  match k.advance_cache with
  | none => { state := k, value := none }
  | some k1 =>
    let k2 : WellKernel_KernelMixStep :=
      { k1 with
        small_step_counter_within_main_step :=
          (size_add k1.small_step_counter_within_main_step 1) %
            k1.small_step_nmbr_per_main_step }
    match k2.toBaseKernel_KernelMixStep.advance with
    | none => { state := k2, value := none }
    | some b => { state := { k2 with toBaseKernel_KernelMixStep := b }, value := some () }

/-- The calls `advance()`, `a` times in a row, up to the first one that does not
return. -/
def advances (k : WellKernel_KernelMixStep) : Nat → Outcome WellKernel_KernelMixStep Unit
  | 0 => { state := k, value := some () }
  | a + 1 =>
    match k.advance with
    | { state := k1, value := some _ } => advances k1 a
    | { state := k1, value := none } => { state := k1, value := none }

end WellKernel_KernelMixStep

/-- The dimensions of a `BaseKernel<KernelMixStep>` with `G` nodes, blocks of width `S`
and `C ≥ S` kernel columns. -/
def BaseKernel_KernelMixStep.Shape (G S C : Nat) (k : BaseKernel_KernelMixStep) : Prop :=
  (k.Kernel.rows = G ∧ k.Kernel.cols = C) ∧ (k.P_prev.rows = G ∧ k.P_prev.cols = S) ∧
    (k.P_cur.rows = G ∧ k.P_cur.cols = S) ∧ (k.F.rows = G ∧ k.F.cols = S) ∧
    k.grid_nodes_count = G ∧ k.allocator.pusher.its_spatial_size = S ∧ S ≤ C

/-- The state of a `WellKernel<KernelMixStep>` with `N` counted small steps per main step
after `a` calls of `advance()` that returned: the counter is `a mod N` and the number of
consumed cache entries is `a / N` rounded up. -/
def WellKernel_KernelMixStep.Advanced (G S C N a : Nat) (k : WellKernel_KernelMixStep) : Prop :=
  BaseKernel_KernelMixStep.Shape G S C k.toBaseKernel_KernelMixStep ∧
    k.small_step_nmbr_per_main_step = N ∧
    k.small_step_counter_within_main_step = a % N ∧
    k.get_Pcur_idx = (a + N - 1) / N

/-- One call on a `BaseFluxContainerMainStep`: `push_coef(cur_qzi, perm)` of the well
flavour, `push_coef(cur_qzf, value)` of the fracture flavour, or `extract()`. -/
inductive MainStepFluxCall where
  | push_coef_well (cur_qzi perm : Nat → ℚ)
  | push_coef_frac (cur_qzf : Nat → ℚ) (value : ℚ)
  | extract

namespace BaseFluxContainerMainStep

/-- The container after one call; `none` when the call does not return. -/
def call (m : BaseFluxContainerMainStep) :
    MainStepFluxCall → Option BaseFluxContainerMainStep
  | MainStepFluxCall.push_coef_well cur_qzi perm => m.push_coef_well cur_qzi perm
  | MainStepFluxCall.push_coef_frac cur_qzf value => m.push_coef_frac cur_qzf value
  | MainStepFluxCall.extract => m.extract.map (fun r => r.1)

/-- The container after a finite sequence of calls, the first call first; `none` when one
of them does not return. -/
def run (m : BaseFluxContainerMainStep) :
    List MainStepFluxCall → Option BaseFluxContainerMainStep
  | [] => some m
  | c :: rest => (m.call c).bind (fun m1 => run m1 rest)

end BaseFluxContainerMainStep

/-! ## The state a failed push leaves in the MainStep flux container -/

/-- The member `push_coef(data)` of a child together with the state it leaves when the
assignment to the segment is refused: `on_push()` has run by then. -/
def BaseFluxContainer_FluxMainStep.push_coef_outcome (c : BaseFluxContainer_FluxMainStep)
    (data : VectorXd) : Outcome BaseFluxContainer_FluxMainStep Unit :=
  match
    c.on_push.flux.setSegment c.on_push.allocator.pusher.idx_begin
      c.on_push.allocator.pusher.spatial_size data with
  | some flux => { state := { c.on_push with flux := flux }, value := some () }
  | none => { state := c.on_push, value := none }

namespace BaseFluxContainerMainStep

/-- The loop of `push_coef` together with the children as it leaves them when it stops:
the sum `ratio * qzi_to_perm + (1.0 - ratio) * prev_flux` is built before the child's
`push_coef` is entered, so a refused sum leaves that child and the later ones
untouched. -/
def push_averaged_outcome (small_step_nmbr : Nat) (qzi_to_perm prev_flux : ArrayXd) :
    ℚ → List BaseFluxContainer_FluxMainStep →
      Outcome (List BaseFluxContainer_FluxMainStep) Unit
  | _, [] => { state := [], value := some () }
  | _, [last] => { state := [last], value := some () }
  | local_small_step_counter, it :: next :: rest =>
    match
      (VectorXd.scale (local_small_step_counter / (small_step_nmbr : ℚ)) qzi_to_perm).add
        (VectorXd.scale (1 - local_small_step_counter / (small_step_nmbr : ℚ)) prev_flux) with
    | none => { state := it :: next :: rest, value := none }
    | some data =>
      match (it.push_coef_outcome data).value with
      | none => { state := (it.push_coef_outcome data).state :: next :: rest, value := none }
      | some _ =>
        { state :=
            (it.push_coef_outcome data).state ::
              (push_averaged_outcome small_step_nmbr qzi_to_perm prev_flux
                (local_small_step_counter + 1) (next :: rest)).state
          value :=
            (push_averaged_outcome small_step_nmbr qzi_to_perm prev_flux
              (local_small_step_counter + 1) (next :: rest)).value }

/-- The body of `push_coef(args...)` together with the container as it leaves it when it
stops: the last element is pushed first, then the loop runs, and `prev_flux` is replaced
only when the loop has finished. -/
def push_sample_outcome (m : BaseFluxContainerMainStep) (qzi_to_perm : ArrayXd) :
    Outcome BaseFluxContainerMainStep Unit :=
  match m.flux_set.getLast? with
  | none => { state := m, value := none }
  | some back =>
    match (back.push_coef_outcome qzi_to_perm).value with
    | none =>
      { state :=
          { m with
            flux_set :=
              m.flux_set.dropLast ++ [(back.push_coef_outcome qzi_to_perm).state] }
        value := none }
    | some _ =>
      match
        (push_averaged_outcome m.small_step_nmbr qzi_to_perm m.prev_flux 1
          (m.flux_set.dropLast ++ [(back.push_coef_outcome qzi_to_perm).state])).value with
      | none =>
        { state :=
            { m with
              flux_set :=
                (push_averaged_outcome m.small_step_nmbr qzi_to_perm m.prev_flux 1
                  (m.flux_set.dropLast ++
                    [(back.push_coef_outcome qzi_to_perm).state])).state }
          value := none }
      | some _ =>
        { state :=
            { m with
              flux_set :=
                (push_averaged_outcome m.small_step_nmbr qzi_to_perm m.prev_flux 1
                  (m.flux_set.dropLast ++
                    [(back.push_coef_outcome qzi_to_perm).state])).state
              prev_flux := qzi_to_perm }
          value := some () }

end BaseFluxContainerMainStep

/-! # Theorems -/

/-! ## size_t arithmetic: lemmas -/

theorem size_add_of_lt {a b : Nat} (h : a + b < SIZE_MOD) : size_add a b = a + b := by
  unfold size_add
  exact Nat.mod_eq_of_lt h

theorem size_sub_of_le {a b : Nat} (hb : b ≤ a) (ha : a < SIZE_MOD) : size_sub a b = a - b := by
  unfold size_sub
  have hb2 : b % SIZE_MOD = b := Nat.mod_eq_of_lt (by omega)
  rw [hb2]
  have h3 : a + (SIZE_MOD - b) = (a - b) + SIZE_MOD := by omega
  rw [h3, Nat.add_mod_right]
  exact Nat.mod_eq_of_lt (by omega)

theorem size_mul_of_lt {a b : Nat} (h : a * b < SIZE_MOD) : size_mul a b = a * b := by
  unfold size_mul
  exact Nat.mod_eq_of_lt h

/-! ## ConstStep kernel extractor -/

/-- The state of the ConstStep kernel extractor after `n` calls of `on_extract`. -/
theorem OnGetKernelConstStep_iterate_on_extract (S T n : Nat) (hS : 1 ≤ S)
    (hST : S * T < SIZE_MOD) :
    OnGetKernelConstStep.on_extract^[n] (OnGetKernelConstStep.new (MemoryDesc.new S T)) =
      { toGetDesc := GetDesc.new { MemoryDesc.new S T with cur_temporal_window := min n T }
        its_index_end := S * min n T } := by
  induction n with
  | zero => simp [OnGetKernelConstStep.new, GetDesc.new, MemoryDesc.new]
  | succ n ih =>
    rw [Function.iterate_succ_apply', ih]
    have hT : T < SIZE_MOD := lt_of_le_of_lt (Nat.le_mul_of_pos_left T hS) hST
    by_cases h : n < T
    · have h1 : min n T = n := min_eq_left (le_of_lt h)
      have h2 : min (n + 1) T = n + 1 := min_eq_left h
      have h3 : S * n + S ≤ S * T := by
        have := Nat.mul_le_mul_left S h
        rw [Nat.mul_succ] at this
        exact this
      have h4 : S * n ≠ S * T := by omega
      simp [OnGetKernelConstStep.on_extract, OnGetKernelConstStep.is_external_boundary_time,
        OnGetKernelConstStep.idx_end, MemoryDesc.allocated_memory, MemoryDesc.spatial_size,
        GetDesc.new, MemoryDesc.new, size_mul_of_lt hST, h1, h2, h4]
      constructor
      · exact size_add_of_lt (by omega)
      · rw [size_add_of_lt (by omega), Nat.mul_succ]
    · have h1 : min n T = T := min_eq_right (by omega)
      have h2 : min (n + 1) T = T := min_eq_right (by omega)
      simp [OnGetKernelConstStep.on_extract, OnGetKernelConstStep.is_external_boundary_time,
        OnGetKernelConstStep.idx_end, MemoryDesc.allocated_memory, MemoryDesc.spatial_size,
        GetDesc.new, MemoryDesc.new, size_mul_of_lt hST, h1, h2]

/-! ## Generic lemmas on call sequences -/

theorem iterate_preserves {α : Type} (f : α → α) (P : α → Prop)
    (hstep : ∀ y, P y → P (f y)) (x : α) (h0 : P x) (n : Nat) : P (f^[n] x) := by
  induction n with
  | zero => exact h0
  | succ n ih =>
    rw [Function.iterate_succ_apply']
    exact hstep _ ih

/-- A sequence of calls acts on the pusher through its `on_push` calls only and on the
extractor through its `on_extract` calls only. -/
theorem Allocator_run_eq {Push Extract : Type} (push : Push → Push)
    (extract : Extract → Extract) (calls : List AllocatorCall) (a : Allocator Push Extract) :
    Allocator.run push extract a calls =
      { pusher := push^[calls.count AllocatorCall.on_push] a.pusher
        extractor := extract^[calls.count AllocatorCall.on_extract] a.extractor } := by
  induction calls generalizing a with
  | nil => rfl
  | cons c cs ih =>
    have h : Allocator.run push extract a (c :: cs) =
        Allocator.run push extract (Allocator.call push extract a c) cs := rfl
    rw [h, ih]
    cases c <;> simp [Allocator.call, Function.iterate_succ_apply]

/-! ## ConstStep pushers -/

theorem OnPushKernelConstStep_iterate_on_push (S T n : Nat) :
    OnPushKernelConstStep.on_push^[n] (OnPushKernelConstStep.new (MemoryDesc.new S T)) =
      { toPushDesc :=
          { toMemoryDesc := { MemoryDesc.new S T with cur_temporal_window := n % SIZE_MOD }
            need_advance := false }
        its_index_end := (n * S) % SIZE_MOD } := by
  induction n with
  | zero => simp [OnPushKernelConstStep.new, PushDesc.new, MemoryDesc.new, SIZE_MOD]
  | succ n ih =>
    rw [Function.iterate_succ_apply', ih]
    have hw : (n % 18446744073709551616 + 1) % 18446744073709551616 =
        (n + 1) % 18446744073709551616 := by omega
    have he : (n * S % 18446744073709551616 + S) % 18446744073709551616 =
        ((n + 1) * S) % 18446744073709551616 := by
      have h1 : (n + 1) * S = n * S + S := by ring
      rw [h1]
      generalize n * S = x
      omega
    simp only [OnPushKernelConstStep.on_push, MemoryDesc.spatial_size, MemoryDesc.new,
      size_add, SIZE_MOD, hw, he]

/-- The write cursor of a flux pusher after `n` decrements by `S`, while it does not
wrap. -/
theorem iterate_size_sub (S T n : Nat) (hn : n ≤ T) (hST : S * T < SIZE_MOD) :
    (fun b => size_sub b S)^[n] (S * T) = S * (T - n) := by
  induction n with
  | zero => simp
  | succ n ih =>
    rw [Function.iterate_succ_apply', ih (by omega)]
    have h1 : S * (T - n) = S * (T - (n + 1)) + S := by
      have : T - n = (T - (n + 1)) + 1 := by omega
      rw [this, Nat.mul_succ]
    have h2 : S * (T - n) ≤ S * T := Nat.mul_le_mul_left S (by omega)
    rw [size_sub_of_le (by omega) (by omega)]
    omega

theorem OnPushFluxConstStep_iterate_on_push (S T n : Nat) :
    OnPushFluxConstStep.on_push^[n] (OnPushFluxConstStep.new (MemoryDesc.new S T)) =
      { toPushDesc :=
          { toMemoryDesc := { MemoryDesc.new S T with cur_temporal_window := n % SIZE_MOD }
            need_advance := false }
        its_index_begin := (fun b => size_sub b S)^[n] (size_mul S T) } := by
  induction n with
  | zero =>
    simp [OnPushFluxConstStep.new, PushDesc.new, MemoryDesc.new, SIZE_MOD,
      MemoryDesc.allocated_memory]
  | succ n ih =>
    rw [Function.iterate_succ_apply', ih, Function.iterate_succ_apply']
    simp only [OnPushFluxConstStep.on_push, MemoryDesc.spatial_size, MemoryDesc.new,
      size_add, SIZE_MOD]
    congr 3
    omega

theorem OnPushFluxMainStep_iterate_on_push (S T n : Nat) :
    OnPushFluxMainStep.on_push^[n] (OnPushFluxMainStep.new (MemoryDesc.new S T)) =
      { toPushDesc :=
          { toMemoryDesc := { MemoryDesc.new S T with cur_temporal_window := n % SIZE_MOD }
            need_advance := false }
        its_index_begin := (fun b => size_sub b S)^[n] (size_mul S T) } := by
  induction n with
  | zero =>
    simp [OnPushFluxMainStep.new, PushDesc.new, MemoryDesc.new, SIZE_MOD,
      MemoryDesc.allocated_memory]
  | succ n ih =>
    rw [Function.iterate_succ_apply', ih, Function.iterate_succ_apply']
    simp only [OnPushFluxMainStep.on_push, MemoryDesc.spatial_size, MemoryDesc.new,
      size_add, SIZE_MOD]
    congr 3
    omega

theorem OnPushKernelMixStep_iterate_on_push (S T n : Nat) :
    OnPushKernelMixStep.on_push^[n] (OnPushKernelMixStep.new (MemoryDesc.new S T)) =
      OnPushKernelMixStep.new (MemoryDesc.new S T) := by
  induction n with
  | zero => rfl
  | succ n ih =>
    rw [Function.iterate_succ_apply', ih]
    rfl

/-! ## ConstStep flux extractor -/

theorem mul_pred_add (S k : Nat) (hk : 1 ≤ k) : S * k = S * (k - 1) + S := by
  have : k = (k - 1) + 1 := by omega
  conv_lhs => rw [this, Nat.mul_succ]

/-- The state of the ConstStep flux extractor after `n ≤ T` calls of `on_extract`. -/
theorem OnGetFluxConstStep_iterate_on_extract (S T F n : Nat) (hn : n ≤ T)
    (hT : T < SIZE_MOD) (hST : S * T < SIZE_MOD) :
    OnGetFluxConstStep.on_extract^[n] (OnGetFluxConstStep.new (MemoryDesc.new S T) F) =
      { toGetDesc := GetDesc.new { MemoryDesc.new S T with cur_temporal_window := min n F }
        its_index_begin := S * (T - n)
        its_index_end := S * (T - (n - F))
        frame_temporal_size := F } := by
  induction n with
  | zero =>
    simp [OnGetFluxConstStep.new, GetDesc.new, MemoryDesc.new, MemoryDesc.allocated_memory,
      size_mul_of_lt hST]
  | succ n ih =>
    rw [Function.iterate_succ_apply', ih (by omega)]
    have hb : S * (T - n) = S * (T - (n + 1)) + S := by
      have := mul_pred_add S (T - n) (by omega)
      rw [this]
      congr 2
    have hb2 : S * (T - n) ≤ S * T := Nat.mul_le_mul_left S (by omega)
    have hbeg : size_sub (S * (T - n)) S = S * (T - (n + 1)) := by
      rw [size_sub_of_le (by omega) (by omega)]
      omega
    by_cases h : F ≤ n
    · have h1 : min n F = F := min_eq_right h
      have h2 : min (n + 1) F = F := min_eq_right (by omega)
      have he : S * (T - (n - F)) = S * (T - (n + 1 - F)) + S := by
        have := mul_pred_add S (T - (n - F)) (by omega)
        rw [this]
        congr 2
        omega
      have he2 : S * (T - (n - F)) ≤ S * T := Nat.mul_le_mul_left S (by omega)
      have hend : size_sub (S * (T - (n - F))) S = S * (T - (n + 1 - F)) := by
        rw [size_sub_of_le (by omega) (by omega)]
        omega
      simp [OnGetFluxConstStep.on_extract, OnGetFluxConstStep.is_external_boundary_time,
        MemoryDesc.spatial_size, GetDesc.new, MemoryDesc.new, h1, h2, hbeg, hend]
    · have h1 : min n F = n := min_eq_left (by omega)
      have h2 : min (n + 1) F = n + 1 := min_eq_left (by omega)
      have h3 : n ≠ F := by omega
      have h4 : n + 1 - F = 0 := by omega
      have h5 : n - F = 0 := by omega
      have hw : size_add n 1 = n + 1 := size_add_of_lt (by omega)
      simp [OnGetFluxConstStep.on_extract, OnGetFluxConstStep.is_external_boundary_time,
        MemoryDesc.spatial_size, GetDesc.new, MemoryDesc.new, h1, h2, h3, h4, h5, hbeg, hw]

/-- The counter of the ConstStep flux extractor never passes `frame_temporal_size`, and
`on_extract` changes neither the sizes nor `frame_temporal_size`. -/
theorem OnGetFluxConstStep_on_extract_window (g : OnGetFluxConstStep)
    (h : g.cur_temporal_window ≤ g.frame_temporal_size) :
    g.on_extract.cur_temporal_window ≤ g.on_extract.frame_temporal_size ∧
      g.on_extract.frame_temporal_size = g.frame_temporal_size ∧
      g.on_extract.its_temporal_size = g.its_temporal_size ∧
      g.on_extract.its_spatial_size = g.its_spatial_size ∧
      g.on_extract.its_allocated_memory = g.its_allocated_memory := by
  unfold OnGetFluxConstStep.on_extract OnGetFluxConstStep.is_external_boundary_time
  by_cases hb : g.cur_temporal_window = g.frame_temporal_size
  · simp [hb]
  · simp only [beq_iff_eq, hb, if_false, size_add, and_self, and_true]
    have := Nat.mod_le (g.cur_temporal_window + 1) SIZE_MOD
    omega

/-! ## The ConstStep extractors: closed forms of the cursors -/

/-- C3. ConstStep kernel extractor over `MemoryDesc(S, T)` with `1 ≤ S` (and `S * T`
representable as a `size_t`): at construction `idx_begin = idx_end = 0`; after `n`
calls of `on_extract`, for any `n`, `idx_begin = 0`, `idx_end = S * min n T` and
`cur_temporal_window = min n T`; `idx_end` does not decrease on a further call, never
exceeds `S * T`, and once `idx_end = S * T` a call of `on_extract` changes nothing. -/
theorem OnGetKernelConstStep_extractor_contract (S T n : Nat) (hS : 1 ≤ S)
    (hST : S * T < SIZE_MOD) :
    ((OnGetKernelConstStep.new (MemoryDesc.new S T)).idx_begin = 0 ∧
      (OnGetKernelConstStep.new (MemoryDesc.new S T)).idx_end = 0) ∧
    ((OnGetKernelConstStep.on_extract^[n]
        (OnGetKernelConstStep.new (MemoryDesc.new S T))).idx_begin = 0 ∧
      (OnGetKernelConstStep.on_extract^[n]
        (OnGetKernelConstStep.new (MemoryDesc.new S T))).idx_end = S * min n T ∧
      (OnGetKernelConstStep.on_extract^[n]
        (OnGetKernelConstStep.new (MemoryDesc.new S T))).cur_temporal_window = min n T) ∧
    (OnGetKernelConstStep.on_extract^[n]
        (OnGetKernelConstStep.new (MemoryDesc.new S T))).idx_end ≤
      (OnGetKernelConstStep.on_extract^[n + 1]
        (OnGetKernelConstStep.new (MemoryDesc.new S T))).idx_end ∧
    (OnGetKernelConstStep.on_extract^[n]
        (OnGetKernelConstStep.new (MemoryDesc.new S T))).idx_end ≤ S * T ∧
    ((OnGetKernelConstStep.on_extract^[n]
        (OnGetKernelConstStep.new (MemoryDesc.new S T))).idx_end = S * T →
      (OnGetKernelConstStep.on_extract^[n]
        (OnGetKernelConstStep.new (MemoryDesc.new S T))).on_extract =
      OnGetKernelConstStep.on_extract^[n] (OnGetKernelConstStep.new (MemoryDesc.new S T))) := by
  rw [OnGetKernelConstStep_iterate_on_extract S T (n + 1) hS hST,
    OnGetKernelConstStep_iterate_on_extract S T n hS hST]
  refine ⟨⟨rfl, rfl⟩, ⟨rfl, rfl, rfl⟩, ?_, ?_, ?_⟩
  · exact Nat.mul_le_mul_left S (min_le_min_right T (Nat.le_succ n))
  · exact Nat.mul_le_mul_left S (min_le_right n T)
  · intro h
    simp only [OnGetKernelConstStep.idx_end] at h
    simp [OnGetKernelConstStep.on_extract, OnGetKernelConstStep.is_external_boundary_time,
      OnGetKernelConstStep.idx_end, MemoryDesc.allocated_memory, GetDesc.new, MemoryDesc.new,
      size_mul_of_lt hST, h]

theorem OnGetKernelConstStep_extractor_contract_witness :
    (1 ≤ 2 ∧ 2 * 3 < SIZE_MOD) ∧
      (OnGetKernelConstStep.on_extract^[5]
        (OnGetKernelConstStep.new (MemoryDesc.new 2 3))).idx_end = 2 * min 5 3 :=
  ⟨by decide,
    (OnGetKernelConstStep_extractor_contract 2 3 5 (by decide) (by decide)).2.1.2.1⟩

/-- C4. ConstStep flux extractor over `MemoryDesc(S, T)` with frame size `F` (`T` and
`S * T` representable as a `size_t`): at construction `idx_begin = idx_end = S * T`, an
empty window; after `n ≤ T` calls of `on_extract`, `idx_begin = S * (T - n)`,
`idx_end = S * (T - max 0 (n - F))` (the subtraction `n - F` of naturals is that
maximum), `cur_temporal_window = min n F`, and the live window has size
`S * min n F`. -/
theorem OnGetFluxConstStep_extractor_contract (S T F n : Nat) (hn : n ≤ T)
    (hT : T < SIZE_MOD) (hST : S * T < SIZE_MOD) :
    ((OnGetFluxConstStep.new (MemoryDesc.new S T) F).idx_begin = S * T ∧
      (OnGetFluxConstStep.new (MemoryDesc.new S T) F).idx_end = S * T ∧
      (OnGetFluxConstStep.new (MemoryDesc.new S T) F).current_window_size = 0) ∧
    (OnGetFluxConstStep.on_extract^[n]
        (OnGetFluxConstStep.new (MemoryDesc.new S T) F)).idx_begin = S * (T - n) ∧
    (OnGetFluxConstStep.on_extract^[n]
        (OnGetFluxConstStep.new (MemoryDesc.new S T) F)).idx_end = S * (T - (n - F)) ∧
    (OnGetFluxConstStep.on_extract^[n]
        (OnGetFluxConstStep.new (MemoryDesc.new S T) F)).cur_temporal_window = min n F ∧
    (OnGetFluxConstStep.on_extract^[n]
        (OnGetFluxConstStep.new (MemoryDesc.new S T) F)).current_window_size =
      S * min n F := by
  rw [OnGetFluxConstStep_iterate_on_extract S T F n hn hT hST]
  refine ⟨⟨?_, ?_, ?_⟩, rfl, rfl, rfl, ?_⟩
  · simp [OnGetFluxConstStep.new, OnGetFluxConstStep.idx_begin, MemoryDesc.allocated_memory,
      MemoryDesc.new, size_mul_of_lt hST]
  · simp [OnGetFluxConstStep.new, OnGetFluxConstStep.idx_end, MemoryDesc.allocated_memory,
      MemoryDesc.new, size_mul_of_lt hST]
  · simp only [OnGetFluxConstStep.new, OnGetFluxConstStep.current_window_size,
      OnGetFluxConstStep.idx_end, OnGetFluxConstStep.idx_begin, MemoryDesc.allocated_memory,
      MemoryDesc.new, size_mul_of_lt hST]
    rw [size_sub_of_le (le_refl _) hST]
    omega
  · simp only [OnGetFluxConstStep.current_window_size, OnGetFluxConstStep.idx_end,
      OnGetFluxConstStep.idx_begin]
    have h1 : S * (T - (n - F)) ≤ S * T := Nat.mul_le_mul_left S (by omega)
    have h2 : S * (T - n) ≤ S * (T - (n - F)) := Nat.mul_le_mul_left S (by omega)
    rw [size_sub_of_le h2 (by omega), ← Nat.mul_sub]
    congr 1
    omega

theorem OnGetFluxConstStep_extractor_contract_witness :
    (4 ≤ 5 ∧ 5 < SIZE_MOD ∧ 2 * 5 < SIZE_MOD) ∧
      (OnGetFluxConstStep.on_extract^[4]
        (OnGetFluxConstStep.new (MemoryDesc.new 2 5) 3)).idx_end = 2 * (5 - (4 - 3)) :=
  ⟨by decide,
    (OnGetFluxConstStep_extractor_contract 2 5 3 4 (by decide) (by decide) (by decide)).2.2.1⟩

/-! ## BaseKernel: what each member returns -/

theorem BaseKernel_push_coef_eq (k : BaseKernel) (row col : Nat) (E f : ℚ) :
    k.push_coef row col E f =
      if (row < k.P_cur.rows ∧ col < k.P_cur.cols) ∧ (row < k.F.rows ∧ col < k.F.cols) then
        some
          { k with
            P_cur :=
              { k.P_cur with
                coeff := fun r c => if r = row ∧ c = col then E else k.P_cur.coeff r c }
            F := { k.F with coeff := fun r c => if r = row ∧ c = col then f else k.F.coeff r c }
            allocator :=
              { k.allocator with pusher := { k.allocator.pusher with need_advance := true } } }
      else none := by
  unfold BaseKernel.push_coef MatrixXd.set?
  by_cases h1 : row < k.P_cur.rows ∧ col < k.P_cur.cols
  · by_cases h2 : row < k.F.rows ∧ col < k.F.cols
    · simp [h1, h2]
    · simp [h1, h2]
  · simp [h1]

theorem BaseKernel_advance_eq (G S : Nat) (k : BaseKernel)
    (hprev : k.P_prev.rows = G ∧ k.P_prev.cols = S) (hcur : k.P_cur.rows = G ∧ k.P_cur.cols = S)
    (hF : k.F.rows = G ∧ k.F.cols = S) (hrows : k.Kernel.rows = G)
    (hS : k.allocator.pusher.its_spatial_size = S) :
    k.advance =
      if k.allocator.pusher.its_index_end + S ≤ k.Kernel.cols then
        some
          { Kernel :=
              { k.Kernel with
                coeff := fun r c =>
                  if k.allocator.pusher.its_index_end ≤ c ∧
                      c < k.allocator.pusher.its_index_end + S then
                    k.F.coeff r (c - k.allocator.pusher.its_index_end) *
                      (k.P_cur.coeff r (c - k.allocator.pusher.its_index_end) -
                        k.P_prev.coeff r (c - k.allocator.pusher.its_index_end))
                  else k.Kernel.coeff r c }
            P_prev := k.P_cur
            P_cur := MatrixXd.Zero k.grid_nodes_count S
            F := k.F
            grid_nodes_count := k.grid_nodes_count
            allocator := { k.allocator with pusher := k.allocator.pusher.on_push } }
      else none := by
  obtain ⟨hp1, hp2⟩ := hprev
  obtain ⟨hc1, hc2⟩ := hcur
  obtain ⟨hF1, hF2⟩ := hF
  unfold BaseKernel.advance MatrixXd.sub MatrixXd.cwiseMul MatrixXd.setMiddleCols
  by_cases h3 : k.allocator.pusher.its_index_end + S ≤ k.Kernel.cols
  · simp [hp1, hp2, hc1, hc2, hF1, hF2, hrows, hS, h3, BaseKernel.allocate_P_cur,
      BaseKernel.on_advance, BaseKernel.block_height, BaseKernel.block_width,
      BaseKernel.block_stride_in_row, OnPushKernelConstStep.idx_end, MemoryDesc.spatial_size]
  · simp [hp1, hp2, hc1, hc2, hF1, hF2, hrows, hS, h3, BaseKernel.allocate_P_cur,
      BaseKernel.on_advance, BaseKernel.block_height, BaseKernel.block_width,
      BaseKernel.block_stride_in_row, OnPushKernelConstStep.idx_end, MemoryDesc.spatial_size]

theorem BaseKernel_operator_call_eq (k : BaseKernel) :
    k.operator_call =
      if k.allocator.pusher.need_advance = false ∧
          k.allocator.extractor.on_extract.idx_begin +
            k.allocator.extractor.on_extract.current_window_size ≤ k.Kernel.cols then
        some (k.on_extract,
          { rows := k.Kernel.rows
            cols := k.allocator.extractor.on_extract.current_window_size
            coeff := fun r c =>
              k.Kernel.coeff r (k.allocator.extractor.on_extract.idx_begin + c) })
      else none := by
  unfold BaseKernel.operator_call BaseKernel.is_correct_state PushDesc.is_correct_state
    MatrixXd.middleCols
  by_cases h1 : k.allocator.pusher.need_advance = false
  · by_cases h2 : k.allocator.extractor.on_extract.idx_begin +
        k.allocator.extractor.on_extract.current_window_size ≤ k.Kernel.cols
    · simp [h1, h2, BaseKernel.on_extract]
    · simp [h1, h2, BaseKernel.on_extract]
  · simp [h1]

theorem BaseKernel_Shape_new (G S T : Nat) (garbage : Nat → Nat → ℚ) :
    BaseKernel.Shape G S T 0 (BaseKernel.new G (KernelConstStep.new S T) garbage) := by
  simp [BaseKernel.Shape, BaseKernel.new, KernelConstStep.new, BaseKernel.allocate_P_cur,
    BaseKernel.block_height, BaseKernel.block_width, MatrixXd.Zero, MatrixXd.Ones,
    OnPushKernelConstStep.new, PushDesc.new, MemoryDesc.new, MemoryDesc.allocated_memory,
    MemoryDesc.spatial_size]

theorem BaseKernel_Shape_push_coef {G S T n : Nat} {k k1 : BaseKernel} {row col : Nat}
    {E f : ℚ} (hk : BaseKernel.Shape G S T n k) (h : k.push_coef row col E f = some k1) :
    BaseKernel.Shape G S T n k1 := by
  rw [BaseKernel_push_coef_eq] at h
  split at h
  · injection h with h
    subst h
    exact hk
  · exact absurd h (by simp)

theorem BaseKernel_Shape_operator_call {G S T n : Nat} {k k1 : BaseKernel} {block : MatrixXd}
    (hk : BaseKernel.Shape G S T n k) (h : k.operator_call = some (k1, block)) :
    BaseKernel.Shape G S T n k1 := by
  rw [BaseKernel_operator_call_eq] at h
  split at h
  · injection h with h
    injection h with h1 h2
    subst h1
    exact hk
  · exact absurd h (by simp)

theorem BaseKernel_Shape_on_push_fields (S T n : Nat) (p : OnPushKernelConstStep)
    (h1 : p.toMemoryDesc = { MemoryDesc.new S T with cur_temporal_window := n % SIZE_MOD })
    (h2 : p.its_index_end = (n * S) % SIZE_MOD) :
    p.on_push.toMemoryDesc =
        { MemoryDesc.new S T with cur_temporal_window := (n + 1) % SIZE_MOD } ∧
      p.on_push.its_index_end = ((n + 1) * S) % SIZE_MOD := by
  have hw : (n % 18446744073709551616 + 1) % 18446744073709551616 =
      (n + 1) % 18446744073709551616 := by omega
  have he : (n * S % 18446744073709551616 + S) % 18446744073709551616 =
      ((n + 1) * S) % 18446744073709551616 := by
    have h3 : (n + 1) * S = n * S + S := by ring
    rw [h3]
    generalize n * S = x
    omega
  simp only [OnPushKernelConstStep.on_push, MemoryDesc.spatial_size, h1, h2, MemoryDesc.new,
    size_add, SIZE_MOD, hw, he, and_self]

theorem BaseKernel_Shape_advance {G S T n : Nat} {k k1 : BaseKernel}
    (hk : BaseKernel.Shape G S T n k) (h : k.advance = some k1) :
    BaseKernel.Shape G S T (n + 1) k1 := by
  obtain ⟨hK, hprev, hcur, hF, hG, hm, he⟩ := hk
  have hS : k.allocator.pusher.its_spatial_size = S := by rw [hm]; rfl
  rw [BaseKernel_advance_eq G S k hprev hcur hF hK.1 hS] at h
  split at h
  · injection h with h
    subst h
    obtain ⟨h1, h2⟩ := BaseKernel_Shape_on_push_fields S T n k.allocator.pusher hm he
    exact ⟨hK, hcur, ⟨hG, rfl⟩, hF, hG, h1, h2⟩
  · exact absurd h (by simp)

/-- Every kernel reached with `n` calls of `advance()` has the shape of index `n`. -/
theorem BaseKernel_AdvancedTimes_shape {G S T n : Nat} {k : BaseKernel}
    (h : BaseKernel.AdvancedTimes G S T n k) : BaseKernel.Shape G S T n k := by
  induction h with
  | new garbage => exact BaseKernel_Shape_new G S T garbage
  | push_coef row col E f _ h ih => exact BaseKernel_Shape_push_coef ih h
  | operator_call _ h ih => exact BaseKernel_Shape_operator_call ih h
  | advance _ h ih => exact BaseKernel_Shape_advance ih h

/-- The entries of a block are the pairs inside its dimensions. -/
theorem BaseKernel_mem_block_entries (rows cols r c : Nat) :
    (r, c) ∈ BaseKernel.block_entries rows cols ↔ r < rows ∧ c < cols := by
  simp only [BaseKernel.block_entries, List.mem_flatMap, List.mem_range, List.mem_map,
    Prod.mk.injEq]
  constructor
  · rintro ⟨col, hc, row, hr, rfl, rfl⟩
    exact ⟨hr, hc⟩
  · rintro ⟨hr, hc⟩
    exact ⟨c, hc, r, hr, rfl, rfl⟩

/-- What one in-range `push_coef` call returns. -/
theorem BaseKernel_push_coef_spec (k : BaseKernel) (row col : Nat) (E f : ℚ)
    (hp : (row < k.P_cur.rows ∧ col < k.P_cur.cols) ∧ (row < k.F.rows ∧ col < k.F.cols)) :
    ∃ k1, k.push_coef row col E f = some k1 ∧
      k1.Kernel = k.Kernel ∧ k1.P_prev = k.P_prev ∧
      k1.grid_nodes_count = k.grid_nodes_count ∧
      k1.allocator.extractor = k.allocator.extractor ∧
      k1.allocator.pusher.toMemoryDesc = k.allocator.pusher.toMemoryDesc ∧
      k1.allocator.pusher.its_index_end = k.allocator.pusher.its_index_end ∧
      (k1.P_cur.rows = k.P_cur.rows ∧ k1.P_cur.cols = k.P_cur.cols) ∧
      (k1.F.rows = k.F.rows ∧ k1.F.cols = k.F.cols) ∧
      (∀ r c, k1.P_cur.coeff r c = if r = row ∧ c = col then E else k.P_cur.coeff r c) ∧
      (∀ r c, k1.F.coeff r c = if r = row ∧ c = col then f else k.F.coeff r c) := by
  have hpush := BaseKernel_push_coef_eq k row col E f
  rw [if_pos hp] at hpush
  exact ⟨_, hpush, rfl, rfl, rfl, rfl, rfl, rfl, ⟨rfl, rfl⟩, ⟨rfl, rfl⟩, fun _ _ => rfl,
    fun _ _ => rfl⟩

/-- What a sequence of in-range `push_coef` calls returns. -/
theorem BaseKernel_push_coefs_spec (E f : Nat → Nat → ℚ) (l : List (Nat × Nat)) :
    ∀ k : BaseKernel,
      (∀ p ∈ l, (p.1 < k.P_cur.rows ∧ p.2 < k.P_cur.cols) ∧ (p.1 < k.F.rows ∧ p.2 < k.F.cols)) →
      ∃ k1, k.push_coefs E f l = some k1 ∧
        k1.Kernel = k.Kernel ∧ k1.P_prev = k.P_prev ∧
        k1.grid_nodes_count = k.grid_nodes_count ∧
        k1.allocator.extractor = k.allocator.extractor ∧
        k1.allocator.pusher.toMemoryDesc = k.allocator.pusher.toMemoryDesc ∧
        k1.allocator.pusher.its_index_end = k.allocator.pusher.its_index_end ∧
        (k1.P_cur.rows = k.P_cur.rows ∧ k1.P_cur.cols = k.P_cur.cols) ∧
        (k1.F.rows = k.F.rows ∧ k1.F.cols = k.F.cols) ∧
        (∀ r c, k1.P_cur.coeff r c = if (r, c) ∈ l then E r c else k.P_cur.coeff r c) ∧
        (∀ r c, k1.F.coeff r c = if (r, c) ∈ l then f r c else k.F.coeff r c) := by
  induction l with
  | nil =>
    intro k _
    exact ⟨k, rfl, rfl, rfl, rfl, rfl, rfl, rfl, ⟨rfl, rfl⟩, ⟨rfl, rfl⟩, by simp, by simp⟩
  | cons p rest ih =>
    intro k hk
    obtain ⟨row, col⟩ := p
    obtain ⟨k0, h0, hK0, hprev0, hG0, hex0, hmd0, hie0, hPc0, hFd0, hPcoef0, hFcoef0⟩ :=
      BaseKernel_push_coef_spec k row col (E row col) (f row col)
        (hk (row, col) (List.mem_cons_self _ _))
    have hrest : ∀ q ∈ rest,
        (q.1 < k0.P_cur.rows ∧ q.2 < k0.P_cur.cols) ∧ (q.1 < k0.F.rows ∧ q.2 < k0.F.cols) := by
      intro q hq
      rw [hPc0.1, hPc0.2, hFd0.1, hFd0.2]
      exact hk q (List.mem_cons_of_mem _ hq)
    obtain ⟨k1, h1, hK, hprev, hG, hex, hmd, hie, hPc, hFd, hPcoef, hFcoef⟩ := ih k0 hrest
    refine ⟨k1, ?_, hK.trans hK0, hprev.trans hprev0, hG.trans hG0, hex.trans hex0,
      hmd.trans hmd0, hie.trans hie0, ⟨hPc.1.trans hPc0.1, hPc.2.trans hPc0.2⟩,
      ⟨hFd.1.trans hFd0.1, hFd.2.trans hFd0.2⟩, ?_, ?_⟩
    · show (k.push_coef row col (E row col) (f row col)).bind _ = _
      rw [h0]
      exact h1
    · intro r c
      rw [hPcoef r c, hPcoef0 r c]
      by_cases hin : (r, c) ∈ rest
      · simp [hin]
      · by_cases heq : r = row ∧ c = col
        · obtain ⟨rfl, rfl⟩ := heq
          simp [hin]
        · have hne : ¬ (r = row ∧ c = col) := heq
          simp [hin, heq]
    · intro r c
      rw [hFcoef r c, hFcoef0 r c]
      by_cases hin : (r, c) ∈ rest
      · simp [hin]
      · by_cases heq : r = row ∧ c = col
        · obtain ⟨rfl, rfl⟩ := heq
          simp [hin]
        · have hne : ¬ (r = row ∧ c = col) := heq
          simp [hin, heq]

/-- Filling a kernel of shape `n < T` and advancing it: both return, the new block is
written in the columns `[S * n, S * n + S)`, and nothing else of `Kernel` changes. -/
theorem BaseKernel_fill_advance_spec {G S T n : Nat} {k : BaseKernel}
    (hk : BaseKernel.Shape G S T n k) (hn : n < T) (hST : S * T < SIZE_MOD)
    (E f : Nat → Nat → ℚ) :
    ∃ k1 k2, k.fill E f = some k1 ∧ k1.advance = some k2 ∧
      BaseKernel.Shape G S T (n + 1) k2 ∧
      k2.allocator.extractor = k.allocator.extractor ∧
      k2.allocator.pusher.need_advance = false ∧
      (∀ r, r < G → ∀ c, c < S →
        k2.Kernel.coeff r (S * n + c) = f r c * (E r c - k.P_prev.coeff r c)) ∧
      (∀ r c, ¬ (S * n ≤ c ∧ c < S * n + S) → k2.Kernel.coeff r c = k.Kernel.coeff r c) ∧
      (∀ r, r < G → ∀ c, c < S → k2.P_prev.coeff r c = E r c) := by
  obtain ⟨hK, hprev, hcur, hF, hG, hm, he⟩ := hk
  have hS : k.allocator.pusher.its_spatial_size = S := by rw [hm]; rfl
  have hbh : k.block_height = G := hG
  have hbw : k.block_width = S := hS
  have hle : S * n + S ≤ S * T := by
    have := Nat.mul_le_mul_left S hn
    rwa [Nat.mul_succ] at this
  have hidx : n * S % SIZE_MOD = S * n := by
    rw [Nat.mul_comm n S]
    exact Nat.mod_eq_of_lt (by omega)
  have hrange : ∀ p ∈ BaseKernel.block_entries k.block_height k.block_width,
      (p.1 < k.P_cur.rows ∧ p.2 < k.P_cur.cols) ∧ (p.1 < k.F.rows ∧ p.2 < k.F.cols) := by
    rintro ⟨r, c⟩ hp
    rw [BaseKernel_mem_block_entries, hbh, hbw] at hp
    rw [hcur.1, hcur.2, hF.1, hF.2]
    exact ⟨hp, hp⟩
  obtain ⟨k1, h1, hK1, hprev1, hG1, hex1, hmd1, hie1, hPc1, hFd1, hPcoef1, hFcoef1⟩ :=
    BaseKernel_push_coefs_spec E f _ k hrange
  have hS1 : k1.allocator.pusher.its_spatial_size = S := by rw [hmd1]; exact hS
  have hadv := BaseKernel_advance_eq G S k1 (by rw [hprev1]; exact hprev)
    (by rw [hPc1.1, hPc1.2]; exact hcur) (by rw [hFd1.1, hFd1.2]; exact hF)
    (by rw [hK1]; exact hK.1) hS1
  have hcols : k1.allocator.pusher.its_index_end + S ≤ k1.Kernel.cols := by
    rw [hie1, he, hidx, hK1, hK.2, size_mul_of_lt hST]
    exact hle
  rw [if_pos hcols] at hadv
  have hshape1 : BaseKernel.Shape G S T n k1 :=
    ⟨by rw [hK1]; exact hK, by rw [hprev1]; exact hprev,
      by rw [hPc1.1, hPc1.2]; exact hcur, by rw [hFd1.1, hFd1.2]; exact hF,
      by rw [hG1]; exact hG, by rw [hmd1]; exact hm, by rw [hie1]; exact he⟩
  have hend : k1.allocator.pusher.its_index_end = S * n := by rw [hie1, he, hidx]
  refine ⟨k1, _, h1, hadv, BaseKernel_Shape_advance hshape1 hadv, hex1, rfl, ?_, ?_, ?_⟩
  · intro r hr c hc
    have hmem : (r, c) ∈ BaseKernel.block_entries k.block_height k.block_width := by
      rw [BaseKernel_mem_block_entries, hbh, hbw]
      exact ⟨hr, hc⟩
    have hcond : S * n ≤ S * n + c ∧ S * n + c < S * n + S := ⟨by omega, by omega⟩
    simp only [hend, if_pos hcond, Nat.add_sub_cancel_left, hPcoef1, hFcoef1, if_pos hmem,
      hprev1]
  · intro r c hc
    simp only [hend, if_neg hc, hK1]
  · intro r hr c hc
    have hmem : (r, c) ∈ BaseKernel.block_entries k.block_height k.block_width := by
      rw [BaseKernel_mem_block_entries, hbh, hbw]
      exact ⟨hr, hc⟩
    simp only [hPcoef1, if_pos hmem]

/-- C2. `BaseKernel` advance round trip. For a kernel with `G` rows over the ConstStep
kernel allocator `(S, T)` on which `advance()` returned `n < T` times before (`S * T`
representable as a `size_t`): calling `push_coef(r, c, E r c, f r c)` on every entry of
the `G × S` block and then `advance()` returns; afterwards each time-indexed read
`kernel(r, c, n)` returns `f r c * (E r c - P_prev_old r c)`, and every `Kernel` column
outside `[S * n, S * n + S)` is unchanged. -/
theorem BaseKernel_advance_round_trip (G S T n : Nat) (k : BaseKernel) (E f : Nat → Nat → ℚ)
    (hk : BaseKernel.AdvancedTimes G S T n k) (hn : n < T) (hST : S * T < SIZE_MOD) :
    ∃ k1 k2, k.fill E f = some k1 ∧ k1.advance = some k2 ∧
      (∀ r, r < G → ∀ c, c < S →
        k2.operator_call_time r c n = some (f r c * (E r c - k.P_prev.coeff r c))) ∧
      (∀ r c, ¬ (S * n ≤ c ∧ c < S * n + S) → k2.Kernel.coeff r c = k.Kernel.coeff r c) := by
  obtain ⟨k1, k2, h1, h2, hshape, _, hflag, hblock, hrest, _⟩ :=
    BaseKernel_fill_advance_spec (BaseKernel_AdvancedTimes_shape hk) hn hST E f
  refine ⟨k1, k2, h1, h2, ?_, hrest⟩
  intro r hr c hc
  obtain ⟨hK, _, _, _, _, hm, _⟩ := hshape
  have hle : S * n + S ≤ S * T := by
    have := Nat.mul_le_mul_left S hn
    rwa [Nat.mul_succ] at this
  have hw : k2.block_width = S := by
    show k2.allocator.pusher.its_spatial_size = S
    rw [hm]
    rfl
  have hcol : size_add c (size_mul S n) = S * n + c := by
    rw [size_mul_of_lt (by omega), size_add_of_lt (by omega), Nat.add_comm]
  have hin : r < k2.Kernel.rows ∧ S * n + c < k2.Kernel.cols := by
    rw [hK.1, hK.2, size_mul_of_lt hST]
    exact ⟨hr, by omega⟩
  simp [BaseKernel.operator_call_time, BaseKernel.operator_call_rc, BaseKernel.is_correct_state,
    PushDesc.is_correct_state, hflag, hw, hcol, MatrixXd.get?, hin, hblock r hr c hc]

theorem BaseKernel_advance_round_trip_witness :
    (0 < 1 ∧ 2 * 1 < SIZE_MOD) ∧
      ∃ k1 k2,
        (BaseKernel.new 1 (KernelConstStep.new 2 1) (fun _ _ => 7)).fill
            (fun _ c => (c : ℚ) + 3) (fun _ _ => 2) = some k1 ∧
          k1.advance = some k2 ∧
          (∀ r, r < 1 → ∀ c, c < 2 →
            k2.operator_call_time r c 0 =
              some ((2 : ℚ) * (((c : ℚ) + 3) -
                (BaseKernel.new 1 (KernelConstStep.new 2 1) (fun _ _ => 7)).P_prev.coeff r c))) ∧
          (∀ r c, ¬ (2 * 0 ≤ c ∧ c < 2 * 0 + 2) →
            k2.Kernel.coeff r c =
              (BaseKernel.new 1 (KernelConstStep.new 2 1) (fun _ _ => 7)).Kernel.coeff r c) :=
  ⟨by decide,
    BaseKernel_advance_round_trip 1 2 1 0 _ _ _ (BaseKernel.AdvancedTimes.new _) (by decide)
      (by decide)⟩

/-- C7. ConstStep kernel pusher over `MemoryDesc(S, T)`: at construction `idx_end = 0`;
after `n` calls of `on_push`, for every `n`, `idx_begin = 0` and `idx_end` is the
`size_t` product `n * S` (the natural number `n * S` when that is representable): there
is no cap at `S * T`. For a kernel on which `advance()` returned `n < T` times (`S * T`
representable), the write slab `[block_stride_in_row, block_stride_in_row + S)` of the
next `advance()` starts at `n * S` and lies within the `S * T` columns of `Kernel`. -/
theorem OnPushKernelConstStep_pusher_contract (S T n : Nat) :
    (OnPushKernelConstStep.new (MemoryDesc.new S T)).idx_end = 0 ∧
    (OnPushKernelConstStep.on_push^[n]
        (OnPushKernelConstStep.new (MemoryDesc.new S T))).idx_begin = 0 ∧
    (OnPushKernelConstStep.on_push^[n]
        (OnPushKernelConstStep.new (MemoryDesc.new S T))).idx_end = size_mul n S ∧
    (n * S < SIZE_MOD →
      (OnPushKernelConstStep.on_push^[n]
        (OnPushKernelConstStep.new (MemoryDesc.new S T))).idx_end = n * S) ∧
    (∀ (G : Nat) (k : BaseKernel), BaseKernel.AdvancedTimes G S T n k → n < T →
      S * T < SIZE_MOD →
      k.block_stride_in_row = n * S ∧ k.block_width = S ∧ k.Kernel.cols = S * T ∧
        k.block_stride_in_row + k.block_width ≤ k.Kernel.cols) := by
  rw [OnPushKernelConstStep_iterate_on_push]
  refine ⟨rfl, rfl, rfl, fun h => Nat.mod_eq_of_lt h, ?_⟩
  intro G k hk hn hST
  obtain ⟨hK, _, _, _, _, hm, he⟩ := (BaseKernel_AdvancedTimes_shape hk)
  have hle : S * n + S ≤ S * T := by
    have := Nat.mul_le_mul_left S hn
    rwa [Nat.mul_succ] at this
  have hidx : n * S % SIZE_MOD = n * S := by
    rw [Nat.mul_comm n S]
    exact Nat.mod_eq_of_lt (by omega)
  have hw : k.block_width = S := by
    show k.allocator.pusher.its_spatial_size = S
    rw [hm]
    rfl
  have hs : k.block_stride_in_row = n * S := by
    show k.allocator.pusher.its_index_end = n * S
    rw [he, hidx]
  refine ⟨hs, hw, ?_, ?_⟩
  · rw [hK.2, size_mul_of_lt hST]
  · rw [hs, hw, hK.2, size_mul_of_lt hST, Nat.mul_comm n S]
    exact hle

theorem OnPushKernelConstStep_pusher_contract_witness :
    (3 * 2 < SIZE_MOD ∧ 0 < 1 ∧ 2 * 1 < SIZE_MOD) ∧
      (OnPushKernelConstStep.on_push^[3]
        (OnPushKernelConstStep.new (MemoryDesc.new 2 1))).idx_end = 3 * 2 ∧
      (BaseKernel.new 4 (KernelConstStep.new 2 1) (fun _ _ => 0)).block_stride_in_row +
          (BaseKernel.new 4 (KernelConstStep.new 2 1) (fun _ _ => 0)).block_width ≤
        (BaseKernel.new 4 (KernelConstStep.new 2 1) (fun _ _ => 0)).Kernel.cols :=
  ⟨by decide,
    (OnPushKernelConstStep_pusher_contract 2 1 3).2.2.2.1 (by decide),
    ((OnPushKernelConstStep_pusher_contract 2 1 0).2.2.2.2 4 _
      (BaseKernel.AdvancedTimes.new _) (by decide) (by decide)).2.2.2⟩

/-! ## BaseFluxContainer: pushes and time-indexed reads -/

theorem OnGetFluxConstStep_on_extract_spatial_size (g : OnGetFluxConstStep) :
    g.on_extract.its_spatial_size = g.its_spatial_size := by
  unfold OnGetFluxConstStep.on_extract
  split <;> rfl

theorem BaseFluxContainer_push_coef_eq (c : BaseFluxContainer) (data : VectorXd) :
    c.push_coef data =
      if c.allocator.pusher.on_push.idx_begin + c.allocator.pusher.on_push.spatial_size ≤
            c.flux.size ∧
          data.size = c.allocator.pusher.on_push.spatial_size then
        some
          { allocator := { c.allocator with pusher := c.allocator.pusher.on_push }
            flux :=
              { c.flux with
                coeff := fun i =>
                  if c.allocator.pusher.on_push.idx_begin ≤ i ∧
                      i < c.allocator.pusher.on_push.idx_begin +
                        c.allocator.pusher.on_push.spatial_size then
                    data.coeff (i - c.allocator.pusher.on_push.idx_begin)
                  else c.flux.coeff i } }
      else none := by
  unfold BaseFluxContainer.push_coef VectorXd.setSegment
  by_cases h : c.allocator.pusher.on_push.idx_begin + c.allocator.pusher.on_push.spatial_size ≤
      c.flux.size ∧ data.size = c.allocator.pusher.on_push.spatial_size
  · simp [h, BaseFluxContainer.on_push]
  · simp [h, BaseFluxContainer.on_push]

theorem BaseFluxContainer_Stores_new (S T F : Nat) :
    BaseFluxContainer.Stores S T [] (BaseFluxContainer.new (FluxConstStep.new S T F)) := by
  refine ⟨rfl, rfl, rfl, ?_⟩
  intro j d h
  simp at h

theorem BaseFluxContainer_Stores_extract {S T : Nat} {vs : List VectorXd}
    {c : BaseFluxContainer} (h : BaseFluxContainer.Stores S T vs c) :
    BaseFluxContainer.Stores S T vs c.extract := by
  obtain ⟨h1, h2, h3, h4⟩ := h
  refine ⟨h1, h2, ?_, h4⟩
  show c.allocator.extractor.on_extract.its_spatial_size = S
  rw [OnGetFluxConstStep_on_extract_spatial_size, h3]

/-- What a push returns on a container that holds fewer than `T` vectors. -/
theorem BaseFluxContainer_Stores_push_coef {S T : Nat} {vs : List VectorXd}
    {c : BaseFluxContainer} (h : BaseFluxContainer.Stores S T vs c) (hlen : vs.length < T)
    (hST : S * T < SIZE_MOD) (data : VectorXd) (hdata : data.size = S) :
    ∃ c1, c.push_coef data = some c1 ∧
      BaseFluxContainer.Stores S T (vs ++ [data]) c1 ∧
      c1.allocator.extractor = c.allocator.extractor ∧
      c1.allocator.pusher.idx_begin = S * (T - (vs.length + 1)) ∧
      (c1.flux.size = S * T ∧ S * (T - (vs.length + 1)) + S ≤ c1.flux.size) ∧
      (∀ i, i < S → c1.flux.coeff (S * (T - (vs.length + 1)) + i) = data.coeff i) ∧
      (∀ i, ¬ (S * (T - (vs.length + 1)) ≤ i ∧ i < S * (T - (vs.length + 1)) + S) →
        c1.flux.coeff i = c.flux.coeff i) := by
  obtain ⟨h1, h2, h3, h4⟩ := h
  have hpush : c.allocator.pusher.on_push =
      OnPushFluxConstStep.on_push^[vs.length + 1]
        (OnPushFluxConstStep.new (MemoryDesc.new S T)) := by
    rw [Function.iterate_succ_apply', h2]
  have hbeg : c.allocator.pusher.on_push.idx_begin = S * (T - (vs.length + 1)) := by
    rw [hpush, OnPushFluxConstStep_iterate_on_push, size_mul_of_lt hST]
    exact iterate_size_sub S T (vs.length + 1) (by omega) hST
  have hsp : c.allocator.pusher.on_push.spatial_size = S := by
    rw [hpush, OnPushFluxConstStep_iterate_on_push]
    rfl
  have hle : S * (T - (vs.length + 1)) + S ≤ S * T := by
    have := mul_pred_add S (T - vs.length) (by omega)
    have h5 : S * (T - vs.length) ≤ S * T := Nat.mul_le_mul_left S (by omega)
    have h6 : T - vs.length - 1 = T - (vs.length + 1) := by omega
    rw [h6] at this
    omega
  have heq := BaseFluxContainer_push_coef_eq c data
  rw [hbeg, hsp, h1, size_mul_of_lt hST, if_pos ⟨hle, hdata⟩] at heq
  refine ⟨_, heq, ⟨?_, ?_, h3, ?_⟩, rfl, hbeg, ⟨?_, ?_⟩, ?_, ?_⟩
  · show c.flux.size = size_mul S T
    exact h1
  · show c.allocator.pusher.on_push = _
    rw [hpush, List.length_append]
    rfl
  · intro j d hj i hi
    by_cases hjl : j < vs.length
    · rw [List.getElem?_append_left hjl] at hj
      have hold := h4 j d hj i hi
      have hlt : S * (T - (vs.length + 1)) + S ≤ S * (T - (j + 1)) := by
        have h7 : S * (T - (vs.length + 1) + 1) ≤ S * (T - (j + 1)) :=
          Nat.mul_le_mul_left S (by omega)
        rwa [Nat.mul_succ] at h7
      have hcond : ¬ (S * (T - (vs.length + 1)) ≤ S * (T - (j + 1)) + i ∧
          S * (T - (j + 1)) + i < S * (T - (vs.length + 1)) + S) := by omega
      simp only [if_neg hcond]
      exact hold
    · have hjeq : j = vs.length := by
        by_contra hne
        have : vs.length + 1 ≤ j := by omega
        rw [List.getElem?_eq_none (by simp; omega)] at hj
        exact absurd hj (by simp)
      subst hjeq
      simp at hj
      subst hj
      have hcond : S * (T - (vs.length + 1)) ≤ S * (T - (vs.length + 1)) + i ∧
          S * (T - (vs.length + 1)) + i < S * (T - (vs.length + 1)) + S := ⟨by omega, by omega⟩
      simp only [if_pos hcond, Nat.add_sub_cancel_left]
  · show c.flux.size = S * T
    rw [h1, size_mul_of_lt hST]
  · show S * (T - (vs.length + 1)) + S ≤ c.flux.size
    rw [h1, size_mul_of_lt hST]
    exact hle
  · intro i hi
    have hcond : S * (T - (vs.length + 1)) ≤ S * (T - (vs.length + 1)) + i ∧
        S * (T - (vs.length + 1)) + i < S * (T - (vs.length + 1)) + S := ⟨by omega, by omega⟩
    simp only [if_pos hcond, Nat.add_sub_cancel_left]
  · intro i hi
    simp only [if_neg hi]

/-- A sequence of calls that pushes `S`-vectors only, at most `T` of them in all,
returns, and the container then holds every pushed vector. -/
theorem BaseFluxContainer_Stores_run {S T : Nat} (hST : S * T < SIZE_MOD)
    (calls : List FluxCall) :
    ∀ (vs : List VectorXd) (c : BaseFluxContainer), BaseFluxContainer.Stores S T vs c →
      (∀ d ∈ FluxCall.pushed calls, d.size = S) →
      vs.length + (FluxCall.pushed calls).length ≤ T →
      ∃ c1, c.run calls = some c1 ∧
        BaseFluxContainer.Stores S T (vs ++ FluxCall.pushed calls) c1 := by
  induction calls with
  | nil =>
    intro vs c h _ _
    exact ⟨c, rfl, by simpa [FluxCall.pushed] using h⟩
  | cons x rest ih =>
    intro vs c h hsize hlen
    cases x with
    | push_coef data =>
      simp only [FluxCall.pushed, List.length_cons, List.mem_cons, forall_eq_or_imp] at hsize hlen
      obtain ⟨c0, h0, hs0, _⟩ := BaseFluxContainer_Stores_push_coef h (by omega) hST data hsize.1
      obtain ⟨c1, h1, hs1⟩ := ih (vs ++ [data]) c0 hs0 hsize.2 (by simp; omega)
      refine ⟨c1, ?_, ?_⟩
      · show (c.push_coef data).bind _ = _
        rw [h0]
        exact h1
      · simpa [FluxCall.pushed] using hs1
    | extract =>
      simp only [FluxCall.pushed] at hsize hlen
      obtain ⟨c1, h1, hs1⟩ := ih vs c.extract (BaseFluxContainer_Stores_extract h) hsize hlen
      exact ⟨c1, h1, by simpa [FluxCall.pushed] using hs1⟩

theorem flux_index_arith (segm A B C : Nat) (hmul : B + C = A) (hA : A < SIZE_MOD)
    (hseg : C + segm < A) : size_sub (size_add segm A) (size_mul B 1) = C + segm := by
  unfold size_sub size_add size_mul SIZE_MOD at *
  omega

/-- The time-indexed read of a container that holds `vs`. -/
theorem BaseFluxContainer_Stores_read {S T : Nat} {vs : List VectorXd}
    {c : BaseFluxContainer} (h : BaseFluxContainer.Stores S T vs c) (hlen : vs.length ≤ T)
    (hST : S * T < SIZE_MOD) (nt segm : Nat) (d : VectorXd) (hnt : 1 ≤ nt)
    (hd : vs[nt - 1]? = some d) (hsegm : segm < S) :
    c.operator_call_time nt segm = some (d.coeff segm) := by
  obtain ⟨h1, _, h3, h4⟩ := h
  have hlt : nt - 1 < vs.length := by
    by_contra hge
    rw [List.getElem?_eq_none (by omega)] at hd
    exact absurd hd (by simp)
  have hntT : nt ≤ T := by omega
  have hmul : nt * S + S * (T - nt) = S * T := by
    rw [Nat.mul_comm nt S, ← Nat.mul_add]
    congr 1
    omega
  have hSle : S ≤ nt * S := Nat.le_mul_of_pos_left S hnt
  have hin : S * (T - nt) + segm < S * T := by
    generalize nt * S = B at hmul hSle
    generalize S * (T - nt) = C at hmul
    generalize S * T = A at hmul
    omega
  have hidx : size_sub (size_add segm (S * T)) (size_mul nt S) = S * (T - nt) + segm := by
    have := flux_index_arith segm (S * T) (nt * S) (S * (T - nt)) hmul hST hin
    rwa [size_mul, Nat.mul_one] at this
  have hstored := h4 (nt - 1) d hd segm hsegm
  have h5 : nt - 1 + 1 = nt := by omega
  rw [h5] at hstored
  simp only [BaseFluxContainer.operator_call_time, MemoryDesc.spatial_size, h3, h1,
    size_mul_of_lt hST, hidx, VectorXd.get?, if_pos hin, hstored]

/-- C5. Flux push / time-indexed read round trip. On a `BaseFluxContainer` over the
ConstStep flux allocator `(S, T, F)` (`S * T` representable as a `size_t`), every
sequence of `push_coef` and `extract` calls that pushes `S`-vectors `v_1 .. v_n` with
`n ≤ T` returns, and afterwards the read `flux(nt, segm)` returns `v_nt[segm]` for every
`1 ≤ nt ≤ n` and `segm < S`, wherever the `extract` calls stand in the sequence. -/
theorem BaseFluxContainer_push_read_round_trip (S T F : Nat) (calls : List FluxCall)
    (hsize : ∀ d ∈ FluxCall.pushed calls, d.size = S)
    (hn : (FluxCall.pushed calls).length ≤ T) (hST : S * T < SIZE_MOD) :
    ∃ c, (BaseFluxContainer.new (FluxConstStep.new S T F)).run calls = some c ∧
      ∀ nt segm d, 1 ≤ nt → (FluxCall.pushed calls)[nt - 1]? = some d → segm < S →
        c.operator_call_time nt segm = some (d.coeff segm) := by
  obtain ⟨c, hrun, hstores⟩ :=
    BaseFluxContainer_Stores_run hST calls [] _ (BaseFluxContainer_Stores_new S T F) hsize
      (by simpa using hn)
  refine ⟨c, hrun, ?_⟩
  intro nt segm d hnt hd hsegm
  rw [List.nil_append] at hstores
  exact BaseFluxContainer_Stores_read hstores hn hST nt segm d hnt hd hsegm

theorem BaseFluxContainer_push_read_round_trip_witness :
    ∃ c, (BaseFluxContainer.new (FluxConstStep.new 2 3 2)).run
        [FluxCall.push_coef { size := 2, coeff := fun i => (i : ℚ) + 1 }, FluxCall.extract,
          FluxCall.extract,
          FluxCall.push_coef { size := 2, coeff := fun i => (i : ℚ) + 5 }] = some c ∧
      ∀ nt segm d, 1 ≤ nt →
        (FluxCall.pushed
          [FluxCall.push_coef { size := 2, coeff := fun i => (i : ℚ) + 1 }, FluxCall.extract,
            FluxCall.extract,
            FluxCall.push_coef { size := 2, coeff := fun i => (i : ℚ) + 5 }])[nt - 1]? =
          some d →
        segm < 2 → c.operator_call_time nt segm = some (d.coeff segm) :=
  BaseFluxContainer_push_read_round_trip 2 3 2 _
    (by
      intro d hd
      simp only [FluxCall.pushed, List.mem_cons, List.mem_singleton, List.not_mem_nil,
        or_false] at hd
      rcases hd with rfl | rfl <;> rfl)
    (by simp [FluxCall.pushed]) (by decide)

/-- C6. ConstStep flux pusher over `MemoryDesc(S, T)` (`S * T` representable as a
`size_t`): at construction `idx_begin = S * T`; after `n ≤ T` calls of `on_push`,
`idx_begin = S * (T - n)` and `idx_end = S * T`. On a container reached by calls that
pushed `n - 1` vectors, the `n`-th `push_coef(data)` with an `S`-vector `data` returns,
writes `flux[S * (T - n) .. S * (T - n) + S) = data`, a slab inside the buffer of
`S * T` entries, and leaves every other flux entry unchanged. -/
theorem OnPushFluxConstStep_pusher_contract (S T F n : Nat) (hn : n ≤ T)
    (hST : S * T < SIZE_MOD) :
    (OnPushFluxConstStep.new (MemoryDesc.new S T)).idx_begin = S * T ∧
    (OnPushFluxConstStep.on_push^[n]
        (OnPushFluxConstStep.new (MemoryDesc.new S T))).idx_begin = S * (T - n) ∧
    (OnPushFluxConstStep.on_push^[n]
        (OnPushFluxConstStep.new (MemoryDesc.new S T))).idx_end = S * T ∧
    (∀ (calls : List FluxCall) (c : BaseFluxContainer) (data : VectorXd),
      (BaseFluxContainer.new (FluxConstStep.new S T F)).run calls = some c →
      (∀ d ∈ FluxCall.pushed calls, d.size = S) →
      (FluxCall.pushed calls).length + 1 = n → data.size = S →
      ∃ c1, c.push_coef data = some c1 ∧
        c1.allocator.pusher =
          OnPushFluxConstStep.on_push^[n] (OnPushFluxConstStep.new (MemoryDesc.new S T)) ∧
        (c1.flux.size = S * T ∧ S * (T - n) + S ≤ c1.flux.size) ∧
        (∀ i, i < S → c1.flux.coeff (S * (T - n) + i) = data.coeff i) ∧
        (∀ i, ¬ (S * (T - n) ≤ i ∧ i < S * (T - n) + S) →
          c1.flux.coeff i = c.flux.coeff i)) := by
  refine ⟨?_, ?_, ?_, ?_⟩
  · simp [OnPushFluxConstStep.new, OnPushFluxConstStep.idx_begin, MemoryDesc.allocated_memory,
      MemoryDesc.new, size_mul_of_lt hST]
  · rw [OnPushFluxConstStep_iterate_on_push, size_mul_of_lt hST]
    exact iterate_size_sub S T n hn hST
  · rw [OnPushFluxConstStep_iterate_on_push]
    simp [OnPushFluxConstStep.idx_end, MemoryDesc.allocated_memory, MemoryDesc.new,
      size_mul_of_lt hST]
  · intro calls c data hrun hsize hlen hdata
    obtain ⟨c0, hrun0, hstores⟩ :=
      BaseFluxContainer_Stores_run hST calls [] _ (BaseFluxContainer_Stores_new S T F) hsize
        (by simp; omega)
    rw [hrun] at hrun0
    injection hrun0 with hc
    subst hc
    rw [List.nil_append] at hstores
    obtain ⟨c1, h1, hs1, _, _, hsz, hw, hrest⟩ :=
      BaseFluxContainer_Stores_push_coef hstores (by omega) hST data hdata
    rw [hlen] at hsz hw hrest
    refine ⟨c1, h1, ?_, hsz, hw, hrest⟩
    have := hs1.2.1
    rwa [List.length_append, List.length_singleton, hlen] at this

theorem OnPushFluxConstStep_pusher_contract_witness :
    (1 ≤ 3 ∧ 2 * 3 < SIZE_MOD) ∧
      (OnPushFluxConstStep.on_push^[1]
        (OnPushFluxConstStep.new (MemoryDesc.new 2 3))).idx_begin = 2 * (3 - 1) ∧
      ∃ c1,
        (BaseFluxContainer.new (FluxConstStep.new 2 3 1)).extract.push_coef
            { size := 2, coeff := fun i => (i : ℚ) + 5 } = some c1 ∧
          (∀ i, i < 2 → c1.flux.coeff (2 * (3 - 1) + i) = (i : ℚ) + 5) :=
  ⟨by decide,
    (OnPushFluxConstStep_pusher_contract 2 3 1 1 (by decide) (by decide)).2.1,
    by
      obtain ⟨c1, h1, _, _, h3, _⟩ :=
        (OnPushFluxConstStep_pusher_contract 2 3 1 1 (by decide) (by decide)).2.2.2
          [FluxCall.extract] (BaseFluxContainer.new (FluxConstStep.new 2 3 1)).extract
          { size := 2, coeff := fun i => (i : ℚ) + 5 } rfl
          (by
            intro d hd
            simp [FluxCall.pushed] at hd)
          (by simp [FluxCall.pushed]) rfl
      exact ⟨c1, h1, h3⟩⟩

/-! ## The convolution of one ConstStep well -/

theorem sum_upto_eq_sum (f : Nat → ℚ) (n : Nat) :
    sum_upto f n = ∑ i ∈ Finset.range n, f i := by
  induction n with
  | zero => simp [sum_upto]
  | succ n ih => rw [sum_upto, ih, Finset.sum_range_succ]

/-- A sum over `m` slabs of `S` columns, slab by slab. -/
theorem sum_upto_slabs (f : Nat → ℚ) (S m : Nat) :
    sum_upto f (S * m) =
      ∑ j ∈ Finset.Icc 1 m, ∑ c ∈ Finset.range S, f (S * (j - 1) + c) := by
  induction m with
  | zero => simp [sum_upto]
  | succ m ih =>
    rw [Finset.sum_Icc_succ_top (by omega), ← ih, sum_upto_eq_sum, sum_upto_eq_sum,
      Nat.mul_succ, Finset.sum_range_add]
    simp

/-- The live block returned by `kernel()` after `e` earlier calls of `on_extract`. -/
theorem BaseKernel_operator_call_spec {G S F m e : Nat} {k : BaseKernel}
    (hk : BaseKernel.Shape G S F m k) (hflag : k.allocator.pusher.need_advance = false)
    (hex : k.allocator.extractor =
      OnGetKernelConstStep.on_extract^[e] (OnGetKernelConstStep.new (MemoryDesc.new S F)))
    (hS : 1 ≤ S) (hSF : S * F < SIZE_MOD) :
    k.operator_call =
      some (k.on_extract,
        { rows := G, cols := S * min (e + 1) F, coeff := fun r c => k.Kernel.coeff r (0 + c) }) ∧
      k.on_extract.allocator.extractor =
        OnGetKernelConstStep.on_extract^[e + 1]
          (OnGetKernelConstStep.new (MemoryDesc.new S F)) := by
  have hnext : k.allocator.extractor.on_extract =
      OnGetKernelConstStep.on_extract^[e + 1]
        (OnGetKernelConstStep.new (MemoryDesc.new S F)) := by
    rw [Function.iterate_succ_apply', hex]
  have hclosed := OnGetKernelConstStep_iterate_on_extract S F (e + 1) hS hSF
  have hle : S * min (e + 1) F ≤ S * F := Nat.mul_le_mul_left S (min_le_right _ _)
  have hbeg : k.allocator.extractor.on_extract.idx_begin = 0 := rfl
  have hwin : k.allocator.extractor.on_extract.current_window_size = S * min (e + 1) F := by
    rw [hnext, hclosed]
    show size_sub (S * min (e + 1) F) 0 = _
    rw [size_sub_of_le (Nat.zero_le _) (by omega)]
    rfl
  obtain ⟨hK, _⟩ := hk
  refine ⟨?_, hnext⟩
  rw [BaseKernel_operator_call_eq, hwin, hbeg, hK.1, hK.2, size_mul_of_lt hSF,
    if_pos ⟨hflag, by omega⟩]

/-- The live window of the ConstStep flux extractor after `n ≤ T` calls. -/
theorem OnGetFluxConstStep_live_window (S T F n : Nat) (hn : n ≤ T) (hT : T < SIZE_MOD)
    (hST : S * T < SIZE_MOD) :
    (OnGetFluxConstStep.on_extract^[n]
        (OnGetFluxConstStep.new (MemoryDesc.new S T) F)).idx_begin = S * (T - n) ∧
      (OnGetFluxConstStep.on_extract^[n]
        (OnGetFluxConstStep.new (MemoryDesc.new S T) F)).current_window_size = S * min n F ∧
      S * (T - n) + S * min n F ≤ S * T := by
  rw [OnGetFluxConstStep_iterate_on_extract S T F n hn hT hST]
  have h1 : S * (T - (n - F)) ≤ S * T := Nat.mul_le_mul_left S (by omega)
  have h2 : S * (T - n) ≤ S * (T - (n - F)) := Nat.mul_le_mul_left S (by omega)
  have h3 : S * (T - (n - F)) - S * (T - n) = S * min n F := by
    rw [← Nat.mul_sub]
    congr 1
    omega
  refine ⟨rfl, ?_, ?_⟩
  · show size_sub (S * (T - (n - F))) (S * (T - n)) = _
    rw [size_sub_of_le h2 (by omega), h3]
  · omega

/-- The live sub-vector returned by `flux()` after `n ≤ T` calls of `on_extract`. -/
theorem BaseFluxContainer_operator_call_spec {S T F n : Nat} {c : BaseFluxContainer}
    (hsize : c.flux.size = size_mul S T)
    (hex : c.allocator.extractor =
      OnGetFluxConstStep.on_extract^[n] (OnGetFluxConstStep.new (MemoryDesc.new S T) F))
    (hn : n ≤ T) (hT : T < SIZE_MOD) (hST : S * T < SIZE_MOD) :
    c.operator_call =
      some { size := S * min n F, coeff := fun i => c.flux.coeff (S * (T - n) + i) } := by
  obtain ⟨h1, h2, h3⟩ := OnGetFluxConstStep_live_window S T F n hn hT hST
  unfold BaseFluxContainer.operator_call BaseFluxContainer.rows VectorXd.segment
  rw [hex, h1, h2, hsize, size_mul_of_lt hST, if_pos h3]

/-- The kernel part of driver step `k + 1`. -/
theorem ConstStepDriver_kernel_step {G S F k : Nat} {kernel : BaseKernel}
    (P Fc : Nat → Nat → Nat → ℚ) (h : ConstStepDriver.KernelInv G S F P Fc k kernel)
    (hSF : S * F < SIZE_MOD) :
    ∃ kernel1,
      ConstStepDriver.kernel_step F (P (k + 1)) (Fc (k + 1)) (k + 1) kernel = some kernel1 ∧
      ConstStepDriver.KernelInv G S F P Fc (k + 1) kernel1 ∧
      kernel1.allocator.extractor = kernel.allocator.extractor := by
  obtain ⟨hshape, hflag, hblocks, hprev⟩ := h
  by_cases hk : k + 1 ≤ F
  · have hm : min k F = k := min_eq_left (by omega)
    have hm1 : min (k + 1) F = k + 1 := min_eq_left hk
    rw [hm] at hshape hblocks hprev
    obtain ⟨k1, k2, h1, h2, hshape2, hex2, hflag2, hblock2, hrest2, hprev2⟩ :=
      BaseKernel_fill_advance_spec hshape (by omega) hSF (P (k + 1)) (Fc (k + 1))
    refine ⟨k2, ?_, ⟨?_, hflag2, ?_, ?_⟩, hex2⟩
    · unfold ConstStepDriver.kernel_step
      rw [if_pos hk, h1]
      exact h2
    · rw [hm1]
      exact hshape2
    · rw [hm1]
      intro j hj1 hj2 r hr c hc
      by_cases hjk : j = k + 1
      · subst hjk
        rw [Nat.add_sub_cancel, hblock2 r hr c hc, hprev r hr c hc]
        simp [ConstStepDriver.block]
      · have hle : S * (j - 1) + S ≤ S * k := by
          have h3 : S * (j - 1 + 1) ≤ S * k := Nat.mul_le_mul_left S (by omega)
          rwa [Nat.mul_succ] at h3
        rw [hrest2 r _ (by omega)]
        exact hblocks j hj1 (by omega) r hr c hc
    · rw [hm1]
      intro r hr c hc
      rw [hprev2 r hr c hc]
      simp
  · have hm : min k F = F := min_eq_right (by omega)
    have hm1 : min (k + 1) F = F := min_eq_right (by omega)
    rw [hm] at hshape hblocks hprev
    refine ⟨kernel, if_neg hk, ⟨?_, hflag, ?_, ?_⟩, rfl⟩
    · rw [hm1]
      exact hshape
    · rw [hm1]
      exact hblocks
    · rw [hm1]
      exact hprev

/-- Driver step `k + 1` on a well that satisfies the invariant of index `k`: it returns,
the invariant of index `k + 1` holds afterwards, and the returned vector is the
convolution sum over the retained history. -/
theorem ConstStepDriver_step_spec {G S F T k : Nat} {w : ConstStepDriver}
    (P Fc : Nat → Nat → Nat → ℚ) (v : Nat → Nat → ℚ)
    (h : ConstStepDriver.Inv G S F T P Fc v k w) (hS : 1 ≤ S) (hF : F ≤ T) (hk : k + 1 ≤ T)
    (hST : S * T < SIZE_MOD) :
    ∃ w1 out,
      w.step F (P (k + 1)) (Fc (k + 1)) { size := S, coeff := v (k + 1) } (k + 1) =
        some (w1, out) ∧
      ConstStepDriver.Inv G S F T P Fc v (k + 1) w1 ∧
      out.size = G ∧
      ∀ r, r < G →
        out.coeff r =
          ∑ j ∈ Finset.Icc 1 (min (k + 1) F), ∑ c ∈ Finset.range S,
            ConstStepDriver.block P Fc j r c * v (k + 1 + 1 - j) c := by
  obtain ⟨hkinv, hkex, hstores, hfex⟩ := h
  have hSF : S * F < SIZE_MOD := lt_of_le_of_lt (Nat.mul_le_mul_left S hF) hST
  have hT : T < SIZE_MOD := lt_of_le_of_lt (Nat.le_mul_of_pos_left T hS) hST
  obtain ⟨kernel1, hk1, hkinv1, hkex1⟩ := ConstStepDriver_kernel_step P Fc hkinv hSF
  have hlen : ((List.range k).map
      (fun j => ({ size := S, coeff := v (j + 1) } : VectorXd))).length = k := by simp
  obtain ⟨flux1, hp, hstores1, hfex1, _⟩ :=
    BaseFluxContainer_Stores_push_coef hstores (by rw [hlen]; omega) hST
      { size := S, coeff := v (k + 1) } rfl
  have hvs : (List.range k).map (fun j => ({ size := S, coeff := v (j + 1) } : VectorXd)) ++
      [{ size := S, coeff := v (k + 1) }] =
      (List.range (k + 1)).map (fun j => ({ size := S, coeff := v (j + 1) } : VectorXd)) := by
    rw [List.range_succ, List.map_append]
    rfl
  rw [hvs] at hstores1
  have hstores2 := BaseFluxContainer_Stores_extract hstores1
  have hfex2 : flux1.extract.allocator.extractor =
      OnGetFluxConstStep.on_extract^[k + 1]
        (OnGetFluxConstStep.new (MemoryDesc.new S T) F) := by
    show flux1.allocator.extractor.on_extract = _
    rw [Function.iterate_succ_apply', hfex1, hfex]
  obtain ⟨hop, hkex2⟩ :=
    BaseKernel_operator_call_spec hkinv1.1 hkinv1.2.1 (hkex1.trans hkex) hS hSF
  have hfop := BaseFluxContainer_operator_call_spec hstores2.1 hfex2 hk hT hST
  obtain ⟨out, hconv, hsize, hcoeff⟩ : ∃ out : VectorXd,
      flux1.extract.convolve kernel1 = some (kernel1.on_extract, out) ∧ out.size = G ∧
        ∀ r, out.coeff r =
          sum_upto
            (fun c =>
              kernel1.Kernel.coeff r (0 + c) * flux1.extract.flux.coeff (S * (T - (k + 1)) + c))
            (S * min (k + 1) F) := by
    refine ⟨{ size := G
              coeff := fun r =>
                sum_upto
                  (fun c =>
                    kernel1.Kernel.coeff r (0 + c) *
                      flux1.extract.flux.coeff (S * (T - (k + 1)) + c))
                  (S * min (k + 1) F) }, ?_, rfl, fun _ => rfl⟩
    unfold BaseFluxContainer.convolve
    rw [hop, hfop]
    simp [MatrixXd.mulVec]
  refine ⟨{ kernel := kernel1.on_extract, flux := flux1.extract }, out, ?_,
    ⟨⟨hkinv1.1, hkinv1.2.1, hkinv1.2.2.1, hkinv1.2.2.2⟩, hkex2, hstores2, hfex2⟩, hsize, ?_⟩
  · unfold ConstStepDriver.step
    simp [hk1, hp, hconv]
  · intro r hr
    rw [hcoeff r, sum_upto_slabs]
    apply Finset.sum_congr rfl
    intro j hj
    apply Finset.sum_congr rfl
    intro c hc
    rw [Finset.mem_Icc] at hj
    rw [Finset.mem_range] at hc
    have hjle : j ≤ k + 1 := le_trans hj.2 (min_le_left _ _)
    have hget : ((List.range (k + 1)).map
        (fun j => ({ size := S, coeff := v (j + 1) } : VectorXd)))[k + 1 - j]? =
        some { size := S, coeff := v (k + 1 - j + 1) } := by
      simp [List.getElem?_map, List.getElem?_range, show k + 1 - j < k + 1 by omega]
    have hflux := hstores2.2.2.2 (k + 1 - j) _ hget c hc
    have hpos : S * (T - (k + 1)) + (S * (j - 1) + c) = S * (T - (k + 1 - j + 1)) + c := by
      rw [← Nat.add_assoc, ← Nat.mul_add]
      congr 2
      omega
    have hv : k + 1 - j + 1 = k + 1 + 1 - j := by omega
    rw [hpos, hflux, Nat.zero_add, hkinv1.2.2.1 j hj.1 hj.2 r hr c hc, hv]

/-- The driver runs for `n ≤ T` steps and keeps the invariant. -/
theorem ConstStepDriver_after_spec (G S F T : Nat) (garbage : Nat → Nat → ℚ)
    (P Fc : Nat → Nat → Nat → ℚ) (v : Nat → Nat → ℚ) (hS : 1 ≤ S) (hF : F ≤ T)
    (hST : S * T < SIZE_MOD) (n : Nat) (hn : n ≤ T) :
    ∃ w, ConstStepDriver.after S F P Fc v (ConstStepDriver.new G S F T garbage) n = some w ∧
      ConstStepDriver.Inv G S F T P Fc v n w := by
  induction n with
  | zero =>
    have hK : ConstStepDriver.KernelInv G S F P Fc 0 (ConstStepDriver.new G S F T garbage).kernel := by
      unfold ConstStepDriver.KernelInv
      rw [Nat.zero_min]
      refine ⟨BaseKernel_Shape_new G S F garbage, rfl, ?_, ?_⟩
      · intro j hj1 hj2
        omega
      · intro r _ c _
        simp [ConstStepDriver.new, BaseKernel.new, BaseKernel.allocate_P_cur, MatrixXd.Zero]
    exact ⟨_, rfl, hK, rfl, BaseFluxContainer_Stores_new S T F, rfl⟩
  | succ k ih =>
    obtain ⟨w, hw, hinv⟩ := ih (by omega)
    obtain ⟨w1, out, hstep, hinv1, _⟩ := ConstStepDriver_step_spec P Fc v hinv hS hF hn hST
    refine ⟨w1, ?_, hinv1⟩
    show (ConstStepDriver.after S F P Fc v (ConstStepDriver.new G S F T garbage) k).bind _ = _
    rw [hw]
    show (w.step F (P (k + 1)) (Fc (k + 1)) { size := S, coeff := v (k + 1) } (k + 1)).map _ = _
    rw [hstep]
    rfl

/-- C1. ConstStep end-to-end convolution. Let `1 ≤ S`, `F ≤ T` (and `S * T`
representable as a `size_t`), a `BaseKernel` with `G` rows over `KernelConstStep(S, F)`
and a `BaseFluxContainer` over `FluxConstStep(S, T, F)`. In step `k = 1 .. n` (`n ≤ T`)
the kernel is filled with `P k`, `Fc k` and advanced while `k ≤ F`, the `S`-vector `v k`
is pushed to the flux, and `flux.extract().convolve(kernel)` is called once. Then the
`n`-th convolve returns the `G`-vector whose entry `r` is
`∑ j = 1 .. min n F, ∑ c < S, D_j r c * v (n + 1 - j) c`, with
`D_j = Fc j ⊙ (P j - P (j - 1))` and `P 0 = 0`, over exact numbers. -/
theorem ConstStepDriver_convolution (G S F T n : Nat) (garbage : Nat → Nat → ℚ)
    (P Fc : Nat → Nat → Nat → ℚ) (v : Nat → Nat → ℚ) (hS : 1 ≤ S) (hF : F ≤ T)
    (hn1 : 1 ≤ n) (hn : n ≤ T) (hST : S * T < SIZE_MOD) :
    ∃ out,
      ConstStepDriver.result S F P Fc v (ConstStepDriver.new G S F T garbage) n = some out ∧
      out.size = G ∧
      ∀ r, r < G →
        out.coeff r =
          ∑ j ∈ Finset.Icc 1 (min n F), ∑ c ∈ Finset.range S,
            ConstStepDriver.block P Fc j r c * v (n + 1 - j) c := by
  obtain ⟨k, rfl⟩ : ∃ k, n = k + 1 := ⟨n - 1, by omega⟩
  obtain ⟨w, hw, hinv⟩ :=
    ConstStepDriver_after_spec G S F T garbage P Fc v hS hF hST k (by omega)
  obtain ⟨w1, out, hstep, _, hsize, hout⟩ := ConstStepDriver_step_spec P Fc v hinv hS hF hn hST
  refine ⟨out, ?_, hsize, hout⟩
  show (ConstStepDriver.after S F P Fc v (ConstStepDriver.new G S F T garbage) k).bind _ = _
  rw [hw]
  show (w.step F (P (k + 1)) (Fc (k + 1)) { size := S, coeff := v (k + 1) } (k + 1)).map _ = _
  rw [hstep]
  rfl

theorem ConstStepDriver_convolution_witness :
    (1 ≤ 2 ∧ 2 ≤ 3 ∧ 1 ≤ 3 ∧ 3 ≤ 3 ∧ 2 * 3 < SIZE_MOD) ∧
      ∃ out,
        ConstStepDriver.result 2 2 (fun (k r c : Nat) => ((k * 10 + r * 3 + c : Nat) : ℚ))
            (fun (k r c : Nat) => ((k + r + c + 1 : Nat) : ℚ))
            (fun (k c : Nat) => ((k * k + c : Nat) : ℚ))
            (ConstStepDriver.new 2 2 2 3 (fun _ _ => 77)) 3 = some out ∧
          out.size = 2 ∧
          ∀ r, r < 2 →
            out.coeff r =
              ∑ j ∈ Finset.Icc 1 (min 3 2), ∑ c ∈ Finset.range 2,
                ConstStepDriver.block (fun (k r c : Nat) => ((k * 10 + r * 3 + c : Nat) : ℚ))
                    (fun (k r c : Nat) => ((k + r + c + 1 : Nat) : ℚ)) j r c *
                  (((3 + 1 - j) * (3 + 1 - j) + c : Nat) : ℚ) :=
  ⟨by decide,
    ConstStepDriver_convolution 2 2 2 3 3 (fun _ _ => 77)
      (fun (k r c : Nat) => ((k * 10 + r * 3 + c : Nat) : ℚ))
      (fun (k r c : Nat) => ((k + r + c + 1 : Nat) : ℚ))
      (fun (k c : Nat) => ((k * k + c : Nat) : ℚ)) (by decide) (by decide) (by decide)
      (by decide) (by decide)⟩

/-! ## MainStep and MixStep extractors: what every sequence of calls keeps true -/

theorem OnGetKernelMixStep_iterate_on_extract (g : OnGetKernelMixStep) (n : Nat) :
    OnGetKernelMixStep.on_extract^[n] g = g := by
  induction n with
  | zero => rfl
  | succ n ih =>
    rw [Function.iterate_succ_apply', ih]
    rfl

theorem OnGetFluxMixStep_Bounded_on_extract {S T F : Nat} {g : OnGetFluxMixStep}
    (h : OnGetFluxMixStep.Bounded S T F g) : OnGetFluxMixStep.Bounded S T F g.on_extract := by
  obtain ⟨hm, hF, hw⟩ := h
  unfold OnGetFluxMixStep.on_extract OnGetFluxMixStep.is_external_boundary_time
  by_cases hb : g.cur_temporal_window = g.frame_temporal_size
  · simp only [hb, beq_self_eq_true, Bool.not_true, Bool.false_eq_true, if_false]
    exact ⟨hm, hF, hw⟩
  · have hne : (g.cur_temporal_window == g.frame_temporal_size) = false := by
      simpa using hb
    simp only [hne, Bool.not_false, if_true]
    refine ⟨hm, hF, ?_⟩
    show size_add g.cur_temporal_window 1 ≤ F
    have := Nat.mod_le (g.cur_temporal_window + 1) SIZE_MOD
    unfold size_add
    omega

theorem OnGetFluxMainStep_Bounded_on_extract {S T F : Nat} {g : OnGetFluxMainStep}
    (hS : 1 ≤ S) (hST : S * T < SIZE_MOD) (h : OnGetFluxMainStep.Bounded S T F g) :
    OnGetFluxMainStep.Bounded S T F g.on_extract := by
  obtain ⟨hm, hF, hw, b, e, hb, he, hbe, heT⟩ := h
  have hwstep : size_add g.cur_temporal_window 1 ≤ g.cur_temporal_window + 1 := by
    unfold size_add
    exact Nat.mod_le _ _
  have heT2 : S * e ≤ S * T := Nat.mul_le_mul_left S heT
  have hbe2 : S * b ≤ S * e := Nat.mul_le_mul_left S hbe
  have hsubE : 1 ≤ e → size_sub (S * e) S = S * (e - 1) := by
    intro h1
    have := mul_pred_add S e h1
    rw [size_sub_of_le (by omega) (by omega)]
    omega
  have hsubB : 1 ≤ b → size_sub (S * b) S = S * (b - 1) := by
    intro h1
    have := mul_pred_add S b h1
    rw [size_sub_of_le (by omega) (by omega)]
    omega
  unfold OnGetFluxMainStep.on_extract OnGetFluxMainStep.is_first_history_period
    OnGetFluxMainStep.idx_begin OnGetFluxMainStep.idx_end OnGetFluxConstStep.idx_begin
    OnGetFluxConstStep.idx_end OnGetFluxConstStep.on_extract
    OnGetFluxConstStep.is_external_boundary_time
  by_cases hfirst : g.its_index_begin > 0
  · have hb1 : 1 ≤ b := by
      rcases Nat.eq_zero_or_pos b with h0 | h0
      · rw [hb, h0, Nat.mul_zero] at hfirst
        exact absurd hfirst (by decide)
      · exact h0
    simp only [hfirst, decide_True, if_true]
    by_cases hbd : g.cur_temporal_window = g.frame_temporal_size
    · simp only [hbd, beq_self_eq_true, if_true]
      refine ⟨hm, hF, ?_, b - 1, e - 1, ?_, ?_, by omega, by omega⟩
      · show g.cur_temporal_window ≤ F
        exact hw
      · show size_sub g.its_index_begin g.its_spatial_size = _
        rw [hb, hm.1, hsubB hb1]
      · show size_sub g.its_index_end g.its_spatial_size = _
        rw [he, hm.1, hsubE (by omega)]
    · have hne : (g.cur_temporal_window == g.frame_temporal_size) = false := by
        simpa using hbd
      simp only [hne, Bool.false_eq_true, if_false]
      refine ⟨hm, hF, ?_, b - 1, e, ?_, he, by omega, heT⟩
      · show size_add g.cur_temporal_window 1 ≤ F
        rw [hF] at hbd
        omega
      · show size_sub g.its_index_begin g.its_spatial_size = _
        rw [hb, hm.1, hsubB hb1]
  · simp only [hfirst, decide_False, Bool.false_eq_true, if_false]
    by_cases hbd : g.cur_temporal_window = g.frame_temporal_size
    · simp only [hbd, beq_self_eq_true, if_true]
      by_cases hgt : g.its_index_end > g.its_index_begin
      · simp only [hgt, if_true]
        have he1 : 1 ≤ e := by
          rcases Nat.eq_zero_or_pos e with h0 | h0
          · rw [he, h0, Nat.mul_zero] at hgt
            exact absurd hgt (by omega)
          · exact h0
        have hb0 : b = 0 := by
          rcases Nat.eq_zero_or_pos b with h0 | h0
          · exact h0
          · have := Nat.mul_le_mul_left S h0
            rw [hb] at hfirst
            omega
        refine ⟨hm, hF, hw, b, e - 1, hb, ?_, by omega, by omega⟩
        show size_sub g.its_index_end g.its_spatial_size = _
        rw [he, hm.1, hsubE he1]
      · simp only [hgt, if_false]
        exact ⟨hm, hF, hw, b, e, hb, he, hbe, heT⟩
    · have hne : (g.cur_temporal_window == g.frame_temporal_size) = false := by
        simpa using hbd
      simp only [hne, Bool.false_eq_true, if_false]
      refine ⟨hm, hF, ?_, b, e, hb, he, hbe, heT⟩
      show size_add g.cur_temporal_window 1 ≤ F
      rw [hF] at hbd
      omega

/-- The fields the second-period branch of `OnGetKernelMainStep.on_extract` leaves
alone. -/
theorem OnGetKernelMainStep_on_extract_second (g : OnGetKernelMainStep)
    (h : ¬ g.main_step_counter < g.main_step_nmbr) :
    g.on_extract.toMemoryDesc = g.toMemoryDesc ∧
      g.on_extract.main_step_counter = g.main_step_counter ∧
      g.on_extract.main_step_nmbr = g.main_step_nmbr ∧
      g.on_extract.small_step_nmbr = g.small_step_nmbr ∧
      g.on_extract.small_step_counter =
        (size_add g.small_step_counter 1) % g.small_step_nmbr ∧
      g.on_extract.its_index_begin =
        (if g.small_step_counter = 0 then size_add g.its_index_begin g.its_spatial_size
          else g.its_index_begin) ∧
      g.on_extract.its_index_end =
        (if g.small_step_counter = 0 ∧ g.its_index_end ≠ g.its_allocated_memory then
          size_add g.its_index_end g.its_spatial_size
          else g.its_index_end) := by
  unfold OnGetKernelMainStep.on_extract OnGetKernelMainStep.is_first_history_period
    OnGetKernelConstStep.is_external_boundary_time OnGetKernelConstStep.idx_end
    MemoryDesc.allocated_memory MemoryDesc.spatial_size
  simp only [h, decide_False, Bool.false_eq_true, if_false]
  by_cases hs : g.small_step_counter = 0
  · by_cases he : g.its_index_end = g.its_allocated_memory
    · simp [hs, he]
    · simp [hs, he]
  · simp [hs]

/-- The fields after the first-period branch of `OnGetKernelMainStep.on_extract`. -/
theorem OnGetKernelMainStep_on_extract_first (g : OnGetKernelMainStep)
    (h : g.main_step_counter < g.main_step_nmbr) :
    (g.on_extract.its_spatial_size = g.its_spatial_size ∧
        g.on_extract.its_temporal_size = g.its_temporal_size ∧
        g.on_extract.its_allocated_memory = g.its_allocated_memory) ∧
      g.on_extract.main_step_counter = size_add g.main_step_counter 1 ∧
      g.on_extract.main_step_nmbr = g.main_step_nmbr ∧
      g.on_extract.small_step_nmbr = g.small_step_nmbr ∧
      g.on_extract.small_step_counter = g.small_step_counter ∧
      g.on_extract.its_index_begin = g.its_index_begin ∧
      g.on_extract.its_index_end =
        (if g.its_index_end ≠ g.its_allocated_memory then
          size_add g.its_index_end g.its_spatial_size
          else g.its_index_end) ∧
      g.on_extract.cur_temporal_window =
        (if g.its_index_end ≠ g.its_allocated_memory then size_add g.cur_temporal_window 1
          else g.cur_temporal_window) := by
  unfold OnGetKernelMainStep.on_extract OnGetKernelMainStep.is_first_history_period
    OnGetKernelConstStep.on_extract
    OnGetKernelConstStep.is_external_boundary_time OnGetKernelConstStep.idx_end
    MemoryDesc.allocated_memory MemoryDesc.spatial_size
  simp only [h, decide_True, if_true]
  by_cases he : g.its_index_end = g.its_allocated_memory
  · simp [he]
  · simp [he]

theorem OnGetKernelMainStep_Bounded_on_extract {S T msn : Nat} {g : OnGetKernelMainStep}
    (hS0 : 0 < S) (hST : S * T < SIZE_MOD) (hmsn : msn < SIZE_MOD)
    (h : OnGetKernelMainStep.Bounded S T msn g) :
    OnGetKernelMainStep.Bounded S T msn g.on_extract := by
  obtain ⟨⟨hS, hTs, hA⟩, hn, hc, hw, hfirst⟩ := h
  by_cases hp : g.main_step_counter < g.main_step_nmbr
  · obtain ⟨⟨h1, h2, h3⟩, h4, h5, _, _, _, h9, h10⟩ := OnGetKernelMainStep_on_extract_first g hp
    have hp2 : g.main_step_counter < msn := by rw [← hn]; exact hp
    obtain ⟨he, hwe⟩ := hfirst hp2
    have hadd : size_add g.main_step_counter 1 = g.main_step_counter + 1 :=
      size_add_of_lt (by omega)
    have hmd : g.on_extract.its_spatial_size = S ∧ g.on_extract.its_temporal_size = T ∧
        g.on_extract.its_allocated_memory = S * T := ⟨h1.trans hS, h2.trans hTs, h3.trans hA⟩
    have hcnt : g.on_extract.main_step_counter = g.main_step_counter + 1 := h4.trans hadd
    by_cases hlt : g.main_step_counter < T
    · have hm : min g.main_step_counter T = g.main_step_counter := min_eq_left (le_of_lt hlt)
      have hm1 : min (g.main_step_counter + 1) T = g.main_step_counter + 1 := min_eq_left hlt
      have hle : S * g.main_step_counter + S ≤ S * T := by
        have := Nat.mul_le_mul_left S hlt
        rwa [Nat.mul_succ] at this
      have hT : T < SIZE_MOD := lt_of_le_of_lt (Nat.le_mul_of_pos_left T hS0) hST
      rw [hm] at he hwe
      have hne : g.its_index_end ≠ g.its_allocated_memory := by
        rw [he, hA]
        intro heq
        have := Nat.eq_of_mul_eq_mul_left hS0 heq
        omega
      rw [if_pos hne] at h9 h10
      have hend : g.on_extract.its_index_end = S * (g.main_step_counter + 1) := by
        rw [h9, he, hS, size_add_of_lt (by omega), Nat.mul_succ]
      have hwin : g.on_extract.cur_temporal_window = g.main_step_counter + 1 := by
        rw [h10, hwe, size_add_of_lt (by omega)]
      refine ⟨hmd, h5.trans hn, by omega, by omega, ?_⟩
      intro _
      rw [hcnt, hm1]
      exact ⟨hend, hwin⟩
    · have hm : min g.main_step_counter T = T := min_eq_right (by omega)
      have hm1 : min (g.main_step_counter + 1) T = T := min_eq_right (by omega)
      rw [hm] at he hwe
      have heq : ¬ g.its_index_end ≠ g.its_allocated_memory := by
        rw [he, hA]
        simp
      rw [if_neg heq] at h9 h10
      refine ⟨hmd, h5.trans hn, by omega, by omega, ?_⟩
      intro _
      rw [hcnt, hm1]
      exact ⟨h9.trans he, h10.trans hwe⟩
  · obtain ⟨h1, h2, h3, _⟩ := OnGetKernelMainStep_on_extract_second g hp
    refine ⟨?_, h3.trans hn, ?_, ?_, ?_⟩
    · rw [h1]
      exact ⟨hS, hTs, hA⟩
    · rw [h2]
      exact hc
    · rw [h1]
      exact hw
    · intro hlt
      rw [h2, ← hn] at hlt
      exact absurd hlt hp

/-- From the end of the first history period on, the state of the MainStep kernel
extractor in the form used for the second period. -/
theorem OnGetKernelMainStep_Reached_second_form {S T N msn n : Nat}
    {g : OnGetKernelMainStep} (hN : 1 ≤ N) (h : OnGetKernelMainStep.Reached S T N msn n g)
    (hn : msn ≤ n) :
    g.main_step_counter = msn ∧ g.small_step_counter < N ∧
      g.cur_temporal_window = min msn T ∧
      ∃ b, g.its_index_begin = S * b ∧
        N * b = (n - msn) + (if g.small_step_counter = 0 then 0 else N - g.small_step_counter) ∧
        g.its_index_end = S * min T (min msn T + b) := by
  obtain ⟨_, _, hfirst, hsecond⟩ := h
  rcases Nat.eq_or_lt_of_le hn with heq | hlt
  · subst heq
    obtain ⟨h1, h2, h3, h4, h5⟩ := hfirst (le_refl _)
    refine ⟨h1, by omega, h5, 0, by rw [h3, Nat.mul_zero], ?_, ?_⟩
    · simp [h2]
    · rw [h4, Nat.add_zero]
      congr 1
      omega
  · exact hsecond hlt

theorem OnGetKernelMainStep_Reached_on_extract {S T N msn n : Nat} {g : OnGetKernelMainStep}
    (hS0 : 0 < S) (hST : S * T < SIZE_MOD) (hN : 1 ≤ N) (hN2 : N < SIZE_MOD)
    (hmsn : msn < SIZE_MOD) (hn : n + 1 ≤ msn + N * T)
    (h : OnGetKernelMainStep.Reached S T N msn n g) :
    OnGetKernelMainStep.Reached S T N msn (n + 1) g.on_extract := by
  have hT : T < SIZE_MOD := lt_of_le_of_lt (Nat.le_mul_of_pos_left T hS0) hST
  obtain ⟨⟨hS, hTs, hA⟩, ⟨hNs, hM⟩, hfirst, hsecond⟩ := id h
  by_cases hlt : n < msn
  · obtain ⟨h1, h2, h3, h4, h5⟩ := hfirst (le_of_lt hlt)
    have hp : g.main_step_counter < g.main_step_nmbr := by rw [h1, hM]; exact hlt
    obtain ⟨⟨e1, e2, e3⟩, e4, e5, e6, e7, e8, e9, e10⟩ :=
      OnGetKernelMainStep_on_extract_first g hp
    have hadd : size_add g.main_step_counter 1 = n + 1 := by
      rw [h1]
      exact size_add_of_lt (by omega)
    refine ⟨⟨e1.trans hS, e2.trans hTs, e3.trans hA⟩, ⟨e6.trans hNs, e5.trans hM⟩, ?_, ?_⟩
    · intro _
      refine ⟨e4.trans hadd, e7.trans h2, e8.trans h3, ?_, ?_⟩
      · by_cases hnT : n < T
        · have hm : min n T = n := min_eq_left (le_of_lt hnT)
          have hm1 : min (n + 1) T = n + 1 := min_eq_left hnT
          have hle : S * n + S ≤ S * T := by
            have := Nat.mul_le_mul_left S hnT
            rwa [Nat.mul_succ] at this
          rw [hm] at h4
          have hne : g.its_index_end ≠ g.its_allocated_memory := by
            rw [h4, hA]
            intro heq
            have := Nat.eq_of_mul_eq_mul_left hS0 heq
            omega
          rw [e9, if_pos hne, h4, hS, size_add_of_lt (by omega), hm1, Nat.mul_succ]
        · have hm : min n T = T := min_eq_right (by omega)
          have hm1 : min (n + 1) T = T := min_eq_right (by omega)
          rw [hm] at h4
          have heq : ¬ g.its_index_end ≠ g.its_allocated_memory := by
            rw [h4, hA]
            simp
          rw [e9, if_neg heq, h4, hm1]
      · by_cases hnT : n < T
        · have hm : min n T = n := min_eq_left (le_of_lt hnT)
          have hm1 : min (n + 1) T = n + 1 := min_eq_left hnT
          have hle : S * n + S ≤ S * T := by
            have := Nat.mul_le_mul_left S hnT
            rwa [Nat.mul_succ] at this
          rw [hm] at h4 h5
          have hne : g.its_index_end ≠ g.its_allocated_memory := by
            rw [h4, hA]
            intro heq
            have := Nat.eq_of_mul_eq_mul_left hS0 heq
            omega
          rw [e10, if_pos hne, h5, size_add_of_lt (by omega), hm1]
        · have hm : min n T = T := min_eq_right (by omega)
          have hm1 : min (n + 1) T = T := min_eq_right (by omega)
          rw [hm] at h4 h5
          have heq : ¬ g.its_index_end ≠ g.its_allocated_memory := by
            rw [h4, hA]
            simp
          rw [e10, if_neg heq, h5, hm1]
    · intro hc
      omega
  · have hmn : msn ≤ n := by omega
    obtain ⟨h1, h2, h3, b, h4, h5, h6⟩ := OnGetKernelMainStep_Reached_second_form hN h hmn
    have hp : ¬ g.main_step_counter < g.main_step_nmbr := by rw [h1, hM]; omega
    obtain ⟨e1, e2, e3, e4, e5, e6, e7⟩ := OnGetKernelMainStep_on_extract_second g hp
    have hssc : size_add g.small_step_counter 1 = g.small_step_counter + 1 :=
      size_add_of_lt (by omega)
    rw [hssc, hNs] at e5
    refine ⟨by rw [e1]; exact ⟨hS, hTs, hA⟩, ⟨e4.trans hNs, e3.trans hM⟩, ?_, ?_⟩
    · intro hc
      omega
    · intro _
      have hk : n + 1 - msn = (n - msn) + 1 := by omega
      have hw : g.on_extract.cur_temporal_window = min msn T := by
        show g.on_extract.toMemoryDesc.cur_temporal_window = _
        rw [e1]
        exact h3
      refine ⟨e2.trans h1, ?_, hw, ?_⟩
      · rw [e5]
        exact Nat.mod_lt _ (by omega)
      · by_cases hs : g.small_step_counter = 0
        · rw [if_pos hs, Nat.add_zero] at h5
          have hbT : b < T := by
            have h7 : N * b < N * T := by omega
            exact Nat.lt_of_mul_lt_mul_left h7
          have hle : S * b + S ≤ S * T := by
            have := Nat.mul_le_mul_left S hbT
            rwa [Nat.mul_succ] at this
          rw [if_pos hs, h4, hS, size_add_of_lt (by omega)] at e6
          have hssc1 : g.on_extract.small_step_counter = 1 % N := by
            rw [e5, hs]
          refine ⟨b + 1, by rw [e6, Nat.mul_succ], ?_, ?_⟩
          · rw [hssc1, hk, Nat.mul_succ, h5]
            rcases Nat.eq_or_lt_of_le hN with hN1 | hN1
            · rw [← hN1]
              simp
            · rw [Nat.mod_eq_of_lt hN1]
              simp
              omega
          · by_cases hfull : min msn T + b < T
            · have hm : min T (min msn T + b) = min msn T + b := min_eq_right (le_of_lt hfull)
              have hm1 : min T (min msn T + (b + 1)) = min msn T + (b + 1) :=
                min_eq_right (by omega)
              rw [hm] at h6
              have hle2 : S * (min msn T + b) + S ≤ S * T := by
                have := Nat.mul_le_mul_left S hfull
                rwa [Nat.mul_succ] at this
              have hne : g.its_index_end ≠ g.its_allocated_memory := by
                rw [h6, hA]
                intro heq
                have := Nat.eq_of_mul_eq_mul_left hS0 heq
                omega
              rw [e7, if_pos ⟨hs, hne⟩, h6, hS, size_add_of_lt (by omega), hm1,
                ← Nat.add_assoc, Nat.mul_succ]
            · have hm : min T (min msn T + b) = T := min_eq_left (by omega)
              have hm1 : min T (min msn T + (b + 1)) = T := min_eq_left (by omega)
              rw [hm] at h6
              have heq : ¬ (g.small_step_counter = 0 ∧
                  g.its_index_end ≠ g.its_allocated_memory) := by
                rw [h6, hA]
                simp
              rw [e7, if_neg heq, h6, hm1]
        · rw [if_neg hs] at h5 e6
          have heq : ¬ (g.small_step_counter = 0 ∧
              g.its_index_end ≠ g.its_allocated_memory) := fun hc => hs hc.1
          rw [if_neg heq] at e7
          refine ⟨b, e6.trans h4, ?_, e7.trans h6⟩
          rw [e5, hk, h5]
          rcases Nat.eq_or_lt_of_le (Nat.succ_le_of_lt h2) with hlast | hmore
          · have h8 : g.small_step_counter + 1 = N := hlast
            rw [h8, Nat.mod_self]
            simp
            omega
          · have h8 : g.small_step_counter + 1 < N := hmore
            rw [Nat.mod_eq_of_lt h8]
            simp
            omega

/-- The MainStep kernel extractor after `n ≤ msn + N * T` calls of `on_extract`. -/
theorem OnGetKernelMainStep_iterate_Reached (S T M N msn n : Nat) (hS0 : 0 < S)
    (hST : S * T < SIZE_MOD) (hN : 1 ≤ N) (hN2 : N < SIZE_MOD) (hmsn : msn < SIZE_MOD)
    (hn : n ≤ msn + N * T) :
    OnGetKernelMainStep.Reached S T N msn n
      (OnGetKernelMainStep.on_extract^[n]
        (OnGetKernelMainStep.new (MemoryDesc.new S T) M N msn)) := by
  induction n with
  | zero =>
    refine ⟨⟨rfl, rfl, size_mul_of_lt hST⟩, ⟨rfl, rfl⟩, ?_, ?_⟩
    · intro _
      exact ⟨rfl, rfl, rfl, by simp [OnGetKernelMainStep.new, OnGetKernelConstStep.new],
        by simp [OnGetKernelMainStep.new, OnGetKernelConstStep.new, GetDesc.new, MemoryDesc.new]⟩
    · intro hc
      omega
  | succ n ih =>
    rw [Function.iterate_succ_apply']
    exact OnGetKernelMainStep_Reached_on_extract hS0 hST hN hN2 hmsn hn (ih (by omega))

/-- The MainStep kernel extractor after any number of calls of `on_extract`. -/
theorem OnGetKernelMainStep_iterate_Bounded (S T M N msn n : Nat) (hS0 : 0 < S)
    (hST : S * T < SIZE_MOD) (hmsn : msn < SIZE_MOD) :
    OnGetKernelMainStep.Bounded S T msn
      (OnGetKernelMainStep.on_extract^[n]
        (OnGetKernelMainStep.new (MemoryDesc.new S T) M N msn)) := by
  apply iterate_preserves OnGetKernelMainStep.on_extract (OnGetKernelMainStep.Bounded S T msn)
    (fun g hg => OnGetKernelMainStep_Bounded_on_extract hS0 hST hmsn hg)
  refine ⟨⟨rfl, rfl, size_mul_of_lt hST⟩, rfl, Nat.zero_le _, Nat.zero_le _, ?_⟩
  intro _
  exact ⟨by simp [OnGetKernelMainStep.new, OnGetKernelConstStep.new],
    by simp [OnGetKernelMainStep.new, OnGetKernelConstStep.new, GetDesc.new, MemoryDesc.new]⟩

/-- The MainStep flux extractor after any number of calls of `on_extract`. -/
theorem OnGetFluxMainStep_iterate_Bounded (S T F n : Nat) (hS : 1 ≤ S)
    (hST : S * T < SIZE_MOD) :
    OnGetFluxMainStep.Bounded S T F
      (OnGetFluxMainStep.on_extract^[n] (OnGetFluxMainStep.new (MemoryDesc.new S T) F)) := by
  apply iterate_preserves OnGetFluxMainStep.on_extract (OnGetFluxMainStep.Bounded S T F)
    (fun g hg => OnGetFluxMainStep_Bounded_on_extract hS hST hg)
  refine ⟨⟨rfl, rfl, size_mul_of_lt hST⟩, rfl, Nat.zero_le _, T, T, ?_, ?_, le_refl _, le_refl _⟩
  · exact size_mul_of_lt hST
  · exact size_mul_of_lt hST

/-- The MixStep flux extractor after any number of calls of `on_extract`. -/
theorem OnGetFluxMixStep_iterate_Bounded (S T F n : Nat) (hST : S * T < SIZE_MOD) :
    OnGetFluxMixStep.Bounded S T F
      (OnGetFluxMixStep.on_extract^[n] (OnGetFluxMixStep.new (MemoryDesc.new S T) F)) := by
  apply iterate_preserves OnGetFluxMixStep.on_extract (OnGetFluxMixStep.Bounded S T F)
    (fun g hg => OnGetFluxMixStep_Bounded_on_extract hg)
  exact ⟨⟨rfl, rfl, size_mul_of_lt hST⟩, rfl, Nat.zero_le _⟩

/-- The counter of the ConstStep flux extractor after any number of calls. -/
theorem OnGetFluxConstStep_iterate_window (S T F n : Nat) :
    (OnGetFluxConstStep.on_extract^[n]
        (OnGetFluxConstStep.new (MemoryDesc.new S T) F)).cur_temporal_window ≤ F := by
  have h := iterate_preserves OnGetFluxConstStep.on_extract
    (fun g => g.cur_temporal_window ≤ g.frame_temporal_size ∧ g.frame_temporal_size = F)
    (fun g hg => by
      obtain ⟨h1, h2, _⟩ := OnGetFluxConstStep_on_extract_window g hg.1
      exact ⟨h1, h2.trans hg.2⟩)
    (OnGetFluxConstStep.new (MemoryDesc.new S T) F) ⟨Nat.zero_le _, rfl⟩ n
  exact le_of_le_of_eq h.1 h.2

/-! ## The window property, the push counter and the window counter of the six pairs -/

theorem window_invariant_of_mul {x y z S b e T : Nat} (hx : x = S * b) (hy : y = S * e)
    (hz : z = S * T) (hbe : b ≤ e) (heT : e ≤ T) (hST : S * T < SIZE_MOD) :
    window_invariant x y z S := by
  have h1 : S * b ≤ S * e := Nat.mul_le_mul_left S hbe
  have h2 : S * e ≤ S * T := Nat.mul_le_mul_left S heT
  subst hx hy hz
  refine ⟨h1, h2, ?_⟩
  rw [size_sub_of_le h1 (by omega), ← Nat.mul_sub]
  exact Nat.mul_mod_right S _

theorem KernelConstStep_run_eq (S T : Nat) (calls : List AllocatorCall) :
    (KernelConstStep.new S T).run calls =
      { pusher :=
          OnPushKernelConstStep.on_push^[AllocatorCall.pushes calls]
            (OnPushKernelConstStep.new (MemoryDesc.new S T))
        extractor :=
          OnGetKernelConstStep.on_extract^[AllocatorCall.extracts calls]
            (OnGetKernelConstStep.new (MemoryDesc.new S T)) } :=
  Allocator_run_eq _ _ calls _

theorem FluxConstStep_run_eq (S T F : Nat) (calls : List AllocatorCall) :
    (FluxConstStep.new S T F).run calls =
      { pusher :=
          OnPushFluxConstStep.on_push^[AllocatorCall.pushes calls]
            (OnPushFluxConstStep.new (MemoryDesc.new S T))
        extractor :=
          OnGetFluxConstStep.on_extract^[AllocatorCall.extracts calls]
            (OnGetFluxConstStep.new (MemoryDesc.new S T) F) } :=
  Allocator_run_eq _ _ calls _

theorem KernelMainStep_run_eq (S T M N msn : Nat) (calls : List AllocatorCall) :
    (KernelMainStep.new S T M N msn).run calls =
      { pusher :=
          OnPushKernelConstStep.on_push^[AllocatorCall.pushes calls]
            (OnPushKernelConstStep.new (MemoryDesc.new S T))
        extractor :=
          OnGetKernelMainStep.on_extract^[AllocatorCall.extracts calls]
            (OnGetKernelMainStep.new (MemoryDesc.new S T) M N msn) } :=
  Allocator_run_eq _ _ calls _

theorem FluxMainStep_run_eq (S T F N : Nat) (calls : List AllocatorCall) :
    (FluxMainStep.new S T F N).run calls =
      { pusher :=
          OnPushFluxMainStep.on_push^[AllocatorCall.pushes calls]
            (OnPushFluxMainStep.new (MemoryDesc.new S T))
        extractor :=
          OnGetFluxMainStep.on_extract^[AllocatorCall.extracts calls]
            (OnGetFluxMainStep.new (MemoryDesc.new S T) F) } :=
  Allocator_run_eq _ _ calls _

theorem KernelMixStep_run_eq (S T N M : Nat) (calls : List AllocatorCall) :
    (KernelMixStep.new S T N M).run calls =
      { pusher := OnPushKernelMixStep.new (MemoryDesc.new S T)
        extractor := OnGetKernelMixStep.new (MemoryDesc.new S T) N } := by
  have h := Allocator_run_eq OnPushKernelMixStep.on_push OnGetKernelMixStep.on_extract calls
    (KernelMixStep.new S T N M).toAllocator
  rw [OnGetKernelMixStep_iterate_on_extract] at h
  unfold KernelMixStep.run
  rw [h]
  show Allocator.mk (OnPushKernelMixStep.on_push^[_]
    (OnPushKernelMixStep.new (MemoryDesc.new S T))) _ = _
  rw [OnPushKernelMixStep_iterate_on_push]
  rfl

theorem FluxMixStep_run_eq (S F : Nat) (calls : List AllocatorCall) :
    (FluxMixStep.new S F).run calls =
      { pusher :=
          OnPushFluxMainStep.on_push^[AllocatorCall.pushes calls]
            (OnPushFluxMainStep.new (MemoryDesc.new S 1))
        extractor :=
          OnGetFluxMixStep.on_extract^[AllocatorCall.extracts calls]
            (OnGetFluxMixStep.new (MemoryDesc.new S 1) F) } :=
  Allocator_run_eq _ _ calls _

/-- The window of the ConstStep kernel pusher after `p ≤ T` calls of `on_push`. -/
theorem OnPushKernelConstStep_window (S T p : Nat) (hp : p ≤ T) (hST : S * T < SIZE_MOD) :
    window_invariant
      (OnPushKernelConstStep.on_push^[p]
        (OnPushKernelConstStep.new (MemoryDesc.new S T))).idx_begin
      (OnPushKernelConstStep.on_push^[p]
        (OnPushKernelConstStep.new (MemoryDesc.new S T))).idx_end
      (OnPushKernelConstStep.on_push^[p]
        (OnPushKernelConstStep.new (MemoryDesc.new S T))).allocated_memory S := by
  rw [OnPushKernelConstStep_iterate_on_push]
  have hle : S * p ≤ S * T := Nat.mul_le_mul_left S hp
  refine window_invariant_of_mul (b := 0) (e := p) (T := T) rfl ?_ (size_mul_of_lt hST)
    (Nat.zero_le _) hp hST
  show p * S % SIZE_MOD = S * p
  rw [Nat.mul_comm p S]
  exact Nat.mod_eq_of_lt (by omega)

/-- The window of the ConstStep and MainStep flux pushers after `p ≤ T` calls. -/
theorem OnPushFluxConstStep_window (S T p : Nat) (hp : p ≤ T) (hST : S * T < SIZE_MOD) :
    window_invariant
        (OnPushFluxConstStep.on_push^[p]
          (OnPushFluxConstStep.new (MemoryDesc.new S T))).idx_begin
        (OnPushFluxConstStep.on_push^[p]
          (OnPushFluxConstStep.new (MemoryDesc.new S T))).idx_end
        (OnPushFluxConstStep.on_push^[p]
          (OnPushFluxConstStep.new (MemoryDesc.new S T))).allocated_memory S ∧
      window_invariant
        (OnPushFluxMainStep.on_push^[p]
          (OnPushFluxMainStep.new (MemoryDesc.new S T))).idx_begin
        (OnPushFluxMainStep.on_push^[p]
          (OnPushFluxMainStep.new (MemoryDesc.new S T))).idx_end
        (OnPushFluxMainStep.on_push^[p]
          (OnPushFluxMainStep.new (MemoryDesc.new S T))).allocated_memory S := by
  rw [OnPushFluxConstStep_iterate_on_push, OnPushFluxMainStep_iterate_on_push,
    size_mul_of_lt hST, iterate_size_sub S T p hp hST]
  constructor
  · exact window_invariant_of_mul (b := T - p) (e := T) (T := T) rfl (size_mul_of_lt hST)
      (size_mul_of_lt hST) (by omega) (le_refl _) hST
  · exact window_invariant_of_mul (b := T - p) (e := T) (T := T) rfl (size_mul_of_lt hST)
      (size_mul_of_lt hST) (by omega) (le_refl _) hST

/-- C8, as the code has it. For allocators built with `1 ≤ S`, `1 ≤ T` (`S * T`
representable as a `size_t`) and every finite sequence of `on_push` / `on_extract`
calls, the window property `idx_begin ≤ idx_end ≤ allocated_memory`,
`(idx_end - idx_begin) mod S = 0` holds:
for the extractors of ConstStep Kernel, MainStep Flux, MixStep Kernel and MixStep Flux
after any number of calls;
for the pushers of ConstStep Kernel, ConstStep Flux, MainStep Kernel and MainStep Flux
while at most `T` calls of `on_push` were made, and for the MixStep Flux pusher (one
slab) while at most one was made;
for the ConstStep Flux extractor while at most `T` calls of `on_extract` were made;
for the MainStep Kernel extractor (with `1 ≤ small_step_nmbr`) while at most
`main_step_nmbr + small_step_nmbr * T` calls of `on_extract` were made.
The MixStep Kernel pusher has no `idx_begin`; its `idx_end` is `0`. -/
theorem allocator_window_invariant_within_capacity (S T : Nat) (hS : 1 ≤ S) (hT : 1 ≤ T)
    (hST : S * T < SIZE_MOD) (calls : List AllocatorCall) :
    ((AllocatorCall.pushes calls ≤ T →
        window_invariant ((KernelConstStep.new S T).run calls).pusher.idx_begin
          ((KernelConstStep.new S T).run calls).pusher.idx_end
          ((KernelConstStep.new S T).run calls).pusher.allocated_memory S) ∧
      window_invariant ((KernelConstStep.new S T).run calls).extractor.idx_begin
        ((KernelConstStep.new S T).run calls).extractor.idx_end
        ((KernelConstStep.new S T).run calls).extractor.allocated_memory S) ∧
    (∀ F,
      (AllocatorCall.pushes calls ≤ T →
        window_invariant ((FluxConstStep.new S T F).run calls).pusher.idx_begin
          ((FluxConstStep.new S T F).run calls).pusher.idx_end
          ((FluxConstStep.new S T F).run calls).pusher.allocated_memory S) ∧
      (AllocatorCall.extracts calls ≤ T →
        window_invariant ((FluxConstStep.new S T F).run calls).extractor.idx_begin
          ((FluxConstStep.new S T F).run calls).extractor.idx_end
          ((FluxConstStep.new S T F).run calls).extractor.allocated_memory S)) ∧
    (∀ M N msn, 1 ≤ N → N < SIZE_MOD → msn < SIZE_MOD →
      (AllocatorCall.pushes calls ≤ T →
        window_invariant ((KernelMainStep.new S T M N msn).run calls).pusher.idx_begin
          ((KernelMainStep.new S T M N msn).run calls).pusher.idx_end
          ((KernelMainStep.new S T M N msn).run calls).pusher.allocated_memory S) ∧
      (AllocatorCall.extracts calls ≤ msn + N * T →
        window_invariant ((KernelMainStep.new S T M N msn).run calls).extractor.idx_begin
          ((KernelMainStep.new S T M N msn).run calls).extractor.idx_end
          ((KernelMainStep.new S T M N msn).run calls).extractor.allocated_memory S)) ∧
    (∀ F N,
      (AllocatorCall.pushes calls ≤ T →
        window_invariant ((FluxMainStep.new S T F N).run calls).pusher.idx_begin
          ((FluxMainStep.new S T F N).run calls).pusher.idx_end
          ((FluxMainStep.new S T F N).run calls).pusher.allocated_memory S) ∧
      window_invariant ((FluxMainStep.new S T F N).run calls).extractor.idx_begin
        ((FluxMainStep.new S T F N).run calls).extractor.idx_end
        ((FluxMainStep.new S T F N).run calls).extractor.allocated_memory S) ∧
    (∀ N M,
      ((KernelMixStep.new S T N M).run calls).pusher.idx_end = 0 ∧
      window_invariant ((KernelMixStep.new S T N M).run calls).extractor.idx_begin
        ((KernelMixStep.new S T N M).run calls).extractor.idx_end
        ((KernelMixStep.new S T N M).run calls).extractor.allocated_memory S) ∧
    (∀ F,
      (AllocatorCall.pushes calls ≤ 1 →
        window_invariant ((FluxMixStep.new S F).run calls).pusher.idx_begin
          ((FluxMixStep.new S F).run calls).pusher.idx_end
          ((FluxMixStep.new S F).run calls).pusher.allocated_memory S) ∧
      window_invariant ((FluxMixStep.new S F).run calls).extractor.idx_begin
        ((FluxMixStep.new S F).run calls).extractor.idx_end
        ((FluxMixStep.new S F).run calls).extractor.allocated_memory S) := by
  have hS1 : S * 1 < SIZE_MOD := lt_of_le_of_lt (Nat.mul_le_mul_left S hT) hST
  refine ⟨⟨?_, ?_⟩, ?_, ?_, ?_, ?_, ?_⟩
  · intro hp
    rw [KernelConstStep_run_eq]
    exact OnPushKernelConstStep_window S T _ hp hST
  · rw [KernelConstStep_run_eq]
    show window_invariant (OnGetKernelConstStep.on_extract^[_] _).idx_begin
      (OnGetKernelConstStep.on_extract^[_] _).idx_end
      (OnGetKernelConstStep.on_extract^[_] _).allocated_memory S
    rw [OnGetKernelConstStep_iterate_on_extract S T _ hS hST]
    exact window_invariant_of_mul (b := 0) (e := min (AllocatorCall.extracts calls) T) (T := T)
      rfl rfl (size_mul_of_lt hST) (Nat.zero_le _) (min_le_right _ _) hST
  · intro F
    rw [FluxConstStep_run_eq]
    refine ⟨fun hp => (OnPushFluxConstStep_window S T _ hp hST).1, fun he => ?_⟩
    show window_invariant (OnGetFluxConstStep.on_extract^[_] _).idx_begin
      (OnGetFluxConstStep.on_extract^[_] _).idx_end
      (OnGetFluxConstStep.on_extract^[_] _).allocated_memory S
    rw [OnGetFluxConstStep_iterate_on_extract S T F _ he
      (lt_of_le_of_lt (Nat.le_mul_of_pos_left T hS) hST) hST]
    exact window_invariant_of_mul (b := T - AllocatorCall.extracts calls)
      (e := T - (AllocatorCall.extracts calls - F)) (T := T) rfl rfl (size_mul_of_lt hST)
      (by omega) (by omega) hST
  · intro M N msn hN hN2 hmsn
    rw [KernelMainStep_run_eq]
    refine ⟨fun hp => OnPushKernelConstStep_window S T _ hp hST, fun he => ?_⟩
    have hr := OnGetKernelMainStep_iterate_Reached S T M N msn _ hS hST hN hN2 hmsn he
    obtain ⟨⟨_, _, hA⟩, _, hfirst, _⟩ := id hr
    by_cases hlt : AllocatorCall.extracts calls ≤ msn
    · obtain ⟨_, _, h3, h4, _⟩ := hfirst hlt
      exact window_invariant_of_mul (b := 0) (e := min (AllocatorCall.extracts calls) T)
        (T := T) h3 h4 hA (Nat.zero_le _) (min_le_right _ _) hST
    · obtain ⟨_, h2, _, b, h4, h5, h6⟩ :=
        OnGetKernelMainStep_Reached_second_form hN hr (by omega)
      have hb : b ≤ T := by
        have h7 : N * b < N * (T + 1) := by
          rw [Nat.mul_succ]
          split at h5 <;> omega
        exact Nat.le_of_lt_succ (Nat.lt_of_mul_lt_mul_left h7)
      exact window_invariant_of_mul (b := b) (e := min T (min msn T + b)) (T := T) h4 h6 hA
        (le_min hb (Nat.le_add_left _ _)) (min_le_left _ _) hST
  · intro F N
    rw [FluxMainStep_run_eq]
    refine ⟨fun hp => (OnPushFluxConstStep_window S T _ hp hST).2, ?_⟩
    obtain ⟨⟨_, _, hA⟩, _, _, b, e, hb, he, hbe, heT⟩ :=
      OnGetFluxMainStep_iterate_Bounded S T F (AllocatorCall.extracts calls) hS hST
    exact window_invariant_of_mul hb he hA hbe heT hST
  · intro N M
    rw [KernelMixStep_run_eq]
    refine ⟨rfl, ?_⟩
    exact window_invariant_of_mul (b := 0) (e := T) (T := T) rfl (size_mul_of_lt hST)
      (size_mul_of_lt hST) (Nat.zero_le _) (le_refl _) hST
  · intro F
    rw [FluxMixStep_run_eq]
    refine ⟨fun hp => (OnPushFluxConstStep_window S 1 _ hp hS1).2, ?_⟩
    obtain ⟨⟨h1, _, hA⟩, _, _⟩ :=
      OnGetFluxMixStep_iterate_Bounded S 1 F (AllocatorCall.extracts calls) hS1
    exact window_invariant_of_mul (b := 0) (e := 1) (T := 1) rfl
      (by rw [Nat.mul_one]; exact h1) hA (Nat.zero_le _) (le_refl _) hS1

theorem allocator_window_invariant_within_capacity_witness :
    (1 ≤ 2 ∧ 1 ≤ 3 ∧ 2 * 3 < SIZE_MOD) ∧
      window_invariant
        ((KernelConstStep.new 2 3).run
          [AllocatorCall.on_push, AllocatorCall.on_extract, AllocatorCall.on_extract,
            AllocatorCall.on_extract, AllocatorCall.on_extract]).extractor.idx_begin
        ((KernelConstStep.new 2 3).run
          [AllocatorCall.on_push, AllocatorCall.on_extract, AllocatorCall.on_extract,
            AllocatorCall.on_extract, AllocatorCall.on_extract]).extractor.idx_end
        ((KernelConstStep.new 2 3).run
          [AllocatorCall.on_push, AllocatorCall.on_extract, AllocatorCall.on_extract,
            AllocatorCall.on_extract, AllocatorCall.on_extract]).extractor.allocated_memory 2 :=
  ⟨by decide,
    (allocator_window_invariant_within_capacity 2 3 (by decide) (by decide) (by decide)
      [AllocatorCall.on_push, AllocatorCall.on_extract, AllocatorCall.on_extract,
        AllocatorCall.on_extract, AllocatorCall.on_extract]).1.2⟩

/-- C8 as stated fails. With `S = T = 1`: after two `on_push` calls the ConstStep Kernel
pusher has `idx_end = 2 > allocated_memory = 1`; after two `on_extract` calls the
ConstStep Flux extractor (frame size 1) has `idx_begin = 2 ^ 64 - 1 > idx_end = 0`;
after three `on_extract` calls the MainStep Kernel extractor (one small step per main
step, one main step) has `idx_begin = 2 > idx_end = 1`. -/
theorem allocator_window_invariant_fails :
    ¬ window_invariant
        ((KernelConstStep.new 1 1).run
          [AllocatorCall.on_push, AllocatorCall.on_push]).pusher.idx_begin
        ((KernelConstStep.new 1 1).run
          [AllocatorCall.on_push, AllocatorCall.on_push]).pusher.idx_end
        ((KernelConstStep.new 1 1).run
          [AllocatorCall.on_push, AllocatorCall.on_push]).pusher.allocated_memory 1 ∧
      ¬ window_invariant
        ((FluxConstStep.new 1 1 1).run
          [AllocatorCall.on_extract, AllocatorCall.on_extract]).extractor.idx_begin
        ((FluxConstStep.new 1 1 1).run
          [AllocatorCall.on_extract, AllocatorCall.on_extract]).extractor.idx_end
        ((FluxConstStep.new 1 1 1).run
          [AllocatorCall.on_extract, AllocatorCall.on_extract]).extractor.allocated_memory 1 ∧
      ¬ window_invariant
        ((KernelMainStep.new 1 1 1 1 1).run
          [AllocatorCall.on_extract, AllocatorCall.on_extract,
            AllocatorCall.on_extract]).extractor.idx_begin
        ((KernelMainStep.new 1 1 1 1 1).run
          [AllocatorCall.on_extract, AllocatorCall.on_extract,
            AllocatorCall.on_extract]).extractor.idx_end
        ((KernelMainStep.new 1 1 1 1 1).run
          [AllocatorCall.on_extract, AllocatorCall.on_extract,
            AllocatorCall.on_extract]).extractor.allocated_memory 1 := by
  decide

/-- C9, as the code has it. For every sequence of calls with `n` calls of `on_push`:
on the ConstStep Kernel, ConstStep Flux, MainStep Kernel, MainStep Flux and MixStep Flux
pairs `pushed_data_counter()` is `n` as a `size_t` (`n mod 2 ^ 64`); on the MixStep
Kernel pair, whose `on_push` only clears the flag, it stays `0`. `push_data_nmbr()` is
the `temporal_size` the pair was built with (`T`, and `1` for `FluxMixStep(S, F)`). A
call of `on_extract` changes neither value, on any pair. -/
theorem pushed_data_counter_counts_pushes (S T : Nat) (calls : List AllocatorCall) :
    (Allocator.pushed_data_counter OnPushKernelConstStep.toPushDesc
          ((KernelConstStep.new S T).run calls) = AllocatorCall.pushes calls % SIZE_MOD ∧
      Allocator.push_data_nmbr OnPushKernelConstStep.toPushDesc
          ((KernelConstStep.new S T).run calls) = T) ∧
    (∀ F,
      Allocator.pushed_data_counter OnPushFluxConstStep.toPushDesc
          ((FluxConstStep.new S T F).run calls) = AllocatorCall.pushes calls % SIZE_MOD ∧
      Allocator.push_data_nmbr OnPushFluxConstStep.toPushDesc
          ((FluxConstStep.new S T F).run calls) = T) ∧
    (∀ M N msn,
      Allocator.pushed_data_counter OnPushKernelConstStep.toPushDesc
          ((KernelMainStep.new S T M N msn).run calls) = AllocatorCall.pushes calls % SIZE_MOD ∧
      Allocator.push_data_nmbr OnPushKernelConstStep.toPushDesc
          ((KernelMainStep.new S T M N msn).run calls) = T) ∧
    (∀ F N,
      Allocator.pushed_data_counter OnPushFluxMainStep.toPushDesc
          ((FluxMainStep.new S T F N).run calls) = AllocatorCall.pushes calls % SIZE_MOD ∧
      Allocator.push_data_nmbr OnPushFluxMainStep.toPushDesc
          ((FluxMainStep.new S T F N).run calls) = T) ∧
    (∀ N M,
      Allocator.pushed_data_counter OnPushKernelMixStep.toPushDesc
          ((KernelMixStep.new S T N M).run calls) = 0 ∧
      Allocator.push_data_nmbr OnPushKernelMixStep.toPushDesc
          ((KernelMixStep.new S T N M).run calls) = T) ∧
    (∀ F,
      Allocator.pushed_data_counter OnPushFluxMainStep.toPushDesc
          ((FluxMixStep.new S F).run calls) = AllocatorCall.pushes calls % SIZE_MOD ∧
      Allocator.push_data_nmbr OnPushFluxMainStep.toPushDesc
          ((FluxMixStep.new S F).run calls) = 1) ∧
    (∀ (Push Extract : Type) (push : Push → Push) (extract : Extract → Extract)
      (toPushDesc : Push → PushDesc) (a : Allocator Push Extract),
      Allocator.pushed_data_counter toPushDesc
          (Allocator.call push extract a AllocatorCall.on_extract) =
        Allocator.pushed_data_counter toPushDesc a ∧
      Allocator.push_data_nmbr toPushDesc
          (Allocator.call push extract a AllocatorCall.on_extract) =
        Allocator.push_data_nmbr toPushDesc a) := by
  refine ⟨?_, ?_, ?_, ?_, ?_, ?_, ?_⟩
  · rw [KernelConstStep_run_eq]
    unfold Allocator.pushed_data_counter Allocator.push_data_nmbr
    rw [OnPushKernelConstStep_iterate_on_push]
    exact ⟨rfl, rfl⟩
  · intro F
    rw [FluxConstStep_run_eq]
    unfold Allocator.pushed_data_counter Allocator.push_data_nmbr
    rw [OnPushFluxConstStep_iterate_on_push]
    exact ⟨rfl, rfl⟩
  · intro M N msn
    rw [KernelMainStep_run_eq]
    unfold Allocator.pushed_data_counter Allocator.push_data_nmbr
    rw [OnPushKernelConstStep_iterate_on_push]
    exact ⟨rfl, rfl⟩
  · intro F N
    rw [FluxMainStep_run_eq]
    unfold Allocator.pushed_data_counter Allocator.push_data_nmbr
    rw [OnPushFluxMainStep_iterate_on_push]
    exact ⟨rfl, rfl⟩
  · intro N M
    rw [KernelMixStep_run_eq]
    exact ⟨rfl, rfl⟩
  · intro F
    rw [FluxMixStep_run_eq]
    unfold Allocator.pushed_data_counter Allocator.push_data_nmbr
    rw [OnPushFluxMainStep_iterate_on_push]
    exact ⟨rfl, rfl⟩
  · intro Push Extract push extract toPushDesc a
    exact ⟨rfl, rfl⟩

/-- C9 as stated fails on the MixStep Kernel pair: after one call of `on_push` on
`KernelMixStep(1, 1, 1, 1)` the counter `pushed_data_counter()` is `0`, not `1`. -/
theorem pushed_data_counter_fails_on_KernelMixStep :
    Allocator.pushed_data_counter OnPushKernelMixStep.toPushDesc
        ((KernelMixStep.new 1 1 1 1).run [AllocatorCall.on_push]) = 0 ∧
      Allocator.pushed_data_counter OnPushKernelMixStep.toPushDesc
        ((KernelMixStep.new 1 1 1 1).run [AllocatorCall.on_push]) ≠
          AllocatorCall.pushes [AllocatorCall.on_push] := by
  decide

/-- C10, as the code has it. For allocators built with `1 ≤ S`, `1 ≤ T` (`S * T`
representable as a `size_t`) and every finite sequence of calls: the window counter of
the ConstStep Kernel and MainStep Kernel extractors never passes `T`; that of the
ConstStep Flux, MainStep Flux and MixStep Flux extractors never passes
`frame_temporal_size` (hence `T` for ConstStep Flux, built with
`frame_temporal_size ≤ T`); that of the MixStep Kernel pusher and extractor stays `0`;
that of the other pushers is the number of `on_push` calls, hence at most `T` while at
most `T` calls were made (`T = 1` for the MixStep Flux pusher). -/
theorem temporal_window_bounds (S T : Nat) (hS : 1 ≤ S) (hT : 1 ≤ T)
    (hST : S * T < SIZE_MOD) (calls : List AllocatorCall) :
    ((AllocatorCall.pushes calls ≤ T →
        ((KernelConstStep.new S T).run calls).pusher.cur_temporal_window ≤ T) ∧
      ((KernelConstStep.new S T).run calls).extractor.cur_temporal_window ≤ T) ∧
    (∀ F,
      (AllocatorCall.pushes calls ≤ T →
        ((FluxConstStep.new S T F).run calls).pusher.cur_temporal_window ≤ T) ∧
      ((FluxConstStep.new S T F).run calls).extractor.cur_temporal_window ≤ F ∧
      (F ≤ T → ((FluxConstStep.new S T F).run calls).extractor.cur_temporal_window ≤ T)) ∧
    (∀ M N msn, 1 ≤ N → msn < SIZE_MOD →
      (AllocatorCall.pushes calls ≤ T →
        ((KernelMainStep.new S T M N msn).run calls).pusher.cur_temporal_window ≤ T) ∧
      ((KernelMainStep.new S T M N msn).run calls).extractor.cur_temporal_window ≤ T) ∧
    (∀ F N,
      (AllocatorCall.pushes calls ≤ T →
        ((FluxMainStep.new S T F N).run calls).pusher.cur_temporal_window ≤ T) ∧
      ((FluxMainStep.new S T F N).run calls).extractor.cur_temporal_window ≤ F) ∧
    (∀ N M,
      ((KernelMixStep.new S T N M).run calls).pusher.cur_temporal_window = 0 ∧
      ((KernelMixStep.new S T N M).run calls).extractor.cur_temporal_window = 0) ∧
    (∀ F,
      (AllocatorCall.pushes calls ≤ 1 →
        ((FluxMixStep.new S F).run calls).pusher.cur_temporal_window ≤ 1) ∧
      ((FluxMixStep.new S F).run calls).extractor.cur_temporal_window ≤ F) := by
  have hS1 : S * 1 < SIZE_MOD := lt_of_le_of_lt (Nat.mul_le_mul_left S hT) hST
  have hmod : ∀ p : Nat, p % SIZE_MOD ≤ p := fun p => Nat.mod_le p SIZE_MOD
  refine ⟨⟨?_, ?_⟩, ?_, ?_, ?_, ?_, ?_⟩
  · intro hp
    rw [KernelConstStep_run_eq]
    show (OnPushKernelConstStep.on_push^[_] _).cur_temporal_window ≤ T
    rw [OnPushKernelConstStep_iterate_on_push]
    exact le_trans (hmod _) hp
  · rw [KernelConstStep_run_eq]
    show (OnGetKernelConstStep.on_extract^[_] _).cur_temporal_window ≤ T
    rw [OnGetKernelConstStep_iterate_on_extract S T _ hS hST]
    exact min_le_right _ _
  · intro F
    rw [FluxConstStep_run_eq]
    have hw := OnGetFluxConstStep_iterate_window S T F (AllocatorCall.extracts calls)
    refine ⟨fun hp => ?_, hw, fun hF => le_trans hw hF⟩
    show (OnPushFluxConstStep.on_push^[_] _).cur_temporal_window ≤ T
    rw [OnPushFluxConstStep_iterate_on_push]
    exact le_trans (hmod _) hp
  · intro M N msn _ hmsn
    rw [KernelMainStep_run_eq]
    refine ⟨fun hp => ?_, ?_⟩
    · show (OnPushKernelConstStep.on_push^[_] _).cur_temporal_window ≤ T
      rw [OnPushKernelConstStep_iterate_on_push]
      exact le_trans (hmod _) hp
    · exact (OnGetKernelMainStep_iterate_Bounded S T M N msn (AllocatorCall.extracts calls)
        hS hST hmsn).2.2.2.1
  · intro F N
    rw [FluxMainStep_run_eq]
    refine ⟨fun hp => ?_, ?_⟩
    · show (OnPushFluxMainStep.on_push^[_] _).cur_temporal_window ≤ T
      rw [OnPushFluxMainStep_iterate_on_push]
      exact le_trans (hmod _) hp
    · exact (OnGetFluxMainStep_iterate_Bounded S T F (AllocatorCall.extracts calls)
        hS hST).2.2.1
  · intro N M
    rw [KernelMixStep_run_eq]
    exact ⟨rfl, rfl⟩
  · intro F
    rw [FluxMixStep_run_eq]
    refine ⟨fun hp => ?_, ?_⟩
    · show (OnPushFluxMainStep.on_push^[_] _).cur_temporal_window ≤ 1
      rw [OnPushFluxMainStep_iterate_on_push]
      exact le_trans (hmod _) hp
    · exact (OnGetFluxMixStep_iterate_Bounded S 1 F (AllocatorCall.extracts calls) hS1).2.2

theorem temporal_window_bounds_witness :
    (1 ≤ 2 ∧ 1 ≤ 3 ∧ 2 * 3 < SIZE_MOD) ∧
      ((FluxMixStep.new 2 4).run
        [AllocatorCall.on_extract, AllocatorCall.on_extract, AllocatorCall.on_extract,
          AllocatorCall.on_extract, AllocatorCall.on_extract]).extractor.cur_temporal_window ≤
        4 :=
  ⟨by decide,
    ((temporal_window_bounds 2 3 (by decide) (by decide) (by decide)
      [AllocatorCall.on_extract, AllocatorCall.on_extract, AllocatorCall.on_extract,
        AllocatorCall.on_extract, AllocatorCall.on_extract]).2.2.2.2.2 4).2⟩

/-- C10 as stated fails. After two `on_push` calls the ConstStep Kernel pusher over
`MemoryDesc(1, 1)` has `cur_temporal_window = 2 > temporal_size = 1`; after two
`on_extract` calls the extractor of `FluxMixStep(1, 2)`, whose descriptor is
`MemoryDesc(1, 1)`, has `cur_temporal_window = 2 > temporal_size = 1`. -/
theorem temporal_window_bound_fails :
    ¬ (((KernelConstStep.new 1 1).run
          [AllocatorCall.on_push, AllocatorCall.on_push]).pusher.cur_temporal_window ≤
        ((KernelConstStep.new 1 1).run
          [AllocatorCall.on_push, AllocatorCall.on_push]).pusher.temporal_size) ∧
      ¬ (((FluxMixStep.new 1 2).run
          [AllocatorCall.on_extract, AllocatorCall.on_extract]).extractor.cur_temporal_window ≤
        ((FluxMixStep.new 1 2).run
          [AllocatorCall.on_extract, AllocatorCall.on_extract]).extractor.temporal_size) := by
  decide

/-! ## MainStep kernel extractor: the first history period refines ConstStep -/

/-- C11. MainStep Kernel, first period. For `OnGetKernelMainStep` over `MemoryDesc(S, T)`
with parameters `(M, small_step_nmbr, main_step_nmbr)` (`main_step_nmbr` a `size_t`) and
every `n ≤ main_step_nmbr`: after `n` calls of `on_extract` the inherited
`OnGetKernelConstStep` part is the state of an `OnGetKernelConstStep` over the same
`MemoryDesc` after `n` calls of its `on_extract` (so `idx_end` and
`cur_temporal_window` agree), `idx_begin = 0`, `main_step_counter = n` and
`small_step_counter = 0`. -/
theorem OnGetKernelMainStep_first_period_refines (S T M N msn n : Nat)
    (hmsn : msn < SIZE_MOD) (hn : n ≤ msn) :
    (OnGetKernelMainStep.on_extract^[n]
        (OnGetKernelMainStep.new (MemoryDesc.new S T) M N msn)).toOnGetKernelConstStep =
      OnGetKernelConstStep.on_extract^[n] (OnGetKernelConstStep.new (MemoryDesc.new S T)) ∧
    (OnGetKernelMainStep.on_extract^[n]
        (OnGetKernelMainStep.new (MemoryDesc.new S T) M N msn)).idx_begin = 0 ∧
    (OnGetKernelMainStep.on_extract^[n]
        (OnGetKernelMainStep.new (MemoryDesc.new S T) M N msn)).idx_end =
      (OnGetKernelConstStep.on_extract^[n]
        (OnGetKernelConstStep.new (MemoryDesc.new S T))).idx_end ∧
    (OnGetKernelMainStep.on_extract^[n]
        (OnGetKernelMainStep.new (MemoryDesc.new S T) M N msn)).cur_temporal_window =
      (OnGetKernelConstStep.on_extract^[n]
        (OnGetKernelConstStep.new (MemoryDesc.new S T))).cur_temporal_window ∧
    (OnGetKernelMainStep.on_extract^[n]
        (OnGetKernelMainStep.new (MemoryDesc.new S T) M N msn)).main_step_counter = n ∧
    (OnGetKernelMainStep.on_extract^[n]
        (OnGetKernelMainStep.new (MemoryDesc.new S T) M N msn)).small_step_counter = 0 := by
  have key : ∀ n, n ≤ msn →
      (OnGetKernelMainStep.on_extract^[n]
          (OnGetKernelMainStep.new (MemoryDesc.new S T) M N msn)).toOnGetKernelConstStep =
        OnGetKernelConstStep.on_extract^[n] (OnGetKernelConstStep.new (MemoryDesc.new S T)) ∧
      (OnGetKernelMainStep.on_extract^[n]
          (OnGetKernelMainStep.new (MemoryDesc.new S T) M N msn)).its_index_begin = 0 ∧
      (OnGetKernelMainStep.on_extract^[n]
          (OnGetKernelMainStep.new (MemoryDesc.new S T) M N msn)).main_step_counter = n ∧
      (OnGetKernelMainStep.on_extract^[n]
          (OnGetKernelMainStep.new (MemoryDesc.new S T) M N msn)).small_step_counter = 0 ∧
      (OnGetKernelMainStep.on_extract^[n]
          (OnGetKernelMainStep.new (MemoryDesc.new S T) M N msn)).main_step_nmbr = msn := by
    intro n
    induction n with
    | zero =>
      intro _
      exact ⟨rfl, rfl, rfl, rfl, rfl⟩
    | succ n ih =>
      intro hn1
      obtain ⟨h1, h2, h3, h4, h5⟩ := ih (by omega)
      rw [Function.iterate_succ_apply', Function.iterate_succ_apply']
      generalize OnGetKernelMainStep.on_extract^[n]
        (OnGetKernelMainStep.new (MemoryDesc.new S T) M N msn) = g at h1 h2 h3 h4 h5
      have hp : g.main_step_counter < g.main_step_nmbr := by rw [h3, h5]; omega
      have hstep : g.on_extract =
          { g with
            toOnGetKernelConstStep := g.toOnGetKernelConstStep.on_extract
            main_step_counter := size_add g.main_step_counter 1 } := by
        unfold OnGetKernelMainStep.on_extract OnGetKernelMainStep.is_first_history_period
        simp [hp]
      rw [hstep]
      refine ⟨by rw [← h1], h2, ?_, h4, h5⟩
      show size_add g.main_step_counter 1 = n + 1
      rw [h3]
      exact size_add_of_lt (by omega)
  obtain ⟨h1, h2, h3, h4, _⟩ := key n hn
  refine ⟨h1, h2, ?_, ?_, h3, h4⟩
  · show (OnGetKernelMainStep.on_extract^[n] _).toOnGetKernelConstStep.idx_end = _
    rw [h1]
  · show (OnGetKernelMainStep.on_extract^[n] _).toOnGetKernelConstStep.cur_temporal_window = _
    rw [h1]

theorem OnGetKernelMainStep_first_period_refines_witness :
    (3 < SIZE_MOD ∧ 2 ≤ 3) ∧
      (OnGetKernelMainStep.on_extract^[2]
          (OnGetKernelMainStep.new (MemoryDesc.new 2 5) 4 3 3)).toOnGetKernelConstStep =
        OnGetKernelConstStep.on_extract^[2] (OnGetKernelConstStep.new (MemoryDesc.new 2 5)) :=
  ⟨by decide, (OnGetKernelMainStep_first_period_refines 2 5 4 3 3 2 (by decide) (by decide)).1⟩

/-! ## MainStep kernel extractor: the second history period in closed form -/

theorem ceil_div_eq (N k : Nat) (hN : 1 ≤ N) :
    (k + N - 1) / N = k / N + (if k % N = 0 then 0 else 1) := by
  have hk : k + N - 1 = N * (k / N) + (k % N + N - 1) := by
    have := Nat.div_add_mod k N
    omega
  rw [hk, Nat.mul_add_div (by omega)]
  congr 1
  by_cases h0 : k % N = 0
  · rw [if_pos h0, h0]
    exact Nat.div_eq_of_lt (by omega)
  · rw [if_neg h0]
    have hlt := Nat.mod_lt k (show N > 0 by omega)
    exact Nat.div_eq_of_lt_le (by omega) (by omega)

theorem ceil_div_succ (N k : Nat) (hN : 1 ≤ N) :
    (k + 1 + N - 1) / N = (k + N - 1) / N + (if k % N = 0 then 1 else 0) := by
  have h1 : k + 1 + N - 1 = k + N := by omega
  rw [h1, Nat.add_div_right k (by omega), ceil_div_eq N k hN]
  split <;> rfl

theorem OnGetKernelMainStep_InSecondPeriod_on_extract {S T N msn k : Nat}
    {g : OnGetKernelMainStep} (hS0 : 0 < S) (hST : S * T < SIZE_MOD) (hN : 1 ≤ N)
    (hN2 : N < SIZE_MOD) (hrep : S * ((k + 1 + N - 1) / N) < SIZE_MOD)
    (h : OnGetKernelMainStep.InSecondPeriod S T N msn k g) :
    OnGetKernelMainStep.InSecondPeriod S T N msn (k + 1) g.on_extract := by
  obtain ⟨⟨hS, hTs, hA⟩, ⟨hNs, hM⟩, hc, hw, hs, hb, he⟩ := h
  have hp : ¬ g.main_step_counter < g.main_step_nmbr := by rw [hc, hM]; omega
  obtain ⟨e1, e2, e3, e4, e5, e6, e7⟩ := OnGetKernelMainStep_on_extract_second g hp
  have hmodlt : k % N < N := Nat.mod_lt k (by omega)
  have hssc : size_add g.small_step_counter 1 = k % N + 1 := by
    rw [hs]
    exact size_add_of_lt (by omega)
  have hceil := ceil_div_succ N k hN
  refine ⟨by rw [e1]; exact ⟨hS, hTs, hA⟩, ⟨e4.trans hNs, e3.trans hM⟩, e2.trans hc, ?_, ?_, ?_, ?_⟩
  · show g.on_extract.toMemoryDesc.cur_temporal_window = _
    rw [e1]
    exact hw
  · rw [e5, hssc, hNs, Nat.mod_add_mod]
  · rw [e6, hs]
    by_cases h0 : k % N = 0
    · rw [if_pos h0] at hceil ⊢
      rw [hceil, Nat.mul_succ] at hrep
      rw [hb, hS, size_add_of_lt hrep, hceil, Nat.mul_succ]
    · rw [if_neg h0] at hceil ⊢
      rw [hb, hceil, Nat.add_zero]
  · rw [e7, hs]
    by_cases h0 : k % N = 0
    · rw [if_pos h0] at hceil
      rw [hceil]
      by_cases hfull : min msn T + (k + N - 1) / N < T
      · have hm : min T (min msn T + (k + N - 1) / N) = min msn T + (k + N - 1) / N :=
          min_eq_right (le_of_lt hfull)
        have hm1 : min T (min msn T + ((k + N - 1) / N + 1)) =
            min msn T + ((k + N - 1) / N + 1) := min_eq_right (by omega)
        rw [hm] at he
        have hle2 : S * (min msn T + (k + N - 1) / N) + S ≤ S * T := by
          have := Nat.mul_le_mul_left S hfull
          rwa [Nat.mul_succ] at this
        have hne : g.its_index_end ≠ g.its_allocated_memory := by
          rw [he, hA]
          intro heq
          have := Nat.eq_of_mul_eq_mul_left hS0 heq
          omega
        rw [if_pos ⟨h0, hne⟩, he, hS, size_add_of_lt (by omega), hm1, ← Nat.add_assoc,
          Nat.mul_succ]
      · have hm : min T (min msn T + (k + N - 1) / N) = T := min_eq_left (by omega)
        have hm1 : min T (min msn T + ((k + N - 1) / N + 1)) = T := min_eq_left (by omega)
        rw [hm] at he
        have heq : ¬ (k % N = 0 ∧ g.its_index_end ≠ g.its_allocated_memory) := by
          rw [he, hA]
          simp
        rw [if_neg heq, he, hm1]
    · rw [if_neg h0] at hceil
      have heq : ¬ (k % N = 0 ∧ g.its_index_end ≠ g.its_allocated_memory) :=
        fun hc => h0 hc.1
      rw [if_neg heq, he, hceil, Nat.add_zero]

/-- The MainStep kernel extractor after the first period and `k` further calls, as long
as the window start `S * ⌈k / N⌉` is representable. -/
theorem OnGetKernelMainStep_iterate_InSecondPeriod (S T M N msn k : Nat) (hS0 : 0 < S)
    (hST : S * T < SIZE_MOD) (hN : 1 ≤ N) (hN2 : N < SIZE_MOD) (hmsn : msn < SIZE_MOD)
    (hrep : S * ((k + N - 1) / N) < SIZE_MOD) :
    OnGetKernelMainStep.InSecondPeriod S T N msn k
      (OnGetKernelMainStep.on_extract^[k]
        (OnGetKernelMainStep.on_extract^[msn]
          (OnGetKernelMainStep.new (MemoryDesc.new S T) M N msn))) := by
  induction k with
  | zero =>
    obtain ⟨hmd, hNM, hfirst, _⟩ :=
      OnGetKernelMainStep_iterate_Reached S T M N msn msn hS0 hST hN hN2 hmsn
        (Nat.le_add_right _ _)
    obtain ⟨h1, h2, h3, h4, h5⟩ := hfirst (le_refl _)
    have hz : (0 + N - 1) / N = 0 := Nat.div_eq_of_lt (by omega)
    refine ⟨hmd, hNM, h1, h5, ?_, ?_, ?_⟩
    · rw [Nat.zero_mod]
      exact h2
    · rw [hz, Nat.mul_zero]
      exact h3
    · rw [hz, Nat.add_zero]
      show _ = S * min T (min msn T)
      rw [min_eq_right (min_le_right msn T)]
      exact h4
  | succ k ih =>
    rw [Function.iterate_succ_apply']
    have hmono : (k + N - 1) / N ≤ (k + 1 + N - 1) / N := Nat.div_le_div_right (by omega)
    have hrep0 : S * ((k + N - 1) / N) < SIZE_MOD :=
      lt_of_le_of_lt (Nat.mul_le_mul_left S hmono) hrep
    exact OnGetKernelMainStep_InSecondPeriod_on_extract hS0 hST hN hN2 hrep (ih hrep0)

/-- C12. MainStep Kernel, second period. For `OnGetKernelMainStep` over
`MemoryDesc(S, T)` with `1 ≤ S` and `N = small_step_nmbr ≥ 1` (`N`, `main_step_nmbr`,
`S * T` and the window start `S * ⌈k / N⌉` representable as `size_t`): after the
`main_step_nmbr` first-period calls of `on_extract` and `k` further calls,
`small_step_counter = k mod N`, `idx_begin = S * ⌈k / N⌉`,
`idx_end = S * min (min main_step_nmbr T + ⌈k / N⌉) T`, and `cur_temporal_window` is what
it was at the end of the first period. While the external boundary is not reached
(`min main_step_nmbr T + ⌈k / N⌉ ≤ T`) the window size is the one at the end of the first
period, and `N` more calls move the window start forward by `S`. Here `⌈k / N⌉` is
written `(k + N - 1) / N`. -/
theorem OnGetKernelMainStep_second_period (S T M N msn k : Nat) (hS : 1 ≤ S) (hN : 1 ≤ N)
    (hN2 : N < SIZE_MOD) (hmsn : msn < SIZE_MOD) (hST : S * T < SIZE_MOD)
    (hrep : S * ((k + N - 1) / N) < SIZE_MOD) :
    (OnGetKernelMainStep.on_extract^[k]
        (OnGetKernelMainStep.on_extract^[msn]
          (OnGetKernelMainStep.new (MemoryDesc.new S T) M N msn))).small_step_counter =
      k % N ∧
    (OnGetKernelMainStep.on_extract^[k]
        (OnGetKernelMainStep.on_extract^[msn]
          (OnGetKernelMainStep.new (MemoryDesc.new S T) M N msn))).idx_begin =
      S * ((k + N - 1) / N) ∧
    (OnGetKernelMainStep.on_extract^[k]
        (OnGetKernelMainStep.on_extract^[msn]
          (OnGetKernelMainStep.new (MemoryDesc.new S T) M N msn))).idx_end =
      S * min (min msn T + (k + N - 1) / N) T ∧
    (OnGetKernelMainStep.on_extract^[k]
        (OnGetKernelMainStep.on_extract^[msn]
          (OnGetKernelMainStep.new (MemoryDesc.new S T) M N msn))).cur_temporal_window =
      (OnGetKernelMainStep.on_extract^[msn]
        (OnGetKernelMainStep.new (MemoryDesc.new S T) M N msn)).cur_temporal_window ∧
    (min msn T + (k + N - 1) / N ≤ T →
      (OnGetKernelMainStep.on_extract^[k]
          (OnGetKernelMainStep.on_extract^[msn]
            (OnGetKernelMainStep.new (MemoryDesc.new S T) M N msn))).current_window_size =
        (OnGetKernelMainStep.on_extract^[msn]
          (OnGetKernelMainStep.new (MemoryDesc.new S T) M N msn)).current_window_size) ∧
    (S * ((k + N + N - 1) / N) < SIZE_MOD →
      (OnGetKernelMainStep.on_extract^[k + N]
          (OnGetKernelMainStep.on_extract^[msn]
            (OnGetKernelMainStep.new (MemoryDesc.new S T) M N msn))).idx_begin =
        (OnGetKernelMainStep.on_extract^[k]
          (OnGetKernelMainStep.on_extract^[msn]
            (OnGetKernelMainStep.new (MemoryDesc.new S T) M N msn))).idx_begin + S) := by
  have hz : S * ((0 + N - 1) / N) < SIZE_MOD := by
    rw [Nat.div_eq_of_lt (by omega), Nat.mul_zero]
    decide
  obtain ⟨_, _, _, hw0, _, hb0, he0⟩ :=
    OnGetKernelMainStep_iterate_InSecondPeriod S T M N msn 0 hS hST hN hN2 hmsn hz
  obtain ⟨_, _, _, hw, hs, hb, he⟩ :=
    OnGetKernelMainStep_iterate_InSecondPeriod S T M N msn k hS hST hN hN2 hmsn hrep
  rw [Function.iterate_zero_apply] at hw0 hb0 he0
  have hz0 : (0 + N - 1) / N = 0 := Nat.div_eq_of_lt (by omega)
  rw [hz0, Nat.mul_zero] at hb0
  rw [hz0, Nat.add_zero, min_eq_right (min_le_right msn T)] at he0
  refine ⟨hs, hb, ?_, hw.trans hw0.symm, ?_, ?_⟩
  · rw [min_comm]
    exact he
  · intro hle
    show size_sub (OnGetKernelMainStep.on_extract^[k] _).its_index_end
        (OnGetKernelMainStep.on_extract^[k] _).its_index_begin =
      size_sub (OnGetKernelMainStep.on_extract^[msn] _).its_index_end
        (OnGetKernelMainStep.on_extract^[msn] _).its_index_begin
    rw [he, hb, he0, hb0, min_eq_right hle]
    have h1 : S * (min msn T + (k + N - 1) / N) ≤ S * T := Nat.mul_le_mul_left S hle
    have h2 : S * min msn T ≤ S * T := Nat.mul_le_mul_left S (min_le_right _ _)
    rw [size_sub_of_le (Nat.mul_le_mul_left S (Nat.le_add_left _ _)) (by omega),
      size_sub_of_le (Nat.zero_le _) (by omega), Nat.mul_add]
    omega
  · intro hrep2
    obtain ⟨_, _, _, _, _, hb2, _⟩ :=
      OnGetKernelMainStep_iterate_InSecondPeriod S T M N msn (k + N) hS hST hN hN2 hmsn hrep2
    show (OnGetKernelMainStep.on_extract^[k + N] _).its_index_begin =
      (OnGetKernelMainStep.on_extract^[k] _).its_index_begin + S
    have h3 : k + N + N - 1 = k + N - 1 + N := by omega
    rw [hb2, hb, h3, Nat.add_div_right _ (by omega), Nat.mul_succ]

theorem OnGetKernelMainStep_second_period_witness :
    (1 ≤ 2 ∧ 1 ≤ 3 ∧ 3 < SIZE_MOD ∧ 2 < SIZE_MOD ∧ 2 * 5 < SIZE_MOD ∧
        2 * ((4 + 3 - 1) / 3) < SIZE_MOD) ∧
      (OnGetKernelMainStep.on_extract^[4]
          (OnGetKernelMainStep.on_extract^[2]
            (OnGetKernelMainStep.new (MemoryDesc.new 2 5) 7 3 2))).idx_begin =
        2 * ((4 + 3 - 1) / 3) ∧
      (OnGetKernelMainStep.on_extract^[4]
          (OnGetKernelMainStep.on_extract^[2]
            (OnGetKernelMainStep.new (MemoryDesc.new 2 5) 7 3 2))).idx_end =
        2 * min (min 2 5 + (4 + 3 - 1) / 3) 5 :=
  ⟨by decide,
    (OnGetKernelMainStep_second_period 2 5 7 3 2 4 (by decide) (by decide) (by decide)
      (by decide) (by decide) (by decide)).2.1,
    (OnGetKernelMainStep_second_period 2 5 7 3 2 4 (by decide) (by decide) (by decide)
      (by decide) (by decide) (by decide)).2.2.1⟩

/-! ## MainStep flux extractor: one call of `on_extract` -/

/-- C13. MainStep Flux extractor step, for `OnGetFluxMainStep` in any state. If
`idx_begin > 0`, `on_extract` produces exactly the state `OnGetFluxConstStep::on_extract`
produces from the same state. If `idx_begin == 0`, `idx_begin` is unchanged and
(a) when `cur_temporal_window == frame_temporal_size`, `idx_end` decreases by `S` (as a
`size_t`; it is `idx_end - S` when `S ≤ idx_end < 2 ^ 64`) if `idx_end > idx_begin` and is
unchanged otherwise, with `cur_temporal_window` unchanged; (b) otherwise
`cur_temporal_window` increases by `1` (as a `size_t`) and `idx_end` is unchanged. -/
theorem OnGetFluxMainStep_on_extract_step (g : OnGetFluxMainStep) :
    (g.idx_begin > 0 →
      g.on_extract = { toOnGetFluxConstStep := g.toOnGetFluxConstStep.on_extract }) ∧
    (g.idx_begin = 0 →
      g.on_extract.idx_begin = g.idx_begin ∧
      (g.cur_temporal_window = g.frame_temporal_size →
        (g.idx_end > g.idx_begin →
          g.on_extract.idx_end = size_sub g.idx_end g.spatial_size ∧
          (g.spatial_size ≤ g.idx_end → g.idx_end < SIZE_MOD →
            g.on_extract.idx_end = g.idx_end - g.spatial_size)) ∧
        (¬ g.idx_end > g.idx_begin → g.on_extract.idx_end = g.idx_end) ∧
        g.on_extract.cur_temporal_window = g.cur_temporal_window) ∧
      (g.cur_temporal_window ≠ g.frame_temporal_size →
        g.on_extract.cur_temporal_window = size_add g.cur_temporal_window 1 ∧
        (g.cur_temporal_window + 1 < SIZE_MOD →
          g.on_extract.cur_temporal_window = g.cur_temporal_window + 1) ∧
        g.on_extract.idx_end = g.idx_end)) := by
  constructor
  · intro h
    unfold OnGetFluxMainStep.on_extract OnGetFluxMainStep.is_first_history_period
    simp [h]
  · intro h
    have hnot : ¬ g.idx_begin > 0 := by omega
    have hstep : g.on_extract =
        if g.toOnGetFluxConstStep.is_external_boundary_time then
          if g.idx_end > g.idx_begin then
            { g with its_index_end := size_sub g.its_index_end g.spatial_size }
          else g
        else { g with cur_temporal_window := size_add g.cur_temporal_window 1 } := by
      conv_lhs => unfold OnGetFluxMainStep.on_extract OnGetFluxMainStep.is_first_history_period
      simp [hnot]
    refine ⟨?_, ?_, ?_⟩
    · rw [hstep]
      split
      · split <;> rfl
      · rfl
    · intro hw
      have hb : g.toOnGetFluxConstStep.is_external_boundary_time = true := by
        unfold OnGetFluxConstStep.is_external_boundary_time
        simpa using hw
      rw [hstep, hb, if_pos rfl]
      refine ⟨?_, ?_, ?_⟩
      · intro hgt
        rw [if_pos hgt]
        refine ⟨rfl, fun hle hlt => ?_⟩
        show size_sub g.its_index_end g.spatial_size = _
        exact size_sub_of_le hle hlt
      · intro hgt
        rw [if_neg hgt]
      · split <;> rfl
    · intro hw
      have hb : g.toOnGetFluxConstStep.is_external_boundary_time = false := by
        unfold OnGetFluxConstStep.is_external_boundary_time
        simpa using hw
      rw [hstep, hb, if_neg Bool.false_ne_true]
      refine ⟨rfl, fun hlt => ?_, rfl⟩
      show size_add g.cur_temporal_window 1 = _
      exact size_add_of_lt hlt

theorem OnGetFluxMainStep_on_extract_step_witness :
    ((OnGetFluxMainStep.new (MemoryDesc.new 2 3) 1).idx_begin > 0) ∧
      (OnGetFluxMainStep.new (MemoryDesc.new 2 3) 1).on_extract =
        { toOnGetFluxConstStep :=
            (OnGetFluxMainStep.new (MemoryDesc.new 2 3) 1).toOnGetFluxConstStep.on_extract } :=
  ⟨by decide,
    (OnGetFluxMainStep_on_extract_step (OnGetFluxMainStep.new (MemoryDesc.new 2 3) 1)).1
      (by decide)⟩

/-! ## MixStep: frozen kernel cursors and the flux extractor in closed form -/

/-- C14. MixStep Kernel cursors are frozen. For `KernelMixStep` over `(S, T)`, after any
sequence of `pusher.on_push` and `extractor.on_extract` calls: `extractor.idx_begin == 0`
and `extractor.idx_end` is `allocated_memory`, the `size_t` product `S * T` (the number
`S * T` when representable); `on_extract` changes no extractor field, in any state; the
pusher's `idx_end` stays `0` and its `spatial_size` stays `S`, so the write slab
`[idx_end, idx_end + spatial_size)` of an advance is the columns `[0, S)`. With
`S = 2`, `T = 4`: `idx_begin == 0` and `idx_end == 8` always. -/
theorem KernelMixStep_cursors_frozen (S T N M : Nat) (calls : List AllocatorCall) :
    ((KernelMixStep.new S T N M).run calls).extractor.idx_begin = 0 ∧
    ((KernelMixStep.new S T N M).run calls).extractor.idx_end = size_mul S T ∧
    (S * T < SIZE_MOD → ((KernelMixStep.new S T N M).run calls).extractor.idx_end = S * T) ∧
    (∀ g : OnGetKernelMixStep, g.on_extract = g) ∧
    ((KernelMixStep.new S T N M).run calls).extractor =
      (KernelMixStep.new S T N M).extractor ∧
    ((KernelMixStep.new S T N M).run calls).pusher.idx_end = 0 ∧
    ((KernelMixStep.new S T N M).run calls).pusher.spatial_size = S ∧
    (((KernelMixStep.new 2 4 N M).run calls).extractor.idx_begin = 0 ∧
      ((KernelMixStep.new 2 4 N M).run calls).extractor.idx_end = 8) := by
  rw [KernelMixStep_run_eq, KernelMixStep_run_eq]
  exact ⟨rfl, rfl, fun h => size_mul_of_lt h, fun _ => rfl, rfl, rfl, rfl, rfl, rfl⟩

theorem KernelMixStep_cursors_frozen_witness :
    3 * 5 < SIZE_MOD ∧
      ((KernelMixStep.new 3 5 2 7).run
        [AllocatorCall.on_push, AllocatorCall.on_extract, AllocatorCall.on_push,
          AllocatorCall.on_extract, AllocatorCall.on_extract]).extractor.idx_end = 3 * 5 :=
  ⟨by decide,
    (KernelMixStep_cursors_frozen 3 5 2 7
      [AllocatorCall.on_push, AllocatorCall.on_extract, AllocatorCall.on_push,
        AllocatorCall.on_extract, AllocatorCall.on_extract]).2.2.1 (by decide)⟩

/-- The state of the MixStep flux extractor after `n` calls of `on_extract`. -/
theorem OnGetFluxMixStep_iterate_on_extract (S F n : Nat) (hF : F < SIZE_MOD) :
    OnGetFluxMixStep.on_extract^[n] (OnGetFluxMixStep.new (MemoryDesc.new S 1) F) =
      { toGetDesc := GetDesc.new { MemoryDesc.new S 1 with cur_temporal_window := min n F }
        frame_temporal_size := F } := by
  induction n with
  | zero => simp [OnGetFluxMixStep.new, GetDesc.new, MemoryDesc.new]
  | succ n ih =>
    rw [Function.iterate_succ_apply', ih]
    by_cases h : n < F
    · have h1 : min n F = n := min_eq_left (le_of_lt h)
      have h2 : min (n + 1) F = n + 1 := min_eq_left h
      have h3 : n ≠ F := by omega
      have hw : size_add n 1 = n + 1 := size_add_of_lt (by omega)
      simp [OnGetFluxMixStep.on_extract, OnGetFluxMixStep.is_external_boundary_time,
        GetDesc.new, MemoryDesc.new, h1, h2, h3, hw]
    · have h1 : min n F = F := min_eq_right (by omega)
      have h2 : min (n + 1) F = F := min_eq_right (by omega)
      simp [OnGetFluxMixStep.on_extract, OnGetFluxMixStep.is_external_boundary_time,
        GetDesc.new, MemoryDesc.new, h1, h2]

/-- C15. MixStep Flux extractor. For the `OnGetFluxMixStep` built by `FluxMixStep(S, F)`
(`F` a `size_t`): after `n` calls of `on_extract`, for any `n`, `idx_begin = 0`,
`idx_end = S` (the read window is fixed at `[0, S)`) and
`cur_temporal_window = min n F`: it increments until it reaches `frame_temporal_size`
and then a call of `on_extract` changes nothing. -/
theorem OnGetFluxMixStep_extractor_contract (S F n : Nat) (hF : F < SIZE_MOD) :
    (OnGetFluxMixStep.on_extract^[n] (FluxMixStep.new S F).extractor).idx_begin = 0 ∧
    (OnGetFluxMixStep.on_extract^[n] (FluxMixStep.new S F).extractor).idx_end = S ∧
    (OnGetFluxMixStep.on_extract^[n] (FluxMixStep.new S F).extractor).cur_temporal_window =
      min n F ∧
    (F ≤ n →
      (OnGetFluxMixStep.on_extract^[n] (FluxMixStep.new S F).extractor).on_extract =
        OnGetFluxMixStep.on_extract^[n] (FluxMixStep.new S F).extractor) := by
  have h1 := OnGetFluxMixStep_iterate_on_extract S F n hF
  have h2 := OnGetFluxMixStep_iterate_on_extract S F (n + 1) hF
  rw [Function.iterate_succ_apply'] at h2
  show (OnGetFluxMixStep.on_extract^[n] (OnGetFluxMixStep.new (MemoryDesc.new S 1) F)).idx_begin
      = 0 ∧
    (OnGetFluxMixStep.on_extract^[n] (OnGetFluxMixStep.new (MemoryDesc.new S 1) F)).idx_end
      = S ∧
    (OnGetFluxMixStep.on_extract^[n]
      (OnGetFluxMixStep.new (MemoryDesc.new S 1) F)).cur_temporal_window = min n F ∧
    (F ≤ n →
      (OnGetFluxMixStep.on_extract^[n]
        (OnGetFluxMixStep.new (MemoryDesc.new S 1) F)).on_extract =
      OnGetFluxMixStep.on_extract^[n] (OnGetFluxMixStep.new (MemoryDesc.new S 1) F))
  refine ⟨rfl, ?_, ?_, ?_⟩
  · rw [h1]
    rfl
  · rw [h1]
    rfl
  · intro hle
    rw [h2, h1, min_eq_right hle, min_eq_right (by omega)]

theorem OnGetFluxMixStep_extractor_contract_witness :
    3 < SIZE_MOD ∧
      (OnGetFluxMixStep.on_extract^[5] (FluxMixStep.new 2 3).extractor).cur_temporal_window =
        min 5 3 :=
  ⟨by decide, (OnGetFluxMixStep_extractor_contract 2 3 5 (by decide)).2.2.1⟩

/-! ## MainStep flux container: the averaging push -/

/-- One round of the averaging loop on `it :: next :: rest`, the two arrays having the
same length. -/
theorem BaseFluxContainerMainStep_push_averaged_cons (N : Nat) (x p : ArrayXd)
    (hsize : p.size = x.size) (q : ℚ)
    (it next : BaseFluxContainer_FluxMainStep) (rest : List BaseFluxContainer_FluxMainStep) :
    BaseFluxContainerMainStep.push_averaged N x p q (it :: next :: rest) =
      (it.push_coef
        { size := x.size
          coeff := fun i => q / (N : ℚ) * x.coeff i + (1 - q / (N : ℚ)) * p.coeff i }).bind
        (fun it1 =>
          (BaseFluxContainerMainStep.push_averaged N x p (q + 1) (next :: rest)).bind
            (fun rest1 => some (it1 :: rest1))) := by
  have hadd : (VectorXd.scale (q / (N : ℚ)) x).add (VectorXd.scale (1 - q / (N : ℚ)) p) =
      some { size := x.size
             coeff := fun i => q / (N : ℚ) * x.coeff i + (1 - q / (N : ℚ)) * p.coeff i } := by
    unfold VectorXd.add
    rw [if_pos (by simp [VectorXd.scale, hsize])]
    rfl
  rw [BaseFluxContainerMainStep.push_averaged]
  simp only [hadd, Option.bind_eq_bind, Option.some_bind, Option.pure_def]

/-- The averaging loop on `l ++ [back]` returns exactly when every element `k` of `l`
accepts the sample `((q + k) / N) * x + (1 - (q + k) / N) * p`; the last element is not
touched. -/
theorem BaseFluxContainerMainStep_push_averaged_iff (N : Nat) (x p : ArrayXd)
    (hsize : p.size = x.size) :
    ∀ (l : List BaseFluxContainer_FluxMainStep) (back : BaseFluxContainer_FluxMainStep) (q : ℚ)
      (res : List BaseFluxContainer_FluxMainStep),
      BaseFluxContainerMainStep.push_averaged N x p q (l ++ [back]) = some res ↔
        ∃ out : List BaseFluxContainer_FluxMainStep,
          res = out ++ [back] ∧ out.length = l.length ∧
          ∀ (k : Nat) (c : BaseFluxContainer_FluxMainStep), l[k]? = some c →
            ∃ c1 : BaseFluxContainer_FluxMainStep, out[k]? = some c1 ∧
            c.push_coef
              { size := x.size
                coeff := fun i =>
                  (q + (k : ℚ)) / (N : ℚ) * x.coeff i +
                    (1 - (q + (k : ℚ)) / (N : ℚ)) * p.coeff i } = some c1 := by
  intro l
  induction l with
  | nil =>
    intro back q res
    simp only [List.nil_append, BaseFluxContainerMainStep.push_averaged]
    constructor
    · intro h
      refine ⟨[], ?_, rfl, ?_⟩
      · simpa using h.symm
      · intro k c hk
        simp at hk
    · rintro ⟨out, hres, hlen, _⟩
      have : out = [] := List.eq_nil_of_length_eq_zero hlen
      subst this
      simp [hres]
  | cons it rest ih =>
    intro back q res
    obtain ⟨next, tl, htl⟩ : ∃ next tl, rest ++ [back] = next :: tl := by
      cases rest with
      | nil => exact ⟨back, [], rfl⟩
      | cons r rs => exact ⟨r, rs ++ [back], rfl⟩
    rw [List.cons_append, htl, BaseFluxContainerMainStep_push_averaged_cons N x p hsize,
      ← htl]
    constructor
    · intro h
      obtain ⟨it1, hit, h2⟩ := Option.bind_eq_some.mp h
      obtain ⟨rest1, hrest, h3⟩ := Option.bind_eq_some.mp h2
      obtain ⟨out, hout, hlen, hall⟩ := (ih back (q + 1) rest1).mp hrest
      refine ⟨it1 :: out, ?_, by simp [hlen], ?_⟩
      · rw [← Option.some.inj h3, hout]
        rfl
      · intro k c hk
        cases k with
        | zero =>
          simp only [List.getElem?_cons_zero, Option.some.injEq] at hk
          subst hk
          refine ⟨it1, by simp, ?_⟩
          simpa using hit
        | succ k =>
          simp only [List.getElem?_cons_succ] at hk
          obtain ⟨c1, hc1, hpush⟩ := hall k c hk
          refine ⟨c1, by simpa using hc1, ?_⟩
          have hq : q + ((k + 1 : ℕ) : ℚ) = q + 1 + (k : ℚ) := by push_cast; ring
          rw [hq]
          exact hpush
    · rintro ⟨out, hres, hlen, hall⟩
      cases out with
      | nil => simp at hlen
      | cons o out1 =>
        obtain ⟨c1, hc1, hpush⟩ := hall 0 it (by simp)
        simp only [List.getElem?_cons_zero, Option.some.injEq] at hc1
        subst hc1
        simp only [Nat.cast_zero, add_zero] at hpush
        have hrest : BaseFluxContainerMainStep.push_averaged N x p (q + 1) (rest ++ [back]) =
            some (out1 ++ [back]) := by
          refine (ih back (q + 1) (out1 ++ [back])).mpr ⟨out1, rfl, by simpa using hlen, ?_⟩
          intro k c hk
          obtain ⟨c2, hc2, hpush2⟩ := hall (k + 1) c (by simpa using hk)
          refine ⟨c2, by simpa using hc2, ?_⟩
          have hq : q + ((k + 1 : ℕ) : ℚ) = q + 1 + (k : ℚ) := by push_cast; ring
          rw [← hq]
          exact hpush2
        rw [hpush, Option.some_bind, hrest, Option.some_bind, hres]
        rfl
/-- One `push_coef` of the MainStep flux container whose computed sample `x` has the
length of `prev_flux`: it returns exactly when every child accepts its sample, the last
child `N - 1` the raw `x` and child `k < N - 1` the interpolation
`((k + 1) / N) * x + (1 - (k + 1) / N) * prev_flux`; then `prev_flux` is `x` and nothing
else changes. -/
theorem BaseFluxContainerMainStep_push_sample_iff (m m1 : BaseFluxContainerMainStep)
    (x : ArrayXd) (hN : 1 ≤ m.small_step_nmbr)
    (hlen : m.flux_set.length = m.small_step_nmbr) (hsize : m.prev_flux.size = x.size) :
    m.push_sample x = some m1 ↔
      ∃ out : List BaseFluxContainer_FluxMainStep,
        m1 = { m with flux_set := out, prev_flux := x } ∧
        out.length = m.small_step_nmbr ∧
        ∀ (k : Nat) (c : BaseFluxContainer_FluxMainStep), m.flux_set[k]? = some c →
          ∃ c1 : BaseFluxContainer_FluxMainStep, out[k]? = some c1 ∧
            c.push_coef
              (if k + 1 = m.small_step_nmbr then x
               else
                { size := x.size
                  coeff := fun i =>
                    ((k : ℚ) + 1) / (m.small_step_nmbr : ℚ) * x.coeff i +
                      (1 - ((k : ℚ) + 1) / (m.small_step_nmbr : ℚ)) * m.prev_flux.coeff i }) =
              some c1 := by
  obtain ⟨fs, msc, N, cur, msn, p⟩ := m
  simp only at hN hlen hsize ⊢
  obtain ⟨init, back, hfs⟩ : ∃ init back, fs = init ++ [back] := by
    rcases List.eq_nil_or_concat fs with h | ⟨L, b, h⟩
    · subst h
      simp at hlen
      omega
    · exact ⟨L, b, by rw [h, List.concat_eq_append]⟩
  subst hfs
  have hlen1 : init.length + 1 = N := by simpa using hlen
  unfold BaseFluxContainerMainStep.push_sample
  simp only [List.getLast?_concat, List.dropLast_concat, Option.bind_eq_bind, Option.some_bind,
    Option.pure_def]
  constructor
  · intro h
    obtain ⟨back1, hback, h2⟩ := Option.bind_eq_some.mp h
    obtain ⟨fs2, hfs2, h3⟩ := Option.bind_eq_some.mp h2
    obtain ⟨out, hout, hol, hall⟩ :=
      (BaseFluxContainerMainStep_push_averaged_iff N x p hsize init back1 1 fs2).mp hfs2
    refine ⟨out ++ [back1], ?_, by simp [hol, hlen1], ?_⟩
    · rw [← Option.some.inj h3, hout]
    · intro k c hk
      rcases Nat.lt_trichotomy k init.length with hlt | heq | hgt
      · rw [List.getElem?_append_left hlt] at hk
        obtain ⟨c1, hc1, hpush⟩ := hall k c hk
        refine ⟨c1, ?_, ?_⟩
        · rw [List.getElem?_append_left (by omega)]
          exact hc1
        · rw [if_neg (by omega)]
          have hq : (k : ℚ) + 1 = 1 + (k : ℚ) := add_comm _ _
          rw [hq]
          exact hpush
      · subst heq
        simp only [List.getElem?_concat_length, Option.some.injEq] at hk
        subst hk
        refine ⟨back1, ?_, ?_⟩
        · rw [← hol]
          simp
        · rw [if_pos hlen1]
          exact hback
      · rw [List.getElem?_eq_none (by simp; omega)] at hk
        cases hk
  · rintro ⟨out1, hm1, hol, hall⟩
    obtain ⟨out, back1, hout⟩ : ∃ out back1, out1 = out ++ [back1] := by
      rcases List.eq_nil_or_concat out1 with h | ⟨L, b, h⟩
      · subst h
        simp at hol
        omega
      · exact ⟨L, b, by rw [h, List.concat_eq_append]⟩
    subst hout
    have hol1 : out.length = init.length := by
      simp at hol
      omega
    obtain ⟨c1, hc1, hpush⟩ := hall init.length back (by simp)
    rw [← hol1] at hc1
    simp only [List.getElem?_concat_length, Option.some.injEq] at hc1
    subst hc1
    rw [if_pos hlen1] at hpush
    have hav : BaseFluxContainerMainStep.push_averaged N x p 1 (init ++ [back1]) =
        some (out ++ [back1]) := by
      refine (BaseFluxContainerMainStep_push_averaged_iff N x p hsize init back1 1
        (out ++ [back1])).mpr ⟨out, rfl, hol1, ?_⟩
      intro k c hk
      have hlt : k < init.length := by
        by_contra hge
        rw [List.getElem?_eq_none (by omega)] at hk
        cases hk
      obtain ⟨c2, hc2, hpush2⟩ := hall k c (by rw [List.getElem?_append_left hlt]; exact hk)
      refine ⟨c2, ?_, ?_⟩
      · rw [List.getElem?_append_left (by omega)] at hc2
        exact hc2
      · rw [if_neg (by omega)] at hpush2
        have hq : (k : ℚ) + 1 = 1 + (k : ℚ) := add_comm _ _
        rw [hq] at hpush2
        exact hpush2
    rw [hpush, Option.some_bind, hav, Option.some_bind, hm1]
/-- With two or more children and a sample whose length differs from that of
`prev_flux`, `push_coef` does not return: the first interpolation adds two arrays of
different lengths. -/
theorem BaseFluxContainerMainStep_push_sample_size_mismatch (m : BaseFluxContainerMainStep)
    (x : ArrayXd) (hN : 2 ≤ m.flux_set.length) (hsize : m.prev_flux.size ≠ x.size) :
    m.push_sample x = none := by
  obtain ⟨fs, msc, N, cur, msn, p⟩ := m
  simp only at hN hsize ⊢
  obtain ⟨init, back, hfs⟩ : ∃ init back, fs = init ++ [back] := by
    rcases List.eq_nil_or_concat fs with h | ⟨L, b, h⟩
    · subst h
      simp at hN
    · exact ⟨L, b, by rw [h, List.concat_eq_append]⟩
  subst hfs
  obtain ⟨it, rest, hinit⟩ : ∃ it rest, init = it :: rest := by
    cases init with
    | nil => simp at hN
    | cons a l => exact ⟨a, l, rfl⟩
  subst hinit
  unfold BaseFluxContainerMainStep.push_sample
  simp only [List.getLast?_concat, List.dropLast_concat, Option.bind_eq_bind, Option.some_bind,
    Option.pure_def]
  cases hb : back.push_coef x with
  | none => rfl
  | some back1 =>
    obtain ⟨next, tl, htl⟩ : ∃ next tl, rest ++ [back1] = next :: tl := by
      cases rest with
      | nil => exact ⟨back1, [], rfl⟩
      | cons r rs => exact ⟨r, rs ++ [back1], rfl⟩
    have hadd : ∀ r : ℚ, (VectorXd.scale r x).add (VectorXd.scale (1 - r) p) = none := by
      intro r
      unfold VectorXd.add
      rw [if_neg]
      simpa [VectorXd.scale] using fun h => hsize h.symm
    rw [Option.some_bind, List.cons_append, htl, BaseFluxContainerMainStep.push_averaged]
    simp [hadd]

/-- The freshly constructed container has `prev_flux` of `allocated_memory` zeros. -/
theorem BaseFluxContainerMainStep_new_prev_flux (convDesc : FluxMainStep) :
    (BaseFluxContainerMainStep.new convDesc).prev_flux.size =
        convDesc.pusher.allocated_memory ∧
      (BaseFluxContainerMainStep.new convDesc).flux_set.length = convDesc.small_step_nmbr := by
  simp [BaseFluxContainerMainStep.new, VectorXd.Zero]

/-- C16, at the failing input. The container built for `S = 1`, `main_step_nmbr = 2` and
`small_step_nmbr = 3` holds three children and a `prev_flux` of `S * 2 = 2` zeros, so the
first `push_coef`, whose computed sample `[9]` has one entry, does not return: the
interpolation `ratio * x + (1 - ratio) * prev_flux` adds an array of length 1 to an array
of length 2. -/
theorem BaseFluxContainerMainStep_first_push_fails :
    (BaseFluxContainerMainStep.new (FluxMainStep.new 1 2 5 3)).flux_set.length = 3 ∧
      (BaseFluxContainerMainStep.new (FluxMainStep.new 1 2 5 3)).prev_flux.size = 2 ∧
      (BaseFluxContainerMainStep.new (FluxMainStep.new 1 2 5 3)).push_sample
        { size := 1, coeff := fun _ => 9 } = none ∧
      (BaseFluxContainerMainStep.new (FluxMainStep.new 1 2 5 3)).push_coef_well
        (fun _ => 9) (fun _ => 1) = none := by
  refine ⟨rfl, rfl, ?_, ?_⟩
  · exact BaseFluxContainerMainStep_push_sample_size_mismatch
      (BaseFluxContainerMainStep.new (FluxMainStep.new 1 2 5 3))
      { size := 1, coeff := fun _ => 9 } (by decide) (by decide)
  · have hptr : (BaseFluxContainerMainStep.new (FluxMainStep.new 1 2 5 3)).flux_ptr =
        some (BaseFluxContainer_FluxMainStep.new (FluxMainStep.new 1 2 5 3)) := by
      rfl
    unfold BaseFluxContainerMainStep.push_coef_well
    rw [hptr]
    exact BaseFluxContainerMainStep_push_sample_size_mismatch
      (BaseFluxContainerMainStep.new (FluxMainStep.new 1 2 5 3))
      ((BaseFluxContainer_FluxMainStep.new (FluxMainStep.new 1 2 5 3)).calc_coef_well
        (fun _ => 9) (fun _ => 1)) (by decide) (by decide)

/-- Scenario with `S = 1`, `N = 3` and a `prev_flux` of one zero (the state the
constructor was meant to build): pushing `[9]` stores 3, 6, 9 in the three children, and
pushing `[3]` next stores 7, 5, 3. -/
theorem BaseFluxContainerMainStep_averaging_example :
    ((({ BaseFluxContainerMainStep.new (FluxMainStep.new 1 2 5 3) with
          prev_flux := VectorXd.Zero 1 }).push_sample { size := 1, coeff := fun _ => 9 }).bind
        (fun m1 => m1.push_sample { size := 1, coeff := fun _ => 3 })).map
      (fun m2 : BaseFluxContainerMainStep =>
        m2.flux_set.map
          (fun c : BaseFluxContainer_FluxMainStep => (c.flux.coeff 1, c.flux.coeff 0))) =
      some [((3 : ℚ), (7 : ℚ)), (6, 5), (9, 3)] := by
  simp [BaseFluxContainerMainStep.push_sample, BaseFluxContainerMainStep.new,
    BaseFluxContainerMainStep.push_averaged, BaseFluxContainer_FluxMainStep.push_coef,
    BaseFluxContainer_FluxMainStep.new, BaseFluxContainer_FluxMainStep.on_push,
    FluxMainStep.new, OnPushFluxMainStep.new, OnPushFluxMainStep.on_push,
    OnPushFluxMainStep.idx_begin, PushDesc.new, MemoryDesc.new, MemoryDesc.allocated_memory,
    MemoryDesc.spatial_size, VectorXd.Zero, VectorXd.setSegment, VectorXd.add, VectorXd.scale,
    size_sub, size_mul, size_add, SIZE_MOD, List.replicate]
  norm_num

/-! ## MainStep flux container: extract and time-indexed access -/

/-- In the second period `j` calls of `extract()` move the current-child index `j` places
round the ring and change nothing else. -/
theorem BaseFluxContainerMainStep_iterate_extract_state (m : BaseFluxContainerMainStep)
    (j : Nat) (hN2 : m.small_step_nmbr < SIZE_MOD)
    (hcur : m.cur_container_id < m.small_step_nmbr)
    (hsecond : m.main_step_nmbr ≤ m.main_step_counter) :
    BaseFluxContainerMainStep.extract_state^[j] m =
      { m with cur_container_id := (m.cur_container_id + j) % m.small_step_nmbr } := by
  induction j with
  | zero =>
    rw [Function.iterate_zero, id, Nat.add_zero, Nat.mod_eq_of_lt hcur]
  | succ j ih =>
    rw [Function.iterate_succ_apply', ih]
    unfold BaseFluxContainerMainStep.extract_state
    rw [if_neg (by simpa using hsecond)]
    unfold BaseFluxContainerMainStep.switch_fluxContainer
    have hlt : (m.cur_container_id + j) % m.small_step_nmbr < m.small_step_nmbr :=
      Nat.mod_lt _ (by omega)
    have h1 : size_add ((m.cur_container_id + j) % m.small_step_nmbr) 1 =
        (m.cur_container_id + j) % m.small_step_nmbr + 1 := size_add_of_lt (by omega)
    simp only [h1, Nat.mod_add_mod]
    rfl

/-- C17. `extract()` of the MainStep flux container with `N ≥ 1` children and a
current-child index below `N`. While `main_step_counter < main_step_nmbr` it adds one to
`main_step_counter`, replaces every child by its `extract()` and returns the current
child, which is the last child `N - 1` as long as the index is the constructor's.
Once `main_step_nmbr ≤ main_step_counter` it only moves the index to `(cur + 1) mod N`:
the `j`-th such call (`j ≥ 1`) returns child `(cur + j) mod N` of the unchanged ring,
which is child `(j - 1) mod N` when the period starts at the constructor's index. -/
theorem BaseFluxContainerMainStep_extract_contract (m : BaseFluxContainerMainStep)
    (hN2 : m.small_step_nmbr < SIZE_MOD)
    (hlen : m.flux_set.length = m.small_step_nmbr)
    (hmsn : m.main_step_nmbr < SIZE_MOD)
    (hcur : m.cur_container_id < m.small_step_nmbr) :
    (m.main_step_counter < m.main_step_nmbr →
      ∃ view : BaseFluxContainer_FluxMainStep,
        m.flux_set[m.cur_container_id]? = some view ∧
        (m.cur_container_id = m.small_step_nmbr - 1 →
          m.flux_set[m.small_step_nmbr - 1]? = some view) ∧
        m.extract =
          some ({ m with
                  main_step_counter := m.main_step_counter + 1
                  flux_set := m.flux_set.map BaseFluxContainer_FluxMainStep.extract },
                view.extract)) ∧
    (m.main_step_nmbr ≤ m.main_step_counter →
      m.extract_state =
          { m with cur_container_id := (m.cur_container_id + 1) % m.small_step_nmbr } ∧
        ∀ j : Nat, 1 ≤ j →
          ∃ child : BaseFluxContainer_FluxMainStep,
            m.flux_set[(m.cur_container_id + j) % m.small_step_nmbr]? = some child ∧
            (m.cur_container_id = m.small_step_nmbr - 1 →
              m.flux_set[(j - 1) % m.small_step_nmbr]? = some child) ∧
            (BaseFluxContainerMainStep.extract_state^[j - 1] m).extract =
              some ({ m with
                      cur_container_id := (m.cur_container_id + j) % m.small_step_nmbr },
                    child)) := by
  have hNpos : 0 < m.small_step_nmbr := by omega
  constructor
  · intro hfirst
    have hlt : m.cur_container_id < m.flux_set.length := by omega
    refine ⟨m.flux_set[m.cur_container_id], List.getElem?_eq_getElem hlt, ?_, ?_⟩
    · intro h
      rw [← h]
      exact List.getElem?_eq_getElem hlt
    · have hst : m.extract_state =
          { m with
            main_step_counter := m.main_step_counter + 1
            flux_set := m.flux_set.map BaseFluxContainer_FluxMainStep.extract } := by
        unfold BaseFluxContainerMainStep.extract_state
        rw [if_pos hfirst, size_add_of_lt (by omega)]
      unfold BaseFluxContainerMainStep.extract
      rw [hst]
      unfold BaseFluxContainerMainStep.flux_ptr
      simp [List.getElem?_eq_getElem hlt]
  · intro hsecond
    refine ⟨?_, ?_⟩
    · have h := BaseFluxContainerMainStep_iterate_extract_state m 1 hN2 hcur hsecond
      rw [Function.iterate_one] at h
      exact h
    · intro j hj
      have hidx : (m.cur_container_id + j) % m.small_step_nmbr < m.flux_set.length := by
        rw [hlen]
        exact Nat.mod_lt _ hNpos
      refine ⟨m.flux_set[(m.cur_container_id + j) % m.small_step_nmbr],
        List.getElem?_eq_getElem hidx, ?_, ?_⟩
      · intro h
        have hmod : (m.cur_container_id + j) % m.small_step_nmbr =
            (j - 1) % m.small_step_nmbr := by
          have : m.cur_container_id + j = (j - 1) + m.small_step_nmbr := by omega
          rw [this, Nat.add_mod_right]
        rw [← hmod]
        exact List.getElem?_eq_getElem hidx
      · have hstep : BaseFluxContainerMainStep.extract_state
            (BaseFluxContainerMainStep.extract_state^[j - 1] m) =
            { m with cur_container_id := (m.cur_container_id + j) % m.small_step_nmbr } := by
          have h := BaseFluxContainerMainStep_iterate_extract_state m (j - 1 + 1) hN2 hcur hsecond
          rw [Function.iterate_succ_apply', Nat.sub_add_cancel hj] at h
          exact h
        unfold BaseFluxContainerMainStep.extract
        rw [hstep]
        unfold BaseFluxContainerMainStep.flux_ptr
        simp [List.getElem?_eq_getElem hidx]

theorem BaseFluxContainerMainStep_extract_contract_witness :
    ∃ view : BaseFluxContainer_FluxMainStep,
      (BaseFluxContainerMainStep.new (FluxMainStep.new 1 2 5 3)).flux_set[
          (BaseFluxContainerMainStep.new (FluxMainStep.new 1 2 5 3)).cur_container_id]? =
        some view ∧
      ((BaseFluxContainerMainStep.new (FluxMainStep.new 1 2 5 3)).cur_container_id =
          (BaseFluxContainerMainStep.new (FluxMainStep.new 1 2 5 3)).small_step_nmbr - 1 →
        (BaseFluxContainerMainStep.new (FluxMainStep.new 1 2 5 3)).flux_set[
            (BaseFluxContainerMainStep.new (FluxMainStep.new 1 2 5 3)).small_step_nmbr - 1]? =
          some view) ∧
      (BaseFluxContainerMainStep.new (FluxMainStep.new 1 2 5 3)).extract =
        some ({ BaseFluxContainerMainStep.new (FluxMainStep.new 1 2 5 3) with
                main_step_counter :=
                  (BaseFluxContainerMainStep.new (FluxMainStep.new 1 2 5 3)).main_step_counter
                    + 1
                flux_set :=
                  (BaseFluxContainerMainStep.new (FluxMainStep.new 1 2 5 3)).flux_set.map
                    BaseFluxContainer_FluxMainStep.extract },
              view.extract) :=
  (BaseFluxContainerMainStep_extract_contract
    (BaseFluxContainerMainStep.new (FluxMainStep.new 1 2 5 3))
    (by decide) (by decide) (by decide) (by decide)).1 (by decide)

/-- C18. Time-indexed access `operator()(nt, segm_id)` of the MainStep flux container
with `N ≥ 1` children, for `nt ≥ 1`: when `nt - 1 < main_step_nmbr` it is the time-indexed
value `(nt, segm_id)` of the last child `N - 1`; otherwise it is entry `segm_id` of the
live window of child `(nt - 1 - main_step_nmbr) mod N`. -/
theorem BaseFluxContainerMainStep_operator_call_time_contract (m : BaseFluxContainerMainStep)
    (nt segm_id : Nat) (hnt : 1 ≤ nt) (hnt2 : nt < SIZE_MOD)
    (hN : 1 ≤ m.small_step_nmbr) (hlen : m.flux_set.length = m.small_step_nmbr) :
    (nt - 1 < m.main_step_nmbr →
      ∃ back : BaseFluxContainer_FluxMainStep,
        m.flux_set[m.small_step_nmbr - 1]? = some back ∧
        m.operator_call_time nt segm_id = back.operator_call_time nt segm_id) ∧
    (m.main_step_nmbr ≤ nt - 1 →
      ∃ child : BaseFluxContainer_FluxMainStep,
        m.flux_set[(nt - 1 - m.main_step_nmbr) % m.small_step_nmbr]? = some child ∧
        m.operator_call_time nt segm_id =
          child.operator_call.bind (fun live => live.get? segm_id)) := by
  have h1 : size_sub nt 1 = nt - 1 := size_sub_of_le hnt hnt2
  constructor
  · intro hfirst
    have hlt : m.small_step_nmbr - 1 < m.flux_set.length := by omega
    refine ⟨m.flux_set[m.small_step_nmbr - 1], List.getElem?_eq_getElem hlt, ?_⟩
    have hlast : m.flux_set.getLast? = some m.flux_set[m.small_step_nmbr - 1] := by
      rw [List.getLast?_eq_getElem?, hlen]
      exact List.getElem?_eq_getElem hlt
    unfold BaseFluxContainerMainStep.operator_call_time
    rw [h1, if_pos hfirst, hlast, Option.some_bind]
  · intro hsecond
    have hidx : (nt - 1 - m.main_step_nmbr) % m.small_step_nmbr < m.flux_set.length := by
      rw [hlen]
      exact Nat.mod_lt _ (by omega)
    refine ⟨m.flux_set[(nt - 1 - m.main_step_nmbr) % m.small_step_nmbr],
      List.getElem?_eq_getElem hidx, ?_⟩
    have h2 : size_sub (nt - 1) m.main_step_nmbr = nt - 1 - m.main_step_nmbr :=
      size_sub_of_le hsecond (by omega)
    unfold BaseFluxContainerMainStep.operator_call_time
    rw [h1, if_neg (by omega), h2, List.getElem?_eq_getElem hidx, Option.some_bind]

theorem BaseFluxContainerMainStep_operator_call_time_contract_witness :
    (4 - 1 < (BaseFluxContainerMainStep.new (FluxMainStep.new 1 2 5 3)).main_step_nmbr →
      ∃ back : BaseFluxContainer_FluxMainStep,
        (BaseFluxContainerMainStep.new (FluxMainStep.new 1 2 5 3)).flux_set[
            (BaseFluxContainerMainStep.new (FluxMainStep.new 1 2 5 3)).small_step_nmbr - 1]? =
          some back ∧
        (BaseFluxContainerMainStep.new (FluxMainStep.new 1 2 5 3)).operator_call_time 4 0 =
          back.operator_call_time 4 0) ∧
    ((BaseFluxContainerMainStep.new (FluxMainStep.new 1 2 5 3)).main_step_nmbr ≤ 4 - 1 →
      ∃ child : BaseFluxContainer_FluxMainStep,
        (BaseFluxContainerMainStep.new (FluxMainStep.new 1 2 5 3)).flux_set[
            (4 - 1 - (BaseFluxContainerMainStep.new (FluxMainStep.new 1 2 5 3)).main_step_nmbr)
              % (BaseFluxContainerMainStep.new (FluxMainStep.new 1 2 5 3)).small_step_nmbr]? =
          some child ∧
        (BaseFluxContainerMainStep.new (FluxMainStep.new 1 2 5 3)).operator_call_time 4 0 =
          child.operator_call.bind (fun live => live.get? 0)) :=
  BaseFluxContainerMainStep_operator_call_time_contract
    (BaseFluxContainerMainStep.new (FluxMainStep.new 1 2 5 3)) 4 0
    (by decide) (by decide) (by decide) (by decide)

/-! ## CommonFluxMulti -/

/-- A convolution that returns hands the kernel back with its extractor moved once. -/
theorem BaseFluxContainer_convolve_kernel (data : BaseFluxContainer) (kernel kernel1 : BaseKernel)
    (out : VectorXd) (h : data.convolve kernel = some (kernel1, out)) :
    kernel1 = kernel.on_extract := by
  unfold BaseFluxContainer.convolve at h
  rw [BaseKernel_operator_call_eq] at h
  split_ifs at h with hc
  · simp only [Option.bind_eq_bind, Option.some_bind, Option.pure_def] at h
    obtain ⟨live, _, h2⟩ := Option.bind_eq_some.mp h
    obtain ⟨o, _, h3⟩ := Option.bind_eq_some.mp h2
    exact ((Prod.mk.inj (Option.some.inj h3)).1).symm
  · simp at h

/-- The loop of `CommonFluxMulti::convolve` returns exactly the component-wise results of
`data.convolve`. -/
theorem CommonFluxMulti_convolve_loop_iff (data : BaseFluxContainer) :
    ∀ (kernels kernels1 : List BaseKernel) (results : List VectorXd),
      CommonFluxMulti.convolve_loop data kernels = some (kernels1, results) ↔
        kernels1.length = kernels.length ∧ results.length = kernels.length ∧
        ∀ (k : Nat) (kernel : BaseKernel), kernels[k]? = some kernel →
          ∃ (kernel1 : BaseKernel) (out : VectorXd),
            kernels1[k]? = some kernel1 ∧ results[k]? = some out ∧
            data.convolve kernel = some (kernel1, out) := by
  intro kernels
  induction kernels with
  | nil =>
    intro kernels1 results
    simp only [CommonFluxMulti.convolve_loop, Option.some.injEq, Prod.mk.injEq,
      List.length_nil, List.length_eq_zero]
    constructor
    · rintro ⟨h1, h2⟩
      refine ⟨h1.symm, h2.symm, ?_⟩
      intro k kernel hk
      simp at hk
    · rintro ⟨h1, h2, _⟩
      exact ⟨h1.symm, h2.symm⟩
  | cons kernel rest ih =>
    intro kernels1 results
    rw [CommonFluxMulti.convolve_loop]
    constructor
    · intro h
      obtain ⟨r, hr, h2⟩ := Option.bind_eq_some.mp h
      obtain ⟨rs, hrs, h3⟩ := Option.bind_eq_some.mp h2
      obtain ⟨hk1, hres⟩ := Prod.mk.inj (Option.some.inj h3)
      obtain ⟨hl1, hl2, hall⟩ := (ih rs.1 rs.2).mp hrs
      subst hk1 hres
      refine ⟨by simp [hl1], by simp [hl2], ?_⟩
      intro k kernel0 hk
      cases k with
      | zero =>
        simp only [List.getElem?_cons_zero, Option.some.injEq] at hk
        subst hk
        exact ⟨r.1, r.2, by simp, by simp, hr⟩
      | succ k =>
        simp only [List.getElem?_cons_succ] at hk
        obtain ⟨kernel1, out, h4, h5, h6⟩ := hall k kernel0 hk
        exact ⟨kernel1, out, by simpa using h4, by simpa using h5, h6⟩
    · rintro ⟨hl1, hl2, hall⟩
      cases kernels1 with
      | nil => simp at hl1
      | cons k1 ks1 =>
        cases results with
        | nil => simp at hl2
        | cons o os =>
          obtain ⟨kernel1, out, h4, h5, h6⟩ := hall 0 kernel (by simp)
          simp only [List.getElem?_cons_zero, Option.some.injEq] at h4 h5
          subst h4 h5
          have hrest : CommonFluxMulti.convolve_loop data rest = some (ks1, os) := by
            refine (ih ks1 os).mpr ⟨by simpa using hl1, by simpa using hl2, ?_⟩
            intro k kernel0 hk
            obtain ⟨kernel2, out2, h7, h8, h9⟩ := hall (k + 1) kernel0 (by simpa using hk)
            exact ⟨kernel2, out2, by simpa using h7, by simpa using h8, h9⟩
          rw [h6, Option.some_bind, hrest, Option.some_bind]

/-- C19. One call `CommonFluxMulti.convolve(kernels)`, for any array of kernels, returns
the container `c1`, the kernels `kernels1` and the array `results` exactly when: the flux
part of `c1` is the flux container after ONE `extract()` (its extractor is `on_extract`
of the old one, its pusher and buffer are untouched), `c1` keeps `results`, both arrays
have the length of `kernels`, and for every `k` the pair `(kernels1[k], results[k])` is
the value of `view.convolve(kernels[k])` on that single extracted view, the kernel having
its extractor moved once. -/
theorem CommonFluxMulti_convolve_single_extract (c c1 : CommonFluxMulti)
    (kernels kernels1 : List BaseKernel) (results : List VectorXd) :
    c.convolve kernels = some (c1, kernels1, results) ↔
      c1.toBaseFluxContainer = c.toBaseFluxContainer.extract ∧
      c1.allocator.extractor = c.allocator.extractor.on_extract ∧
      c1.allocator.pusher = c.allocator.pusher ∧
      c1.flux = c.flux ∧
      c1.convolved_data_vector = results ∧
      kernels1.length = kernels.length ∧ results.length = kernels.length ∧
      ∀ (k : Nat) (kernel : BaseKernel), kernels[k]? = some kernel →
        ∃ (kernel1 : BaseKernel) (out : VectorXd),
          kernels1[k]? = some kernel1 ∧ results[k]? = some out ∧
          c.toBaseFluxContainer.extract.convolve kernel = some (kernel1, out) ∧
          kernel1.allocator.extractor = kernel.allocator.extractor.on_extract := by
  unfold CommonFluxMulti.convolve
  constructor
  · intro h
    obtain ⟨rs, hrs, h2⟩ := Option.bind_eq_some.mp h
    have h3 := Prod.mk.inj (Option.some.inj h2)
    obtain ⟨hc1, h4⟩ := h3
    obtain ⟨hk1, hres⟩ := Prod.mk.inj h4
    obtain ⟨hl1, hl2, hall⟩ := (CommonFluxMulti_convolve_loop_iff _ kernels rs.1 rs.2).mp hrs
    subst hc1 hk1 hres
    refine ⟨rfl, rfl, rfl, rfl, rfl, hl1, hl2, ?_⟩
    intro k kernel hk
    obtain ⟨kernel1, out, h5, h6, h7⟩ := hall k kernel hk
    refine ⟨kernel1, out, h5, h6, h7, ?_⟩
    rw [BaseFluxContainer_convolve_kernel _ _ _ _ h7]
    rfl
  · rintro ⟨hbase, _, _, _, hvec, hl1, hl2, hall⟩
    have hloop : CommonFluxMulti.convolve_loop c.toBaseFluxContainer.extract kernels =
        some (kernels1, results) := by
      refine (CommonFluxMulti_convolve_loop_iff _ kernels kernels1 results).mpr ⟨hl1, hl2, ?_⟩
      intro k kernel hk
      obtain ⟨kernel1, out, h5, h6, h7, _⟩ := hall k kernel hk
      exact ⟨kernel1, out, h5, h6, h7⟩
    simp only [hloop, Option.some_bind]
    obtain ⟨base, vec⟩ := c1
    simp only at hbase hvec
    subst hbase hvec
    rfl
theorem CommonFluxMulti_convolve_single_extract_witness :
    ∃ (c1 : CommonFluxMulti) (kernels1 : List BaseKernel) (results : List VectorXd),
      (CommonFluxMulti.new 2 (FluxConstStep.new 1 2 2)).convolve
          [BaseKernel.new 1 (KernelConstStep.new 1 2) (fun _ _ => 0),
           BaseKernel.new 1 (KernelConstStep.new 1 2) (fun _ _ => 0)] =
        some (c1, kernels1, results) ∧
      c1.allocator.extractor =
        (CommonFluxMulti.new 2 (FluxConstStep.new 1 2 2)).allocator.extractor.on_extract ∧
      kernels1.length = 2 ∧ results.length = 2 := by
  have hsome : ((CommonFluxMulti.new 2 (FluxConstStep.new 1 2 2)).convolve
      [BaseKernel.new 1 (KernelConstStep.new 1 2) (fun _ _ => 0),
       BaseKernel.new 1 (KernelConstStep.new 1 2) (fun _ _ => 0)]).isSome = true := by
    decide
  obtain ⟨⟨c1, kernels1, results⟩, h⟩ := Option.isSome_iff_exists.mp hsome
  have hspec := (CommonFluxMulti_convolve_single_extract _ _ _ _ _).mp h
  exact ⟨c1, kernels1, results, h, hspec.2.1, hspec.2.2.2.2.2.1, hspec.2.2.2.2.2.2.1⟩

/-! ## Fractures flux container -/

/-- The number of samples child `f` has received after `k + 1` round-robin pushes. -/
theorem frac_push_count_succ (fc k f : Nat) (hfc : 0 < fc) (hf : f < fc) :
    (k + 1) / fc + (if f < (k + 1) % fc then 1 else 0) =
      k / fc + (if f < k % fc then 1 else 0) + (if f = k % fc then 1 else 0) := by
  have hr : k % fc < fc := Nat.mod_lt _ hfc
  have hk : fc * (k / fc) + k % fc = k := Nat.div_add_mod k fc
  generalize k / fc = q at hk
  generalize k % fc = r at hk hr
  subst hk
  by_cases hwrap : r + 1 = fc
  · have h1 : fc * q + r + 1 = fc * (q + 1) := by rw [Nat.mul_add, Nat.mul_one]; omega
    rw [h1, Nat.mul_div_cancel_left _ hfc, Nat.mul_mod_right]
    split_ifs <;> omega
  · have h2 : r + 1 < fc := by omega
    have h1 : fc * q + r + 1 = fc * q + (r + 1) := by omega
    rw [h1, Nat.mul_add_div hfc, Nat.mul_add_mod, Nat.div_eq_of_lt h2, Nat.mod_eq_of_lt h2]
    split_ifs <;> omega

/-- The overload `push_coef(cur_qzf, value)` of a fracture flux is `push_coef(data)` on
the computed sample. -/
theorem BaseFracFlux_push_coef_eq (c : BaseFracFlux) (cur_qzf : Nat → ℚ) (value : ℚ) :
    BaseFracFlux.push_coef c cur_qzf value =
      BaseFluxContainer.push_coef c (BaseFracFlux.calc_coef c cur_qzf value) := by
  unfold BaseFracFlux.push_coef BaseFluxContainer.push_coef
  rfl

theorem FracturesFluxContainer_t_push_coefs_append (inputs : List ((Nat → ℚ) × ℚ))
    (a : (Nat → ℚ) × ℚ) :
    ∀ c : FracturesFluxContainer_t,
      c.push_coefs (inputs ++ [a]) =
        (c.push_coefs inputs).bind (fun c1 => c1.push_coef a.1 a.2) := by
  induction inputs with
  | nil =>
    intro c
    simp only [List.nil_append, FracturesFluxContainer_t.push_coefs, Option.some_bind]
    cases c.push_coef a.1 a.2 <;> rfl
  | cons b rest ih =>
    intro c
    simp only [List.cons_append, FracturesFluxContainer_t.push_coefs]
    cases c.push_coef b.1 b.2 with
    | none => rfl
    | some c1 =>
      simp only [Option.some_bind]
      exact ih c1

/-- The pusher of a container that stores `us` has spatial size `S`. -/
theorem BaseFluxContainer_Stores_spatial_size {S T : Nat} {us : List VectorXd}
    {c : BaseFluxContainer} (h : BaseFluxContainer.Stores S T us c) :
    c.allocator.pusher.spatial_size = S := by
  rw [h.2.1, OnPushFluxConstStep_iterate_on_push]
  rfl
/-- One more `push_coef` on a container reached by `k < m * frac_count` pushes: it
returns, it is delegated to child `k mod frac_count` alone, and the container is the one
reached by `k + 1` pushes. -/
theorem FracturesFluxContainer_t_Pushed_push_coef (c0 c : FracturesFluxContainer_t)
    (m k : Nat) (cur_qzf : Nat → ℚ) (value : ℚ)
    (hfc : 1 ≤ c0.frac_count) (hfc2 : c0.frac_count < SIZE_MOD)
    (hlen : c0.data.length = c0.frac_count) (hk : k < m * c0.frac_count)
    (h : FracturesFluxContainer_t.Pushed c0 m k c) :
    ∃ (child child1 : BaseFracFlux) (c1 : FracturesFluxContainer_t),
      c.data[k % c0.frac_count]? = some child ∧
      BaseFracFlux.push_coef child cur_qzf value = some child1 ∧
      c.push_coef cur_qzf value = some c1 ∧
      c1.data = c.data.set (k % c0.frac_count) child1 ∧
      c1.need_advance = true ∧
      FracturesFluxContainer_t.Pushed c0 m (k + 1) c1 := by
  obtain ⟨h1, h2, h3, h4, h5⟩ := h
  have hfc0 : 0 < c0.frac_count := hfc
  have hr : k % c0.frac_count < c0.frac_count := Nat.mod_lt _ hfc0
  have hr0 : k % c0.frac_count < c0.data.length := by omega
  obtain ⟨child, S, T, us, hc, hst, hST, hroom, hp, he⟩ :=
    h5 (k % c0.frac_count) (c0.data[k % c0.frac_count]) (List.getElem?_eq_getElem hr0)
  rw [if_neg (lt_irrefl _), Nat.add_zero] at hroom hp
  have hdiv : k / c0.frac_count < m := (Nat.div_lt_iff_lt_mul hfc0).mpr hk
  have hsize : (BaseFracFlux.calc_coef child cur_qzf value).size = S :=
    BaseFluxContainer_Stores_spatial_size hst
  obtain ⟨child1, hpush, hst1, hext1, _⟩ :=
    BaseFluxContainer_Stores_push_coef hst (by omega) hST
      (BaseFracFlux.calc_coef child cur_qzf value) hsize
  have hpush1 : BaseFracFlux.push_coef child cur_qzf value = some child1 := by
    rw [BaseFracFlux_push_coef_eq]
    exact hpush
  have hadd : size_add 1 (k % c0.frac_count) = 1 + k % c0.frac_count :=
    size_add_of_lt (by omega)
  have hcur1 : (1 + k % c0.frac_count) % c0.frac_count = (k + 1) % c0.frac_count := by
    rw [Nat.add_comm 1, Nat.mod_add_mod]
  refine ⟨child, child1,
    { c with
      data := c.data.set (k % c0.frac_count) child1
      need_advance := true
      cur_frac_id := (size_add 1 (k % c0.frac_count)) % c.frac_count },
    hc, hpush1, ?_, rfl, rfl, ?_⟩
  · unfold FracturesFluxContainer_t.push_coef
    rw [h3, hc, Option.some_bind, hpush1, Option.some_bind]
  · refine ⟨h1, ?_, ?_, fun _ => rfl, ?_⟩
    · simp [h2]
    · show (size_add 1 (k % c0.frac_count)) % c.frac_count = (k + 1) % c0.frac_count
      rw [hadd, h1, hcur1]
    · intro f child0 hf
      have hflt : f < c0.frac_count := by
        by_contra hge
        rw [List.getElem?_eq_none (by omega)] at hf
        cases hf
      rw [frac_push_count_succ c0.frac_count k f hfc0 hflt]
      by_cases hfeq : f = k % c0.frac_count
      · subst hfeq
        have hchild0 : child0 = c0.data[k % c0.frac_count] := by
          rw [List.getElem?_eq_getElem hr0] at hf
          exact (Option.some.inj hf).symm
        subst hchild0
        rw [if_neg (lt_irrefl _), if_pos rfl, Nat.add_zero]
        refine ⟨child1, S, T, us ++ [BaseFracFlux.calc_coef child cur_qzf value], ?_, hst1,
          hST, ?_, ?_, ?_⟩
        · show (c.data.set (k % c0.frac_count) child1)[k % c0.frac_count]? = some child1
          rw [List.getElem?_set_self (by omega)]
        · simp only [List.length_append, List.length_singleton]
          omega
        · rw [hst1.2.1, List.length_append, List.length_singleton,
            Function.iterate_succ_apply', ← hst.2.1, hp]
          exact (Function.iterate_succ_apply' _ _ _).symm
        · rw [hext1, he]
      · obtain ⟨childf, Sf, Tf, usf, hcf, hstf, hSTf, hroomf, hpf, hef⟩ := h5 f child0 hf
        rw [if_neg hfeq, Nat.add_zero]
        refine ⟨childf, Sf, Tf, usf, ?_, hstf, hSTf, hroomf, hpf, hef⟩
        show (c.data.set (k % c0.frac_count) child1)[f]? = some childf
        rw [List.getElem?_set_ne (fun h => hfeq h.symm)]
        exact hcf

/-- Any `k ≤ m * frac_count` pushes into a fractures container that starts at child 0,
every child having room for `m` more samples, return, and the container is the one
described by `Pushed`. -/
theorem FracturesFluxContainer_t_push_coefs_Pushed (c0 : FracturesFluxContainer_t) (m : Nat)
    (hfc : 1 ≤ c0.frac_count) (hfc2 : c0.frac_count < SIZE_MOD)
    (hlen : c0.data.length = c0.frac_count) (hcur : c0.cur_frac_id = 0)
    (hroom : ∀ (f : Nat) (child0 : BaseFracFlux), c0.data[f]? = some child0 →
      ∃ (S T : Nat) (us : List VectorXd),
        BaseFluxContainer.Stores S T us child0 ∧ S * T < SIZE_MOD ∧ us.length + m ≤ T)
    (inputs : List ((Nat → ℚ) × ℚ)) (hk : inputs.length ≤ m * c0.frac_count) :
    ∃ ck : FracturesFluxContainer_t,
      c0.push_coefs inputs = some ck ∧
      FracturesFluxContainer_t.Pushed c0 m inputs.length ck := by
  induction inputs using List.reverseRecOn with
  | nil =>
    refine ⟨c0, rfl, rfl, rfl, ?_, ?_, ?_⟩
    · rw [hcur, List.length_nil, Nat.zero_mod]
    · intro h
      simp at h
    · intro f child0 hf
      obtain ⟨S, T, us, hst, hST, hr⟩ := hroom f child0 hf
      refine ⟨child0, S, T, us, hf, hst, hST, ?_, ?_, rfl⟩
      · exact Nat.le_trans hr (Nat.le_add_right _ _)
      · simp
  | append_singleton l a ih =>
    have hl : l.length < m * c0.frac_count := by
      simp only [List.length_append, List.length_singleton] at hk
      omega
    obtain ⟨cl, hcl, hP⟩ := ih (le_of_lt hl)
    obtain ⟨_, _, c1, _, _, hpush, _, _, hP1⟩ :=
      FracturesFluxContainer_t_Pushed_push_coef c0 cl m l.length a.1 a.2 hfc hfc2 hlen hl hP
    refine ⟨c1, ?_, ?_⟩
    · rw [FracturesFluxContainer_t_push_coefs_append, hcl, Option.some_bind, hpush]
    · rw [List.length_append, List.length_singleton]
      exact hP1

/-- The children of a freshly constructed fractures container are empty, so child `f`
built for `T_f` time layers has room for any `m ≤ T_f` samples. -/
theorem FracturesFluxContainer_t_new_room (descs : List (Nat × Nat × Nat)) (m : Nat)
    (hdescs : ∀ d ∈ descs, d.1 * d.2.1 < SIZE_MOD ∧ m ≤ d.2.1) :
    ∀ (f : Nat) (child0 : BaseFracFlux),
      (FracturesFluxContainer_t.new
          (descs.map (fun d => FluxConstStep.new d.1 d.2.1 d.2.2))).data[f]? = some child0 →
      ∃ (S T : Nat) (us : List VectorXd),
        BaseFluxContainer.Stores S T us child0 ∧ S * T < SIZE_MOD ∧ us.length + m ≤ T := by
  intro f child0 hf
  have hdata : (FracturesFluxContainer_t.new
      (descs.map (fun d => FluxConstStep.new d.1 d.2.1 d.2.2))).data =
      descs.map (fun d => BaseFluxContainer.new (FluxConstStep.new d.1 d.2.1 d.2.2)) := by
    simp [FracturesFluxContainer_t.new, MultipleFracturesContainer.new, List.map_map,
      Function.comp_def]
  rw [hdata, List.getElem?_map] at hf
  obtain ⟨d, hd, hchild⟩ := Option.map_eq_some'.mp hf
  obtain ⟨h1, h2⟩ := hdescs d (List.mem_iff_getElem?.mpr ⟨f, hd⟩)
  subst hchild
  exact ⟨d.1, d.2.1, [], BaseFluxContainer_Stores_new d.1 d.2.1 d.2.2, h1, by simpa using h2⟩

/-- C20. Round-robin push of `FracturesFluxContainer_t` with `frac_count ≥ 1` children,
starting from `cur_frac_id = 0`, every child having room for `m` more samples. Any
`k ≤ m * frac_count` calls of `push_coef` return; afterwards `cur_frac_id` is
`k mod frac_count`, `need_advance` is set once `k ≥ 1`, and the pusher of child `f` has
been called `k / frac_count` times, one more when `f < k mod frac_count`, hence exactly
`m` times for every child when `k = m * frac_count`. Call number `j + 1` is delegated to
child `j mod frac_count`: that child's `push_coef` runs on the arguments of the call and
its result replaces that one entry of `data`, no other entry changes, the flag is set and
the cursor moves to `(j + 1) mod frac_count`. -/
theorem FracturesFluxContainer_t_round_robin_push (c0 : FracturesFluxContainer_t) (m : Nat)
    (inputs : List ((Nat → ℚ) × ℚ))
    (hfc : 1 ≤ c0.frac_count) (hfc2 : c0.frac_count < SIZE_MOD)
    (hlen : c0.data.length = c0.frac_count) (hcur : c0.cur_frac_id = 0)
    (hroom : ∀ (f : Nat) (child0 : BaseFracFlux), c0.data[f]? = some child0 →
      ∃ (S T : Nat) (us : List VectorXd),
        BaseFluxContainer.Stores S T us child0 ∧ S * T < SIZE_MOD ∧ us.length + m ≤ T)
    (hk : inputs.length ≤ m * c0.frac_count) :
    ∃ ck : FracturesFluxContainer_t,
      c0.push_coefs inputs = some ck ∧
      ck.cur_frac_id = inputs.length % c0.frac_count ∧
      (1 ≤ inputs.length → ck.need_advance = true) ∧
      (∀ (f : Nat) (child0 : BaseFracFlux), c0.data[f]? = some child0 →
        ∃ child : BaseFracFlux, ck.data[f]? = some child ∧
          child.allocator.pusher =
            OnPushFluxConstStep.on_push^[inputs.length / c0.frac_count +
                if f < inputs.length % c0.frac_count then 1 else 0]
              child0.allocator.pusher) ∧
      (inputs.length = m * c0.frac_count →
        ∀ (f : Nat) (child0 : BaseFracFlux), c0.data[f]? = some child0 →
          ∃ child : BaseFracFlux, ck.data[f]? = some child ∧
            child.allocator.pusher =
              OnPushFluxConstStep.on_push^[m] child0.allocator.pusher) ∧
      ∀ (j : Nat) (args : (Nat → ℚ) × ℚ), inputs[j]? = some args →
        ∃ (cj cj1 : FracturesFluxContainer_t) (child child1 : BaseFracFlux),
          c0.push_coefs (inputs.take j) = some cj ∧
          cj.cur_frac_id = j % c0.frac_count ∧
          cj.data[j % c0.frac_count]? = some child ∧
          BaseFracFlux.push_coef child args.1 args.2 = some child1 ∧
          cj.push_coef args.1 args.2 = some cj1 ∧
          c0.push_coefs (inputs.take (j + 1)) = some cj1 ∧
          cj1.data = cj.data.set (j % c0.frac_count) child1 ∧
          cj1.need_advance = true ∧
          cj1.cur_frac_id = (j + 1) % c0.frac_count := by
  have hfc0 : 0 < c0.frac_count := hfc
  obtain ⟨ck, hck, hP⟩ :=
    FracturesFluxContainer_t_push_coefs_Pushed c0 m hfc hfc2 hlen hcur hroom inputs hk
  obtain ⟨_, _, hc3, hc4, hc5⟩ := hP
  refine ⟨ck, hck, hc3, hc4, ?_, ?_, ?_⟩
  · intro f child0 hf
    obtain ⟨child, _, _, _, h1, _, _, _, h2, _⟩ := hc5 f child0 hf
    exact ⟨child, h1, h2⟩
  · intro hfull f child0 hf
    obtain ⟨child, _, _, _, h1, _, _, _, h2, _⟩ := hc5 f child0 hf
    refine ⟨child, h1, ?_⟩
    rw [hfull, Nat.mul_mod_left, if_neg (Nat.not_lt_zero f), Nat.add_zero,
      Nat.mul_div_cancel _ hfc0] at h2
    exact h2
  · intro j args hj
    have hjlt : j < inputs.length := by
      by_contra hge
      rw [List.getElem?_eq_none (by omega)] at hj
      cases hj
    have htake : (inputs.take j).length = j := by
      rw [List.length_take]
      omega
    have hsucc : inputs.take (j + 1) = inputs.take j ++ [args] := by
      rw [List.take_succ, hj]
      rfl
    obtain ⟨cj, hcj, hPj⟩ :=
      FracturesFluxContainer_t_push_coefs_Pushed c0 m hfc hfc2 hlen hcur hroom (inputs.take j)
        (by rw [htake]; omega)
    rw [htake] at hPj
    obtain ⟨child, child1, cj1, h1, h2, h3, h4, h5, h6⟩ :=
      FracturesFluxContainer_t_Pushed_push_coef c0 cj m j args.1 args.2 hfc hfc2 hlen
        (by omega) hPj
    refine ⟨cj, cj1, child, child1, hcj, hPj.2.2.1, h1, h2, h3, ?_, h4, h5, h6.2.2.1⟩
    rw [hsucc, FracturesFluxContainer_t_push_coefs_append, hcj, Option.some_bind, h3]

theorem FracturesFluxContainer_t_round_robin_push_witness :
    ∃ ck : FracturesFluxContainer_t,
      (FracturesFluxContainer_t.new
          ([(1, 2, 2), (2, 2, 2)].map
            (fun d : Nat × Nat × Nat => FluxConstStep.new d.1 d.2.1 d.2.2))).push_coefs
          [(fun _ => 1, 1), (fun _ => 2, 1), (fun _ => 3, 1)] = some ck ∧
      ck.cur_frac_id = 1 ∧ ck.need_advance = true := by
  obtain ⟨ck, h1, h2, h3, _⟩ :=
    FracturesFluxContainer_t_round_robin_push
      (FracturesFluxContainer_t.new
        ([(1, 2, 2), (2, 2, 2)].map
          (fun d : Nat × Nat × Nat => FluxConstStep.new d.1 d.2.1 d.2.2)))
      2 [(fun _ => 1, 1), (fun _ => 2, 1), (fun _ => 3, 1)]
      (by decide) (by decide) (by decide) (by decide)
      (FracturesFluxContainer_t_new_room [(1, 2, 2), (2, 2, 2)] 2 (by decide))
      (by decide)
  exact ⟨ck, h1, h2, h3 (by decide)⟩

/-! ## Fractures flux container: the gate of `convolve` -/

/-- A kernel whose flag is set cannot be convolved. -/
theorem BaseFluxContainer_convolve_flag (data : BaseFluxContainer) (kernel : BaseKernel)
    (h : kernel.allocator.pusher.need_advance = true) : data.convolve kernel = none := by
  unfold BaseFluxContainer.convolve
  rw [BaseKernel_operator_call_eq, if_neg (by simp [h])]
  rfl

/-- One term of `convolve` touches child `frac_id` only, and that child is extracted
whenever the child and the kernel exist, also when the term fails. -/
theorem FracturesFluxContainer_t_convolve_term_data (c : FracturesFluxContainer_t)
    (kernels : List FracKernel) (frac_id : Nat) :
    (∀ j, j ≠ frac_id → (c.convolve_term kernels frac_id).state.1.data[j]? = c.data[j]?) ∧
    (∀ child kernel, c.data[frac_id]? = some child → kernels[frac_id]? = some kernel →
      (c.convolve_term kernels frac_id).state.1.data[frac_id]? =
        some (BaseFluxContainer.extract child)) := by
  unfold FracturesFluxContainer_t.convolve_term
  constructor
  · intro j hj
    cases hd : c.data[frac_id]? with
    | none => rfl
    | some child =>
      cases hk : kernels[frac_id]? with
      | none => rfl
      | some kernel =>
        simp only []
        cases BaseFluxContainer.convolve (BaseFluxContainer.extract child) kernel with
        | none => exact List.getElem?_set_ne (fun h => hj h.symm)
        | some p => exact List.getElem?_set_ne (fun h => hj h.symm)
  · intro child kernel hd hk
    have hlt : frac_id < c.data.length := by
      by_contra hge
      rw [List.getElem?_eq_none (by omega)] at hd
      cases hd
    rw [hd, hk]
    simp only []
    cases BaseFluxContainer.convolve (BaseFluxContainer.extract child) kernel with
    | none => exact List.getElem?_set_self hlt
    | some p => exact List.getElem?_set_self hlt

/-- The loop of `convolve` from `frac_id` on leaves the children below `frac_id` alone. -/
theorem FracturesFluxContainer_t_convolve_loop_data :
    ∀ (fuel frac_id : Nat) (c : FracturesFluxContainer_t) (kernels : List FracKernel) (j : Nat),
      j < frac_id →
      (FracturesFluxContainer_t.convolve_loop fuel frac_id c kernels).state.1.data[j]? =
        c.data[j]? := by
  intro fuel
  induction fuel with
  | zero =>
    intro frac_id c kernels j _
    rfl
  | succ fuel ih =>
    intro frac_id c kernels j hj
    have hterm := (FracturesFluxContainer_t_convolve_term_data c kernels frac_id).1 j (by omega)
    rw [FracturesFluxContainer_t.convolve_loop]
    rcases hres : c.convolve_term kernels frac_id with ⟨⟨c1, kernels1⟩, value⟩
    rw [hres] at hterm
    cases value with
    | none => exact hterm
    | some out =>
      simp only []
      cases hadd : c1.convolved_data.add out with
      | none => exact hterm
      | some total =>
        simp only []
        rw [ih (frac_id + 1) _ kernels1 j (by omega)]
        exact hterm

/-- Once the gate of `convolve` is passed, the first child is extracted, whether the call
returns or fails afterwards. -/
theorem FracturesFluxContainer_t_convolve_first_child (c : FracturesFluxContainer_t)
    (kernels : List FracKernel) (child : BaseFracFlux) (kernel : FracKernel)
    (hcur : c.cur_frac_id = 0) (hd : c.data[0]? = some child) (hk : kernels[0]? = some kernel) :
    (c.convolve kernels).state.1.data[0]? = some (BaseFluxContainer.extract child) := by
  have hterm := (FracturesFluxContainer_t_convolve_term_data c kernels 0).2 child kernel hd hk
  unfold FracturesFluxContainer_t.convolve FracturesFluxContainer_t.is_correct_state
  rw [if_neg (by simp [hcur])]
  simp only []
  rcases hres : c.convolve_term kernels 0 with ⟨⟨c1, kernels1⟩, value⟩
  rw [hres] at hterm
  cases value with
  | none => exact hterm
  | some out =>
    simp only []
    rw [FracturesFluxContainer_t_convolve_loop_data _ 1 _ kernels1 0 (by omega)]
    exact hterm

/-- C21, as the code has it. The check of `FracturesFluxContainer_t::convolve` throws
exactly when `cur_frac_id != 0`; the call then fails with the container, every child,
every kernel and the stored result as they were. With `cur_frac_id == 0` the check is
passed and the first child is extracted, also when the call fails further on. -/
theorem FracturesFluxContainer_t_convolve_gate (c : FracturesFluxContainer_t)
    (kernels : List FracKernel) :
    (c.is_correct_state = none ↔ c.cur_frac_id ≠ 0) ∧
    (c.cur_frac_id ≠ 0 → c.convolve kernels = { state := (c, kernels), value := none }) ∧
    (c.cur_frac_id = 0 →
      ∀ (child : BaseFracFlux) (kernel : FracKernel),
        c.data[0]? = some child → kernels[0]? = some kernel →
        (c.convolve kernels).state.1.data[0]? = some (BaseFluxContainer.extract child)) := by
  refine ⟨?_, ?_, ?_⟩
  · unfold FracturesFluxContainer_t.is_correct_state
    by_cases h : c.cur_frac_id = 0
    · simp [h]
    · simp [h]
  · intro h
    unfold FracturesFluxContainer_t.convolve FracturesFluxContainer_t.is_correct_state
    rw [if_pos h]
  · intro h child kernel hd hk
    exact FracturesFluxContainer_t_convolve_first_child c kernels child kernel h hd hk
/-- A push on the fractures flux container moves the cursor one place round the ring and
sets the flag. -/
theorem FracturesFluxContainer_t_push_coef_cur (c c1 : FracturesFluxContainer_t)
    (cur_qzf : Nat → ℚ) (value : ℚ) (h : c.push_coef cur_qzf value = some c1) :
    c1.cur_frac_id = (size_add 1 c.cur_frac_id) % c.frac_count ∧
      c1.frac_count = c.frac_count ∧ c1.need_advance = true := by
  unfold FracturesFluxContainer_t.push_coef at h
  obtain ⟨child, _, h2⟩ := Option.bind_eq_some.mp h
  obtain ⟨child1, _, h3⟩ := Option.bind_eq_some.mp h2
  rw [← Option.some.inj h3]
  exact ⟨rfl, rfl, rfl⟩

/-- A fracture kernel that has taken a push has its flag set, and its allocator is
otherwise as it was. -/
theorem FracKernel_push_coef_flag (k k1 : FracKernel) (R_data U_data : Nat → ℚ)
    (h : FracKernel.push_coef k R_data U_data = some k1) :
    k1.allocator.pusher.need_advance = true ∧
      k1.allocator.extractor = k.allocator.extractor ∧
      k1.allocator.pusher.toMemoryDesc = k.allocator.pusher.toMemoryDesc ∧
      k1.allocator.pusher.its_index_end = k.allocator.pusher.its_index_end := by
  unfold FracKernel.push_coef at h
  simp only [] at h
  obtain ⟨diff, _, h2⟩ := Option.bind_eq_some.mp h
  obtain ⟨block, _, h3⟩ := Option.bind_eq_some.mp h2
  obtain ⟨Kernel, _, h4⟩ := Option.bind_eq_some.mp h3
  rw [← Option.some.inj h4]
  exact ⟨rfl, rfl, rfl, rfl⟩

/-- With the gate passed, a first kernel whose flag is set makes `convolve` fail. -/
theorem FracturesFluxContainer_t_convolve_flagged (c : FracturesFluxContainer_t)
    (kernels : List FracKernel) (child : BaseFracFlux) (kernel : FracKernel)
    (hcur : c.cur_frac_id = 0) (hd : c.data[0]? = some child) (hk : kernels[0]? = some kernel)
    (hflag : kernel.allocator.pusher.need_advance = true) :
    (c.convolve kernels).value = none := by
  unfold FracturesFluxContainer_t.convolve FracturesFluxContainer_t.is_correct_state
  rw [if_neg (by simp [hcur])]
  simp only []
  have hterm : (c.convolve_term kernels 0).value = none := by
    unfold FracturesFluxContainer_t.convolve_term
    rw [hd, hk]
    simp only []
    rw [BaseFluxContainer_convolve_flag _ _ hflag]
  rcases hres : c.convolve_term kernels 0 with ⟨⟨c1, kernels1⟩, value⟩
  rw [hres] at hterm
  simp only at hterm
  subst hterm
  rfl

theorem FracturesFluxContainer_t_convolve_gate_witness :
    ∃ c1 : FracturesFluxContainer_t,
      (FracturesFluxContainer_t.new [FluxConstStep.new 1 1 1, FluxConstStep.new 1 1 1]).push_coef
          (fun _ => 1) 1 = some c1 ∧
      c1.cur_frac_id ≠ 0 ∧
      c1.convolve [] = { state := (c1, []), value := none } := by
  have hsome : ((FracturesFluxContainer_t.new
      [FluxConstStep.new 1 1 1, FluxConstStep.new 1 1 1]).push_coef (fun _ => 1) 1).isSome =
      true := by decide
  obtain ⟨c1, h⟩ := Option.isSome_iff_exists.mp hsome
  have hcur : c1.cur_frac_id ≠ 0 := by
    rw [(FracturesFluxContainer_t_push_coef_cur _ _ _ _ h).1]
    decide
  exact ⟨c1, h, hcur, (FracturesFluxContainer_t_convolve_gate c1 []).2.1 hcur⟩

/-- C21 as stated fails. A one-fracture container with `cur_frac_id == 0` and a kernel
that has taken a push and no `advance()`: `convolve` fails although the cursor is 0, and
the child's extractor has moved (its `idx_begin` went from 1 to 0). -/
theorem FracturesFluxContainer_t_convolve_fails_at_cursor_zero :
    ∃ k1 : FracKernel,
      FracKernel.push_coef (FracKernel.new 1 (KernelConstStep.new 1 1) (fun _ _ => 0))
          (fun _ => 1) (fun _ => 1) = some k1 ∧
      (FracturesFluxContainer_t.new [FluxConstStep.new 1 1 1]).cur_frac_id = 0 ∧
      ((FracturesFluxContainer_t.new [FluxConstStep.new 1 1 1]).convolve [k1]).value = none ∧
      ((FracturesFluxContainer_t.new [FluxConstStep.new 1 1 1]).data[0]?).map
          (fun child => child.allocator.extractor.idx_begin) = some 1 ∧
      (((FracturesFluxContainer_t.new [FluxConstStep.new 1 1 1]).convolve [k1]).state.1.data[0]?).map
          (fun child => child.allocator.extractor.idx_begin) = some 0 := by
  have hsome : (FracKernel.push_coef (FracKernel.new 1 (KernelConstStep.new 1 1) (fun _ _ => 0))
      (fun _ => 1) (fun _ => 1)).isSome = true := by decide
  obtain ⟨k1, h⟩ := Option.isSome_iff_exists.mp hsome
  have hflag := (FracKernel_push_coef_flag _ _ _ _ h).1
  refine ⟨k1, h, rfl, ?_, by decide, ?_⟩
  · exact FracturesFluxContainer_t_convolve_flagged
      (FracturesFluxContainer_t.new [FluxConstStep.new 1 1 1]) [k1]
      (BaseFluxContainer.new (FluxConstStep.new 1 1 1)) k1 rfl rfl rfl hflag
  · rw [FracturesFluxContainer_t_convolve_first_child
      (FracturesFluxContainer_t.new [FluxConstStep.new 1 1 1]) [k1]
      (BaseFluxContainer.new (FluxConstStep.new 1 1 1)) k1 rfl rfl rfl]
    decide

/-! ## Fractures flux container: the sum of `convolve` -/

theorem list_take_append_drop_set {α : Type} :
    ∀ (n : Nat) (l1 l2 : List α) (a : α), l1[n]? = some a → n < l2.length →
      (l1.take n ++ l2.drop n).set n a = l1.take (n + 1) ++ l2.drop (n + 1) := by
  intro n
  induction n with
  | zero =>
    intro l1 l2 a h1 h2
    cases l1 with
    | nil => simp at h1
    | cons x t1 =>
      cases l2 with
      | nil => simp at h2
      | cons y t2 =>
        simp only [List.getElem?_cons_zero, Option.some.injEq] at h1
        subst h1
        simp
  | succ n ih =>
    intro l1 l2 a h1 h2
    cases l1 with
    | nil => simp at h1
    | cons x t1 =>
      cases l2 with
      | nil => simp at h2
      | cons y t2 =>
        simp only [List.getElem?_cons_succ] at h1
        simp only [List.length_cons, Nat.add_lt_add_iff_right] at h2
        have := ih t1 t2 a h1 h2
        simp only [List.take_succ_cons, List.drop_succ_cons, List.cons_append, List.set_cons_succ]
        rw [this]

theorem list_take_append_drop_getElem? {α : Type} (n : Nat) (l1 l2 : List α)
    (h : n ≤ l1.length) : (l1.take n ++ l2.drop n)[n]? = l2[n]? := by
  have hlen : (l1.take n).length = n := by
    rw [List.length_take]
    omega
  rw [List.getElem?_append_right (by omega), hlen, Nat.sub_self, List.getElem?_drop]
  rfl

theorem list_foldl_add_eq_sum (l : List ℚ) : ∀ init : ℚ,
    l.foldl (fun acc x => acc + x) init = init + l.sum := by
  induction l with
  | nil =>
    intro init
    simp
  | cons x t ih =>
    intro init
    rw [List.foldl_cons, ih, List.sum_cons, add_assoc]

/-- One term of `convolve` whose convolution returns. -/
theorem FracturesFluxContainer_t_convolve_term_eq (c : FracturesFluxContainer_t)
    (kernels : List FracKernel) (frac_id : Nat) (child : BaseFracFlux)
    (kernel kernel1 : FracKernel) (out : VectorXd)
    (hd : c.data[frac_id]? = some child) (hk : kernels[frac_id]? = some kernel)
    (hconv : BaseFluxContainer.convolve (BaseFluxContainer.extract child) kernel =
      some (kernel1, out)) :
    c.convolve_term kernels frac_id =
      { state :=
          ({ c with data := c.data.set frac_id (BaseFluxContainer.extract child) },
            kernels.set frac_id kernel1)
        value := some out } := by
  unfold FracturesFluxContainer_t.convolve_term
  rw [hd, hk]
  simp only []
  rw [hconv]
/-- The loop of `convolve` from `frac_id` on, every term returning a vector of `G`
entries: the children and the kernels below `frac_id` being extracted already, it
extracts the others once each and adds their terms to the accumulated vector in
increasing order. -/
theorem FracturesFluxContainer_t_convolve_loop_sum (c : FracturesFluxContainer_t)
    (kernels kernels1 : List FracKernel) (outs : List VectorXd) (G : Nat)
    (hlen : c.data.length = c.frac_count) (hklen : kernels.length = c.frac_count)
    (hk1 : kernels1.length = c.frac_count) (houts : outs.length = c.frac_count)
    (hterm : ∀ (f : Nat) (child : BaseFracFlux) (kernel : FracKernel),
      c.data[f]? = some child → kernels[f]? = some kernel →
      ∃ (kernel1 : FracKernel) (out : VectorXd),
        kernels1[f]? = some kernel1 ∧ outs[f]? = some out ∧ out.size = G ∧
        BaseFluxContainer.convolve (BaseFluxContainer.extract child) kernel =
          some (kernel1, out)) :
    ∀ (fuel frac_id : Nat) (acc : VectorXd), frac_id + fuel = c.frac_count → acc.size = G →
      FracturesFluxContainer_t.convolve_loop fuel frac_id
          { c with
            data := (c.data.map BaseFluxContainer.extract).take frac_id ++ c.data.drop frac_id
            convolved_data := acc }
          (kernels1.take frac_id ++ kernels.drop frac_id) =
        { state :=
            ({ c with
                data := c.data.map BaseFluxContainer.extract
                convolved_data :=
                  { size := acc.size
                    coeff := fun i =>
                      (outs.drop frac_id).foldl (fun a out => a + out.coeff i) (acc.coeff i) } },
              kernels1)
          value :=
            some
              { size := acc.size
                coeff := fun i =>
                  (outs.drop frac_id).foldl (fun a out => a + out.coeff i) (acc.coeff i) } } := by
  intro fuel
  induction fuel with
  | zero =>
    intro frac_id acc hfuel hacc
    have hfc : frac_id = c.frac_count := by omega
    subst hfc
    rw [FracturesFluxContainer_t.convolve_loop]
    have h1 : (c.data.map BaseFluxContainer.extract).take c.frac_count ++
        c.data.drop c.frac_count = c.data.map BaseFluxContainer.extract := by
      rw [List.take_of_length_le (by simp [hlen]), List.drop_of_length_le (by omega),
        List.append_nil]
    have h2 : kernels1.take c.frac_count ++ kernels.drop c.frac_count = kernels1 := by
      rw [List.take_of_length_le (by omega), List.drop_of_length_le (by omega),
        List.append_nil]
    have h3 : outs.drop c.frac_count = [] := List.drop_of_length_le (by omega)
    rw [h1, h2, h3]
    rfl
  | succ fuel ih =>
    intro frac_id acc hfuel hacc
    have hlt : frac_id < c.data.length := by omega
    have hltk : frac_id < kernels.length := by omega
    obtain ⟨kernel1, out, hk1f, houtf, hsize, hconv⟩ :=
      hterm frac_id c.data[frac_id] kernels[frac_id] (List.getElem?_eq_getElem hlt)
        (List.getElem?_eq_getElem hltk)
    have hd : ((c.data.map BaseFluxContainer.extract).take frac_id ++ c.data.drop frac_id)[
        frac_id]? = some c.data[frac_id] := by
      rw [list_take_append_drop_getElem? _ _ _ (by simp; omega)]
      exact List.getElem?_eq_getElem hlt
    have hk : (kernels1.take frac_id ++ kernels.drop frac_id)[frac_id]? =
        some kernels[frac_id] := by
      rw [list_take_append_drop_getElem? _ _ _ (by omega)]
      exact List.getElem?_eq_getElem hltk
    have hset1 : ((c.data.map BaseFluxContainer.extract).take frac_id ++
        c.data.drop frac_id).set frac_id (BaseFluxContainer.extract c.data[frac_id]) =
        (c.data.map BaseFluxContainer.extract).take (frac_id + 1) ++
          c.data.drop (frac_id + 1) := by
      refine list_take_append_drop_set frac_id _ _ _ ?_ hlt
      rw [List.getElem?_map, List.getElem?_eq_getElem hlt]
      rfl
    have hset2 : (kernels1.take frac_id ++ kernels.drop frac_id).set frac_id kernel1 =
        kernels1.take (frac_id + 1) ++ kernels.drop (frac_id + 1) :=
      list_take_append_drop_set frac_id _ _ _ hk1f hltk
    have hdrop : outs.drop frac_id = out :: outs.drop (frac_id + 1) := by
      have hlto : frac_id < outs.length := by omega
      rw [List.drop_eq_getElem_cons hlto]
      rw [List.getElem?_eq_getElem hlto] at houtf
      rw [Option.some.inj houtf]
    have hadd : acc.add out =
        some { size := acc.size, coeff := fun i => acc.coeff i + out.coeff i } := by
      unfold VectorXd.add
      rw [if_pos (by rw [hacc, hsize])]
    rw [FracturesFluxContainer_t.convolve_loop,
      FracturesFluxContainer_t_convolve_term_eq _ _ frac_id c.data[frac_id] kernels[frac_id]
        kernel1 out hd hk hconv]
    simp only [hadd, hset1, hset2]
    have hrec := ih (frac_id + 1)
      { size := acc.size, coeff := fun i => acc.coeff i + out.coeff i } (by omega) hacc
    rw [hdrop]
    simp only [List.foldl_cons]
    exact hrec
/-- C22. `FracturesFluxContainer_t::convolve` with `frac_count ≥ 1` children, as many
kernels and `cur_frac_id == 0`, every term `child[f].extract().convolve(kernels[f])`
returning a vector of `G` entries. The call returns; every child is replaced by its
`extract()` (its extractor moved once), every kernel by the one its term hands back (its
extractor moved once); the returned vector, which is also the stored one, has `G` entries
and is the first term plus the others added one by one in increasing `f`, that is the
sum of all the terms. -/
theorem FracturesFluxContainer_t_convolve_sum (c : FracturesFluxContainer_t)
    (kernels : List FracKernel) (G : Nat)
    (hfc : 1 ≤ c.frac_count) (hlen : c.data.length = c.frac_count)
    (hklen : kernels.length = c.frac_count) (hcur : c.cur_frac_id = 0)
    (hterm : ∀ f, f < c.frac_count →
      ((c.data[f]?).bind (fun child => (kernels[f]?).bind (fun kernel =>
        (BaseFluxContainer.convolve (BaseFluxContainer.extract child) kernel).map
          (fun p => p.2.size)))) = some G) :
    ∃ (kernels1 : List FracKernel) (out0 : VectorXd) (rest : List VectorXd) (total : VectorXd),
      kernels1.length = c.frac_count ∧ (out0 :: rest).length = c.frac_count ∧
      (∀ (f : Nat) (child : BaseFracFlux) (kernel : FracKernel),
        c.data[f]? = some child → kernels[f]? = some kernel →
        ∃ (kernel1 : FracKernel) (out : VectorXd),
          kernels1[f]? = some kernel1 ∧ (out0 :: rest)[f]? = some out ∧
          BaseFluxContainer.convolve (BaseFluxContainer.extract child) kernel =
            some (kernel1, out) ∧
          kernel1.allocator.extractor = kernel.allocator.extractor.on_extract) ∧
      c.convolve kernels =
        { state :=
            ({ c with
                data := c.data.map BaseFluxContainer.extract
                convolved_data := total },
              kernels1)
          value := some total } ∧
      total.size = G ∧
      (∀ i, total.coeff i = rest.foldl (fun a out => a + out.coeff i) (out0.coeff i)) ∧
      (∀ i, total.coeff i = ((out0 :: rest).map (fun out => out.coeff i)).sum) := by
  -- the lists of kernels and vectors handed back by the terms
  have hex : ∀ (f : Nat) (child : BaseFracFlux) (kernel : FracKernel),
      c.data[f]? = some child → kernels[f]? = some kernel →
      ∃ p : BaseKernel × VectorXd,
        BaseFluxContainer.convolve (BaseFluxContainer.extract child) kernel = some p ∧
          p.2.size = G := by
    intro f child kernel hd hk
    have hf : f < c.frac_count := by
      by_contra hge
      rw [List.getElem?_eq_none (by omega)] at hd
      cases hd
    have h := hterm f hf
    rw [hd, hk] at h
    simp only [Option.some_bind] at h
    obtain ⟨p, hp, hsize⟩ := Option.map_eq_some'.mp h
    exact ⟨p, hp, hsize⟩
  let kernels1 : List FracKernel :=
    List.zipWith
      (fun child kernel =>
        match BaseFluxContainer.convolve (BaseFluxContainer.extract child) kernel with
        | some p => p.1
        | none => kernel)
      c.data kernels
  let outs : List VectorXd :=
    List.zipWith
      (fun child kernel =>
        match BaseFluxContainer.convolve (BaseFluxContainer.extract child) kernel with
        | some p => p.2
        | none => VectorXd.Zero 0)
      c.data kernels
  have hk1len : kernels1.length = c.frac_count := by
    simp only [kernels1, List.length_zipWith]
    omega
  have houtslen : outs.length = c.frac_count := by
    simp only [outs, List.length_zipWith]
    omega
  have hterm1 : ∀ (f : Nat) (child : BaseFracFlux) (kernel : FracKernel),
      c.data[f]? = some child → kernels[f]? = some kernel →
      ∃ (kernel1 : FracKernel) (out : VectorXd),
        kernels1[f]? = some kernel1 ∧ outs[f]? = some out ∧ out.size = G ∧
        BaseFluxContainer.convolve (BaseFluxContainer.extract child) kernel =
          some (kernel1, out) := by
    intro f child kernel hd hk
    obtain ⟨p, hp, hsize⟩ := hex f child kernel hd hk
    refine ⟨p.1, p.2, ?_, ?_, hsize, hp⟩
    · simp only [kernels1, List.getElem?_zipWith, hd, hk, hp]
    · simp only [outs, List.getElem?_zipWith, hd, hk, hp]
  have hlt0 : 0 < c.data.length := by omega
  have hltk0 : 0 < kernels.length := by omega
  obtain ⟨kernel10, out0, hk10, hout0, hsize0, hconv0⟩ :=
    hterm1 0 c.data[0] kernels[0] (List.getElem?_eq_getElem hlt0)
      (List.getElem?_eq_getElem hltk0)
  have houts : outs = out0 :: outs.drop 1 := by
    have hlto : 0 < outs.length := by omega
    have h := List.drop_eq_getElem_cons hlto
    rw [List.getElem?_eq_getElem hlto] at hout0
    rw [List.drop_zero, Option.some.inj hout0] at h
    exact h
  have hset1 : c.data.set 0 (BaseFluxContainer.extract c.data[0]) =
      (c.data.map BaseFluxContainer.extract).take 1 ++ c.data.drop 1 := by
    have h := list_take_append_drop_set 0 (c.data.map BaseFluxContainer.extract) c.data
      (BaseFluxContainer.extract c.data[0])
      (by rw [List.getElem?_map, List.getElem?_eq_getElem hlt0]; rfl) hlt0
    simpa using h
  have hset2 : kernels.set 0 kernel10 = kernels1.take 1 ++ kernels.drop 1 := by
    have h := list_take_append_drop_set 0 kernels1 kernels kernel10 hk10 hltk0
    simpa using h
  have hloop := FracturesFluxContainer_t_convolve_loop_sum c kernels kernels1 outs G hlen hklen
    hk1len houtslen hterm1 (c.frac_count - 1) 1 out0 (by omega) hsize0
  refine ⟨kernels1, out0, outs.drop 1,
    { size := out0.size
      coeff := fun i => (outs.drop 1).foldl (fun a out => a + out.coeff i) (out0.coeff i) },
    hk1len, ?_, ?_, ?_, hsize0, fun _ => rfl, ?_⟩
  · rw [← houts]
    exact houtslen
  · intro f child kernel hd hk
    obtain ⟨kernel1, out, h1, h2, _, h4⟩ := hterm1 f child kernel hd hk
    refine ⟨kernel1, out, h1, ?_, h4, ?_⟩
    · rw [← houts]
      exact h2
    · rw [BaseFluxContainer_convolve_kernel _ _ _ _ h4]
      rfl
  · unfold FracturesFluxContainer_t.convolve FracturesFluxContainer_t.is_correct_state
    rw [if_neg (by simp [hcur])]
    simp only []
    rw [FracturesFluxContainer_t_convolve_term_eq c kernels 0 c.data[0] kernels[0] kernel10 out0
      (List.getElem?_eq_getElem hlt0) (List.getElem?_eq_getElem hltk0) hconv0]
    simp only [hset1, hset2]
    exact hloop
  · intro i
    show (outs.drop 1).foldl (fun a out => a + out.coeff i) (out0.coeff i) = _
    have hfold : ∀ (l : List VectorXd) (init : ℚ),
        l.foldl (fun a out => a + out.coeff i) init =
          (l.map (fun out => out.coeff i)).foldl (fun acc x => acc + x) init := by
      intro l
      induction l with
      | nil => intro init; rfl
      | cons x t ih => intro init; simp only [List.foldl_cons, List.map_cons]; exact ih _
    rw [hfold, list_foldl_add_eq_sum, List.map_cons, List.sum_cons]
theorem FracturesFluxContainer_t_convolve_sum_witness :
    ∃ total : VectorXd,
      ((FracturesFluxContainer_t.new [FluxConstStep.new 1 2 2, FluxConstStep.new 3 2 2]).convolve
          [FracKernel.new 2 (KernelConstStep.new 1 2) (fun _ _ => 5),
           FracKernel.new 2 (KernelConstStep.new 3 2) (fun _ _ => 7)]).value = some total ∧
      total.size = 2 := by
  obtain ⟨kernels1, out0, rest, total, _, _, _, h, hsize, _⟩ :=
    FracturesFluxContainer_t_convolve_sum
      (FracturesFluxContainer_t.new [FluxConstStep.new 1 2 2, FluxConstStep.new 3 2 2])
      [FracKernel.new 2 (KernelConstStep.new 1 2) (fun _ _ => 5),
       FracKernel.new 2 (KernelConstStep.new 3 2) (fun _ _ => 7)] 2
      (by decide) (by decide) (by decide) (by decide) (by decide)
  exact ⟨total, by rw [h], hsize⟩

/-! ## Fractures flux container: pushes and the gate -/

theorem FracturesFluxContainer_t_push_coefs_append_list (l1 l2 : List ((Nat → ℚ) × ℚ)) :
    ∀ c : FracturesFluxContainer_t,
      c.push_coefs (l1 ++ l2) = (c.push_coefs l1).bind (fun c1 => c1.push_coefs l2) := by
  induction l1 with
  | nil =>
    intro c
    rfl
  | cons b rest ih =>
    intro c
    simp only [List.cons_append, FracturesFluxContainer_t.push_coefs]
    cases c.push_coef b.1 b.2 with
    | none => rfl
    | some c1 =>
      simp only [Option.some_bind]
      exact ih c1

/-- Pushes into a fractures container that starts at child 0 with room for `m` samples
per child: any `k ≤ m * frac_count` of them return and leave the cursor at
`k mod frac_count`, so the gate of `convolve` is open exactly when `frac_count` divides
`k`. -/
theorem FracturesFluxContainer_t_push_coefs_gate (c0 : FracturesFluxContainer_t) (m : Nat)
    (hfc : 1 ≤ c0.frac_count) (hfc2 : c0.frac_count < SIZE_MOD)
    (hlen : c0.data.length = c0.frac_count) (hcur : c0.cur_frac_id = 0)
    (hroom : ∀ (f : Nat) (child0 : BaseFracFlux), c0.data[f]? = some child0 →
      ∃ (S T : Nat) (us : List VectorXd),
        BaseFluxContainer.Stores S T us child0 ∧ S * T < SIZE_MOD ∧ us.length + m ≤ T)
    (inputs : List ((Nat → ℚ) × ℚ)) (hk : inputs.length ≤ m * c0.frac_count) :
    ∃ ck : FracturesFluxContainer_t,
      c0.push_coefs inputs = some ck ∧
      ck.cur_frac_id = inputs.length % c0.frac_count ∧
      (inputs.length % c0.frac_count = 0 → ck.is_correct_state = some ()) ∧
      (inputs.length % c0.frac_count ≠ 0 → ck.is_correct_state = none) := by
  obtain ⟨ck, hck, hP⟩ :=
    FracturesFluxContainer_t_push_coefs_Pushed c0 m hfc hfc2 hlen hcur hroom inputs hk
  refine ⟨ck, hck, hP.2.2.1, ?_, ?_⟩
  · intro h
    unfold FracturesFluxContainer_t.is_correct_state
    rw [hP.2.2.1, h]
    rfl
  · intro h
    unfold FracturesFluxContainer_t.is_correct_state
    rw [hP.2.2.1, if_pos h]

/-- C26, as the code has it. Scenario E, `frac_count = 3`, every child with room for
three samples. Three pushes bring `cur_frac_id` back to 0 and the gate of `convolve` is
open. A fourth push leaves `cur_frac_id = 1`: the gate is shut and `convolve` fails,
changing nothing. Two more pushes (six in all) bring `cur_frac_id` back to 0 and open the
gate; one more (the third after the fourth, seven in all) shuts it again. -/
theorem FracturesFluxContainer_t_scenario_E (c0 : FracturesFluxContainer_t)
    (first_three next_two : List ((Nat → ℚ) × ℚ)) (fourth seventh : (Nat → ℚ) × ℚ)
    (hfc : c0.frac_count = 3) (hlen : c0.data.length = 3) (hcur : c0.cur_frac_id = 0)
    (hroom : ∀ (f : Nat) (child0 : BaseFracFlux), c0.data[f]? = some child0 →
      ∃ (S T : Nat) (us : List VectorXd),
        BaseFluxContainer.Stores S T us child0 ∧ S * T < SIZE_MOD ∧ us.length + 3 ≤ T)
    (h3 : first_three.length = 3) (h2 : next_two.length = 2) :
    ∃ c3 c4 c6 c7 : FracturesFluxContainer_t,
      (c0.push_coefs first_three = some c3 ∧ c3.cur_frac_id = 0 ∧
        c3.is_correct_state = some ()) ∧
      (c3.push_coef fourth.1 fourth.2 = some c4 ∧ c4.cur_frac_id = 1 ∧
        c4.is_correct_state = none ∧
        ∀ kernels : List FracKernel,
          c4.convolve kernels = { state := (c4, kernels), value := none }) ∧
      (c4.push_coefs next_two = some c6 ∧ c6.cur_frac_id = 0 ∧
        c6.is_correct_state = some ()) ∧
      (c6.push_coef seventh.1 seventh.2 = some c7 ∧ c7.cur_frac_id = 1 ∧
        c7.is_correct_state = none) := by
  have hfc1 : 1 ≤ c0.frac_count := by omega
  have hfc2 : c0.frac_count < SIZE_MOD := by rw [hfc]; decide
  have hlen1 : c0.data.length = c0.frac_count := by omega
  have run := fun (l : List ((Nat → ℚ) × ℚ)) (hl : l.length ≤ 3 * c0.frac_count) =>
    FracturesFluxContainer_t_push_coefs_gate c0 3 hfc1 hfc2 hlen1 hcur hroom l hl
  obtain ⟨c3, hc3, hcur3, hopen3, _⟩ := run first_three (by omega)
  obtain ⟨c4, hc4, hcur4, _, hshut4⟩ := run (first_three ++ [fourth]) (by simp; omega)
  obtain ⟨c6, hc6, hcur6, hopen6, _⟩ :=
    run ((first_three ++ [fourth]) ++ next_two) (by simp; omega)
  obtain ⟨c7, hc7, hcur7, _, hshut7⟩ :=
    run (((first_three ++ [fourth]) ++ next_two) ++ [seventh]) (by simp; omega)
  have e3 : first_three.length % c0.frac_count = 0 := by rw [h3, hfc]
  have e4 : (first_three ++ [fourth]).length % c0.frac_count = 1 := by
    simp [h3, hfc]
  have e6 : ((first_three ++ [fourth]) ++ next_two).length % c0.frac_count = 0 := by
    simp [h3, h2, hfc]
  have e7 : (((first_three ++ [fourth]) ++ next_two) ++ [seventh]).length % c0.frac_count =
      1 := by
    simp [h3, h2, hfc]
  rw [FracturesFluxContainer_t_push_coefs_append, hc6, Option.some_bind] at hc7
  rw [FracturesFluxContainer_t_push_coefs_append_list, hc4, Option.some_bind] at hc6
  rw [FracturesFluxContainer_t_push_coefs_append, hc3, Option.some_bind] at hc4
  have hne4 : c4.cur_frac_id ≠ 0 := by rw [hcur4, e4]; decide
  refine ⟨c3, c4, c6, c7, ⟨hc3, by rw [hcur3, e3], hopen3 e3⟩,
    ⟨hc4, by rw [hcur4, e4], hshut4 (by rw [e4]; decide), ?_⟩,
    ⟨hc6, by rw [hcur6, e6], hopen6 e6⟩,
    ⟨hc7, by rw [hcur7, e7], hshut7 (by rw [e7]; decide)⟩⟩
  intro kernels
  unfold FracturesFluxContainer_t.convolve FracturesFluxContainer_t.is_correct_state
  rw [if_pos hne4]

theorem FracturesFluxContainer_t_scenario_E_witness :
    ∃ c3 c4 c6 c7 : FracturesFluxContainer_t,
      (FracturesFluxContainer_t.new
          ([(1, 3, 3), (1, 3, 3), (2, 3, 3)].map
            (fun d : Nat × Nat × Nat => FluxConstStep.new d.1 d.2.1 d.2.2))).push_coefs
          [(fun _ => 1, 1), (fun _ => 2, 1), (fun _ => 3, 1)] = some c3 ∧
      c3.is_correct_state = some () ∧
      c3.push_coef (fun _ => 4) 1 = some c4 ∧ c4.is_correct_state = none ∧
      c4.push_coefs [(fun _ => 5, 1), (fun _ => 6, 1)] = some c6 ∧
      c6.is_correct_state = some () ∧
      c6.push_coef (fun _ => 7) 1 = some c7 ∧ c7.is_correct_state = none := by
  obtain ⟨c3, c4, c6, c7, ⟨a1, _, a3⟩, ⟨b1, _, b3, _⟩, ⟨d1, _, d3⟩, ⟨e1, _, e3⟩⟩ :=
    FracturesFluxContainer_t_scenario_E
      (FracturesFluxContainer_t.new
        ([(1, 3, 3), (1, 3, 3), (2, 3, 3)].map
          (fun d : Nat × Nat × Nat => FluxConstStep.new d.1 d.2.1 d.2.2)))
      [(fun _ => 1, 1), (fun _ => 2, 1), (fun _ => 3, 1)]
      [(fun _ => 5, 1), (fun _ => 6, 1)] (fun _ => 4, 1) (fun _ => 7, 1)
      (by decide) (by decide) (by decide)
      (FracturesFluxContainer_t_new_room [(1, 3, 3), (1, 3, 3), (2, 3, 3)] 3 (by decide))
      (by decide) (by decide)
  exact ⟨c3, c4, c6, c7, a1, a3, b1, b3, d1, d3, e1, e3⟩

/-- C26 as stated fails. With three fractures, after a fourth push THREE more pushes
(seven in all) leave `cur_frac_id = 1`, and `convolve` is still refused. -/
theorem FracturesFluxContainer_t_three_more_pushes_refused :
    ∃ c4 c7 : FracturesFluxContainer_t,
      (FracturesFluxContainer_t.new
          ([(1, 3, 3), (1, 3, 3), (1, 3, 3)].map
            (fun d : Nat × Nat × Nat => FluxConstStep.new d.1 d.2.1 d.2.2))).push_coefs
          [(fun _ => 1, 1), (fun _ => 2, 1), (fun _ => 3, 1), (fun _ => 4, 1)] = some c4 ∧
      c4.push_coefs [(fun _ => 5, 1), (fun _ => 6, 1), (fun _ => 7, 1)] = some c7 ∧
      c7.cur_frac_id = 1 ∧ c7.is_correct_state = none ∧
      (c7.convolve []).value = none := by
  have hroom := FracturesFluxContainer_t_new_room [(1, 3, 3), (1, 3, 3), (1, 3, 3)] 3
    (by decide)
  obtain ⟨c4, hc4, _, _, _⟩ :=
    FracturesFluxContainer_t_push_coefs_gate
      (FracturesFluxContainer_t.new
        ([(1, 3, 3), (1, 3, 3), (1, 3, 3)].map
          (fun d : Nat × Nat × Nat => FluxConstStep.new d.1 d.2.1 d.2.2)))
      3 (by decide) (by decide) (by decide) (by decide) hroom
      [(fun _ => 1, 1), (fun _ => 2, 1), (fun _ => 3, 1), (fun _ => 4, 1)] (by decide)
  obtain ⟨c7, hc7, hcur7, _, hshut7⟩ :=
    FracturesFluxContainer_t_push_coefs_gate
      (FracturesFluxContainer_t.new
        ([(1, 3, 3), (1, 3, 3), (1, 3, 3)].map
          (fun d : Nat × Nat × Nat => FluxConstStep.new d.1 d.2.1 d.2.2)))
      3 (by decide) (by decide) (by decide) (by decide) hroom
      ([(fun _ => 1, 1), (fun _ => 2, 1), (fun _ => 3, 1), (fun _ => 4, 1)] ++
        [(fun _ => 5, 1), (fun _ => 6, 1), (fun _ => 7, 1)]) (by decide)
  rw [FracturesFluxContainer_t_push_coefs_append_list, hc4, Option.some_bind] at hc7
  have hgate : c7.is_correct_state = none := hshut7 (by decide)
  refine ⟨c4, c7, hc4, hc7, hcur7, hgate, ?_⟩
  unfold FracturesFluxContainer_t.convolve
  rw [hgate]

/-! ## BaseKernel: the state after `advance`, the flag, Scenario A -/

/-- C29. State after `BaseKernel::advance` on a kernel built as
`BaseKernel(G, KernelConstStep(S, T))` that has been advanced `n < T` times (`S * T`
representable). The call returns; `P_cur` is the `G × S` array of zeros, `P_prev` is the
`P_cur` held before the call, `F` is unchanged, the columns `[S * n, S * n + S)` of the
kernel matrix hold `F ⊙ (P_cur - P_prev)` of the values before the call, the other columns
are unchanged, and the write stride has moved from `S * n` to `S * n + S`; the flag is
clear and the extractor is untouched. -/
theorem BaseKernel_advance_state (G S T n : Nat) (k : BaseKernel)
    (hk : BaseKernel.Shape G S T n k) (hn : n < T) (hST : S * T < SIZE_MOD) :
    ∃ k1, k.advance = some k1 ∧
      k1.P_cur = MatrixXd.Zero G S ∧ k1.P_prev = k.P_cur ∧ k1.F = k.F ∧
      (k.block_stride_in_row = S * n ∧ k1.block_stride_in_row = S * n + S) ∧
      (∀ r c, c < S →
        k1.Kernel.coeff r (S * n + c) =
          k.F.coeff r c * (k.P_cur.coeff r c - k.P_prev.coeff r c)) ∧
      (∀ r c, ¬ (S * n ≤ c ∧ c < S * n + S) → k1.Kernel.coeff r c = k.Kernel.coeff r c) ∧
      (k1.Kernel.rows = G ∧ k1.Kernel.cols = S * T) ∧
      k1.allocator.pusher.need_advance = false ∧
      k1.allocator.extractor = k.allocator.extractor := by
  have hk0 := hk
  obtain ⟨hK, hprev, hcur, hF, hG, hm, he⟩ := hk
  have hS : k.allocator.pusher.its_spatial_size = S := by rw [hm]; rfl
  have hle : S * n + S ≤ S * T := by
    have := Nat.mul_le_mul_left S hn
    rwa [Nat.mul_succ] at this
  have hidx : n * S % SIZE_MOD = S * n := by
    rw [Nat.mul_comm n S]
    exact Nat.mod_eq_of_lt (by omega)
  have hend : k.allocator.pusher.its_index_end = S * n := by rw [he, hidx]
  have hadv := BaseKernel_advance_eq G S k hprev hcur hF hK.1 hS
  have hcols : k.allocator.pusher.its_index_end + S ≤ k.Kernel.cols := by
    rw [hend, hK.2, size_mul_of_lt hST]
    exact hle
  rw [if_pos hcols] at hadv
  obtain ⟨hK1, _, _, _, _, _, he1⟩ := BaseKernel_Shape_advance hk0 hadv
  have hidx1 : (n + 1) * S % SIZE_MOD = S * n + S := by
    rw [Nat.add_mul, Nat.one_mul, Nat.mul_comm n S]
    exact Nat.mod_eq_of_lt (by omega)
  refine ⟨_, hadv, ?_, rfl, rfl, ⟨hend, ?_⟩, ?_, ?_, ⟨hK1.1, ?_⟩, rfl, rfl⟩
  · show MatrixXd.Zero k.grid_nodes_count S = MatrixXd.Zero G S
    rw [hG]
  · show _ = S * n + S
    rw [← hidx1]
    exact he1
  · intro r c hc
    have hcond : S * n ≤ S * n + c ∧ S * n + c < S * n + S := ⟨by omega, by omega⟩
    simp only [hend, if_pos hcond, Nat.add_sub_cancel_left]
  · intro r c hc
    simp only [hend, if_neg hc]
  · rw [hK1.2, size_mul_of_lt hST]

theorem BaseKernel_advance_state_witness :
    ∃ k1, (BaseKernel.new 2 (KernelConstStep.new 2 3) (fun _ _ => 7)).advance = some k1 ∧
      k1.P_cur = MatrixXd.Zero 2 2 ∧
      k1.block_stride_in_row = 2 * 0 + 2 := by
  obtain ⟨k1, h1, h2, _, _, h5, _⟩ :=
    BaseKernel_advance_state 2 2 3 0 (BaseKernel.new 2 (KernelConstStep.new 2 3) (fun _ _ => 7))
      (BaseKernel_Shape_new 2 2 3 _) (by decide) (by decide)
  exact ⟨k1, h1, h2, h5.2⟩

/-- C23. Flag enforcement on a kernel built as `BaseKernel(G, KernelConstStep(S, T))`,
advanced `n < T` times and extracted `e` times. After `push_coef(row, col, E, f)` the
calls `kernel()`, `kernel(r, c)` and `kernel(mesh, source, time)` all throw; after the
following `advance()` the call `kernel()` returns, and so do the two reads at every
position inside the kernel matrix. -/
theorem BaseKernel_flag_enforcement (G S T n e : Nat) (k : BaseKernel) (row col : Nat)
    (E f : ℚ) (hk : BaseKernel.Shape G S T n k) (hn : n < T) (hST : S * T < SIZE_MOD)
    (hS : 1 ≤ S)
    (hex : k.allocator.extractor =
      OnGetKernelConstStep.on_extract^[e] (OnGetKernelConstStep.new (MemoryDesc.new S T)))
    (hrow : row < G) (hcol : col < S) :
    ∃ k1, k.push_coef row col E f = some k1 ∧
      k1.operator_call = none ∧
      (∀ r c, k1.operator_call_rc r c = none) ∧
      (∀ mesh source time, k1.operator_call_time mesh source time = none) ∧
      ∃ k2, k1.advance = some k2 ∧
        (∃ k3 block, k2.operator_call = some (k3, block)) ∧
        (∀ r c, r < G → c < S * T → k2.operator_call_rc r c = some (k2.Kernel.coeff r c)) ∧
        (∀ mesh source time, mesh < G → source + S * time < S * T →
          k2.operator_call_time mesh source time =
            some (k2.Kernel.coeff mesh (source + S * time))) := by
  have hrange : (row < k.P_cur.rows ∧ col < k.P_cur.cols) ∧ (row < k.F.rows ∧ col < k.F.cols) := by
    rw [hk.2.2.1.1, hk.2.2.1.2, hk.2.2.2.1.1, hk.2.2.2.1.2]
    exact ⟨⟨hrow, hcol⟩, ⟨hrow, hcol⟩⟩
  obtain ⟨k1, h1, _, _, _, hex1, _⟩ := BaseKernel_push_coef_spec k row col E f hrange
  have hflag1 : k1.allocator.pusher.need_advance = true := by
    rw [BaseKernel_push_coef_eq, if_pos hrange] at h1
    rw [← Option.some.inj h1]
  have hshape1 := BaseKernel_Shape_push_coef hk h1
  obtain ⟨k2, h2, _, _, _, _, _, _, hK2, hflag2, hex2⟩ :=
    BaseKernel_advance_state G S T n k1 hshape1 hn hST
  have hshape2 := BaseKernel_Shape_advance hshape1 h2
  have hcall := (BaseKernel_operator_call_spec hshape2 hflag2
    (by rw [hex2, hex1, hex]) hS hST).1
  have hw : k2.block_width = S := by
    show k2.allocator.pusher.its_spatial_size = S
    rw [hshape2.2.2.2.2.2.1]
    rfl
  refine ⟨k1, h1, ?_, ?_, ?_, k2, h2, ⟨_, _, hcall⟩, ?_, ?_⟩
  · rw [BaseKernel_operator_call_eq, if_neg (by simp [hflag1])]
  · intro r c
    simp [BaseKernel.operator_call_rc, BaseKernel.is_correct_state, PushDesc.is_correct_state,
      hflag1]
  · intro mesh source time
    simp [BaseKernel.operator_call_time, BaseKernel.is_correct_state,
      PushDesc.is_correct_state, hflag1]
  · intro r c hr hc
    have hin : r < k2.Kernel.rows ∧ c < k2.Kernel.cols := by
      rw [hK2.1, hK2.2]
      exact ⟨hr, hc⟩
    simp [BaseKernel.operator_call_rc, BaseKernel.is_correct_state, PushDesc.is_correct_state,
      hflag2, MatrixXd.get?, hin]
  · intro mesh source time hm hs
    have hmul : S * time < SIZE_MOD := by omega
    have hcolidx : size_add source (size_mul S time) = source + S * time := by
      rw [size_mul_of_lt hmul, size_add_of_lt (by omega)]
    have hin : mesh < k2.Kernel.rows ∧ source + S * time < k2.Kernel.cols := by
      rw [hK2.1, hK2.2]
      exact ⟨hm, hs⟩
    simp [BaseKernel.operator_call_time, BaseKernel.operator_call_rc,
      BaseKernel.is_correct_state, PushDesc.is_correct_state, hflag2, hw, hcolidx,
      MatrixXd.get?, hin]

theorem BaseKernel_flag_enforcement_witness :
    ∃ k1, (BaseKernel.new 2 (KernelConstStep.new 2 3) (fun _ _ => 7)).push_coef 0 1 5 1 =
        some k1 ∧
      k1.operator_call = none ∧
      ∃ k2, k1.advance = some k2 ∧ ∃ k3 block, k2.operator_call = some (k3, block) := by
  obtain ⟨k1, h1, h2, _, _, k2, h3, h4, _⟩ :=
    BaseKernel_flag_enforcement 2 2 3 0 0
      (BaseKernel.new 2 (KernelConstStep.new 2 3) (fun _ _ => 7)) 0 1 5 1
      (BaseKernel_Shape_new 2 2 3 _) (by decide) (by decide) (by decide) rfl (by decide)
      (by decide)
  exact ⟨k1, h1, h2, k2, h3, h4⟩
/-- Scenario A up to the second `advance`: a kernel with 2 rows over
`KernelConstStep(2, 3)`, filled with `P_cur = [[1, 2], [3, 4]]`, `F = 1` and advanced,
then filled with `P_cur = [[2, 3], [4, 5]]`, `F = 1` and advanced. The columns 0..3 of the
kernel matrix hold `[[1, 2, 1, 1], [3, 4, 1, 1]]`, the flag is clear and the extractor has
not moved. -/
theorem BaseKernel_scenario_A_pushes (garbage : Nat → Nat → ℚ) :
    ∃ k1 k2 k3 k4 : BaseKernel,
      (BaseKernel.new 2 (KernelConstStep.new 2 3) garbage).fill
          (fun r c => 1 + (c : ℚ) + 2 * (r : ℚ)) (fun _ _ => 1) = some k1 ∧
      k1.advance = some k2 ∧
      k2.fill (fun r c => 2 + (c : ℚ) + 2 * (r : ℚ)) (fun _ _ => 1) = some k3 ∧
      k3.advance = some k4 ∧
      BaseKernel.Shape 2 2 3 2 k4 ∧
      k4.allocator.pusher.need_advance = false ∧
      k4.allocator.extractor = OnGetKernelConstStep.new (MemoryDesc.new 2 3) ∧
      (∀ r, r < 2 → ∀ c, c < 2 → k4.Kernel.coeff r c = 1 + (c : ℚ) + 2 * (r : ℚ)) ∧
      (∀ r, r < 2 → ∀ c, c < 2 → k4.Kernel.coeff r (2 + c) = 1) := by
  obtain ⟨k1, k2, h1, h2, hshape2, hex2, _, hblock2, _, hprev2⟩ :=
    BaseKernel_fill_advance_spec (BaseKernel_Shape_new 2 2 3 garbage) (by decide) (by decide)
      (fun r c => 1 + (c : ℚ) + 2 * (r : ℚ)) (fun _ _ => 1)
  obtain ⟨k3, k4, h3, h4, hshape4, hex4, hflag4, hblock4, hrest4, _⟩ :=
    BaseKernel_fill_advance_spec hshape2 (by decide) (by decide)
      (fun r c => 2 + (c : ℚ) + 2 * (r : ℚ)) (fun _ _ => 1)
  refine ⟨k1, k2, k3, k4, h1, h2, h3, h4, hshape4, hflag4, ?_, ?_, ?_⟩
  · rw [hex4, hex2]
    rfl
  · intro r hr c hc
    rw [hrest4 r c (by omega)]
    have h := hblock2 r hr c hc
    simp only [Nat.mul_zero, Nat.zero_add] at h
    rw [h]
    simp [BaseKernel.new, BaseKernel.allocate_P_cur, MatrixXd.Zero]
  · intro r hr c hc
    have h := hblock4 r hr c hc
    simp only [Nat.mul_one] at h
    rw [h, hprev2 r hr c hc]
    ring

/-- C24, as the code has it. Scenario A. After the two pushed and advanced steps the
first `kernel()` returns the 2-column window `K[:, 0:2] = [[1, 2], [3, 4]]` and leaves
`extractor.w == 1`, `idx_end == 2`: the extractor counts its own calls. The second
`kernel()` returns `K[:, 0:4] = [[1, 2, 1, 1], [3, 4, 1, 1]]` and leaves
`extractor.w == 2`, `idx_end == 4`. -/
theorem BaseKernel_scenario_A (garbage : Nat → Nat → ℚ) :
    ∃ (k1 k2 k3 k4 k5 k6 : BaseKernel) (w1 w2 : MatrixXd),
      (BaseKernel.new 2 (KernelConstStep.new 2 3) garbage).fill
          (fun r c => 1 + (c : ℚ) + 2 * (r : ℚ)) (fun _ _ => 1) = some k1 ∧
      k1.advance = some k2 ∧
      k2.fill (fun r c => 2 + (c : ℚ) + 2 * (r : ℚ)) (fun _ _ => 1) = some k3 ∧
      k3.advance = some k4 ∧
      (k4.operator_call = some (k5, w1) ∧ w1.rows = 2 ∧ w1.cols = 2 ∧
        (List.range 2).map (fun r => (List.range 2).map (fun c => w1.coeff r c)) =
          [[1, 2], [3, 4]] ∧
        k5.allocator.extractor.cur_temporal_window = 1 ∧
        k5.allocator.extractor.idx_end = 2) ∧
      (k5.operator_call = some (k6, w2) ∧ w2.rows = 2 ∧ w2.cols = 4 ∧
        (List.range 2).map (fun r => (List.range 4).map (fun c => w2.coeff r c)) =
          [[1, 2, 1, 1], [3, 4, 1, 1]] ∧
        k6.allocator.extractor.cur_temporal_window = 2 ∧
        k6.allocator.extractor.idx_end = 4) := by
  obtain ⟨k1, k2, k3, k4, h1, h2, h3, h4, hshape4, hflag4, hex4, hA, hB⟩ :=
    BaseKernel_scenario_A_pushes garbage
  obtain ⟨hcall5, hex5⟩ := BaseKernel_operator_call_spec (e := 0) hshape4 hflag4
    (by rw [hex4]; rfl) (by decide) (by decide)
  have hshape5 := BaseKernel_Shape_operator_call hshape4 hcall5
  obtain ⟨hcall6, hex6⟩ := BaseKernel_operator_call_spec (e := 1) hshape5 hflag4 hex5
    (by decide) (by decide)
  refine ⟨k1, k2, k3, k4, _, _, _, _, h1, h2, h3, h4,
    ⟨hcall5, rfl, rfl, ?_, ?_, ?_⟩, ⟨hcall6, rfl, rfl, ?_, ?_, ?_⟩⟩
  · simp only [List.range_succ, List.range_zero, List.nil_append, List.map_cons, List.map_nil,
      List.cons_append, Nat.zero_add]
    rw [hA 0 (by decide) 0 (by decide), hA 0 (by decide) 1 (by decide),
      hA 1 (by decide) 0 (by decide), hA 1 (by decide) 1 (by decide)]
    norm_num
  · rw [hex5]
    decide
  · rw [hex5]
    decide
  · simp only [List.range_succ, List.range_zero, List.nil_append, List.map_cons, List.map_nil,
      List.cons_append, Nat.zero_add]
    have e2 : (2 : Nat) = 2 + 0 := rfl
    have e3 : (3 : Nat) = 2 + 1 := rfl
    show [[k4.Kernel.coeff 0 0, k4.Kernel.coeff 0 1, k4.Kernel.coeff 0 2, k4.Kernel.coeff 0 3],
      [k4.Kernel.coeff 1 0, k4.Kernel.coeff 1 1, k4.Kernel.coeff 1 2, k4.Kernel.coeff 1 3]] = _
    rw [hA 0 (by decide) 0 (by decide), hA 0 (by decide) 1 (by decide),
      hA 1 (by decide) 0 (by decide), hA 1 (by decide) 1 (by decide)]
    have b00 := hB 0 (by decide) 0 (by decide)
    have b01 := hB 0 (by decide) 1 (by decide)
    have b10 := hB 1 (by decide) 0 (by decide)
    have b11 := hB 1 (by decide) 1 (by decide)
    simp only [Nat.add_zero, Nat.reduceAdd] at b00 b01 b10 b11
    rw [b00, b01, b10, b11]
    norm_num
  · rw [hex6]
    decide
  · rw [hex6]
    decide

/-- C24 as stated fails. In Scenario A (uninitialised kernel memory read as 0) the single
`kernel()` after the two advanced steps returns a window of 2 columns, not 4, and leaves
`extractor.w == 1` and `idx_end == 2`, not 2 and 4. -/
theorem BaseKernel_scenario_A_single_extract :
    ∃ (k1 k2 k3 k4 k5 : BaseKernel) (w1 : MatrixXd),
      (BaseKernel.new 2 (KernelConstStep.new 2 3) (fun _ _ => 0)).fill
          (fun r c => 1 + (c : ℚ) + 2 * (r : ℚ)) (fun _ _ => 1) = some k1 ∧
      k1.advance = some k2 ∧
      k2.fill (fun r c => 2 + (c : ℚ) + 2 * (r : ℚ)) (fun _ _ => 1) = some k3 ∧
      k3.advance = some k4 ∧
      k4.operator_call = some (k5, w1) ∧
      w1.cols = 2 ∧ w1.cols ≠ 4 ∧
      k5.allocator.extractor.cur_temporal_window = 1 ∧
      k5.allocator.extractor.cur_temporal_window ≠ 2 ∧
      k5.allocator.extractor.idx_end = 2 ∧
      k5.allocator.extractor.idx_end ≠ 4 := by
  obtain ⟨k1, k2, k3, k4, h1, h2, h3, h4, hshape4, hflag4, hex4, _, _⟩ :=
    BaseKernel_scenario_A_pushes (fun _ _ => 0)
  obtain ⟨hcall5, hex5⟩ := BaseKernel_operator_call_spec (e := 0) hshape4 hflag4
    (by rw [hex4]; rfl) (by decide) (by decide)
  refine ⟨k1, k2, k3, k4, _, _, h1, h2, h3, h4, hcall5, rfl,
    (by show 2 * min (0 + 1) 3 ≠ 4; decide), ?_, ?_, ?_, ?_⟩
  · rw [hex5]
    decide
  · rw [hex5]
    decide
  · rw [hex5]
    decide
  · rw [hex5]
    decide

/-! ## FracKernel -/

theorem FracKernel_push_coef_eq (G S : Nat) (k : FracKernel) (R_data U_data : Nat → ℚ)
    (hprev : k.P_prev.rows = G ∧ k.P_prev.cols = S) (hrows : k.Kernel.rows = G)
    (hG : k.grid_nodes_count = G) (hS : k.allocator.pusher.its_spatial_size = S) :
    FracKernel.push_coef k R_data U_data =
      if k.allocator.pusher.its_index_end + S ≤ k.Kernel.cols then
        some
          { Kernel :=
              { k.Kernel with
                coeff := fun r c =>
                  if k.allocator.pusher.its_index_end ≤ c ∧
                      c < k.allocator.pusher.its_index_end + S then
                    k.Kernel.coeff r c +
                      (U_data (r + (c - k.allocator.pusher.its_index_end) * G) -
                        k.P_prev.coeff r (c - k.allocator.pusher.its_index_end)) * R_data r
                  else k.Kernel.coeff r c }
            P_prev := MatrixXd.Map U_data G S
            P_cur := k.P_prev
            F := k.F
            grid_nodes_count := k.grid_nodes_count
            allocator :=
              { k.allocator with pusher := { k.allocator.pusher with need_advance := true } } }
      else none := by
  obtain ⟨hp1, hp2⟩ := hprev
  unfold FracKernel.push_coef MatrixXd.sub MatrixXd.colwiseMul MatrixXd.addMiddleCols
  by_cases h3 : k.allocator.pusher.its_index_end + S ≤ k.Kernel.cols
  · simp [hp1, hp2, hrows, hG, hS, h3, MatrixXd.Map, VectorXd.Map, BaseKernel.block_height,
      BaseKernel.block_width, BaseKernel.block_stride_in_row, OnPushKernelConstStep.idx_end,
      MemoryDesc.spatial_size]
  · simp [hp1, hp2, hrows, hG, hS, h3, MatrixXd.Map, VectorXd.Map, BaseKernel.block_height,
      BaseKernel.block_width, BaseKernel.block_stride_in_row, OnPushKernelConstStep.idx_end,
      MemoryDesc.spatial_size]

/-- One `push_coef(R, U)` on a fracture kernel of shape `(G, S, T)` advanced `n < T`
times: it returns, adds `R[r] * (U[r, c] - P_prev[r, c])` to the entry `(r, S * n + c)`
of the kernel matrix, leaves the other columns alone, makes `P_prev` the array `U`, and
keeps the shape and the stride. -/
theorem FracKernel_push_coef_spec {G S T n : Nat} {k : FracKernel}
    (hk : BaseKernel.Shape G S T n k) (hn : n < T) (hST : S * T < SIZE_MOD)
    (R_data U_data : Nat → ℚ) :
    ∃ k1, FracKernel.push_coef k R_data U_data = some k1 ∧
      BaseKernel.Shape G S T n k1 ∧
      (∀ r c, c < S →
        k1.Kernel.coeff r (S * n + c) =
          k.Kernel.coeff r (S * n + c) +
            R_data r * (U_data (r + c * G) - k.P_prev.coeff r c)) ∧
      (∀ r c, ¬ (S * n ≤ c ∧ c < S * n + S) → k1.Kernel.coeff r c = k.Kernel.coeff r c) ∧
      k1.P_prev = MatrixXd.Map U_data G S ∧
      k1.allocator.pusher.need_advance = true ∧
      k1.allocator.extractor = k.allocator.extractor := by
  obtain ⟨hK, hprev, hcur, hF, hG, hm, he⟩ := hk
  have hS : k.allocator.pusher.its_spatial_size = S := by rw [hm]; rfl
  have hle : S * n + S ≤ S * T := by
    have := Nat.mul_le_mul_left S hn
    rwa [Nat.mul_succ] at this
  have hidx : n * S % SIZE_MOD = S * n := by
    rw [Nat.mul_comm n S]
    exact Nat.mod_eq_of_lt (by omega)
  have hend : k.allocator.pusher.its_index_end = S * n := by rw [he, hidx]
  have hpush := FracKernel_push_coef_eq G S k R_data U_data hprev hK.1 hG hS
  have hcols : k.allocator.pusher.its_index_end + S ≤ k.Kernel.cols := by
    rw [hend, hK.2, size_mul_of_lt hST]
    exact hle
  rw [if_pos hcols] at hpush
  refine ⟨_, hpush, ⟨hK, ⟨rfl, rfl⟩, hprev, hF, hG, hm, he⟩, ?_, ?_, rfl, rfl, rfl⟩
  · intro r c hc
    have hcond : S * n ≤ S * n + c ∧ S * n + c < S * n + S := ⟨by omega, by omega⟩
    simp only [hend, if_pos hcond, Nat.add_sub_cancel_left]
    ring
  · intro r c hc
    simp only [hend, if_neg hc]

/-- C27. A fracture kernel built as `FracKernel(G, KernelConstStep(S, T))` and advanced
`n < T` times, so that its write stride is `s = S * n`; `U[r, c]` is the entry
`U_data[r + c * G]` of the column-major buffer. `push_coef(R, U)` returns, adds
`R[r] * (U[r, c] - P_prev[r, c])` to `K[r, s + c]` for `c < S`, leaves every other column
unchanged and sets `P_prev = U`. `advance()` changes neither `K` nor `P_prev`.
`reset_kernel()` makes `K` the zero matrix. After `reset_kernel`, two pushes `(R1, U1)`,
`(R2, U2)` with no `advance` between them leave
`K[r, s + c] = R1[r] * (U1[r, c] - P0[r, c]) + R2[r] * (U2[r, c] - U1[r, c])`. -/
theorem FracKernel_accumulates (G S T n : Nat) (k : FracKernel) (R1 U1 R2 U2 : Nat → ℚ)
    (hk : BaseKernel.Shape G S T n k) (hn : n < T) (hST : S * T < SIZE_MOD) :
    (BaseKernel.block_stride_in_row k = S * n ∧
      ∃ k1, FracKernel.push_coef k R1 U1 = some k1 ∧
        (∀ r c, c < S →
          k1.Kernel.coeff r (S * n + c) =
            k.Kernel.coeff r (S * n + c) + R1 r * (U1 (r + c * G) - k.P_prev.coeff r c)) ∧
        (∀ r c, ¬ (S * n ≤ c ∧ c < S * n + S) → k1.Kernel.coeff r c = k.Kernel.coeff r c) ∧
        k1.P_prev = MatrixXd.Map U1 G S ∧
        (∀ r c, k1.P_prev.coeff r c = U1 (r + c * G))) ∧
    ((FracKernel.advance k).Kernel = k.Kernel ∧ (FracKernel.advance k).P_prev = k.P_prev) ∧
    ((FracKernel.reset_kernel k).Kernel = MatrixXd.Zero G (S * T) ∧
      ∀ r c, (FracKernel.reset_kernel k).Kernel.coeff r c = 0) ∧
    (∃ k1 k2, FracKernel.push_coef (FracKernel.reset_kernel k) R1 U1 = some k1 ∧
      FracKernel.push_coef k1 R2 U2 = some k2 ∧
      ∀ r c, c < S →
        k2.Kernel.coeff r (S * n + c) =
          R1 r * (U1 (r + c * G) - k.P_prev.coeff r c) +
            R2 r * (U2 (r + c * G) - U1 (r + c * G))) := by
  have hKz : (FracKernel.reset_kernel k).Kernel = MatrixXd.Zero G (S * T) := by
    show MatrixXd.Zero k.Kernel.rows k.Kernel.cols = MatrixXd.Zero G (S * T)
    rw [hk.1.1, hk.1.2, size_mul_of_lt hST]
  have hshape0 : BaseKernel.Shape G S T n (FracKernel.reset_kernel k) :=
    ⟨⟨by show k.Kernel.rows = G; exact hk.1.1, by show k.Kernel.cols = _; exact hk.1.2⟩, hk.2.1, hk.2.2.1, hk.2.2.2.1, hk.2.2.2.2.1,
      hk.2.2.2.2.2.1, hk.2.2.2.2.2.2⟩
  have hstride : BaseKernel.block_stride_in_row k = S * n := by
    show k.allocator.pusher.its_index_end = S * n
    rw [hk.2.2.2.2.2.2, Nat.mul_comm n S]
    have hle : S * n ≤ S * T := Nat.mul_le_mul_left S (le_of_lt hn)
    exact Nat.mod_eq_of_lt (by omega)
  refine ⟨⟨hstride, ?_⟩, ⟨rfl, rfl⟩, ⟨hKz, ?_⟩, ?_⟩
  · obtain ⟨k1, h1, _, h3, h4, h5, _⟩ := FracKernel_push_coef_spec hk hn hST R1 U1
    exact ⟨k1, h1, h3, h4, h5, by intro r c; rw [h5]; rfl⟩
  · intro r c
    rw [hKz]
    rfl
  · obtain ⟨k1, h1, hshape1, h3, _, h5, _⟩ := FracKernel_push_coef_spec hshape0 hn hST R1 U1
    obtain ⟨k2, h2, _, h6, _, _, _⟩ := FracKernel_push_coef_spec hshape1 hn hST R2 U2
    refine ⟨k1, k2, h1, h2, ?_⟩
    intro r c hc
    rw [h6 r c hc, h3 r c hc, h5, hKz]
    show (0 : ℚ) + R1 r * (U1 (r + c * G) - k.P_prev.coeff r c) +
      R2 r * (U2 (r + c * G) - U1 (r + c * G)) = _
    rw [zero_add]

theorem FracKernel_accumulates_witness :
    ∃ k1 k2,
      FracKernel.push_coef
          (FracKernel.reset_kernel (FracKernel.new 2 (KernelConstStep.new 2 3) (fun _ _ => 7)))
          (fun r => (r : ℚ) + 1) (fun i => (i : ℚ)) = some k1 ∧
      FracKernel.push_coef k1 (fun _ => 2) (fun i => 3 * (i : ℚ)) = some k2 ∧
      ∀ r c, c < 2 →
        k2.Kernel.coeff r (2 * 0 + c) =
          ((r : ℚ) + 1) * (((r + c * 2 : Nat) : ℚ) -
              (FracKernel.new 2 (KernelConstStep.new 2 3) (fun _ _ => 7)).P_prev.coeff r c) +
            2 * (3 * ((r + c * 2 : Nat) : ℚ) - ((r + c * 2 : Nat) : ℚ)) :=
  (FracKernel_accumulates 2 2 3 0
    (FracKernel.new 2 (KernelConstStep.new 2 3) (fun _ _ => 7))
    (fun r => (r : ℚ) + 1) (fun i => (i : ℚ)) (fun _ => 2) (fun i => 3 * (i : ℚ))
    (BaseKernel_Shape_new 2 2 3 _) (by decide) (by decide)).2.2.2

/-! ## FracKernelContainer -/

/-- A push on the fracture kernel container that returns: the child under the cursor
has taken the push, no other child has changed, the flag is set, and the cursor, the
fracture count and the time index are as they were. -/
theorem FracKernelContainer_push_coef_spec (c c1 : FracKernelContainer)
    (R_data U_data : Nat → ℚ) (h : c.push_coef R_data U_data = some c1) :
    c1.cur_frac_id = c.cur_frac_id ∧ c1.frac_count = c.frac_count ∧ c1.nt = c.nt ∧
      c1.need_advance = true ∧
      (∀ j, j ≠ c.cur_frac_id → c1.data[j]? = c.data[j]?) ∧
      ∃ child child1 : FracKernel,
        c.data[c.cur_frac_id]? = some child ∧
        FracKernel.push_coef child R_data U_data = some child1 ∧
        c1.data[c.cur_frac_id]? = some child1 := by
  unfold FracKernelContainer.push_coef at h
  obtain ⟨child, hchild, h2⟩ := Option.bind_eq_some.mp h
  obtain ⟨child1, hchild1, h3⟩ := Option.bind_eq_some.mp h2
  have hlt : c.cur_frac_id < c.data.length := by
    by_contra hge
    rw [List.getElem?_eq_none (by omega)] at hchild
    cases hchild
  rw [← Option.some.inj h3]
  refine ⟨rfl, rfl, rfl, rfl, ?_, child, child1, hchild, hchild1, ?_⟩
  · intro j hj
    exact List.getElem?_set_ne (fun h => hj h.symm)
  · exact List.getElem?_set_self hlt

/-- The member `push_coef_prev` returns whenever the cursor points at a child; it acts
on that child only and leaves the cursor where it was. -/
theorem FracKernelContainer_push_coef_prev_spec (c : FracKernelContainer) (U_data : Nat → ℚ)
    (child : FracKernel) (hchild : c.data[c.cur_frac_id]? = some child) :
    ∃ c1, c.push_coef_prev U_data = some c1 ∧
      c1.cur_frac_id = c.cur_frac_id ∧ c1.frac_count = c.frac_count ∧ c1.nt = c.nt ∧
      c1.need_advance = true ∧
      (∀ j, j ≠ c.cur_frac_id → c1.data[j]? = c.data[j]?) ∧
      c1.data[c.cur_frac_id]? = some (FracKernel.push_coef_prev child U_data) := by
  have hlt : c.cur_frac_id < c.data.length := by
    by_contra hge
    rw [List.getElem?_eq_none (by omega)] at hchild
    cases hchild
  unfold FracKernelContainer.push_coef_prev
  rw [hchild, Option.some_bind]
  refine ⟨_, rfl, rfl, rfl, rfl, rfl, ?_, ?_⟩
  · intro j hj
    exact List.getElem?_set_ne (fun h => hj h.symm)
  · exact List.getElem?_set_self hlt

/-- After a sequence of calls that returns, the cursor has moved once per `push_done()`
and not otherwise. -/
theorem FracKernelContainer_run_cur :
    ∀ (calls : List FracKernelCall) (c c1 : FracKernelContainer) (k : Nat),
      1 ≤ c.frac_count → c.frac_count < SIZE_MOD → c.cur_frac_id = k % c.frac_count →
      c.run calls = some c1 →
      c1.frac_count = c.frac_count ∧
        c1.cur_frac_id = (k + FracKernelCall.done_count calls) % c.frac_count := by
  intro calls
  induction calls with
  | nil =>
    intro c c1 k _ _ hcur h
    rw [FracKernelContainer.run] at h
    rw [← Option.some.inj h]
    exact ⟨rfl, hcur⟩
  | cons x rest ih =>
    intro c c1 k hfc hfc2 hcur h
    rw [FracKernelContainer.run] at h
    obtain ⟨c2, hc2, hrest⟩ := Option.bind_eq_some.mp h
    cases x with
    | push_coef R_data U_data =>
      obtain ⟨e1, e2, _⟩ := FracKernelContainer_push_coef_spec c c2 R_data U_data hc2
      obtain ⟨r1, r2⟩ := ih c2 c1 k (by omega) (by omega) (by rw [e1, e2, hcur]) hrest
      exact ⟨by rw [r1, e2], by rw [r2, e2]; rfl⟩
    | push_coef_prev U_data =>
      have hex : ∃ child, c.data[c.cur_frac_id]? = some child := by
        unfold FracKernelContainer.call FracKernelContainer.push_coef_prev at hc2
        obtain ⟨child, hchild, _⟩ := Option.bind_eq_some.mp hc2
        exact ⟨child, hchild⟩
      obtain ⟨child, hchild⟩ := hex
      obtain ⟨c3, hc3, e1, e2, _⟩ := FracKernelContainer_push_coef_prev_spec c U_data child hchild
      have : c2 = c3 := by
        have h' : c.push_coef_prev U_data = some c2 := hc2
        rw [hc3] at h'
        exact (Option.some.inj h').symm
      subst this
      obtain ⟨r1, r2⟩ := ih c2 c1 k (by omega) (by omega) (by rw [e1, e2, hcur]) hrest
      exact ⟨by rw [r1, e2], by rw [r2, e2]; rfl⟩
    | push_done =>
      have hc2' : c2 = c.push_done := (Option.some.inj hc2).symm
      subst hc2'
      have hlt : k % c.frac_count < c.frac_count := Nat.mod_lt _ (by omega)
      have hnew : c.push_done.cur_frac_id = (k + 1) % c.frac_count := by
        show (size_add 1 c.cur_frac_id) % c.frac_count = _
        rw [hcur, size_add_of_lt (by omega), Nat.add_comm 1, Nat.mod_add_mod]
      obtain ⟨r1, r2⟩ := ih c.push_done c1 (k + 1) hfc hfc2 hnew hrest
      refine ⟨r1, ?_⟩
      rw [r2]
      show (k + 1 + FracKernelCall.done_count rest) % c.frac_count =
        (k + (FracKernelCall.done_count rest + 1)) % c.frac_count
      rw [Nat.add_right_comm, Nat.add_assoc]

/-- The cursor after `k` calls of `push_done()` from cursor 0. -/
theorem FracKernelContainer_iterate_push_done (c : FracKernelContainer)
    (hfc : 1 ≤ c.frac_count) (hfc2 : c.frac_count < SIZE_MOD) (h0 : c.cur_frac_id = 0) :
    ∀ k, (FracKernelContainer.push_done^[k] c).frac_count = c.frac_count ∧
      (FracKernelContainer.push_done^[k] c).cur_frac_id = k % c.frac_count := by
  intro k
  induction k with
  | zero => exact ⟨rfl, by rw [Function.iterate_zero, id, h0, Nat.zero_mod]⟩
  | succ k ih =>
    rw [Function.iterate_succ_apply']
    obtain ⟨ih1, ih2⟩ := ih
    have hlt : k % c.frac_count < c.frac_count := Nat.mod_lt _ (by omega)
    refine ⟨ih1, ?_⟩
    show (size_add 1 (FracKernelContainer.push_done^[k] c).cur_frac_id) %
      (FracKernelContainer.push_done^[k] c).frac_count = _
    rw [ih1, ih2, size_add_of_lt (by omega), Nat.add_comm 1, Nat.mod_add_mod]

/-- C30, as the code has it. `FracKernelContainer` with `frac_count ≥ 1`. A
`push_coef(R, U)` that returns and a `push_coef_prev(U)` act on `child[cur_frac_id]`
only, set `need_advance` and leave `cur_frac_id` where it is: a push does not move on to
the next fracture. `push_done()` alone moves the cursor, to
`(cur_frac_id + 1) mod frac_count`, adds one to the time index and touches no child. So
after any sequence of calls that starts at `cur_frac_id = 0` the cursor is
`k mod frac_count`, `k` being the number of `push_done()` calls. -/
theorem FracKernelContainer_round_robin (c : FracKernelContainer)
    (hfc : 1 ≤ c.frac_count) (hfc2 : c.frac_count < SIZE_MOD)
    (hcur : c.cur_frac_id < c.frac_count) :
    (∀ (R_data U_data : Nat → ℚ) (c1 : FracKernelContainer),
      c.push_coef R_data U_data = some c1 →
      c1.cur_frac_id = c.cur_frac_id ∧ c1.need_advance = true ∧
        (∀ j, j ≠ c.cur_frac_id → c1.data[j]? = c.data[j]?) ∧
        ∃ child child1 : FracKernel,
          c.data[c.cur_frac_id]? = some child ∧
          FracKernel.push_coef child R_data U_data = some child1 ∧
          c1.data[c.cur_frac_id]? = some child1) ∧
    (∀ (U_data : Nat → ℚ) (child : FracKernel), c.data[c.cur_frac_id]? = some child →
      ∃ c1, c.push_coef_prev U_data = some c1 ∧
        c1.cur_frac_id = c.cur_frac_id ∧ c1.need_advance = true ∧
        (∀ j, j ≠ c.cur_frac_id → c1.data[j]? = c.data[j]?) ∧
        c1.data[c.cur_frac_id]? = some (FracKernel.push_coef_prev child U_data)) ∧
    (c.push_done.cur_frac_id = (c.cur_frac_id + 1) % c.frac_count ∧
      c.push_done.data = c.data ∧ c.push_done.need_advance = c.need_advance ∧
      c.push_done.nt = size_add c.nt 1) ∧
    (c.cur_frac_id = 0 →
      (∀ k, (FracKernelContainer.push_done^[k] c).cur_frac_id = k % c.frac_count) ∧
      ∀ (calls : List FracKernelCall) (c1 : FracKernelContainer), c.run calls = some c1 →
        c1.cur_frac_id = FracKernelCall.done_count calls % c.frac_count) := by
  refine ⟨?_, ?_, ⟨?_, rfl, rfl, rfl⟩, ?_⟩
  · intro R_data U_data c1 h
    obtain ⟨h1, _, _, h4, h5, h6⟩ := FracKernelContainer_push_coef_spec c c1 R_data U_data h
    exact ⟨h1, h4, h5, h6⟩
  · intro U_data child hchild
    obtain ⟨c1, h0, h1, _, _, h4, h5, h6⟩ :=
      FracKernelContainer_push_coef_prev_spec c U_data child hchild
    exact ⟨c1, h0, h1, h4, h5, h6⟩
  · show (size_add 1 c.cur_frac_id) % c.frac_count = _
    rw [size_add_of_lt (by omega), Nat.add_comm]
  · intro h0
    have hrun : ∀ (calls : List FracKernelCall) (c1 : FracKernelContainer),
        c.run calls = some c1 →
        c1.cur_frac_id = FracKernelCall.done_count calls % c.frac_count := by
      intro calls c1 h
      have := (FracKernelContainer_run_cur calls c c1 0 hfc hfc2
        (by rw [h0, Nat.zero_mod]) h).2
      rw [Nat.zero_add] at this
      exact this
    exact ⟨fun k => (FracKernelContainer_iterate_push_done c hfc hfc2 h0 k).2, hrun⟩

theorem FracKernelContainer_round_robin_witness :
    ∃ c1 : FracKernelContainer,
      (FracKernelContainer.new [KernelConstStep.new 1 2, KernelConstStep.new 2 2] 2
          (fun _ _ _ => 0)).run
          [FracKernelCall.push_coef_prev (fun _ => 1),
           FracKernelCall.push_coef (fun _ => 1) (fun _ => 2),
           FracKernelCall.push_done,
           FracKernelCall.push_coef (fun _ => 1) (fun _ => 3),
           FracKernelCall.push_done,
           FracKernelCall.push_done] = some c1 ∧
      c1.cur_frac_id = 3 % 2 := by
  have hsome : ((FracKernelContainer.new [KernelConstStep.new 1 2, KernelConstStep.new 2 2] 2
      (fun _ _ _ => 0)).run
      [FracKernelCall.push_coef_prev (fun _ => 1),
       FracKernelCall.push_coef (fun _ => 1) (fun _ => 2),
       FracKernelCall.push_done,
       FracKernelCall.push_coef (fun _ => 1) (fun _ => 3),
       FracKernelCall.push_done,
       FracKernelCall.push_done]).isSome = true := by decide
  obtain ⟨c1, h⟩ := Option.isSome_iff_exists.mp hsome
  exact ⟨c1, h,
    ((FracKernelContainer_round_robin
      (FracKernelContainer.new [KernelConstStep.new 1 2, KernelConstStep.new 2 2] 2
        (fun _ _ _ => 0))
      (by decide) (by decide) (by decide)).2.2.2 rfl).2 _ c1 h⟩

/-- C30 as stated fails. On a container of two fracture kernels a `push_coef` that returns
leaves `cur_frac_id = 0`: the push has not moved on to the next fracture, as a push on
the flux container would (`(0 + 1) mod 2 = 1`). -/
theorem FracKernelContainer_push_keeps_cursor :
    ∃ c1 : FracKernelContainer,
      (FracKernelContainer.new [KernelConstStep.new 1 2, KernelConstStep.new 2 2] 2
          (fun _ _ _ => 0)).push_coef (fun _ => 1) (fun _ => 2) = some c1 ∧
      c1.cur_frac_id = 0 ∧ c1.cur_frac_id ≠ (0 + 1) % c1.frac_count := by
  have hsome : ((FracKernelContainer.new [KernelConstStep.new 1 2, KernelConstStep.new 2 2] 2
      (fun _ _ _ => 0)).push_coef (fun _ => 1) (fun _ => 2)).isSome = true := by decide
  obtain ⟨c1, h⟩ := Option.isSome_iff_exists.mp hsome
  obtain ⟨h1, h2, _⟩ := FracKernelContainer_push_coef_spec _ c1 _ _ h
  refine ⟨c1, h, h1, ?_⟩
  rw [h1, h2]
  decide

/-! ## WellKernel over the MixStep allocator: the cache of `P_cur` matrices -/

/-- One `push_Pcur`, on a cache with room and on a full cache. -/
theorem WellKernel_KernelMixStep_push_Pcur_eq (k : WellKernel_KernelMixStep)
    (matrix : ArrayXXd) :
    (k.Pcur_cache.length < k.Pcur_cache_capacity →
      k.push_Pcur matrix =
        { state := { k with Pcur_cache := k.Pcur_cache ++ [matrix] }, value := some () }) ∧
    (k.Pcur_cache.length = k.Pcur_cache_capacity →
      k.push_Pcur matrix = { state := k, value := none }) := by
  unfold WellKernel_KernelMixStep.push_Pcur
  constructor
  · intro h
    rw [if_neg (by omega)]
  · intro h
    rw [if_pos h.symm]

/-- A run of `push_Pcur` calls: they succeed while the cache has room, and the first one
that finds it full throws and ends the run. -/
theorem WellKernel_KernelMixStep_push_Pcurs_eq (matrices : List ArrayXXd) :
    ∀ k : WellKernel_KernelMixStep, k.Pcur_cache.length ≤ k.Pcur_cache_capacity →
      k.push_Pcurs matrices =
        if k.Pcur_cache.length + matrices.length ≤ k.Pcur_cache_capacity then
          { state := { k with Pcur_cache := k.Pcur_cache ++ matrices }, value := some () }
        else
          { state :=
              { k with
                Pcur_cache :=
                  k.Pcur_cache ++
                    matrices.take (k.Pcur_cache_capacity - k.Pcur_cache.length) }
            value := none } := by
  induction matrices with
  | nil =>
    intro k hcap
    rw [WellKernel_KernelMixStep.push_Pcurs, if_pos (by simpa using hcap), List.append_nil]
  | cons matrix rest ih =>
    intro k hcap
    rw [WellKernel_KernelMixStep.push_Pcurs]
    by_cases hfull : k.Pcur_cache.length = k.Pcur_cache_capacity
    · rw [(WellKernel_KernelMixStep_push_Pcur_eq k matrix).2 hfull,
        if_neg (by simp; omega)]
      simp only []
      rw [hfull, Nat.sub_self, List.take_zero, List.append_nil]
    · have hlt : k.Pcur_cache.length < k.Pcur_cache_capacity := by omega
      rw [(WellKernel_KernelMixStep_push_Pcur_eq k matrix).1 hlt]
      simp only []
      rw [ih _ (by simp; omega)]
      simp only [List.length_append, List.length_singleton, List.length_cons, List.length_nil,
        Nat.zero_add, List.append_assoc, List.singleton_append]
      by_cases hroom : k.Pcur_cache.length + (rest.length + 1) ≤ k.Pcur_cache_capacity
      · rw [if_pos (by omega), if_pos hroom]
      · rw [if_neg (by omega), if_neg hroom]
        have hsub : k.Pcur_cache_capacity - k.Pcur_cache.length =
            (k.Pcur_cache_capacity - (k.Pcur_cache.length + 1)) + 1 := by omega
        rw [hsub, List.take_succ_cons]

/-- C28. `WellKernel<KernelMixStep>` constructed with cache capacity `M = convDesc.M`.
A `push_Pcur` on a cache with fewer matrices than its capacity appends the matrix and
returns; on a full cache it throws and leaves the object as it was. From the
constructor, which leaves an empty cache of capacity `M`, a run of pushes appends
exactly the first `M` matrices: it returns when there are at most `M` of them, and
otherwise push number `M + 1` throws with the first `M` cached. -/
theorem WellKernel_KernelMixStep_cache_overflow (nodesCount : Nat) (convDesc : KernelMixStep)
    (garbage : Nat → Nat → ℚ) (matrices : List ArrayXXd) (k : WellKernel_KernelMixStep)
    (matrix : ArrayXXd) :
    ((k.Pcur_cache.length < k.Pcur_cache_capacity →
        k.push_Pcur matrix =
          { state := { k with Pcur_cache := k.Pcur_cache ++ [matrix] }, value := some () }) ∧
      (k.Pcur_cache.length = k.Pcur_cache_capacity →
        k.push_Pcur matrix = { state := k, value := none })) ∧
    ((WellKernel_KernelMixStep.new nodesCount convDesc garbage).Pcur_cache = [] ∧
      (WellKernel_KernelMixStep.new nodesCount convDesc garbage).Pcur_cache_capacity =
        convDesc.M) ∧
    (matrices.length ≤ convDesc.M →
      (WellKernel_KernelMixStep.new nodesCount convDesc garbage).push_Pcurs matrices =
        { state :=
            { WellKernel_KernelMixStep.new nodesCount convDesc garbage with
              Pcur_cache := matrices }
          value := some () }) ∧
    (convDesc.M < matrices.length →
      (WellKernel_KernelMixStep.new nodesCount convDesc garbage).push_Pcurs matrices =
        { state :=
            { WellKernel_KernelMixStep.new nodesCount convDesc garbage with
              Pcur_cache := matrices.take convDesc.M }
          value := none }) := by
  have hrun := WellKernel_KernelMixStep_push_Pcurs_eq matrices
    (WellKernel_KernelMixStep.new nodesCount convDesc garbage) (Nat.zero_le _)
  have hlen : (WellKernel_KernelMixStep.new nodesCount convDesc garbage).Pcur_cache.length =
      0 := rfl
  have hc : (WellKernel_KernelMixStep.new nodesCount convDesc garbage).Pcur_cache_capacity =
      convDesc.M := rfl
  refine ⟨WellKernel_KernelMixStep_push_Pcur_eq k matrix, ⟨rfl, rfl⟩, ?_, ?_⟩
  · intro h
    rw [hrun, if_pos (by rw [hlen, hc]; omega)]
    rfl
  · intro h
    rw [hrun, if_neg (by rw [hlen, hc]; omega), hlen, hc, Nat.sub_zero]
    rfl

theorem WellKernel_KernelMixStep_cache_overflow_witness :
    (WellKernel_KernelMixStep.new 1 (KernelMixStep.new 1 2 3 2) (fun _ _ => 0)).push_Pcurs
        [MatrixXd.Zero 1 1, MatrixXd.Ones 1 1, MatrixXd.Zero 1 1] =
      { state :=
          { WellKernel_KernelMixStep.new 1 (KernelMixStep.new 1 2 3 2) (fun _ _ => 0) with
            Pcur_cache := [MatrixXd.Zero 1 1, MatrixXd.Ones 1 1, MatrixXd.Zero 1 1].take 2 }
        value := none } :=
  (WellKernel_KernelMixStep_cache_overflow 1 (KernelMixStep.new 1 2 3 2) (fun _ _ => 0)
    [MatrixXd.Zero 1 1, MatrixXd.Ones 1 1, MatrixXd.Zero 1 1]
    (WellKernel_KernelMixStep.new 1 (KernelMixStep.new 1 2 3 2) (fun _ _ => 0))
    (MatrixXd.Zero 1 1)).2.2.2 (by decide)

/-! ## ConstStep flux extractor: saturation -/

/-- Every `on_extract` of the ConstStep flux extractor lowers `idx_begin` by the spatial
size, as a `size_t`. -/
theorem OnGetFluxConstStep_on_extract_idx_begin (g : OnGetFluxConstStep) :
    g.on_extract.idx_begin = size_sub g.its_index_begin g.its_spatial_size := by
  unfold OnGetFluxConstStep.on_extract OnGetFluxConstStep.idx_begin
  by_cases hb : g.is_external_boundary_time = true
  · simp only [hb, if_true]
    rfl
  · simp only [hb]
    rfl

/-- C25, as the code has it. ConstStep flux extractor over `MemoryDesc(S, T)` with
`1 ≤ S`, `1 ≤ T` (`S * T` representable) and frame size `F`, after `n` calls of
`on_extract`. While `n < T` the next call lowers `idx_begin` by `S` and does not raise
`idx_end`; `idx_end` is still `S * T` while `n ≤ F`; after `T` calls `idx_begin` is 0.
There is no cap: call number `T + 1` wraps `idx_begin` round to `2 ^ 64 - S`. Scenario B
(`S = 2`, `T = 3`, frame 3): after the third push and extract `idx_begin = 0` and
`idx_end = 6`. -/
theorem OnGetFluxConstStep_saturation (S T F n : Nat) (hS : 1 ≤ S) (hT1 : 1 ≤ T)
    (hT : T < SIZE_MOD) (hST : S * T < SIZE_MOD) :
    (n < T →
      (OnGetFluxConstStep.on_extract^[n + 1]
          (OnGetFluxConstStep.new (MemoryDesc.new S T) F)).idx_begin + S =
        (OnGetFluxConstStep.on_extract^[n]
          (OnGetFluxConstStep.new (MemoryDesc.new S T) F)).idx_begin ∧
      (OnGetFluxConstStep.on_extract^[n + 1]
          (OnGetFluxConstStep.new (MemoryDesc.new S T) F)).idx_end ≤
        (OnGetFluxConstStep.on_extract^[n]
          (OnGetFluxConstStep.new (MemoryDesc.new S T) F)).idx_end) ∧
    (n ≤ T → n ≤ F →
      (OnGetFluxConstStep.on_extract^[n]
          (OnGetFluxConstStep.new (MemoryDesc.new S T) F)).idx_end = S * T) ∧
    (OnGetFluxConstStep.on_extract^[T]
        (OnGetFluxConstStep.new (MemoryDesc.new S T) F)).idx_begin = 0 ∧
    (OnGetFluxConstStep.on_extract^[T + 1]
        (OnGetFluxConstStep.new (MemoryDesc.new S T) F)).idx_begin = SIZE_MOD - S ∧
    (((FluxConstStep.new 2 3 3).run
          [AllocatorCall.on_push, AllocatorCall.on_extract, AllocatorCall.on_push,
            AllocatorCall.on_extract, AllocatorCall.on_push,
            AllocatorCall.on_extract]).extractor.idx_begin = 0 ∧
      ((FluxConstStep.new 2 3 3).run
          [AllocatorCall.on_push, AllocatorCall.on_extract, AllocatorCall.on_push,
            AllocatorCall.on_extract, AllocatorCall.on_push,
            AllocatorCall.on_extract]).extractor.idx_end = 6) := by
  have hSle : S ≤ S * T := Nat.le_mul_of_pos_right S hT1
  refine ⟨?_, ?_, ?_, ?_, by decide, by decide⟩
  · intro hn
    rw [OnGetFluxConstStep_iterate_on_extract S T F (n + 1) (by omega) hT hST,
      OnGetFluxConstStep_iterate_on_extract S T F n (by omega) hT hST]
    constructor
    · show S * (T - (n + 1)) + S = S * (T - n)
      have h : T - n = (T - (n + 1)) + 1 := by omega
      rw [h, Nat.mul_add, Nat.mul_one]
    · show S * (T - (n + 1 - F)) ≤ S * (T - (n - F))
      exact Nat.mul_le_mul_left S (by omega)
  · intro hn hF
    rw [OnGetFluxConstStep_iterate_on_extract S T F n hn hT hST]
    show S * (T - (n - F)) = S * T
    rw [Nat.sub_eq_zero_of_le hF, Nat.sub_zero]
  · rw [OnGetFluxConstStep_iterate_on_extract S T F T (le_refl T) hT hST]
    show S * (T - T) = 0
    rw [Nat.sub_self, Nat.mul_zero]
  · rw [Function.iterate_succ_apply',
      OnGetFluxConstStep_iterate_on_extract S T F T (le_refl T) hT hST]
    have h0 : size_sub (S * (T - T)) S = SIZE_MOD - S := by
      rw [Nat.sub_self, Nat.mul_zero]
      unfold size_sub
      rw [Nat.zero_add, Nat.mod_eq_of_lt (by omega : S < SIZE_MOD)]
      exact Nat.mod_eq_of_lt (by omega)
    rw [OnGetFluxConstStep_on_extract_idx_begin]
    exact h0

theorem OnGetFluxConstStep_saturation_witness :
    (OnGetFluxConstStep.on_extract^[3]
        (OnGetFluxConstStep.new (MemoryDesc.new 2 4) 3)).idx_begin + 2 =
      (OnGetFluxConstStep.on_extract^[2]
        (OnGetFluxConstStep.new (MemoryDesc.new 2 4) 3)).idx_begin ∧
    (OnGetFluxConstStep.on_extract^[3]
        (OnGetFluxConstStep.new (MemoryDesc.new 2 4) 3)).idx_end ≤
      (OnGetFluxConstStep.on_extract^[2]
        (OnGetFluxConstStep.new (MemoryDesc.new 2 4) 3)).idx_end :=
  (OnGetFluxConstStep_saturation 2 4 3 2 (by decide) (by decide) (by decide) (by decide)).1
    (by decide)

/-- C25 as stated fails. Scenario B (`S = 2`, `T = 3`, frame 3): after the fourth push and
extract `idx_end = 4`, but `idx_begin` is `2 ^ 64 - 2`, not 0: the extractor lowers
`idx_begin` with no cap at 0, so it has gone up from 0. -/
theorem OnGetFluxConstStep_fourth_pair_wraps :
    ((FluxConstStep.new 2 3 3).run
        [AllocatorCall.on_push, AllocatorCall.on_extract, AllocatorCall.on_push,
          AllocatorCall.on_extract, AllocatorCall.on_push, AllocatorCall.on_extract,
          AllocatorCall.on_push, AllocatorCall.on_extract]).extractor.idx_end = 4 ∧
    ((FluxConstStep.new 2 3 3).run
        [AllocatorCall.on_push, AllocatorCall.on_extract, AllocatorCall.on_push,
          AllocatorCall.on_extract, AllocatorCall.on_push, AllocatorCall.on_extract,
          AllocatorCall.on_push, AllocatorCall.on_extract]).extractor.idx_begin =
      18446744073709551614 ∧
    ((FluxConstStep.new 2 3 3).run
        [AllocatorCall.on_push, AllocatorCall.on_extract, AllocatorCall.on_push,
          AllocatorCall.on_extract, AllocatorCall.on_push, AllocatorCall.on_extract,
          AllocatorCall.on_push, AllocatorCall.on_extract]).extractor.idx_begin ≠ 0 := by
  decide

/-! ## BaseFluxContainer: which cursors `convolve` moves -/

/-- The member `convolve(kernel)` as a chain of binds. -/
theorem BaseFluxContainer_convolve_def (c : BaseFluxContainer) (kernel : BaseKernel) :
    c.convolve kernel =
      kernel.operator_call.bind (fun p =>
        c.operator_call.bind (fun live =>
          (p.2.mulVec live).bind (fun out => some (p.1, out)))) := rfl

/-- The product `m * v` when the widths agree. -/
theorem MatrixXd_mulVec_eq (m : MatrixXd) (v : VectorXd) :
    m.mulVec v =
      if m.cols = v.size then
        some { size := m.rows
               coeff := fun r => sum_upto (fun c => m.coeff r c * v.coeff c) m.cols }
      else none := rfl

/-- The member `convolve(kernel)` from the closed forms of `kernel()` and `(*this)()`. -/
theorem BaseFluxContainer_convolve_aux (c : BaseFluxContainer) (kernel kernel1 : BaseKernel)
    (wk bk wc bc : Nat) (P : Prop) [Decidable P]
    (hcall : kernel.operator_call =
      if P ∧ bk + wk ≤ kernel.Kernel.cols then
        some (kernel1,
          { rows := kernel.Kernel.rows, cols := wk
            coeff := fun r j => kernel.Kernel.coeff r (bk + j) })
      else none)
    (hlive : c.operator_call =
      if bc + wc ≤ c.flux.size then
        some { size := wc, coeff := fun i => c.flux.coeff (bc + i) }
      else none) :
    c.convolve kernel =
      if P ∧ bk + wk ≤ kernel.Kernel.cols ∧ bc + wc ≤ c.flux.size ∧ wk = wc then
        some (kernel1,
          { size := kernel.Kernel.rows
            coeff := fun r =>
              sum_upto (fun j => kernel.Kernel.coeff r (bk + j) * c.flux.coeff (bc + j)) wk })
      else none := by
  rw [BaseFluxContainer_convolve_def, hcall, hlive]
  by_cases h1 : P ∧ bk + wk ≤ kernel.Kernel.cols
  · by_cases h2 : bc + wc ≤ c.flux.size
    · by_cases h3 : wk = wc
      · refine Eq.trans ?_ (if_pos (show _ ∧ _ ∧ _ ∧ _ from ⟨h1.1, h1.2, h2, h3⟩)).symm
        rw [if_pos h1, if_pos h2, Option.some_bind, Option.some_bind, MatrixXd_mulVec_eq,
          if_pos h3]
        rfl
      · refine Eq.trans ?_ (if_neg (fun h : _ ∧ _ ∧ _ ∧ _ => h3 h.2.2.2)).symm
        rw [if_pos h1, if_pos h2, Option.some_bind, Option.some_bind, MatrixXd_mulVec_eq,
          if_neg h3, Option.none_bind]
    · refine Eq.trans ?_ (if_neg (fun h : _ ∧ _ ∧ _ ∧ _ => h2 h.2.2.1)).symm
      rw [if_pos h1, if_neg h2, Option.some_bind, Option.none_bind]
  · refine Eq.trans ?_ (if_neg (fun h : _ ∧ _ ∧ _ ∧ _ => h1 ⟨h.1, h.2.1⟩)).symm
    rw [if_neg h1, Option.none_bind]

/-- The member `convolve(kernel)` in closed form: it returns exactly when the kernel's flag
is clear, the kernel's window after one `on_extract` lies inside `Kernel`, the flux's
window at its extractor's present position lies inside `flux`, and the two windows have
the same width. -/
theorem BaseFluxContainer_convolve_eq (c : BaseFluxContainer) (kernel : BaseKernel) :
    c.convolve kernel =
      if kernel.allocator.pusher.need_advance = false ∧
          kernel.allocator.extractor.on_extract.idx_begin +
            kernel.allocator.extractor.on_extract.current_window_size ≤ kernel.Kernel.cols ∧
          c.allocator.extractor.idx_begin + c.allocator.extractor.current_window_size ≤
            c.flux.size ∧
          kernel.allocator.extractor.on_extract.current_window_size =
            c.allocator.extractor.current_window_size then
        some (kernel.on_extract,
          { size := kernel.Kernel.rows
            coeff := fun r =>
              sum_upto
                (fun j =>
                  kernel.Kernel.coeff r (kernel.allocator.extractor.on_extract.idx_begin + j) *
                    c.flux.coeff (c.allocator.extractor.idx_begin + j))
                kernel.allocator.extractor.on_extract.current_window_size })
      else none := by
  exact BaseFluxContainer_convolve_aux c kernel kernel.on_extract _ _ _ _ _
    (BaseKernel_operator_call_eq kernel) rfl

/-- C31 (amended). One call of `BaseFluxContainer::convolve(kernel)` moves the kernel's
extractor once (through `kernel()`) and reads the flux through `(*this)()`, which takes
the window at the flux extractor's present position and does not move it. The call returns
exactly when the kernel's flag is clear, the kernel's window after its one `on_extract`
lies inside `Kernel`, the flux's present window lies inside `flux`, and the two windows
have the same width; the kernel then comes back as `kernel.on_extract` (extractor moved
once, pusher and `Kernel` untouched) and the value is the product of the kernel's live
block by the flux's live sub-vector. The flux's extractor is moved by `extract()`, once
per call and without touching the pusher or the stored values, so it is the chain
`flux.extract().convolve(kernel)` that moves each cursor exactly once. -/
theorem BaseFluxContainer_convolve_cursors (c : BaseFluxContainer) (kernel : BaseKernel) :
    (c.convolve kernel =
      if kernel.allocator.pusher.need_advance = false ∧
          kernel.allocator.extractor.on_extract.idx_begin +
            kernel.allocator.extractor.on_extract.current_window_size ≤ kernel.Kernel.cols ∧
          c.allocator.extractor.idx_begin + c.allocator.extractor.current_window_size ≤
            c.flux.size ∧
          kernel.allocator.extractor.on_extract.current_window_size =
            c.allocator.extractor.current_window_size then
        some (kernel.on_extract,
          { size := kernel.Kernel.rows
            coeff := fun r =>
              sum_upto
                (fun j =>
                  kernel.Kernel.coeff r (kernel.allocator.extractor.on_extract.idx_begin + j) *
                    c.flux.coeff (c.allocator.extractor.idx_begin + j))
                kernel.allocator.extractor.on_extract.current_window_size })
      else none) ∧
      kernel.on_extract.allocator.extractor = kernel.allocator.extractor.on_extract ∧
      kernel.on_extract.allocator.pusher = kernel.allocator.pusher ∧
      kernel.on_extract.Kernel = kernel.Kernel ∧
      c.extract.allocator.extractor = c.allocator.extractor.on_extract ∧
      c.extract.allocator.pusher = c.allocator.pusher ∧
      c.extract.flux = c.flux :=
  ⟨BaseFluxContainer_convolve_eq c kernel, rfl, rfl, rfl, rfl, rfl, rfl⟩

/-- C31 as stated fails. A fresh one-layer flux container (`S = T = F = 1`) and a fresh
one-node kernel: the flux's live window is empty before any `on_extract` and one entry
wide after one, and the kernel's window after its `on_extract` is one column wide. The
bare `convolve(kernel)` does not return, because the flux is read at its unmoved cursor
(a one-column block times an empty sub-vector), whereas `extract().convolve(kernel)`
returns. -/
theorem BaseFluxContainer_convolve_keeps_flux_cursor :
    (BaseFluxContainer.new (FluxConstStep.new 1 1 1)).allocator.extractor.current_window_size
        = 0 ∧
      (BaseFluxContainer.new
        (FluxConstStep.new 1 1 1)).extract.allocator.extractor.current_window_size = 1 ∧
      (BaseKernel.new 1 (KernelConstStep.new 1 1)
        (fun _ _ => 0)).on_extract.allocator.extractor.current_window_size = 1 ∧
      (BaseFluxContainer.new (FluxConstStep.new 1 1 1)).convolve
        (BaseKernel.new 1 (KernelConstStep.new 1 1) (fun _ _ => 0)) = none ∧
      ((BaseFluxContainer.new (FluxConstStep.new 1 1 1)).extract.convolve
        (BaseKernel.new 1 (KernelConstStep.new 1 1) (fun _ _ => 0))).isSome = true := by
  refine ⟨by decide, by decide, by decide, ?_, ?_⟩
  · rw [BaseFluxContainer_convolve_eq]
    exact if_neg (by decide)
  · rw [BaseFluxContainer_convolve_eq]
    rw [if_pos (by decide)]
    rfl

/-! ## MemoryDesc: construction and the constant sizes -/

/-- The ConstStep kernel extractor keeps the three sizes. -/
theorem OnGetKernelConstStep_on_extract_same_sizes (g : OnGetKernelConstStep) :
    MemoryDesc.same_sizes g.on_extract.toMemoryDesc g.toMemoryDesc := by
  unfold OnGetKernelConstStep.on_extract
  split_ifs <;> exact ⟨rfl, rfl, rfl⟩

/-- The ConstStep flux extractor keeps the three sizes. -/
theorem OnGetFluxConstStep_on_extract_same_sizes (g : OnGetFluxConstStep) :
    MemoryDesc.same_sizes g.on_extract.toMemoryDesc g.toMemoryDesc := by
  unfold OnGetFluxConstStep.on_extract
  dsimp only
  split_ifs <;> exact ⟨rfl, rfl, rfl⟩

/-- C32. `MemoryDesc(S, T)` reports `spatial_size() == S`, `temporal_size() == T` and
`allocated_memory() == S * T` modulo `2^64`, and starts with `cur_temporal_window == 0`;
`MemoryDesc(100, 20)` reports 2000 allocated entries. No `on_extract` and no `on_push` of
any allocator variant (ConstStep, which SmallStep reuses, MainStep and MixStep, kernel and
flux) changes `spatial_size`, `temporal_size` or `allocated_memory`. -/
theorem MemoryDesc_construction (S T : Nat) :
    (MemoryDesc.new S T).spatial_size = S ∧
      (MemoryDesc.new S T).temporal_size = T ∧
      (MemoryDesc.new S T).allocated_memory = (S * T) % 2 ^ 64 ∧
      (MemoryDesc.new S T).cur_temporal_window = 0 ∧
      (MemoryDesc.new 100 20).allocated_memory = 2000 ∧
      (∀ g : OnGetKernelConstStep,
        MemoryDesc.same_sizes g.on_extract.toMemoryDesc g.toMemoryDesc) ∧
      (∀ g : OnGetFluxConstStep,
        MemoryDesc.same_sizes g.on_extract.toMemoryDesc g.toMemoryDesc) ∧
      (∀ p : OnPushKernelConstStep,
        MemoryDesc.same_sizes p.on_push.toMemoryDesc p.toMemoryDesc) ∧
      (∀ p : OnPushFluxConstStep,
        MemoryDesc.same_sizes p.on_push.toMemoryDesc p.toMemoryDesc) ∧
      (∀ g : OnGetKernelMainStep,
        MemoryDesc.same_sizes g.on_extract.toMemoryDesc g.toMemoryDesc) ∧
      (∀ g : OnGetFluxMainStep,
        MemoryDesc.same_sizes g.on_extract.toMemoryDesc g.toMemoryDesc) ∧
      (∀ p : OnPushKernelMainStep,
        MemoryDesc.same_sizes p.on_push.toMemoryDesc p.toMemoryDesc) ∧
      (∀ p : OnPushFluxMainStep,
        MemoryDesc.same_sizes p.on_push.toMemoryDesc p.toMemoryDesc) ∧
      (∀ g : OnGetKernelMixStep,
        MemoryDesc.same_sizes g.on_extract.toMemoryDesc g.toMemoryDesc) ∧
      (∀ g : OnGetFluxMixStep,
        MemoryDesc.same_sizes g.on_extract.toMemoryDesc g.toMemoryDesc) ∧
      (∀ p : OnPushKernelMixStep,
        MemoryDesc.same_sizes p.on_push.toMemoryDesc p.toMemoryDesc) ∧
      (∀ p : OnPushFluxMixStep,
        MemoryDesc.same_sizes p.on_push.toMemoryDesc p.toMemoryDesc) := by
  refine ⟨rfl, rfl, rfl, rfl, by decide, ?_, ?_, ?_, ?_, ?_, ?_, ?_, ?_, ?_, ?_, ?_, ?_⟩
  · exact OnGetKernelConstStep_on_extract_same_sizes
  · exact OnGetFluxConstStep_on_extract_same_sizes
  · intro p
    exact ⟨rfl, rfl, rfl⟩
  · intro p
    exact ⟨rfl, rfl, rfl⟩
  · intro g
    unfold OnGetKernelMainStep.on_extract
    dsimp only
    split_ifs
    · exact OnGetKernelConstStep_on_extract_same_sizes g.toOnGetKernelConstStep
    all_goals exact ⟨rfl, rfl, rfl⟩
  · intro g
    unfold OnGetFluxMainStep.on_extract
    split_ifs
    · exact OnGetFluxConstStep_on_extract_same_sizes g.toOnGetFluxConstStep
    all_goals exact ⟨rfl, rfl, rfl⟩
  · intro p
    exact ⟨rfl, rfl, rfl⟩
  · intro p
    exact ⟨rfl, rfl, rfl⟩
  · intro g
    exact ⟨rfl, rfl, rfl⟩
  · intro g
    unfold OnGetFluxMixStep.on_extract
    split_ifs <;> exact ⟨rfl, rfl, rfl⟩
  · intro p
    exact ⟨rfl, rfl, rfl⟩
  · intro p
    exact ⟨rfl, rfl, rfl⟩

/-! ## MainStep flux allocator: the pusher and the extractor do not share a cursor -/

/-- C33 (amended). In the MainStep flux allocator pair the pusher and the extractor are
two members with their own `its_index_begin`. `is_first_history_period()` tests the
extractor's own `idx_begin`; `pusher.on_push()` leaves the extractor as it is, and
`extractor.on_extract()` leaves the pusher as it is. So two runs from the constructed
pair with the same number of `on_extract` calls leave the extractor in the same state,
whatever `on_push` calls are interleaved: it is the constructed extractor after that many
`on_extract` calls. -/
theorem FluxMainStep_extractor_ignores_pushes (S T F N : Nat)
    (calls1 calls2 : List AllocatorCall)
    (h : AllocatorCall.extracts calls1 = AllocatorCall.extracts calls2) :
    ((FluxMainStep.new S T F N).run calls1).extractor =
        ((FluxMainStep.new S T F N).run calls2).extractor ∧
      ((FluxMainStep.new S T F N).run calls1).extractor =
        OnGetFluxMainStep.on_extract^[AllocatorCall.extracts calls1]
          (OnGetFluxMainStep.new (MemoryDesc.new S T) F) ∧
      (∀ g : OnGetFluxMainStep,
        g.is_first_history_period = decide (g.its_index_begin > 0)) ∧
      (∀ a : Allocator OnPushFluxMainStep OnGetFluxMainStep,
        (Allocator.call OnPushFluxMainStep.on_push OnGetFluxMainStep.on_extract a
          AllocatorCall.on_push).extractor = a.extractor ∧
        (Allocator.call OnPushFluxMainStep.on_push OnGetFluxMainStep.on_extract a
          AllocatorCall.on_extract).pusher = a.pusher) := by
  refine ⟨?_, ?_, fun _ => rfl, fun _ => ⟨rfl, rfl⟩⟩
  · rw [FluxMainStep_run_eq, FluxMainStep_run_eq, h]
  · rw [FluxMainStep_run_eq]

/-- Witness for C33: `FluxMainStep(2, 3, 2, 4)`, two `on_extract` calls alone and the same
two calls with three `on_push` calls interleaved. The pushers end at `idx_begin` 6 and 0,
the extractors in the same state. -/
theorem FluxMainStep_extractor_ignores_pushes_witness :
    ((FluxMainStep.new 2 3 2 4).run
        [AllocatorCall.on_extract, AllocatorCall.on_extract]).pusher.idx_begin = 6 ∧
      ((FluxMainStep.new 2 3 2 4).run
        [AllocatorCall.on_push, AllocatorCall.on_extract, AllocatorCall.on_push,
          AllocatorCall.on_push, AllocatorCall.on_extract]).pusher.idx_begin = 0 ∧
      ((FluxMainStep.new 2 3 2 4).run
        [AllocatorCall.on_extract, AllocatorCall.on_extract]).extractor =
      ((FluxMainStep.new 2 3 2 4).run
        [AllocatorCall.on_push, AllocatorCall.on_extract, AllocatorCall.on_push,
          AllocatorCall.on_push, AllocatorCall.on_extract]).extractor :=
  ⟨by decide, by decide,
    (FluxMainStep_extractor_ignores_pushes 2 3 2 4
      [AllocatorCall.on_extract, AllocatorCall.on_extract]
      [AllocatorCall.on_push, AllocatorCall.on_extract, AllocatorCall.on_push,
        AllocatorCall.on_push, AllocatorCall.on_extract] (by decide)).1⟩

/-- C33 as stated fails. There are no two runs of a MainStep flux allocator pair with the
same number of `on_extract` calls that leave the extractor in different states: the
number of interleaved `on_push` calls has no effect on the extractor. -/
theorem FluxMainStep_no_pusher_coupling :
    ¬ ∃ (S T F N : Nat) (calls1 calls2 : List AllocatorCall),
      AllocatorCall.extracts calls1 = AllocatorCall.extracts calls2 ∧
        ((FluxMainStep.new S T F N).run calls1).extractor ≠
          ((FluxMainStep.new S T F N).run calls2).extractor := by
  rintro ⟨S, T, F, N, calls1, calls2, h, hne⟩
  apply hne
  rw [FluxMainStep_run_eq, FluxMainStep_run_eq, h]

/-! ## ConstStep: the kernel window and the flux window in lockstep -/

/-- C35. For the allocator pairs that `ConstStepWell(S, F, T)` builds, `KernelConstStep(S, F)`
and `FluxConstStep(S, T, F)`, with `S ≥ 1`, `F ≤ T` and `S * T` representable: after two
sequences of calls with the same number `n ≤ T` of `on_extract` calls (and any `on_push`
calls in between), the kernel extractor and the flux extractor have the same
`current_window_size()`, namely `S * min n F`, and both windows lie inside their buffers
(`[0, S * min n F)` inside `S * F` columns, `[S * (T - n), S * (T - n) + S * min n F)`
inside `S * T` entries). -/
theorem ConstStepWell_windows_in_lockstep (S F T n : Nat) (callsK callsF : List AllocatorCall)
    (hS : 1 ≤ S) (hF : F ≤ T) (hn : n ≤ T) (hST : S * T < SIZE_MOD)
    (hK : AllocatorCall.extracts callsK = n) (hFl : AllocatorCall.extracts callsF = n) :
    (((ConstStepWell.new S F T).Kernel.run callsK).extractor.current_window_size =
        ((ConstStepWell.new S F T).Flux.run callsF).extractor.current_window_size) ∧
      ((ConstStepWell.new S F T).Kernel.run callsK).extractor.current_window_size =
        S * min n F ∧
      ((ConstStepWell.new S F T).Flux.run callsF).extractor.current_window_size =
        S * min n F ∧
      ((ConstStepWell.new S F T).Kernel.run callsK).extractor.idx_begin = 0 ∧
      S * min n F ≤ ((ConstStepWell.new S F T).Kernel.run callsK).extractor.allocated_memory ∧
      ((ConstStepWell.new S F T).Flux.run callsF).extractor.idx_begin = S * (T - n) ∧
      S * (T - n) + S * min n F ≤
        ((ConstStepWell.new S F T).Flux.run callsF).extractor.allocated_memory := by
  have hT : T < SIZE_MOD := lt_of_le_of_lt (Nat.le_mul_of_pos_left T hS) hST
  have hSF : S * F < SIZE_MOD := lt_of_le_of_lt (Nat.mul_le_mul_left S hF) hST
  have hle : S * min n F ≤ S * F := Nat.mul_le_mul_left S (min_le_right _ _)
  have hKrun : ((ConstStepWell.new S F T).Kernel.run callsK).extractor =
      OnGetKernelConstStep.on_extract^[n] (OnGetKernelConstStep.new (MemoryDesc.new S F)) := by
    show ((KernelConstStep.new S F).run callsK).extractor = _
    rw [KernelConstStep_run_eq, hK]
  have hFrun : ((ConstStepWell.new S F T).Flux.run callsF).extractor =
      OnGetFluxConstStep.on_extract^[n] (OnGetFluxConstStep.new (MemoryDesc.new S T) F) := by
    show ((FluxConstStep.new S T F).run callsF).extractor = _
    rw [FluxConstStep_run_eq, hFl]
  obtain ⟨hb, hw, hin⟩ := OnGetFluxConstStep_live_window S T F n hn hT hST
  have hwK : (OnGetKernelConstStep.on_extract^[n]
      (OnGetKernelConstStep.new (MemoryDesc.new S F))).current_window_size = S * min n F := by
    rw [OnGetKernelConstStep_iterate_on_extract S F n hS hSF]
    show size_sub (S * min n F) 0 = _
    rw [size_sub_of_le (Nat.zero_le _) (by omega)]
    rfl
  have hmK : (OnGetKernelConstStep.on_extract^[n]
      (OnGetKernelConstStep.new (MemoryDesc.new S F))).allocated_memory = S * F := by
    rw [OnGetKernelConstStep_iterate_on_extract S F n hS hSF]
    show size_mul S F = _
    exact size_mul_of_lt hSF
  have hmF : (OnGetFluxConstStep.on_extract^[n]
      (OnGetFluxConstStep.new (MemoryDesc.new S T) F)).allocated_memory = S * T := by
    rw [OnGetFluxConstStep_iterate_on_extract S T F n hn hT hST]
    show size_mul S T = _
    exact size_mul_of_lt hST
  rw [hKrun, hFrun, hwK, hw, hb, hmK, hmF]
  exact ⟨rfl, rfl, rfl, rfl, hle, rfl, hin⟩

/-- Witness for C35: `ConstStepWell(2, 2, 3)` after three `on_extract` calls on each side,
with pushes interleaved on the flux side. -/
theorem ConstStepWell_windows_in_lockstep_witness :
    ((ConstStepWell.new 2 2 3).Kernel.run
        [AllocatorCall.on_extract, AllocatorCall.on_extract,
          AllocatorCall.on_extract]).extractor.current_window_size = 4 ∧
      ((ConstStepWell.new 2 2 3).Flux.run
        [AllocatorCall.on_push, AllocatorCall.on_extract, AllocatorCall.on_push,
          AllocatorCall.on_extract, AllocatorCall.on_push,
          AllocatorCall.on_extract]).extractor.current_window_size = 4 :=
  have h := ConstStepWell_windows_in_lockstep 2 2 3 3
    [AllocatorCall.on_extract, AllocatorCall.on_extract, AllocatorCall.on_extract]
    [AllocatorCall.on_push, AllocatorCall.on_extract, AllocatorCall.on_push,
      AllocatorCall.on_extract, AllocatorCall.on_push, AllocatorCall.on_extract]
    (by decide) (by decide) (by decide) (by decide) (by decide) (by decide)
  ⟨h.2.1, h.2.2.1⟩

/-! ## MainStep flux extractor: the cursors after any number of calls -/

/-- The state of the MainStep flux extractor after `n` calls of `on_extract`, for every
`n`. -/
theorem OnGetFluxMainStep_iterate_on_extract (S T F n : Nat) (hS : 1 ≤ S)
    (hF : F < SIZE_MOD) (hST : S * T < SIZE_MOD) :
    OnGetFluxMainStep.on_extract^[n] (OnGetFluxMainStep.new (MemoryDesc.new S T) F) =
      { toOnGetFluxConstStep :=
          { toGetDesc := GetDesc.new { MemoryDesc.new S T with cur_temporal_window := min n F }
            its_index_begin := S * (T - n)
            its_index_end := S * (T - (n - F))
            frame_temporal_size := F } } := by
  have hT : T < SIZE_MOD := lt_of_le_of_lt (Nat.le_mul_of_pos_left T hS) hST
  induction n with
  | zero =>
    simp [OnGetFluxMainStep.new, OnGetFluxConstStep.new, GetDesc.new, MemoryDesc.new,
      MemoryDesc.allocated_memory, size_mul_of_lt hST]
  | succ n ih =>
    rw [Function.iterate_succ_apply', ih]
    by_cases hn : n < T
    · -- first history period: the ConstStep step
      have hpos : 0 < S * (T - n) := Nat.mul_pos (by omega) (by omega)
      have h1 := OnGetFluxConstStep_iterate_on_extract S T F n (by omega) hT hST
      have h2 := OnGetFluxConstStep_iterate_on_extract S T F (n + 1) (by omega) hT hST
      rw [Function.iterate_succ_apply', h1] at h2
      unfold OnGetFluxMainStep.on_extract OnGetFluxMainStep.is_first_history_period
        OnGetFluxMainStep.idx_begin OnGetFluxConstStep.idx_begin
      rw [if_pos (by simpa using hpos)]
      simp only [h2]
    · have hb0 : T - n = 0 := by omega
      have hb1 : T - (n + 1) = 0 := by omega
      unfold OnGetFluxMainStep.on_extract OnGetFluxMainStep.is_first_history_period
        OnGetFluxMainStep.idx_begin OnGetFluxConstStep.idx_begin
      rw [if_neg (by simp [hb0])]
      by_cases h : F ≤ n
      · have h1 : min n F = F := min_eq_right h
        have h2 : min (n + 1) F = F := min_eq_right (by omega)
        by_cases hgt : n - F < T
        · have he : S * (T - (n - F)) = S * (T - (n + 1 - F)) + S := by
            have := mul_pred_add S (T - (n - F)) (by omega)
            rw [this]
            congr 2
            omega
          have he2 : S * (T - (n - F)) ≤ S * T := Nat.mul_le_mul_left S (by omega)
          have hend : size_sub (S * (T - (n - F))) S = S * (T - (n + 1 - F)) := by
            rw [size_sub_of_le (by omega) (by omega)]
            omega
          have hpos : 0 < S * (T - (n - F)) := Nat.mul_pos (by omega) (by omega)
          simp [OnGetFluxConstStep.is_external_boundary_time, OnGetFluxMainStep.idx_end,
            OnGetFluxConstStep.idx_end, MemoryDesc.spatial_size, GetDesc.new, MemoryDesc.new,
            h1, h2, hb0, hb1, hend, hpos]
        · have he0 : T - (n - F) = 0 := by omega
          have he1 : T - (n + 1 - F) = 0 := by omega
          simp [OnGetFluxConstStep.is_external_boundary_time, OnGetFluxMainStep.idx_end,
            OnGetFluxConstStep.idx_end, MemoryDesc.spatial_size, GetDesc.new, MemoryDesc.new,
            h1, h2, hb0, hb1, he0, he1]
      · have h1 : min n F = n := min_eq_left (by omega)
        have h2 : min (n + 1) F = n + 1 := min_eq_left (by omega)
        have h3 : n ≠ F := by omega
        have h4 : n + 1 - F = 0 := by omega
        have h5 : n - F = 0 := by omega
        have hw : size_add n 1 = n + 1 := size_add_of_lt (by omega)
        simp [OnGetFluxConstStep.is_external_boundary_time, MemoryDesc.spatial_size,
          GetDesc.new, MemoryDesc.new, h1, h2, h3, h4, h5, hb0, hb1, hw]

/-- C36. For `OnGetFluxMainStep` over `MemoryDesc(S, T)` with `S ≥ 1` and any
`frame_temporal_size` `F` (`F` and `S * T` representable), after `n` calls of `on_extract`,
for every `n`: `idx_begin ≤ idx_end ≤ S * T` (no wrap-around), `idx_begin` is
`S * max(0, T - n)`, and the window size `idx_end - idx_begin` is
`S * max(0, min(n, T, F, T + F - n))`, the minimum taken over the integers; from call
`T + F` on the window is empty. -/
theorem OnGetFluxMainStep_never_wraps_and_drains (S T F n : Nat) (hS : 1 ≤ S)
    (hF : F < SIZE_MOD) (hST : S * T < SIZE_MOD) :
    (OnGetFluxMainStep.on_extract^[n]
        (OnGetFluxMainStep.new (MemoryDesc.new S T) F)).idx_begin ≤
      (OnGetFluxMainStep.on_extract^[n]
        (OnGetFluxMainStep.new (MemoryDesc.new S T) F)).idx_end ∧
    (OnGetFluxMainStep.on_extract^[n]
        (OnGetFluxMainStep.new (MemoryDesc.new S T) F)).idx_end ≤ S * T ∧
    (OnGetFluxMainStep.on_extract^[n]
        (OnGetFluxMainStep.new (MemoryDesc.new S T) F)).allocated_memory = S * T ∧
    (((OnGetFluxMainStep.on_extract^[n]
        (OnGetFluxMainStep.new (MemoryDesc.new S T) F)).idx_begin : ℤ) =
      (S : ℤ) * max 0 ((T : ℤ) - n)) ∧
    (OnGetFluxMainStep.on_extract^[n]
        (OnGetFluxMainStep.new (MemoryDesc.new S T) F)).current_window_size =
      (OnGetFluxMainStep.on_extract^[n]
        (OnGetFluxMainStep.new (MemoryDesc.new S T) F)).idx_end -
      (OnGetFluxMainStep.on_extract^[n]
        (OnGetFluxMainStep.new (MemoryDesc.new S T) F)).idx_begin ∧
    (((OnGetFluxMainStep.on_extract^[n]
        (OnGetFluxMainStep.new (MemoryDesc.new S T) F)).current_window_size : ℤ) =
      (S : ℤ) * max 0 (min (min (n : ℤ) T) (min (F : ℤ) ((T : ℤ) + F - n)))) ∧
    (T + F ≤ n →
      (OnGetFluxMainStep.on_extract^[n]
        (OnGetFluxMainStep.new (MemoryDesc.new S T) F)).current_window_size = 0) := by
  rw [OnGetFluxMainStep_iterate_on_extract S T F n hS hF hST]
  have hbe : S * (T - n) ≤ S * (T - (n - F)) := Nat.mul_le_mul_left S (by omega)
  have heT : S * (T - (n - F)) ≤ S * T := Nat.mul_le_mul_left S (by omega)
  have hwin : size_sub (S * (T - (n - F))) (S * (T - n)) =
      S * (T - (n - F)) - S * (T - n) := size_sub_of_le hbe (by omega)
  have hsub : S * (T - (n - F)) - S * (T - n) = S * (T - (n - F) - (T - n)) := by
    exact (Nat.mul_sub S (T - (n - F)) (T - n)).symm
  have hb : ((T - n : ℕ) : ℤ) = max 0 ((T : ℤ) - n) := by omega
  have hd : ((T - (n - F) - (T - n) : ℕ) : ℤ) =
      max 0 (min (min (n : ℤ) T) (min (F : ℤ) ((T : ℤ) + F - n))) := by omega
  refine ⟨hbe, heT, ?_, ?_, hwin, ?_, ?_⟩
  · show size_mul S T = _
    exact size_mul_of_lt hST
  · show ((S * (T - n) : ℕ) : ℤ) = _
    rw [Nat.cast_mul, hb]
  · show ((size_sub (S * (T - (n - F))) (S * (T - n)) : ℕ) : ℤ) = _
    rw [hwin, hsub, Nat.cast_mul, hd]
  · intro h
    show size_sub (S * (T - (n - F))) (S * (T - n)) = 0
    rw [hwin, hsub]
    have : T - (n - F) - (T - n) = 0 := by omega
    rw [this, Nat.mul_zero]

/-- Witness for C36: `S = 2`, `T = 3`, `F = 2` after 4 calls (window `[0, 2)`) and after 7
calls (empty window). -/
theorem OnGetFluxMainStep_never_wraps_and_drains_witness :
    (OnGetFluxMainStep.on_extract^[4]
        (OnGetFluxMainStep.new (MemoryDesc.new 2 3) 2)).current_window_size = 2 ∧
      (OnGetFluxMainStep.on_extract^[7]
        (OnGetFluxMainStep.new (MemoryDesc.new 2 3) 2)).current_window_size = 0 :=
  ⟨by decide,
    (OnGetFluxMainStep_never_wraps_and_drains 2 3 2 7 (by decide) (by decide)
      (by decide)).2.2.2.2.2.2 (by decide)⟩

/-! ## MixStep flux: the write slab of the one-slab buffer -/

/-- The member `push_coef(data)` of the MixStep flux container in closed form. -/
theorem BaseFluxContainer_FluxMixStep_push_coef_eq (c : BaseFluxContainer_FluxMixStep)
    (data : VectorXd) :
    c.push_coef data =
      if c.allocator.pusher.on_push.idx_begin + c.allocator.pusher.on_push.spatial_size ≤
            c.flux.size ∧
          data.size = c.allocator.pusher.on_push.spatial_size then
        some
          { allocator := { c.allocator with pusher := c.allocator.pusher.on_push }
            flux :=
              { c.flux with
                coeff := fun i =>
                  if c.allocator.pusher.on_push.idx_begin ≤ i ∧
                      i < c.allocator.pusher.on_push.idx_begin +
                        c.allocator.pusher.on_push.spatial_size then
                    data.coeff (i - c.allocator.pusher.on_push.idx_begin)
                  else c.flux.coeff i } }
      else none := by
  unfold BaseFluxContainer_FluxMixStep.push_coef VectorXd.setSegment
  by_cases h : c.allocator.pusher.on_push.idx_begin + c.allocator.pusher.on_push.spatial_size ≤
      c.flux.size ∧ data.size = c.allocator.pusher.on_push.spatial_size
  · simp [h, BaseFluxContainer_FluxMixStep.on_push]
  · simp [h, BaseFluxContainer_FluxMixStep.on_push]

/-- The write slab of `FluxMixStep(S, F)`, for every slab size. The structure allocates one
slab (`MemoryDesc(S, 1)`), with `1 ≤ S < 2^64`. After the first `on_push` the write slab is `[0, S)`, the slab the
extractor reads, and the first `push_coef` of an `S`-entry sample returns and stores it
there. The pusher is the MainStep one and subtracts `S` at every `on_push`: after the
second `on_push` its `idx_begin` has wrapped to `2^64 - S`, which is not `0`, the write
slab lies outside the `S` allocated entries, and the second `push_coef` does not return,
whatever the sample. -/
theorem FluxMixStep_write_slab (S F : Nat) (hS : 1 ≤ S) (hS2 : S < SIZE_MOD)
    (data : VectorXd) (hdata : data.size = S) :
    (FluxMixStep.new S F).pusher.allocated_memory = S ∧
      (FluxMixStep.new S F).extractor.idx_begin = 0 ∧
      (FluxMixStep.new S F).extractor.idx_end = S ∧
      ((FluxMixStep.new S F).run [AllocatorCall.on_push]).pusher.idx_begin = 0 ∧
      ((FluxMixStep.new S F).run
        [AllocatorCall.on_push, AllocatorCall.on_push]).pusher.idx_begin = SIZE_MOD - S ∧
      ((FluxMixStep.new S F).run
          [AllocatorCall.on_push, AllocatorCall.on_push]).pusher.allocated_memory <
        ((FluxMixStep.new S F).run
          [AllocatorCall.on_push, AllocatorCall.on_push]).pusher.idx_begin + S ∧
      (∃ c1 : BaseFluxContainer_FluxMixStep,
        (BaseFluxContainer_FluxMixStep.new (FluxMixStep.new S F)).push_coef data = some c1 ∧
        c1.allocator.pusher.idx_begin = 0 ∧
        c1.flux.size = S ∧
        (∀ i, i < S → c1.flux.coeff i = data.coeff i) ∧
        ∀ data2 : VectorXd, c1.push_coef data2 = none) := by
  have hmem : size_mul S 1 = S := by rw [size_mul_of_lt (by omega), Nat.mul_one]
  have hb1 : size_sub S S = 0 := by rw [size_sub_of_le (le_refl S) hS2, Nat.sub_self]
  have hb2 : size_sub 0 S = SIZE_MOD - S := by
    unfold size_sub
    rw [Nat.zero_add, Nat.mod_eq_of_lt hS2]
    exact Nat.mod_eq_of_lt (by omega)
  have hp1 : (OnPushFluxMainStep.new (MemoryDesc.new S 1)).on_push.idx_begin = 0 := by
    show size_sub (size_mul S 1) S = 0
    rw [hmem, hb1]
  have hp2 : (OnPushFluxMainStep.new (MemoryDesc.new S 1)).on_push.on_push.idx_begin =
      SIZE_MOD - S := by
    show size_sub (size_sub (size_mul S 1) S) S = SIZE_MOD - S
    rw [hmem, hb1, hb2]
  have hout : ((FluxMixStep.new S F).run
        [AllocatorCall.on_push, AllocatorCall.on_push]).pusher.allocated_memory <
      ((FluxMixStep.new S F).run
        [AllocatorCall.on_push, AllocatorCall.on_push]).pusher.idx_begin + S := by
    show size_mul S 1 <
      (OnPushFluxMainStep.new (MemoryDesc.new S 1)).on_push.on_push.idx_begin + S
    rw [hmem, hp2]
    omega
  refine ⟨hmem, rfl, rfl, hp1, hp2, hout, ?_⟩
  refine ⟨{ allocator :=
              { FluxMixStep.new S F with
                pusher := (OnPushFluxMainStep.new (MemoryDesc.new S 1)).on_push }
            flux :=
              { size := S
                coeff := fun i => if 0 ≤ i ∧ i < 0 + S then data.coeff (i - 0) else 0 } },
    ?_, hp1, rfl, ?_, ?_⟩
  · rw [BaseFluxContainer_FluxMixStep_push_coef_eq]
    have hcond : (BaseFluxContainer_FluxMixStep.new
          (FluxMixStep.new S F)).allocator.pusher.on_push.idx_begin +
        (BaseFluxContainer_FluxMixStep.new
          (FluxMixStep.new S F)).allocator.pusher.on_push.spatial_size ≤
          (BaseFluxContainer_FluxMixStep.new (FluxMixStep.new S F)).flux.size ∧
        data.size = (BaseFluxContainer_FluxMixStep.new
          (FluxMixStep.new S F)).allocator.pusher.on_push.spatial_size := by
      refine ⟨?_, hdata⟩
      show (OnPushFluxMainStep.new (MemoryDesc.new S 1)).on_push.idx_begin + S ≤ size_mul S 1
      rw [hp1, hmem]
      omega
    rw [if_pos hcond]
    have hidx : (BaseFluxContainer_FluxMixStep.new
        (FluxMixStep.new S F)).allocator.pusher.on_push.idx_begin = 0 := hp1
    simp only [hidx]
    simp [BaseFluxContainer_FluxMixStep.new, FluxMixStep.new, VectorXd.Zero, hmem,
      MemoryDesc.allocated_memory, MemoryDesc.spatial_size, OnPushFluxMainStep.on_push,
      OnPushFluxMainStep.new, PushDesc.new, MemoryDesc.new]
  · intro i hi
    show (if 0 ≤ i ∧ i < 0 + S then data.coeff (i - 0) else 0) = data.coeff i
    rw [if_pos ⟨Nat.zero_le i, by omega⟩, Nat.sub_zero]
  · intro data2
    rw [BaseFluxContainer_FluxMixStep_push_coef_eq]
    apply if_neg
    intro h
    have h1 := h.1
    have h2 : (OnPushFluxMainStep.new (MemoryDesc.new S 1)).on_push.on_push.idx_begin + S ≤ S :=
      h1
    rw [hp2] at h2
    omega

/-- The write slab of `FluxMixStep(2, 1)` with the sample `[5, 5]`. -/
theorem FluxMixStep_write_slab_witness :
    ((FluxMixStep.new 2 1).run [AllocatorCall.on_push]).pusher.idx_begin = 0 ∧
      ∃ c1 : BaseFluxContainer_FluxMixStep,
        (BaseFluxContainer_FluxMixStep.new (FluxMixStep.new 2 1)).push_coef
          { size := 2, coeff := fun _ => 5 } = some c1 ∧
        c1.allocator.pusher.idx_begin = 0 ∧
        c1.flux.size = 2 ∧
        (∀ i, i < 2 → c1.flux.coeff i = 5) ∧
        ∀ data2 : VectorXd, c1.push_coef data2 = none :=
  have h := FluxMixStep_write_slab 2 1 (by decide) (by decide)
    { size := 2, coeff := fun _ => 5 } rfl
  ⟨h.2.2.2.1, h.2.2.2.2.2.2⟩

/-- C37, at the failing input. `FluxMixStep(2, 1)` keeps one slab of two entries, which the
extractor reads as `[0, 2)` at every step. After one `on_push` the pusher's `idx_begin` is
0; after two it is `2^64 - 2`, not 0, so the write slab is not inside the two allocated
entries: the pusher is the MainStep one and subtracts the slab size at every call instead
of rewriting the single slab in place. In the container the first `push_coef` returns and
the second one does not. -/
theorem FluxMixStep_second_push_out_of_bounds :
    (FluxMixStep.new 2 1).pusher.allocated_memory = 2 ∧
      ((FluxMixStep.new 2 1).run [AllocatorCall.on_push]).pusher.idx_begin = 0 ∧
      ((FluxMixStep.new 2 1).run
        [AllocatorCall.on_push, AllocatorCall.on_push]).pusher.idx_begin =
          18446744073709551614 ∧
      ((BaseFluxContainer_FluxMixStep.new (FluxMixStep.new 2 1)).push_coef
        { size := 2, coeff := fun _ => 5 }).isSome = true ∧
      (((BaseFluxContainer_FluxMixStep.new (FluxMixStep.new 2 1)).push_coef
        { size := 2, coeff := fun _ => 5 }).bind
          (fun c1 => c1.push_coef { size := 2, coeff := fun _ => 7 })).isSome = false := by
  refine ⟨by decide, by decide, by decide, by decide, by decide⟩

/-! ## WellKernel over the MixStep allocator: `advance()` and the cache -/

/-- The member `BaseKernel::advance()` on a kernel with regular dimensions: it returns,
writes the block into the columns `[0, S)` and keeps the dimensions. -/
theorem BaseKernel_KernelMixStep_advance_Shape {G S C : Nat} {k : BaseKernel_KernelMixStep}
    (hk : BaseKernel_KernelMixStep.Shape G S C k) :
    ∃ k1, k.advance = some k1 ∧ BaseKernel_KernelMixStep.Shape G S C k1 := by
  obtain ⟨⟨hK1, hK2⟩, ⟨hp1, hp2⟩, ⟨hc1, hc2⟩, ⟨hf1, hf2⟩, hg, hs, hSC⟩ := hk
  have hsub : k.P_cur.sub k.P_prev =
      some { k.P_cur with coeff := fun r c => k.P_cur.coeff r c - k.P_prev.coeff r c } := by
    unfold MatrixXd.sub
    rw [if_pos ⟨by rw [hc1, hp1], by rw [hc2, hp2]⟩]
  have hmul : ∀ f : Nat → Nat → ℚ,
      k.F.cwiseMul { k.P_cur with coeff := f } =
        some { k.F with coeff := fun r c => k.F.coeff r c * f r c } := by
    intro f
    unfold MatrixXd.cwiseMul
    rw [if_pos ⟨by rw [hf1]; exact hc1.symm, by rw [hf2]; exact hc2.symm⟩]
  have hset : ∀ f : Nat → Nat → ℚ,
      k.Kernel.setMiddleCols k.block_stride_in_row k.block_width { k.F with coeff := f } =
        some { k.Kernel with
          coeff := fun r c =>
            if k.block_stride_in_row ≤ c ∧ c < k.block_stride_in_row + k.block_width then
              f r (c - k.block_stride_in_row)
            else k.Kernel.coeff r c } := by
    intro f
    have hw : k.block_width = S := hs
    have h0 : k.block_stride_in_row = 0 := rfl
    unfold MatrixXd.setMiddleCols
    rw [if_pos ⟨by rw [h0, hw, hK2]; omega, by rw [hK1]; exact hf1, by rw [hw]; exact hf2⟩]
  unfold BaseKernel_KernelMixStep.advance
  rw [hsub, Option.some_bind, hmul, Option.some_bind, hset, Option.some_bind]
  exact ⟨_, rfl, ⟨hK1, hK2⟩, ⟨hc1, hc2⟩, ⟨hg, hs⟩, ⟨hf1, hf2⟩, hg, hs, hSC⟩

/-- The call `advance()` when the first statement throws. -/
theorem WellKernel_KernelMixStep_advance_of_none (k : WellKernel_KernelMixStep)
    (h : k.advance_cache = none) : k.advance = { state := k, value := none } := by
  unfold WellKernel_KernelMixStep.advance
  rw [h]

/-- The call `advance()` when the first statement passes and `BaseKernel::advance()`
returns. -/
theorem WellKernel_KernelMixStep_advance_of_some (k k1 : WellKernel_KernelMixStep)
    (b : BaseKernel_KernelMixStep) (h : k.advance_cache = some k1)
    (hb : k1.toBaseKernel_KernelMixStep.advance = some b) :
    k.advance =
      { state :=
          { k1 with
            toBaseKernel_KernelMixStep := b
            small_step_counter_within_main_step :=
              (size_add k1.small_step_counter_within_main_step 1) %
                k1.small_step_nmbr_per_main_step }
        value := some () } := by
  unfold WellKernel_KernelMixStep.advance
  rw [h]
  simp only []
  rw [hb]

/-- One `advance()` from the state after `a` successful calls: it throws and changes
nothing when a main step starts with the cache used up, and otherwise returns and leaves
the state after `a + 1` calls, with the cache as it was. -/
theorem WellKernel_KernelMixStep_advance_Advanced {G S C N a : Nat}
    {k : WellKernel_KernelMixStep} (hN : 1 ≤ N) (hN2 : N < SIZE_MOD)
    (hk : WellKernel_KernelMixStep.Advanced G S C N a k)
    (hlen : k.Pcur_cache.length < SIZE_MOD) (hidx : k.get_Pcur_idx ≤ k.Pcur_cache.length) :
    (a % N = 0 ∧ k.get_Pcur_idx = k.Pcur_cache.length →
      k.advance = { state := k, value := none }) ∧
    (¬ (a % N = 0 ∧ k.get_Pcur_idx = k.Pcur_cache.length) →
      k.advance.value = some () ∧
      WellKernel_KernelMixStep.Advanced G S C N (a + 1) k.advance.state ∧
      k.advance.state.Pcur_cache = k.Pcur_cache ∧
      k.advance.state.Pcur_cache_capacity = k.Pcur_cache_capacity) := by
  obtain ⟨hshape, hkN, hcnt, hget⟩ := hk
  constructor
  · rintro ⟨h0, hfull⟩
    apply WellKernel_KernelMixStep_advance_of_none
    unfold WellKernel_KernelMixStep.advance_cache
    rw [hcnt, hkN, Nat.mod_mod, if_pos h0, if_pos hfull]
  · intro hnot
    obtain ⟨b, hb, hbshape⟩ := BaseKernel_KernelMixStep_advance_Shape hshape
    have hmodlt : a % N < N := Nat.mod_lt a (by omega)
    have hcnt1 : (size_add (a % N) 1) % N = (a + 1) % N := by
      rw [size_add_of_lt (by omega), Nat.add_mod (a % N) 1 N, Nat.mod_mod, ← Nat.add_mod]
    by_cases h0 : a % N = 0
    · have hne : k.get_Pcur_idx ≠ k.Pcur_cache.length := fun h => hnot ⟨h0, h⟩
      have hcache : k.advance_cache =
          some { k with get_Pcur_idx := size_add k.get_Pcur_idx 1 } := by
        unfold WellKernel_KernelMixStep.advance_cache
        rw [hcnt, hkN, Nat.mod_mod, if_pos h0, if_neg hne]
      rw [WellKernel_KernelMixStep_advance_of_some k _ b hcache hb]
      refine ⟨rfl, ⟨hbshape, hkN, ?_, ?_⟩, rfl, rfl⟩
      · show (size_add k.small_step_counter_within_main_step 1) %
          k.small_step_nmbr_per_main_step = (a + 1) % N
        rw [hcnt, hkN, hcnt1]
      · show size_add k.get_Pcur_idx 1 = (a + 1 + N - 1) / N
        rw [size_add_of_lt (by omega), hget, ceil_div_succ N a hN, if_pos h0]
    · have hcache : k.advance_cache = some k := by
        unfold WellKernel_KernelMixStep.advance_cache
        rw [hcnt, hkN, Nat.mod_mod, if_neg h0]
      rw [WellKernel_KernelMixStep_advance_of_some k _ b hcache hb]
      refine ⟨rfl, ⟨hbshape, hkN, ?_, ?_⟩, rfl, rfl⟩
      · show (size_add k.small_step_counter_within_main_step 1) %
          k.small_step_nmbr_per_main_step = (a + 1) % N
        rw [hcnt, hkN, hcnt1]
      · show k.get_Pcur_idx = (a + 1 + N - 1) / N
        rw [hget, ceil_div_succ N a hN, if_neg h0, Nat.add_zero]

/-- A run of `advance()` calls goes on after a call that returned. -/
theorem WellKernel_KernelMixStep_advances_succ_of_some (k : WellKernel_KernelMixStep) (n : Nat)
    (h : k.advance.value = some ()) : k.advances (n + 1) = k.advance.state.advances n := by
  rcases hres : k.advance with ⟨st, value⟩
  rw [hres] at h
  cases value with
  | none => exact absurd h (by simp)
  | some u =>
    rw [WellKernel_KernelMixStep.advances, hres]

/-- A run of `advance()` calls ends at a call that did not return. -/
theorem WellKernel_KernelMixStep_advances_succ_of_none (k : WellKernel_KernelMixStep) (n : Nat)
    (h : k.advance.value = none) :
    k.advances (n + 1) = { state := k.advance.state, value := none } := by
  rcases hres : k.advance with ⟨st, value⟩
  rw [hres] at h
  cases value with
  | some u => exact absurd h (by simp)
  | none =>
    rw [WellKernel_KernelMixStep.advances, hres]

/-- The rounded-up quotient does not decrease. -/
theorem ceil_div_mono (N a b : Nat) (h : a ≤ b) : (a + N - 1) / N ≤ (b + N - 1) / N :=
  Nat.div_le_div_right (by omega)

/-- A run of `n` calls of `advance()` from the state after `a` successful calls: it
returns exactly when the cache holds the matrices of all the main steps begun, and then
leaves the state after `a + n` calls. -/
theorem WellKernel_KernelMixStep_advances_Advanced {G S C N : Nat} (hN : 1 ≤ N)
    (hN2 : N < SIZE_MOD) (n : Nat) :
    ∀ (a : Nat) (k : WellKernel_KernelMixStep),
      WellKernel_KernelMixStep.Advanced G S C N a k →
      k.Pcur_cache.length < SIZE_MOD → k.get_Pcur_idx ≤ k.Pcur_cache.length →
      ((k.advances n).value = some () ↔ (a + n + N - 1) / N ≤ k.Pcur_cache.length) ∧
      ((k.advances n).value = some () →
        WellKernel_KernelMixStep.Advanced G S C N (a + n) (k.advances n).state ∧
        (k.advances n).state.Pcur_cache = k.Pcur_cache) := by
  induction n with
  | zero =>
    intro a k hk hlen hidx
    have hget := hk.2.2.2
    refine ⟨⟨fun _ => ?_, fun _ => rfl⟩, fun _ => ⟨hk, rfl⟩⟩
    rw [Nat.add_zero, ← hget]
    exact hidx
  | succ n ih =>
    intro a k hk hlen hidx
    have hget := hk.2.2.2
    obtain ⟨hthrow, hok⟩ := WellKernel_KernelMixStep_advance_Advanced hN hN2 hk hlen hidx
    by_cases hc : a % N = 0 ∧ k.get_Pcur_idx = k.Pcur_cache.length
    · have hadv := hthrow hc
      have hval : k.advance.value = none := by rw [hadv]
      rw [WellKernel_KernelMixStep_advances_succ_of_none k n hval]
      have hnext : (a + 1 + N - 1) / N = k.Pcur_cache.length + 1 := by
        rw [ceil_div_succ N a hN, if_pos hc.1, ← hget, hc.2]
      have hmono := ceil_div_mono N (a + 1) (a + (n + 1)) (by omega)
      refine ⟨⟨fun h => absurd h (by simp), fun h => ?_⟩, fun h => absurd h (by simp)⟩
      omega
    · obtain ⟨hval, hadv, hcache, _⟩ := hok hc
      rw [WellKernel_KernelMixStep_advances_succ_of_some k n hval]
      have hidx1 : k.advance.state.get_Pcur_idx ≤ k.advance.state.Pcur_cache.length := by
        rw [hadv.2.2.2, hcache, ceil_div_succ N a hN]
        by_cases h0 : a % N = 0
        · rw [if_pos h0, ← hget]
          have : k.get_Pcur_idx ≠ k.Pcur_cache.length := fun h => hc ⟨h0, h⟩
          omega
        · rw [if_neg h0, ← hget]
          omega
      have hrec := ih (a + 1) k.advance.state hadv (by rw [hcache]; exact hlen) hidx1
      rw [hcache] at hrec
      have heq : a + 1 + n = a + (n + 1) := by omega
      rw [heq] at hrec
      exact hrec

/-- One `advance()` on a kernel with regular dimensions whose counter is below
`small_step_nmbr_per_main_step` and whose cache cursor is inside the cache. -/
theorem WellKernel_KernelMixStep_advance_step {G S C : Nat} (k : WellKernel_KernelMixStep)
    (hshape : BaseKernel_KernelMixStep.Shape G S C k.toBaseKernel_KernelMixStep)
    (hN2 : k.small_step_nmbr_per_main_step < SIZE_MOD)
    (hc : k.small_step_counter_within_main_step < k.small_step_nmbr_per_main_step)
    (hidx : k.get_Pcur_idx ≤ k.Pcur_cache.length) (hlen : k.Pcur_cache.length < SIZE_MOD) :
    (k.small_step_counter_within_main_step = 0 → k.get_Pcur_idx = k.Pcur_cache.length →
      k.advance = { state := k, value := none }) ∧
    (k.small_step_counter_within_main_step = 0 → k.get_Pcur_idx ≠ k.Pcur_cache.length →
      k.advance.value = some () ∧ k.advance.state.get_Pcur_idx = k.get_Pcur_idx + 1) ∧
    (k.small_step_counter_within_main_step ≠ 0 →
      k.advance.value = some () ∧ k.advance.state.get_Pcur_idx = k.get_Pcur_idx) ∧
    (k.advance.value = some () →
      k.advance.state.small_step_counter_within_main_step =
        (k.small_step_counter_within_main_step + 1) % k.small_step_nmbr_per_main_step ∧
      k.advance.state.small_step_nmbr_per_main_step = k.small_step_nmbr_per_main_step ∧
      k.advance.state.Pcur_cache = k.Pcur_cache ∧
      k.advance.state.Pcur_cache_capacity = k.Pcur_cache_capacity ∧
      BaseKernel_KernelMixStep.Shape G S C k.advance.state.toBaseKernel_KernelMixStep) := by
  obtain ⟨b, hb, hbshape⟩ := BaseKernel_KernelMixStep_advance_Shape hshape
  have hmod : k.small_step_counter_within_main_step % k.small_step_nmbr_per_main_step =
      k.small_step_counter_within_main_step := Nat.mod_eq_of_lt hc
  have hadd : size_add k.small_step_counter_within_main_step 1 =
      k.small_step_counter_within_main_step + 1 := size_add_of_lt (by omega)
  by_cases h0 : k.small_step_counter_within_main_step = 0
  · by_cases hfull : k.get_Pcur_idx = k.Pcur_cache.length
    · have hcache : k.advance_cache = none := by
        unfold WellKernel_KernelMixStep.advance_cache
        rw [hmod, if_pos h0, if_pos hfull]
      have hadv := WellKernel_KernelMixStep_advance_of_none k hcache
      refine ⟨fun _ _ => hadv, fun _ h => absurd hfull h, fun h => absurd h0 h, fun h => ?_⟩
      rw [hadv] at h
      exact absurd h (by simp)
    · have hcache : k.advance_cache =
          some { k with get_Pcur_idx := size_add k.get_Pcur_idx 1 } := by
        unfold WellKernel_KernelMixStep.advance_cache
        rw [hmod, if_pos h0, if_neg hfull]
      rw [WellKernel_KernelMixStep_advance_of_some k _ b hcache hb]
      refine ⟨fun _ h => absurd h hfull, fun _ _ => ⟨rfl, ?_⟩, fun h => absurd h0 h,
        fun _ => ⟨?_, rfl, rfl, rfl, hbshape⟩⟩
      · show size_add k.get_Pcur_idx 1 = k.get_Pcur_idx + 1
        exact size_add_of_lt (by omega)
      · show (size_add k.small_step_counter_within_main_step 1) %
          k.small_step_nmbr_per_main_step = _
        rw [hadd]
  · have hcache : k.advance_cache = some k := by
      unfold WellKernel_KernelMixStep.advance_cache
      rw [hmod, if_neg h0]
    rw [WellKernel_KernelMixStep_advance_of_some k _ b hcache hb]
    refine ⟨fun h => absurd h h0, fun h => absurd h h0, fun _ => ⟨rfl, rfl⟩,
      fun _ => ⟨?_, rfl, rfl, rfl, hbshape⟩⟩
    show (size_add k.small_step_counter_within_main_step 1) %
      k.small_step_nmbr_per_main_step = _
    rw [hadd]

/-- The constructed `WellKernel<KernelMixStep>` with its cache filled: the state after no
`advance()`. -/
theorem WellKernel_KernelMixStep_new_Advanced (G S T n M : Nat) (garbage : Nat → Nat → ℚ)
    (ms : List ArrayXXd) (hn : 2 ≤ n) (hn2 : n < SIZE_MOD) (hT : 1 ≤ T)
    (hST : S * T < SIZE_MOD) (hms : ms.length ≤ M) :
    WellKernel_KernelMixStep.Advanced G S (S * T) (n - 1) 0
        ((WellKernel_KernelMixStep.new G (KernelMixStep.new S T n M) garbage).push_Pcurs
          ms).state ∧
      ((WellKernel_KernelMixStep.new G (KernelMixStep.new S T n M) garbage).push_Pcurs
        ms).state.Pcur_cache = ms ∧
      ((WellKernel_KernelMixStep.new G (KernelMixStep.new S T n M) garbage).push_Pcurs
        ms).state.get_Pcur_idx = 0 := by
  have hpush := WellKernel_KernelMixStep_push_Pcurs_eq ms
    (WellKernel_KernelMixStep.new G (KernelMixStep.new S T n M) garbage) (Nat.zero_le _)
  have hroom : (WellKernel_KernelMixStep.new G (KernelMixStep.new S T n M)
      garbage).Pcur_cache.length + ms.length ≤
      (WellKernel_KernelMixStep.new G (KernelMixStep.new S T n M)
        garbage).Pcur_cache_capacity := by
    show 0 + ms.length ≤ M
    omega
  rw [if_pos hroom] at hpush
  rw [hpush]
  have hcols : size_mul S T = S * T := size_mul_of_lt hST
  have hN : size_sub n 1 = n - 1 := size_sub_of_le (by omega) hn2
  have hSle : S ≤ S * T := Nat.le_mul_of_pos_right S hT
  refine ⟨⟨⟨⟨rfl, hcols⟩, ⟨rfl, rfl⟩, ⟨rfl, rfl⟩, ⟨rfl, rfl⟩, rfl, rfl, hSle⟩, hN, ?_, ?_⟩,
    List.nil_append ms, rfl⟩
  · show 0 = 0 % (n - 1)
    rw [Nat.zero_mod]
  · show 0 = (0 + (n - 1) - 1) / (n - 1)
    rw [Nat.zero_add]
    exact (Nat.div_eq_of_lt (by omega)).symm

/-- C34. `WellKernel<KernelMixStep>` built with `small_step_nmbr_per_main_step = n`, so
that `N' = n - 1 ≥ 1` small steps are counted per main step. On a kernel with regular
dimensions, counter below `N'` and cache cursor inside the cache: an `advance()` made
while the counter is 0 consumes one cached matrix (`get_Pcur_idx` goes up by 1) or, if
`get_Pcur_idx` equals the number of cached matrices, throws and leaves the whole object
(counter, `get_Pcur_idx`, `Kernel`, `P_prev`, `P_cur`, pusher) as it was; an `advance()`
made while the counter is not 0 consumes nothing; every `advance()` that returns sets the
counter to `(counter + 1) mod N'`. From the constructor, after the cache was filled with
the matrices `ms`, a run of `a` calls of `advance()` returns exactly when
`ceil(a / N') ≤ |ms|`, and then `get_Pcur_idx = ceil(a / N')` and the counter is
`a mod N'`. -/
theorem WellKernel_KernelMixStep_advance_cadence (G S T n M : Nat) (garbage : Nat → Nat → ℚ)
    (ms : List ArrayXXd) (a : Nat) (hn : 2 ≤ n) (hn2 : n < SIZE_MOD) (hT : 1 ≤ T)
    (hST : S * T < SIZE_MOD) (hM : M < SIZE_MOD) (hms : ms.length ≤ M) :
    (WellKernel_KernelMixStep.new G (KernelMixStep.new S T n M)
        garbage).small_step_nmbr_per_main_step = n - 1 ∧
    (∀ k : WellKernel_KernelMixStep,
      BaseKernel_KernelMixStep.Shape G S (S * T) k.toBaseKernel_KernelMixStep →
      k.small_step_nmbr_per_main_step = n - 1 →
      k.small_step_counter_within_main_step < n - 1 →
      k.get_Pcur_idx ≤ k.Pcur_cache.length → k.Pcur_cache.length < SIZE_MOD →
      (k.small_step_counter_within_main_step = 0 → k.get_Pcur_idx = k.Pcur_cache.length →
        k.advance = { state := k, value := none }) ∧
      (k.small_step_counter_within_main_step = 0 → k.get_Pcur_idx ≠ k.Pcur_cache.length →
        k.advance.value = some () ∧ k.advance.state.get_Pcur_idx = k.get_Pcur_idx + 1) ∧
      (k.small_step_counter_within_main_step ≠ 0 →
        k.advance.value = some () ∧ k.advance.state.get_Pcur_idx = k.get_Pcur_idx) ∧
      (k.advance.value = some () →
        k.advance.state.small_step_counter_within_main_step =
          (k.small_step_counter_within_main_step + 1) % (n - 1))) ∧
    (((((WellKernel_KernelMixStep.new G (KernelMixStep.new S T n M) garbage).push_Pcurs
        ms).state.advances a).value = some ()) ↔ (a + (n - 1) - 1) / (n - 1) ≤ ms.length) ∧
    ((((WellKernel_KernelMixStep.new G (KernelMixStep.new S T n M) garbage).push_Pcurs
        ms).state.advances a).value = some () →
      (((WellKernel_KernelMixStep.new G (KernelMixStep.new S T n M) garbage).push_Pcurs
        ms).state.advances a).state.get_Pcur_idx = (a + (n - 1) - 1) / (n - 1) ∧
      (((WellKernel_KernelMixStep.new G (KernelMixStep.new S T n M) garbage).push_Pcurs
        ms).state.advances a).state.small_step_counter_within_main_step = a % (n - 1) ∧
      (((WellKernel_KernelMixStep.new G (KernelMixStep.new S T n M) garbage).push_Pcurs
        ms).state.advances a).state.Pcur_cache = ms) := by
  have hN : size_sub n 1 = n - 1 := size_sub_of_le (by omega) hn2
  obtain ⟨hadv0, hcache0, hidx0⟩ :=
    WellKernel_KernelMixStep_new_Advanced G S T n M garbage ms hn hn2 hT hST hms
  have hrun := WellKernel_KernelMixStep_advances_Advanced (show 1 ≤ n - 1 by omega)
    (show n - 1 < SIZE_MOD by omega) a 0 _ hadv0 (by rw [hcache0]; omega)
    (by rw [hidx0]; exact Nat.zero_le _)
  rw [Nat.zero_add, hcache0] at hrun
  refine ⟨hN, ?_, hrun.1, fun h => ?_⟩
  · intro k hshape hkN hc hidx hlen
    have hstep := WellKernel_KernelMixStep_advance_step k hshape (by rw [hkN]; omega)
      (by rw [hkN]; exact hc) hidx hlen
    rw [hkN] at hstep
    exact ⟨hstep.1, hstep.2.1, hstep.2.2.1, fun h => (hstep.2.2.2 h).1⟩
  · obtain ⟨hadv, hcache⟩ := hrun.2 h
    exact ⟨hadv.2.2.2, hadv.2.2.1, hcache⟩

/-- Witness for C34: one node, `S = T = 1`, three small steps per main step (`N' = 2`) and
two cached matrices. Four calls of `advance()` return and consume both matrices; the
fifth finds the cache used up. -/
theorem WellKernel_KernelMixStep_advance_cadence_witness :
    (((WellKernel_KernelMixStep.new 1 (KernelMixStep.new 1 1 3 2) (fun _ _ => 0)).push_Pcurs
        [MatrixXd.Zero 1 1, MatrixXd.Zero 1 1]).state.advances 4).value = some () ∧
      (((WellKernel_KernelMixStep.new 1 (KernelMixStep.new 1 1 3 2) (fun _ _ => 0)).push_Pcurs
        [MatrixXd.Zero 1 1, MatrixXd.Zero 1 1]).state.advances 4).state.get_Pcur_idx = 2 ∧
      (((WellKernel_KernelMixStep.new 1 (KernelMixStep.new 1 1 3 2) (fun _ _ => 0)).push_Pcurs
        [MatrixXd.Zero 1 1, MatrixXd.Zero 1 1]).state.advances 5).value ≠ some () :=
  have h4 := WellKernel_KernelMixStep_advance_cadence 1 1 1 3 2 (fun _ _ => 0)
    [MatrixXd.Zero 1 1, MatrixXd.Zero 1 1] 4 (by decide) (by decide) (by decide) (by decide)
    (by decide) (by decide)
  have h5 := WellKernel_KernelMixStep_advance_cadence 1 1 1 3 2 (fun _ _ => 0)
    [MatrixXd.Zero 1 1, MatrixXd.Zero 1 1] 5 (by decide) (by decide) (by decide) (by decide)
    (by decide) (by decide)
  ⟨h4.2.2.1.mpr (by decide), (h4.2.2.2 (h4.2.2.1.mpr (by decide))).1,
    fun h => absurd (h5.2.2.1.mp h) (by decide)⟩

/-! ## MainStep flux container: the children move together -/

/-- A child that accepts a sample has had its pusher moved once; nothing else of its
allocator pair changes. -/
theorem BaseFluxContainer_FluxMainStep_push_coef_allocator
    (c c1 : BaseFluxContainer_FluxMainStep) (data : VectorXd)
    (h : c.push_coef data = some c1) : c1.allocator = c.on_push.allocator := by
  unfold BaseFluxContainer_FluxMainStep.push_coef at h
  obtain ⟨flux, _, h2⟩ := Option.bind_eq_some.mp h
  rw [← Option.some.inj h2]

/-- The averaging loop on `l ++ [back]`, when it returns, has pushed one sample into every
element of `l` and has left `back` alone. -/
theorem BaseFluxContainerMainStep_push_averaged_allocators (N : Nat) (x p : ArrayXd) :
    ∀ (l : List BaseFluxContainer_FluxMainStep) (back : BaseFluxContainer_FluxMainStep) (q : ℚ)
      (res : List BaseFluxContainer_FluxMainStep),
      BaseFluxContainerMainStep.push_averaged N x p q (l ++ [back]) = some res →
        ∃ out : List BaseFluxContainer_FluxMainStep,
          res = out ++ [back] ∧
          List.Forall₂ (fun c c1 => c1.allocator = c.on_push.allocator) l out := by
  intro l
  induction l with
  | nil =>
    intro back q res h
    refine ⟨[], ?_, List.Forall₂.nil⟩
    have h1 : BaseFluxContainerMainStep.push_averaged N x p q ([] ++ [back]) = some [back] := rfl
    rw [h1] at h
    exact (Option.some.inj h).symm
  | cons it rest ih =>
    intro back q res h
    obtain ⟨next, tl, htl⟩ : ∃ next tl, rest ++ [back] = next :: tl := by
      cases rest with
      | nil => exact ⟨back, [], rfl⟩
      | cons r rs => exact ⟨r, rs ++ [back], rfl⟩
    have hl : (it :: rest) ++ [back] = it :: next :: tl := by
      rw [List.cons_append, htl]
    rw [hl, BaseFluxContainerMainStep.push_averaged] at h
    obtain ⟨data, _, h2⟩ := Option.bind_eq_some.mp h
    obtain ⟨it1, hit, h3⟩ := Option.bind_eq_some.mp h2
    obtain ⟨rest1, hrest, h4⟩ := Option.bind_eq_some.mp h3
    rw [← htl] at hrest
    obtain ⟨out, hout, hall⟩ := ih back _ rest1 hrest
    refine ⟨it1 :: out, ?_, List.Forall₂.cons ?_ hall⟩
    · rw [← Option.some.inj h4, hout]
      rfl
    · exact BaseFluxContainer_FluxMainStep_push_coef_allocator it it1 data hit

/-- Every element of the right list of a pairwise relation has a partner in the left
list. -/
theorem list_forall₂_mem_right {α β : Type} {R : α → β → Prop} {l1 : List α} {l2 : List β}
    (h : List.Forall₂ R l1 l2) : ∀ b ∈ l2, ∃ a ∈ l1, R a b := by
  induction h with
  | nil =>
    intro b hb
    cases hb
  | cons hab _ ih =>
    intro b hb
    rcases List.mem_cons.mp hb with rfl | hb1
    · exact ⟨_, List.mem_cons_self _ _, hab⟩
    · obtain ⟨a, ha, hR⟩ := ih b hb1
      exact ⟨a, List.mem_cons_of_mem _ ha, hR⟩

/-- One push of a sample into the ring, when it returns, has moved the pusher of every
child once: children that shared the allocator state `a` share the pushed one. -/
theorem BaseFluxContainerMainStep_push_sample_lockstep (m m1 : BaseFluxContainerMainStep)
    (x : ArrayXd) (a : FluxMainStep) (h : m.push_sample x = some m1)
    (hall : ∀ c ∈ m.flux_set, c.allocator = a) :
    (∀ c ∈ m1.flux_set, c.allocator = { a with pusher := a.pusher.on_push }) ∧
      m1.flux_set.length = m.flux_set.length ∧
      m1.small_step_nmbr = m.small_step_nmbr ∧ m1.main_step_nmbr = m.main_step_nmbr ∧
      m1.main_step_counter = m.main_step_counter ∧
      m1.cur_container_id = m.cur_container_id := by
  unfold BaseFluxContainerMainStep.push_sample at h
  obtain ⟨back, hback, h2⟩ := Option.bind_eq_some.mp h
  obtain ⟨back1, hpush, h3⟩ := Option.bind_eq_some.mp h2
  obtain ⟨fs2, hfs2, h4⟩ := Option.bind_eq_some.mp h3
  have hm1 := Option.some.inj h4
  obtain ⟨out, hout, hforall⟩ :=
    BaseFluxContainerMainStep_push_averaged_allocators _ _ _ _ _ _ _ hfs2
  have hsplit : m.flux_set.dropLast ++ [back] = m.flux_set :=
    List.dropLast_append_getLast? back hback
  have hbackmem : back ∈ m.flux_set := by
    rw [← hsplit]
    exact List.mem_append_right _ (List.mem_singleton_self _)
  have hdrop : ∀ c ∈ m.flux_set.dropLast, c ∈ m.flux_set := by
    intro c hc
    rw [← hsplit]
    exact List.mem_append_left _ hc
  have hpushed : ∀ c : BaseFluxContainer_FluxMainStep, c.allocator = a →
      c.on_push.allocator = { a with pusher := a.pusher.on_push } := by
    intro c hc
    rw [← hc]
    rfl
  rw [← hm1]
  refine ⟨?_, ?_, rfl, rfl, rfl, rfl⟩
  · intro c hc
    have hc2 : c ∈ out ++ [back1] := by
      rw [← hout]
      exact hc
    rcases List.mem_append.mp hc2 with hco | hcb
    · obtain ⟨c0, hc0, hR⟩ := list_forall₂_mem_right hforall c hco
      rw [hR]
      exact hpushed c0 (hall c0 (hdrop c0 hc0))
    · rw [List.mem_singleton.mp hcb,
        BaseFluxContainer_FluxMainStep_push_coef_allocator back back1 x hpush]
      exact hpushed back (hall back hbackmem)
  · show fs2.length = m.flux_set.length
    have hl := congrArg List.length hsplit
    rw [List.length_append] at hl
    rw [hout, List.length_append, ← hforall.length_eq, ← hl]
    rfl

/-- One `extract()` keeps the children together: in the first history period every child's
extractor moves once, afterwards no child changes. -/
theorem BaseFluxContainerMainStep_extract_state_lockstep (m : BaseFluxContainerMainStep)
    (a : FluxMainStep) (hall : ∀ c ∈ m.flux_set, c.allocator = a) :
    (∃ a1 : FluxMainStep, ∀ c ∈ m.extract_state.flux_set, c.allocator = a1) ∧
      m.extract_state.flux_set.length = m.flux_set.length ∧
      m.extract_state.small_step_nmbr = m.small_step_nmbr := by
  unfold BaseFluxContainerMainStep.extract_state
  by_cases h : m.main_step_counter < m.main_step_nmbr
  · rw [if_pos h]
    refine ⟨⟨{ a with extractor := a.extractor.on_extract }, ?_⟩, List.length_map _ _, rfl⟩
    intro c hc
    obtain ⟨c0, hc0, hc1⟩ := List.mem_map.mp hc
    rw [← hc1, ← hall c0 hc0]
    rfl
  · rw [if_neg h]
    exact ⟨⟨a, hall⟩, rfl, rfl⟩

/-- One call that returns keeps the children of the ring together and keeps their
number. -/
theorem BaseFluxContainerMainStep_call_lockstep (m m1 : BaseFluxContainerMainStep)
    (c : MainStepFluxCall) (h : m.call c = some m1)
    (hall : ∃ a : FluxMainStep, ∀ child ∈ m.flux_set, child.allocator = a) :
    (∃ a1 : FluxMainStep, ∀ child ∈ m1.flux_set, child.allocator = a1) ∧
      m1.flux_set.length = m.flux_set.length := by
  obtain ⟨a, ha⟩ := hall
  cases c with
  | push_coef_well cur_qzi perm =>
    have h1 : m.push_coef_well cur_qzi perm = some m1 := h
    unfold BaseFluxContainerMainStep.push_coef_well at h1
    obtain ⟨ptr, _, h2⟩ := Option.bind_eq_some.mp h1
    obtain ⟨h3, h4, _⟩ := BaseFluxContainerMainStep_push_sample_lockstep m m1 _ a h2 ha
    exact ⟨⟨_, h3⟩, h4⟩
  | push_coef_frac cur_qzf value =>
    have h1 : m.push_coef_frac cur_qzf value = some m1 := h
    unfold BaseFluxContainerMainStep.push_coef_frac at h1
    obtain ⟨ptr, _, h2⟩ := Option.bind_eq_some.mp h1
    obtain ⟨h3, h4, _⟩ := BaseFluxContainerMainStep_push_sample_lockstep m m1 _ a h2 ha
    exact ⟨⟨_, h3⟩, h4⟩
  | extract =>
    have h1 : m.extract.map (fun r => r.1) = some m1 := h
    unfold BaseFluxContainerMainStep.extract at h1
    rw [Option.map_map] at h1
    obtain ⟨view, _, h2⟩ := Option.map_eq_some'.mp h1
    have h3 : m.extract_state = m1 := h2
    rw [← h3]
    obtain ⟨h4, h5, _⟩ := BaseFluxContainerMainStep_extract_state_lockstep m a ha
    exact ⟨h4, h5⟩

/-- A sequence of calls that return keeps the children of the ring together and keeps
their number. -/
theorem BaseFluxContainerMainStep_run_lockstep (calls : List MainStepFluxCall) :
    ∀ (m m1 : BaseFluxContainerMainStep), m.run calls = some m1 →
      (∃ a : FluxMainStep, ∀ child ∈ m.flux_set, child.allocator = a) →
      (∃ a1 : FluxMainStep, ∀ child ∈ m1.flux_set, child.allocator = a1) ∧
        m1.flux_set.length = m.flux_set.length := by
  induction calls with
  | nil =>
    intro m m1 h hall
    have h1 : some m = some m1 := h
    rw [← Option.some.inj h1]
    exact ⟨hall, rfl⟩
  | cons c rest ih =>
    intro m m1 h hall
    have h1 : (m.call c).bind (fun m2 => m2.run rest) = some m1 := h
    obtain ⟨m2, hm2, h2⟩ := Option.bind_eq_some.mp h1
    obtain ⟨hall2, hlen2⟩ := BaseFluxContainerMainStep_call_lockstep m m2 c hm2 hall
    obtain ⟨hall1, hlen1⟩ := ih m2 m1 h2 hall2
    exact ⟨hall1, hlen1.trans hlen2⟩

/-- Runs that return keep the children together. In `BaseFluxContainerMainStep`, after any
finite sequence of `push_coef` and `extract` calls that return, starting from the constructor, the container still has its
`N = small_step_nmbr` children and all of them have the same allocator state: the same
pusher (in particular `idx_begin` and the push counter) and the same extractor (in
particular `idx_begin`, `idx_end` and `cur_temporal_window`). -/
theorem BaseFluxContainerMainStep_children_in_lockstep (convDesc : FluxMainStep)
    (calls : List MainStepFluxCall) (m : BaseFluxContainerMainStep)
    (h : (BaseFluxContainerMainStep.new convDesc).run calls = some m) :
    m.flux_set.length = convDesc.small_step_nmbr ∧
      ∀ c1 ∈ m.flux_set, ∀ c2 ∈ m.flux_set,
        c1.allocator = c2.allocator ∧
        c1.allocator.pusher.idx_begin = c2.allocator.pusher.idx_begin ∧
        c1.allocator.pusher.pushed_data_counter = c2.allocator.pusher.pushed_data_counter ∧
        c1.allocator.extractor.idx_begin = c2.allocator.extractor.idx_begin ∧
        c1.allocator.extractor.idx_end = c2.allocator.extractor.idx_end ∧
        c1.allocator.extractor.cur_temporal_window =
          c2.allocator.extractor.cur_temporal_window := by
  have hnew : ∃ a : FluxMainStep,
      ∀ child ∈ (BaseFluxContainerMainStep.new convDesc).flux_set, child.allocator = a := by
    refine ⟨convDesc, ?_⟩
    intro child hchild
    have h1 : child ∈ List.replicate convDesc.small_step_nmbr
        (BaseFluxContainer_FluxMainStep.new convDesc) := hchild
    rw [(List.mem_replicate.mp h1).2]
    rfl
  obtain ⟨⟨a, ha⟩, hlen⟩ := BaseFluxContainerMainStep_run_lockstep calls _ m h hnew
  refine ⟨?_, ?_⟩
  · rw [hlen]
    exact List.length_replicate _ _
  · intro c1 hc1 c2 hc2
    have h12 : c1.allocator = c2.allocator := by rw [ha c1 hc1, ha c2 hc2]
    exact ⟨h12, by rw [h12], by rw [h12], by rw [h12], by rw [h12], by rw [h12]⟩

/-- A run that returns: the ring of `N = 2` children built from `FluxMainStep(1, 1, 1, 2)`,
one `push_coef` and two `extract` calls. -/
theorem BaseFluxContainerMainStep_children_in_lockstep_witness :
    ∃ m : BaseFluxContainerMainStep,
      (BaseFluxContainerMainStep.new (FluxMainStep.new 1 1 1 2)).run
          [MainStepFluxCall.push_coef_well (fun _ => 6) (fun _ => 1),
            MainStepFluxCall.extract, MainStepFluxCall.extract] = some m ∧
      m.flux_set.length = 2 ∧
      ∀ c1 ∈ m.flux_set, ∀ c2 ∈ m.flux_set, c1.allocator = c2.allocator := by
  have hsome : ((BaseFluxContainerMainStep.new (FluxMainStep.new 1 1 1 2)).run
      [MainStepFluxCall.push_coef_well (fun _ => 6) (fun _ => 1),
        MainStepFluxCall.extract, MainStepFluxCall.extract]).isSome = true := by
    decide
  obtain ⟨m, hm⟩ := Option.isSome_iff_exists.mp hsome
  have hspec := BaseFluxContainerMainStep_children_in_lockstep _ _ m hm
  exact ⟨m, hm, hspec.1, fun c1 hc1 c2 hc2 => (hspec.2 c1 hc1 c2 hc2).1⟩

/-! ## MainStep flux container: the operands of the interpolation -/

/-- The operands of the first interpolation in a freshly built ring of `N ≥ 2` children
over `MemoryDesc(S, T)`: the computed sample has `S` entries, `prev_flux` has
`allocated_memory = S * T mod 2^64` entries, and when the two differ the first `push_coef`
does not return. -/
theorem BaseFluxContainerMainStep_first_push_operands (S T F N : Nat) (cur_qzi perm : Nat → ℚ)
    (hN : 2 ≤ N) (hne : size_mul S T ≠ S) :
    ((BaseFluxContainer_FluxMainStep.new (FluxMainStep.new S T F N)).calc_coef_well
        cur_qzi perm).size = S ∧
      (BaseFluxContainerMainStep.new (FluxMainStep.new S T F N)).prev_flux.size =
        size_mul S T ∧
      (BaseFluxContainerMainStep.new (FluxMainStep.new S T F N)).push_sample
        ((BaseFluxContainer_FluxMainStep.new (FluxMainStep.new S T F N)).calc_coef_well
          cur_qzi perm) = none := by
  refine ⟨rfl, rfl, ?_⟩
  apply BaseFluxContainerMainStep_push_sample_size_mismatch
  · show 2 ≤ (List.replicate N (BaseFluxContainer_FluxMainStep.new
        (FluxMainStep.new S T F N))).length
    rw [List.length_replicate]
    exact hN
  · exact hne

/-- C39, at the failing input. The ring built for `S = 2`, `main_step_nmbr = T = 3` and
`N = 2` children: at the first `push_coef` the sample `x` has 2 entries and `prev_flux`
has `S * T = 6`, so the operands of `ratio * x + (1 - ratio) * prev_flux` (with
`ratio = 1 / 2`) have different lengths, the sum is refused and the push does not
return. -/
theorem BaseFluxContainerMainStep_interpolation_lengths_differ :
    ((BaseFluxContainer_FluxMainStep.new (FluxMainStep.new 2 3 5 2)).calc_coef_well
        (fun _ => 9) (fun _ => 1)).size = 2 ∧
      (BaseFluxContainerMainStep.new (FluxMainStep.new 2 3 5 2)).prev_flux.size = 6 ∧
      (VectorXd.scale (1 / 2)
        ((BaseFluxContainer_FluxMainStep.new (FluxMainStep.new 2 3 5 2)).calc_coef_well
          (fun _ => 9) (fun _ => 1))).add
        (VectorXd.scale (1 - 1 / 2)
          (BaseFluxContainerMainStep.new (FluxMainStep.new 2 3 5 2)).prev_flux) = none ∧
      (BaseFluxContainerMainStep.new (FluxMainStep.new 2 3 5 2)).push_coef_well
        (fun _ => 9) (fun _ => 1) = none := by
  refine ⟨rfl, rfl, ?_, ?_⟩
  · unfold VectorXd.add
    exact if_neg (by decide)
  · have hptr : (BaseFluxContainerMainStep.new (FluxMainStep.new 2 3 5 2)).flux_ptr =
        some (BaseFluxContainer_FluxMainStep.new (FluxMainStep.new 2 3 5 2)) := by
      rfl
    unfold BaseFluxContainerMainStep.push_coef_well
    rw [hptr]
    exact (BaseFluxContainerMainStep_first_push_operands 2 3 5 2 (fun _ => 9) (fun _ => 1)
      (by decide) (by decide)).2.2

/-! ## MainStep flux container: the time-indexed read and the rotation of `extract()` -/

/-- The calls of `extract()` in the first history period: each adds one to
`main_step_counter` and replaces every child by its `extract()`. -/
theorem BaseFluxContainerMainStep_iterate_extract_state_first (m : BaseFluxContainerMainStep)
    (k : Nat) (h : m.main_step_counter + k ≤ m.main_step_nmbr)
    (hmsn : m.main_step_nmbr < SIZE_MOD) :
    BaseFluxContainerMainStep.extract_state^[k] m =
      { m with
        main_step_counter := m.main_step_counter + k
        flux_set := (List.map BaseFluxContainer_FluxMainStep.extract)^[k] m.flux_set } := by
  induction k with
  | zero => rfl
  | succ k ih =>
    rw [Function.iterate_succ_apply', ih (by omega), Function.iterate_succ_apply']
    unfold BaseFluxContainerMainStep.extract_state
    have hlt : m.main_step_counter + k < m.main_step_nmbr := by omega
    rw [if_pos hlt]
    have hadd : size_add (m.main_step_counter + k) 1 = m.main_step_counter + (k + 1) :=
      size_add_of_lt (by omega)
    simp only [hadd]

/-- Replacing every child by its `extract()` keeps the number of children. -/
theorem list_iterate_map_length {α : Type} (f : α → α) (k : Nat) (l : List α) :
    ((List.map f)^[k] l).length = l.length := by
  induction k with
  | zero => rfl
  | succ k ih => rw [Function.iterate_succ_apply', List.length_map, ih]

/-- The freshly built ring after `nt > main_step_nmbr` calls of `extract()`: the first
`main_step_nmbr` calls belong to the first history period, the others rotate the index
from `N - 1`. -/
theorem BaseFluxContainerMainStep_new_iterate_extract_state (convDesc : FluxMainStep)
    (nt : Nat) (hN : 1 ≤ convDesc.small_step_nmbr) (hN2 : convDesc.small_step_nmbr < SIZE_MOD)
    (hnt : convDesc.main_step_nmbr < nt) (hnt2 : nt < SIZE_MOD) :
    BaseFluxContainerMainStep.extract_state^[nt] (BaseFluxContainerMainStep.new convDesc) =
      { BaseFluxContainerMainStep.new convDesc with
        main_step_counter := convDesc.main_step_nmbr
        flux_set :=
          (List.map BaseFluxContainer_FluxMainStep.extract)^[convDesc.main_step_nmbr]
            (BaseFluxContainerMainStep.new convDesc).flux_set
        cur_container_id :=
          (nt - 1 - convDesc.main_step_nmbr) % convDesc.small_step_nmbr } := by
  have hsplit : nt = (nt - convDesc.main_step_nmbr) + convDesc.main_step_nmbr := by omega
  have hfirst := BaseFluxContainerMainStep_iterate_extract_state_first
    (BaseFluxContainerMainStep.new convDesc) convDesc.main_step_nmbr
    (by show 0 + convDesc.main_step_nmbr ≤ convDesc.main_step_nmbr; omega)
    (by show convDesc.main_step_nmbr < SIZE_MOD; omega)
  have hcur0 : size_sub convDesc.small_step_nmbr 1 = convDesc.small_step_nmbr - 1 :=
    size_sub_of_le hN hN2
  conv_lhs => rw [hsplit]
  rw [Function.iterate_add_apply, hfirst,
    BaseFluxContainerMainStep_iterate_extract_state _ (nt - convDesc.main_step_nmbr)
      (by show convDesc.small_step_nmbr < SIZE_MOD; exact hN2)
      (by
        show size_sub convDesc.small_step_nmbr 1 < convDesc.small_step_nmbr
        rw [hcur0]
        omega)
      (by
        show convDesc.main_step_nmbr ≤ 0 + convDesc.main_step_nmbr
        omega)]
  have hidx : (size_sub convDesc.small_step_nmbr 1 + (nt - convDesc.main_step_nmbr)) %
      convDesc.small_step_nmbr =
      (nt - 1 - convDesc.main_step_nmbr) % convDesc.small_step_nmbr := by
    rw [hcur0]
    have h1 : convDesc.small_step_nmbr - 1 + (nt - convDesc.main_step_nmbr) =
        convDesc.small_step_nmbr + (nt - 1 - convDesc.main_step_nmbr) := by omega
    rw [h1, Nat.add_mod_left]
  dsimp only [BaseFluxContainerMainStep.new] at hidx ⊢
  rw [hidx, Nat.zero_add]

/-- C40. For a freshly constructed `BaseFluxContainerMainStep` with `N ≥ 1` children and
every `nt > main_step_nmbr` (`N` and `nt` representable): `operator()(nt, segm_id)` reads
the child of index `(nt - 1 - main_step_nmbr) mod N`, and the `nt`-th call of `extract()`
(calls counted from 1) returns the child of that same index, which is where it leaves
`cur_container_id`. -/
theorem BaseFluxContainerMainStep_time_index_agrees_with_extract (convDesc : FluxMainStep)
    (nt segm_id : Nat) (hN : 1 ≤ convDesc.small_step_nmbr)
    (hN2 : convDesc.small_step_nmbr < SIZE_MOD) (hnt : convDesc.main_step_nmbr < nt)
    (hnt2 : nt < SIZE_MOD) :
    (size_sub (size_sub nt 1) convDesc.main_step_nmbr) % convDesc.small_step_nmbr =
        (nt - 1 - convDesc.main_step_nmbr) % convDesc.small_step_nmbr ∧
      (∀ m : BaseFluxContainerMainStep, m.main_step_nmbr = convDesc.main_step_nmbr →
        m.small_step_nmbr = convDesc.small_step_nmbr →
        m.operator_call_time nt segm_id =
          (m.flux_set[(nt - 1 - convDesc.main_step_nmbr) % convDesc.small_step_nmbr]?).bind
            (fun child => child.operator_call.bind (fun live => live.get? segm_id))) ∧
      (BaseFluxContainerMainStep.extract_state^[nt]
          (BaseFluxContainerMainStep.new convDesc)).cur_container_id =
        (nt - 1 - convDesc.main_step_nmbr) % convDesc.small_step_nmbr ∧
      ∃ child : BaseFluxContainer_FluxMainStep,
        (BaseFluxContainerMainStep.extract_state^[nt - 1]
            (BaseFluxContainerMainStep.new convDesc)).extract =
          some (BaseFluxContainerMainStep.extract_state^[nt]
            (BaseFluxContainerMainStep.new convDesc), child) ∧
        (BaseFluxContainerMainStep.extract_state^[nt]
            (BaseFluxContainerMainStep.new convDesc)).flux_set[
              (nt - 1 - convDesc.main_step_nmbr) % convDesc.small_step_nmbr]? = some child := by
  have hs1 : size_sub nt 1 = nt - 1 := size_sub_of_le (by omega) hnt2
  have hs2 : size_sub (nt - 1) convDesc.main_step_nmbr = nt - 1 - convDesc.main_step_nmbr :=
    size_sub_of_le (by omega) (by omega)
  have hstate := BaseFluxContainerMainStep_new_iterate_extract_state convDesc nt hN hN2 hnt hnt2
  have hlen : (BaseFluxContainerMainStep.extract_state^[nt]
      (BaseFluxContainerMainStep.new convDesc)).flux_set.length = convDesc.small_step_nmbr := by
    rw [hstate]
    show ((List.map BaseFluxContainer_FluxMainStep.extract)^[convDesc.main_step_nmbr]
      (List.replicate convDesc.small_step_nmbr
        (BaseFluxContainer_FluxMainStep.new convDesc))).length = _
    rw [list_iterate_map_length, List.length_replicate]
  have hcur : (BaseFluxContainerMainStep.extract_state^[nt]
      (BaseFluxContainerMainStep.new convDesc)).cur_container_id =
      (nt - 1 - convDesc.main_step_nmbr) % convDesc.small_step_nmbr := by
    rw [hstate]
  have hlt : (nt - 1 - convDesc.main_step_nmbr) % convDesc.small_step_nmbr <
      (BaseFluxContainerMainStep.extract_state^[nt]
        (BaseFluxContainerMainStep.new convDesc)).flux_set.length := by
    rw [hlen]
    exact Nat.mod_lt _ (by omega)
  refine ⟨by rw [hs1, hs2], ?_, hcur, ?_⟩
  · intro m hmsn hNm
    unfold BaseFluxContainerMainStep.operator_call_time
    rw [hs1, hmsn, hNm, if_neg (by omega), hs2]
  · refine ⟨(BaseFluxContainerMainStep.extract_state^[nt]
      (BaseFluxContainerMainStep.new convDesc)).flux_set.get ⟨_, hlt⟩, ?_, ?_⟩
    · have hsucc : BaseFluxContainerMainStep.extract_state
          (BaseFluxContainerMainStep.extract_state^[nt - 1]
            (BaseFluxContainerMainStep.new convDesc)) =
          BaseFluxContainerMainStep.extract_state^[nt]
            (BaseFluxContainerMainStep.new convDesc) := by
        have hnt1 : nt = (nt - 1) + 1 := by omega
        conv_rhs => rw [hnt1, Function.iterate_succ_apply']
      unfold BaseFluxContainerMainStep.extract BaseFluxContainerMainStep.flux_ptr
      rw [hsucc, hcur, List.getElem?_eq_getElem hlt]
      rfl
    · rw [List.getElem?_eq_getElem hlt]
      rfl

/-- Witness for C40: the ring of `N = 3` children built from `FluxMainStep(1, 2, 5, 3)`
(`main_step_nmbr = 2`) and `nt = 7`: index `(7 - 1 - 2) mod 3 = 1`. -/
theorem BaseFluxContainerMainStep_time_index_agrees_with_extract_witness :
    (BaseFluxContainerMainStep.extract_state^[7]
        (BaseFluxContainerMainStep.new (FluxMainStep.new 1 2 5 3))).cur_container_id = 1 ∧
      ∃ child : BaseFluxContainer_FluxMainStep,
        (BaseFluxContainerMainStep.extract_state^[6]
            (BaseFluxContainerMainStep.new (FluxMainStep.new 1 2 5 3))).extract =
          some (BaseFluxContainerMainStep.extract_state^[7]
            (BaseFluxContainerMainStep.new (FluxMainStep.new 1 2 5 3)), child) ∧
        (BaseFluxContainerMainStep.extract_state^[7]
            (BaseFluxContainerMainStep.new (FluxMainStep.new 1 2 5 3))).flux_set[1]? =
          some child :=
  have h := BaseFluxContainerMainStep_time_index_agrees_with_extract
    (FluxMainStep.new 1 2 5 3) 7 0 (by decide) (by decide) (by decide) (by decide)
  ⟨h.2.2.1, h.2.2.2⟩

/-! ## MainStep flux container: the state a failed first push leaves -/

/-- The interpolation of two arrays of different lengths is refused. -/
theorem VectorXd_add_scale_size_mismatch (a b : ℚ) (x p : VectorXd) (h : p.size ≠ x.size) :
    (VectorXd.scale a x).add (VectorXd.scale b p) = none := by
  unfold VectorXd.add VectorXd.scale
  exact if_neg (fun hc => h hc.symm)

/-- The averaging loop over two or more children stops at its first interpolation, with
every child untouched, when the sample and `prev_flux` differ in length. -/
theorem BaseFluxContainerMainStep_push_averaged_outcome_size_mismatch (N : Nat)
    (x p : ArrayXd) (h : p.size ≠ x.size) (q : ℚ) (l : List BaseFluxContainer_FluxMainStep)
    (back : BaseFluxContainer_FluxMainStep) (hl : l ≠ []) :
    BaseFluxContainerMainStep.push_averaged_outcome N x p q (l ++ [back]) =
      { state := l ++ [back], value := none } := by
  have hadd := VectorXd_add_scale_size_mismatch (q / (N : ℚ)) (1 - q / (N : ℚ)) x p h
  cases l with
  | nil => exact absurd rfl hl
  | cons it tl =>
    cases tl with
    | nil =>
      show BaseFluxContainerMainStep.push_averaged_outcome N x p q [it, back] = _
      rw [BaseFluxContainerMainStep.push_averaged_outcome, hadd]
      rfl
    | cons next rest =>
      show BaseFluxContainerMainStep.push_averaged_outcome N x p q
        (it :: next :: (rest ++ [back])) = _
      rw [BaseFluxContainerMainStep.push_averaged_outcome, hadd]
      rfl

/-- A push into a ring of two or more children whose `prev_flux` has another length than
the sample: the last child accepts the sample, the first interpolation is refused, and
the call stops with the last child pushed and the others untouched. -/
theorem BaseFluxContainerMainStep_push_sample_outcome_size_mismatch
    (m : BaseFluxContainerMainStep) (x : ArrayXd)
    (init : List BaseFluxContainer_FluxMainStep) (back : BaseFluxContainer_FluxMainStep)
    (hfs : m.flux_set = init ++ [back]) (hinit : init ≠ [])
    (hsize : m.prev_flux.size ≠ x.size)
    (hback : (back.push_coef_outcome x).value = some ()) :
    m.push_sample_outcome x =
      { state := { m with flux_set := init ++ [(back.push_coef_outcome x).state] }
        value := none } := by
  have hlast : m.flux_set.getLast? = some back := by
    rw [hfs]
    exact List.getLast?_concat _
  have hdrop : m.flux_set.dropLast = init := by
    rw [hfs]
    exact List.dropLast_concat
  unfold BaseFluxContainerMainStep.push_sample_outcome
  rw [hlast]
  simp only [hback, hdrop]
  rw [BaseFluxContainerMainStep_push_averaged_outcome_size_mismatch _ _ _ hsize _ _ _ hinit]

/-- A child's `push_coef` outcome: the state is the child after `on_push()`, with the
sample stored when the segment accepts it. -/
theorem BaseFluxContainer_FluxMainStep_push_coef_outcome_eq (c : BaseFluxContainer_FluxMainStep)
    (data : VectorXd) :
    (c.push_coef_outcome data).state.allocator = c.on_push.allocator ∧
      ((c.push_coef_outcome data).value = some () ↔
        c.on_push.allocator.pusher.idx_begin + c.on_push.allocator.pusher.spatial_size ≤
            c.on_push.flux.size ∧
          data.size = c.on_push.allocator.pusher.spatial_size) := by
  unfold BaseFluxContainer_FluxMainStep.push_coef_outcome VectorXd.setSegment
  by_cases h : c.on_push.allocator.pusher.idx_begin + c.on_push.allocator.pusher.spatial_size ≤
      c.on_push.flux.size ∧ data.size = c.on_push.allocator.pusher.spatial_size
  · rw [if_pos h]
    exact ⟨rfl, fun _ => h, fun _ => rfl⟩
  · rw [if_neg h]
    exact ⟨rfl, fun hv => absurd hv (by simp), fun hc => absurd hc h⟩

/-- A non-empty list of copies ends with a copy. -/
theorem list_replicate_eq_concat {α : Type} (a : α) (n : Nat) (hn : 1 ≤ n) :
    List.replicate n a = List.replicate (n - 1) a ++ [a] := by
  cases n with
  | zero => omega
  | succ k => exact List.replicate_succ' k a

/-- The first push into a freshly built ring of `N ≥ 2` children over `MemoryDesc(S, T)`
with `S ≥ 1`, `T ≥ 2`: the call does not return and leaves the last child pushed
(`idx_begin` moved from `S * T` to `S * T - S`, one push counted) and the other `N - 1`
children as the constructor made them. -/
theorem BaseFluxContainerMainStep_new_first_push_outcome (S T F N : Nat) (x : ArrayXd)
    (hS : 1 ≤ S) (hT : 2 ≤ T) (hN : 2 ≤ N) (hST : S * T < SIZE_MOD) (hx : x.size = S) :
    ((BaseFluxContainerMainStep.new (FluxMainStep.new S T F N)).push_sample_outcome x).value =
        none ∧
      ((BaseFluxContainerMainStep.new (FluxMainStep.new S T F N)).push_sample_outcome
          x).state.flux_set =
        List.replicate (N - 1) (BaseFluxContainer_FluxMainStep.new (FluxMainStep.new S T F N)) ++
          [((BaseFluxContainer_FluxMainStep.new (FluxMainStep.new S T F N)).push_coef_outcome
            x).state] ∧
      (BaseFluxContainer_FluxMainStep.new
        (FluxMainStep.new S T F N)).allocator.pusher.idx_begin = S * T ∧
      (BaseFluxContainer_FluxMainStep.new
        (FluxMainStep.new S T F N)).allocator.pusher.pushed_data_counter = 0 ∧
      ((BaseFluxContainer_FluxMainStep.new (FluxMainStep.new S T F N)).push_coef_outcome
        x).state.allocator.pusher.idx_begin = S * T - S ∧
      ((BaseFluxContainer_FluxMainStep.new (FluxMainStep.new S T F N)).push_coef_outcome
        x).state.allocator.pusher.pushed_data_counter = 1 ∧
      S * T - S ≠ S * T := by
  have hmem : size_mul S T = S * T := size_mul_of_lt hST
  have h2S : S * 2 ≤ S * T := Nat.mul_le_mul_left S hT
  have hbeg : size_sub (size_mul S T) S = S * T - S := by
    rw [hmem]
    exact size_sub_of_le (by omega) hST
  have hcnt : size_add 0 1 = 1 := size_add_of_lt (by decide)
  obtain ⟨halloc, hval⟩ := BaseFluxContainer_FluxMainStep_push_coef_outcome_eq
    (BaseFluxContainer_FluxMainStep.new (FluxMainStep.new S T F N)) x
  have hback : ((BaseFluxContainer_FluxMainStep.new
      (FluxMainStep.new S T F N)).push_coef_outcome x).value = some () := by
    apply hval.mpr
    refine ⟨?_, hx⟩
    show size_sub (size_mul S T) S + S ≤ size_mul S T
    rw [hbeg, hmem]
    omega
  have hfs : (BaseFluxContainerMainStep.new (FluxMainStep.new S T F N)).flux_set =
      List.replicate (N - 1) (BaseFluxContainer_FluxMainStep.new (FluxMainStep.new S T F N)) ++
        [BaseFluxContainer_FluxMainStep.new (FluxMainStep.new S T F N)] := by
    exact list_replicate_eq_concat _ N (by omega)
  have hinit : List.replicate (N - 1)
      (BaseFluxContainer_FluxMainStep.new (FluxMainStep.new S T F N)) ≠ [] := by
    intro h
    have hlen := congrArg List.length h
    rw [List.length_replicate, List.length_nil] at hlen
    omega
  have hsize : (BaseFluxContainerMainStep.new (FluxMainStep.new S T F N)).prev_flux.size ≠
      x.size := by
    show size_mul S T ≠ x.size
    rw [hmem, hx]
    omega
  rw [BaseFluxContainerMainStep_push_sample_outcome_size_mismatch _ x _ _ hfs hinit hsize hback]
  refine ⟨rfl, rfl, ?_, rfl, ?_, ?_, by omega⟩
  · show size_mul S T = S * T
    exact hmem
  · rw [halloc]
    show size_sub (size_mul S T) S = S * T - S
    exact hbeg
  · rw [halloc]
    show size_add 0 1 = 1
    exact hcnt

end Convolution
